import Mathlib

/-!
# quadgrid: structured quadrilateral grid and particle/grid transfer

A shallow embedding of `quadgrid_cpp.h` and `particles.h`.

* `idx_t` is C++ `int`.  It is embedded as `Int`: signed overflow is undefined
  behaviour in C++, so the embedding describes every execution in which the
  index arithmetic stays inside the range of `int`.  `/` and `%` on `int`
  truncate towards zero, hence `Int.tdiv` and `Int.tmod`.
* `double` is embedded as `ℚ` (exact arithmetic).
* A `cell_t` holds a reference to the `grid_properties_t` of its grid; the
  embedding passes those properties as the first argument of every `cell_t`
  member function.
* A `cell_t*` is either `nullptr` or the address of the grid's `current_cell`,
  the only cell whose address the code takes.
* A `std::vector` is a `List`, a `std::map<K, V>` is a function `K → Option V`.
* A member function of `particles_t` returns in `Except error_t`: a lookup with
  `std::map::at` of an absent key throws, a vector subscript outside the vector
  is undefined behaviour, and both end the call with an error.
* `cell_t::shp` and `quadgrid_t::sub2gind` are called by `particles.h` and are
  not defined in `quadgrid_cpp.h`; they are modelled from the specification.
-/

/-! ## quadgrid_cpp.h -/

/-- The index type `using idx_t = int`.  The declarations below write `Int` for
it, so that the linear-arithmetic tactics recognise the type. -/
abbrev idx_t := Int

/-- The struct `quadgrid_t::grid_properties_t`. -/
structure grid_properties_t where
  numrows : Int
  numcols : Int
  hx : ℚ
  hy : ℚ
  start_cell_row : Int
  end_cell_row : Int
  start_cell_col : Int
  end_cell_col : Int
  start_owned_nodes : Int
  num_owned_nodes : Int
deriving DecidableEq

/-- The data members of `quadgrid_t::cell_t`, its reference to the grid
properties apart. -/
structure cell_t where
  is_ghost : Bool
  rowidx : Int
  colidx : Int
  local_cell_idx : Int
  global_cell_idx : Int
deriving DecidableEq

/-- The constant `cell_t::nodes_per_cell`. -/
def cell_t.nodes_per_cell : Int := 4

/-- The constant `cell_t::edges_per_cell`. -/
def cell_t.edges_per_cell : Int := 4

/-- The constant `cell_t::NOT_ON_BOUNDARY`. -/
def cell_t.NOT_ON_BOUNDARY : Int := -1

/-- The constructor `cell_t (const grid_properties_t&)`: it sets `rowidx`,
`colidx` and `is_ghost` and leaves the two cell indices indeterminate
(`u_local`, `u_global`). -/
def cell_t.construct (u_local u_global : Int) : cell_t :=
  { is_ghost := false, rowidx := 0, colidx := 0,
    local_cell_idx := u_local, global_cell_idx := u_global }

def cell_t.get_local_cell_idx (c : cell_t) : Int := c.local_cell_idx

def cell_t.get_global_cell_idx (c : cell_t) : Int := c.global_cell_idx

def cell_t.end_cell_col (gp : grid_properties_t) (_c : cell_t) : Int := gp.end_cell_col

def cell_t.end_cell_row (gp : grid_properties_t) (_c : cell_t) : Int := gp.end_cell_row

def cell_t.start_cell_col (gp : grid_properties_t) (_c : cell_t) : Int := gp.start_cell_col

def cell_t.start_cell_row (gp : grid_properties_t) (_c : cell_t) : Int := gp.start_cell_row

def cell_t.num_rows (gp : grid_properties_t) (_c : cell_t) : Int := gp.numrows

def cell_t.num_cols (gp : grid_properties_t) (_c : cell_t) : Int := gp.numcols

def cell_t.row_idx (c : cell_t) : Int := c.rowidx

def cell_t.col_idx (c : cell_t) : Int := c.colidx

/-- The member `cell_t::reset`. -/
def cell_t.reset (gp : grid_properties_t) (c : cell_t) : cell_t :=
  let rowidx := gp.start_cell_row
  let colidx := gp.start_cell_col
  let global_cell_idx := rowidx + gp.numrows * colidx
  { c with
    rowidx := rowidx
    colidx := colidx
    global_cell_idx := global_cell_idx
    local_cell_idx :=
      global_cell_idx - (gp.start_cell_row + gp.numrows * gp.start_cell_col) }

/-- The member `cell_t::gt`: global id of local node `inode`. -/
def cell_t.gt (gp : grid_properties_t) (c : cell_t) (inode : Int) : Int :=
  let bottom_left := c.row_idx + c.col_idx * (c.num_rows gp + 1)
  if inode = 0 then bottom_left
  else if inode = 1 then bottom_left + 1
  else if inode = 2 then bottom_left + (c.num_rows gp + 1)
  else if inode = 3 then bottom_left + (c.num_rows gp + 2)
  else -1

/-- The member `cell_t::t`: local id of local node `inode`. -/
def cell_t.t (gp : grid_properties_t) (c : cell_t) (inode : Int) : Int :=
  let glob := c.gt gp inode
  if glob < gp.start_owned_nodes
      ∨ glob ≥ gp.start_owned_nodes + gp.num_owned_nodes then
    glob
  else
    glob - gp.start_owned_nodes

/-- The member `cell_t::p`: coordinate `idir` of local node `inode`. -/
def cell_t.p (gp : grid_properties_t) (c : cell_t) (idir inode : Int) : ℚ :=
  if idir = 0 then
    let bottom_left := (c.col_idx : ℚ) * gp.hx
    if inode > 1 then bottom_left + gp.hx else bottom_left
  else
    let bottom_left := (c.row_idx : ℚ) * gp.hy
    if inode = 1 ∨ inode = 3 then bottom_left + gp.hy else bottom_left

/-- The member `cell_t::e`: boundary tag of edge `iedge`. -/
def cell_t.e (gp : grid_properties_t) (c : cell_t) (iedge : Int) : Int :=
  if c.row_idx = 0 ∧ iedge = 0 then 0
  else if c.row_idx = c.num_rows gp - 1 ∧ iedge = 1 then 1
  else if c.col_idx = 0 ∧ iedge = 2 then 2
  else if c.col_idx = c.num_cols gp - 1 ∧ iedge = 3 then 3
  else cell_t.NOT_ON_BOUNDARY

/-- Modelled from the spec: `cell_t::shp`, which `particles.h` calls and
`quadgrid_cpp.h` does not define.  Spec 4.2: with `ξ = (x - c*hx)/hx` and
`η = (y - r*hy)/hy`, the tensor-product bilinear basis that is 1 at its own
corner (the corner `cell_t::p` gives to the node) and 0 at the other three.
The spec gives no value for a node index outside `0..3`; the transfer loops
never pass one, and the model returns 0 there. -/
def cell_t.shp (gp : grid_properties_t) (c : cell_t) (x y : ℚ) (inode : Int) : ℚ :=
  let xi := (x - (c.col_idx : ℚ) * gp.hx) / gp.hx
  let eta := (y - (c.row_idx : ℚ) * gp.hy) / gp.hy
  if inode = 0 then (1 - xi) * (1 - eta)
  else if inode = 1 then (1 - xi) * eta
  else if inode = 2 then xi * (1 - eta)
  else if inode = 3 then xi * eta
  else 0

/-- A value of type `cell_t*`. -/
inductive cell_ptr where
  | nullptr
  | current_cell
deriving DecidableEq

/-- The class `quadgrid_t::cell_iterator`. -/
structure cell_iterator where
  data : cell_ptr
deriving DecidableEq

/-- The data members of `quadgrid_t` (the communicator handle apart). -/
structure quadgrid_t where
  rank : Int
  size : Int
  current_cell : cell_t
  current_neighbor : cell_t
  grid_properties : grid_properties_t
deriving DecidableEq

/-- The constructor of `quadgrid_t`.  `mpi` is the pair (rank, size) that MPI
reports when it is running; `u0 .. u3` are the indeterminate cell indices the
`cell_t` constructor leaves in the two cursors. -/
def quadgrid_t.construct (mpi : Option (Int × Int)) (u0 u1 u2 u3 : Int) : quadgrid_t :=
  { rank := match mpi with
      | some rs => rs.1
      | none => 0
    size := match mpi with
      | some rs => rs.2
      | none => 1
    current_cell := cell_t.construct u0 u1
    current_neighbor := cell_t.construct u2 u3
    grid_properties :=
      { numrows := 0, numcols := 0, hx := 0, hy := 0,
        start_cell_row := 0, end_cell_row := 0,
        start_cell_col := 0, end_cell_col := 0,
        start_owned_nodes := 0, num_owned_nodes := 0 } }

/-- The member `quadgrid_t::set_sizes`. -/
def quadgrid_t.set_sizes (g : quadgrid_t) (numrows numcols : Int) (hx hy : ℚ) :
    quadgrid_t :=
  { g with
    grid_properties :=
      { numrows := numrows
        numcols := numcols
        hx := hx
        hy := hy
        start_cell_row := 0
        end_cell_row := numrows - 1
        start_cell_col := 0
        end_cell_col := numcols - 1
        start_owned_nodes := 0
        num_owned_nodes := (numrows + 1) * (numcols + 1) } }

def quadgrid_t.num_owned_nodes (g : quadgrid_t) : Int := g.grid_properties.num_owned_nodes

def quadgrid_t.num_local_cells (g : quadgrid_t) : Int :=
  g.grid_properties.numrows * g.grid_properties.numcols

def quadgrid_t.num_global_cells (g : quadgrid_t) : Int :=
  g.grid_properties.numrows * g.grid_properties.numcols

def quadgrid_t.num_global_nodes (g : quadgrid_t) : Int :=
  (g.grid_properties.numrows + 1) * (g.grid_properties.numcols + 1)

def quadgrid_t.num_local_nodes (g : quadgrid_t) : Int :=
  (g.grid_properties.numrows + 1) * (g.grid_properties.numcols + 1)

def quadgrid_t.num_rows (g : quadgrid_t) : Int := g.grid_properties.numrows

def quadgrid_t.num_cols (g : quadgrid_t) : Int := g.grid_properties.numcols

def quadgrid_t.hx (g : quadgrid_t) : ℚ := g.grid_properties.hx

def quadgrid_t.hy (g : quadgrid_t) : ℚ := g.grid_properties.hy

/-- Modelled from the spec: `quadgrid_t::sub2gind`, which `particles.h` calls
and `quadgrid_cpp.h` does not define.  Spec 3: the global cell index of the
cell in row `r` and column `c` is `r + R·c`. -/
def quadgrid_t.sub2gind (g : quadgrid_t) (r c : Int) : Int :=
  r + g.grid_properties.numrows * c

/-- The member `quadgrid_t::begin_cell_sweep`: resets the cursor and returns an
iterator that points to it. -/
def quadgrid_t.begin_cell_sweep (g : quadgrid_t) : quadgrid_t × cell_iterator :=
  ({ g with current_cell := g.current_cell.reset g.grid_properties },
   { data := cell_ptr.current_cell })

/-- The member `quadgrid_t::end_cell_sweep`. -/
def quadgrid_t.end_cell_sweep (_g : quadgrid_t) : cell_iterator :=
  { data := cell_ptr.nullptr }

/-- The member `cell_iterator::operator==`. -/
def cell_iterator.operator_eq (it other : cell_iterator) : Bool :=
  decide (it.data = other.data)

/-- The member `cell_iterator::operator!=`. -/
def cell_iterator.operator_ne (it other : cell_iterator) : Bool :=
  ! (it.operator_eq other)

/-- The member `cell_iterator::operator++`.  The iterator points into the grid,
so the step takes and returns the grid with the iterator. -/
def cell_iterator.operator_incr (g : quadgrid_t) (it : cell_iterator) :
    quadgrid_t × cell_iterator :=
  match it.data with
  | cell_ptr.nullptr => (g, it)
  | cell_ptr.current_cell =>
    let gp := g.grid_properties
    let data := g.current_cell
    let tmp := data.rowidx + data.num_rows gp * data.colidx + 1
    if tmp > data.end_cell_row gp + data.num_rows gp * data.end_cell_col gp then
      (g, { data := cell_ptr.nullptr })
    else
      ({ g with
         current_cell :=
           { data with
             rowidx := tmp.tmod (data.num_rows gp)
             colidx := tmp.tdiv (data.num_rows gp)
             global_cell_idx := tmp
             local_cell_idx :=
               tmp - (data.start_cell_row gp + data.num_rows gp * data.start_cell_col gp) } },
       it)

/-- The cells that the loop `for (; icell != end_cell_sweep (); ++icell)` visits
from the state `(g, icell)`, in order; `none` when `fuel` steps do not bring
the iterator to the end. -/
def sweep_from : Nat → quadgrid_t → cell_iterator → Option (List cell_t)
  | 0, g, icell =>
    if icell.operator_ne g.end_cell_sweep then none else some []
  | fuel + 1, g, icell =>
    if icell.operator_ne g.end_cell_sweep then
      (sweep_from fuel (icell.operator_incr g).1 (icell.operator_incr g).2).map
        (fun rest => g.current_cell :: rest)
    else some []

/-- A number of steps that always brings a sweep started by `begin_cell_sweep`
to its end (see `cell_sweep_terminates`): one more than the distance from the
first to the last global cell index. -/
def quadgrid_t.sweep_fuel (g : quadgrid_t) : Nat :=
  let gp := g.grid_properties
  ((gp.end_cell_row + gp.numrows * gp.end_cell_col)
    - (gp.start_cell_row + gp.numrows * gp.start_cell_col)).toNat + 1

/-- The cells visited by
`for (auto icell = grid.begin_cell_sweep (); icell != grid.end_cell_sweep (); ++icell)`. -/
def quadgrid_t.cell_sweep (g : quadgrid_t) : Option (List cell_t) :=
  sweep_from g.sweep_fuel g.begin_cell_sweep.1 g.begin_cell_sweep.2

/-- The cell view with global index `k` on a grid with `R` rows: the value the
cursor holds at step `k` of a sweep. -/
def sweep_cell (R : Int) (ghost : Bool) (k : Nat) : cell_t :=
  { is_ghost := ghost
    rowidx := (k : Int) % R
    colidx := (k : Int) / R
    local_cell_idx := k
    global_cell_idx := k }


/-! ## particles.h -/

/-- The ways in which a call can fail to return. -/
inductive error_t where
  /-- The exception `std::out_of_range` that `std::map::at` throws on a key
  that the map does not hold. -/
  | out_of_range
  /-- A vector subscript outside the vector: the behaviour is undefined. -/
  | undefined_behaviour
  /-- A cell sweep that does not reach `end_cell_sweep ()`. -/
  | endless_sweep
deriving DecidableEq

/-- The read `v[i]` of a `std::vector`. -/
def vec_at {α : Type} (v : List α) (i : Int) : Except error_t α :=
  if i < 0 then Except.error error_t.undefined_behaviour
  else
    match v[i.toNat]? with
    | some a => Except.ok a
    | none => Except.error error_t.undefined_behaviour

/-- The write `v[i] = a` of a `std::vector`. -/
def vec_assign {α : Type} (v : List α) (i : Int) (a : α) : Except error_t (List α) :=
  if 0 ≤ i ∧ i.toNat < v.length then Except.ok (v.set i.toNat a)
  else Except.error error_t.undefined_behaviour

/-- The values of the loop variable of `for (idx_t i = 0; i < n; ++i)`. -/
def index_range (n : Nat) : List Int :=
  (List.range n).map Int.ofNat

/-- A `std::map<K, V>`: the value stored under each key, `none` for a key the
map does not hold. -/
abbrev map_t (K V : Type) := K → Option V

/-- The member `std::map::count`. -/
def map_t.count {K V : Type} (m : map_t K V) (k : K) : Nat :=
  if (m k).isSome then 1 else 0

/-- The member `std::map::at`. -/
def map_t.at {K V : Type} (m : map_t K V) (k : K) : Except error_t V :=
  match m k with
  | some v => Except.ok v
  | none => Except.error error_t.out_of_range

/-- The value that `m[k]` refers to: `operator[]` inserts a value-initialised
element (here an empty vector) under a key the map does not hold. -/
def map_t.subscript {K V : Type} (m : map_t K (List V)) (k : K) : List V :=
  (m k).getD []

/-- The map after a write through the reference `m[k]`. -/
def map_t.store {K V : Type} [DecidableEq K] (m : map_t K V) (k : K) (v : V) : map_t K V :=
  fun k' => if k' = k then some v else m k'

/-- The data members of `particles_t`.  `grid` is the grid that the member
reference `const quadgrid_t& grid` refers to. -/
structure particles_t where
  x : List ℚ
  y : List ℚ
  iprops : map_t String (List Int)
  dprops : map_t String (List ℚ)
  M : List ℚ
  grd_to_ptcl : map_t Int (List Int)
  grid : quadgrid_t

/-- The cells of the loop
`for (auto icell = grid.begin_cell_sweep (); icell != grid.end_cell_sweep (); ++icell)`.
The loop bodies of `particles_t` only read the cursor, and every sweep starts
by resetting it, so the loops are folds over this list and `grid` is left as
it is. -/
def particles_t.sweep (ps : particles_t) : Except error_t (List cell_t) :=
  match ps.grid.cell_sweep with
  | some cells => Except.ok cells
  | none => Except.error error_t.endless_sweep

/-- The member `particles_t::init_particle_mesh`, with the quotients
`x[ii] / grid.hx ()` and `y[ii] / grid.hy ()` taken exactly;
`init_particle_mesh_double` below rounds them to binary64. -/
def particles_t.init_particle_mesh (ps : particles_t) : Except error_t particles_t := do
  let cleared : map_t Int (List Int) :=
    fun k => (ps.grd_to_ptcl k).map (fun _ => [])
  let grd_to_ptcl ← (index_range ps.x.length).foldlM
    (fun (m : map_t Int (List Int)) (ii : Int) => do
      let xi ← vec_at ps.x ii
      let yi ← vec_at ps.y ii
      let c : Int := Int.floor (xi / ps.grid.hx)
      let r : Int := Int.floor (yi / ps.grid.hy)
      pure (m.store (ps.grid.sub2gind r c) (m.subscript (ps.grid.sub2gind r c) ++ [ii])))
    cleared
  pure { ps with grd_to_ptcl := grd_to_ptcl }

/-- The statement `M[icell->gt (inode)] += (grid.hx () / 2.) * (grid.hy () / 2.)`
of `build_mass`, in exact arithmetic; `build_mass_node_double` below rounds
every operation to binary64. -/
def particles_t.build_mass_node (ps : particles_t) (icell : cell_t) (M : List ℚ)
    (inode : Int) : Except error_t (List ℚ) := do
  let old ← vec_at M (icell.gt ps.grid.grid_properties inode)
  vec_assign M (icell.gt ps.grid.grid_properties inode)
    (old + (ps.grid.hx / 2) * (ps.grid.hy / 2))

/-- The member `particles_t::build_mass`. -/
def particles_t.build_mass (ps : particles_t) : Except error_t particles_t := do
  let M0 : List ℚ := List.replicate ps.M.length 0
  let cells ← ps.sweep
  let M ← cells.foldlM
    (fun (M : List ℚ) (icell : cell_t) =>
      (index_range cell_t.nodes_per_cell.toNat).foldlM (ps.build_mass_node icell) M)
    M0
  pure { ps with M := M }

/-- The overload `getkey (std::vector<std::string> const &, std::size_t)`. -/
def particles_t.getkey (varnames : List String) (ivar : Int) : Except error_t String :=
  vec_at varnames ivar

/-- The statement
`vars[getkey(gvarnames, ivar)][icell->gt(inode)] += N * dprops.at (getkey(pvarnames, ivar))[idx]`
of `p2g`; the right operand of `+=` is evaluated first. -/
def particles_t.p2g_var (ps : particles_t) (pvarnames gvarnames : List String)
    (icell : cell_t) (idx : Int) (inode : Int) (N : ℚ)
    (vars : map_t String (List ℚ)) (ivar : Int) : Except error_t (map_t String (List ℚ)) := do
  let pname ← particles_t.getkey pvarnames ivar
  let pvar ← ps.dprops.at pname
  let a ← vec_at pvar idx
  let gname ← particles_t.getkey gvarnames ivar
  let old ← vec_at (vars.subscript gname) (icell.gt ps.grid.grid_properties inode)
  let gvar ← vec_assign (vars.subscript gname) (icell.gt ps.grid.grid_properties inode)
    (old + N * a)
  pure (vars.store gname gvar)

/-- The body of the loop over `inode` of `p2g`. -/
def particles_t.p2g_node (ps : particles_t) (pvarnames gvarnames : List String)
    (icell : cell_t) (idx : Int) (xx yy : ℚ)
    (vars : map_t String (List ℚ)) (inode : Int) : Except error_t (map_t String (List ℚ)) :=
  let N := icell.shp ps.grid.grid_properties xx yy inode
  (index_range gvarnames.length).foldlM
    (ps.p2g_var pvarnames gvarnames icell idx inode N) vars

/-- The body of the loop over the bucket of `icell` of `p2g`, for the bucket
entry `idx`. -/
def particles_t.p2g_particle (ps : particles_t) (pvarnames gvarnames : List String)
    (icell : cell_t)
    (vars : map_t String (List ℚ)) (idx : Int) : Except error_t (map_t String (List ℚ)) := do
  let xx ← vec_at ps.x idx
  let yy ← vec_at ps.y idx
  (index_range 4).foldlM (ps.p2g_node pvarnames gvarnames icell idx xx yy) vars

/-- The body of the cell loop of `p2g`. -/
def particles_t.p2g_cell (ps : particles_t) (pvarnames gvarnames : List String)
    (vars : map_t String (List ℚ)) (icell : cell_t) : Except error_t (map_t String (List ℚ)) :=
  if ps.grd_to_ptcl.count icell.get_global_cell_idx > 0 then do
    let bucket ← ps.grd_to_ptcl.at icell.get_global_cell_idx
    bucket.foldlM (ps.p2g_particle pvarnames gvarnames icell) vars
  else pure vars

/-- The statement `vars[getkey(gvarnames, ivar)][ii] /= M[ii]` of `p2g`. -/
def particles_t.p2g_divide (ps : particles_t) (gvarnames : List String) (ivar : Int)
    (vars : map_t String (List ℚ)) (ii : Int) : Except error_t (map_t String (List ℚ)) := do
  let m ← vec_at ps.M ii
  let gname ← particles_t.getkey gvarnames ivar
  let old ← vec_at (vars.subscript gname) ii
  let gvar ← vec_assign (vars.subscript gname) ii (old / m)
  pure (vars.store gname gvar)

/-- The member template `particles_t::p2g` with the name lists
`pvarnames`, `gvarnames` of type `std::vector<std::string>`; it returns the
grid fields `vars` that it writes. -/
def particles_t.p2g (ps : particles_t) (vars : map_t String (List ℚ))
    (pvarnames gvarnames : List String) (apply_mass : Bool) :
    Except error_t (map_t String (List ℚ)) := do
  let cells ← ps.sweep
  let vars ← cells.foldlM (ps.p2g_cell pvarnames gvarnames) vars
  if apply_mass then
    (index_range gvarnames.length).foldlM
      (fun (vars : map_t String (List ℚ)) (ivar : Int) =>
        (index_range ps.M.length).foldlM (ps.p2g_divide gvarnames ivar) vars)
      vars
  else pure vars

/-- The statement
`dprops.at (getkey (pvarnames, ivar))[idx] += N * vars.at (getkey (gvarnames, ivar))[icell->gt(inode)]`
of `g2p`; the right operand of `+=` is evaluated first. -/
def particles_t.g2p_var (ps : particles_t) (vars : map_t String (List ℚ))
    (gvarnames pvarnames : List String) (icell : cell_t) (idx : Int) (inode : Int) (N : ℚ)
    (dprops : map_t String (List ℚ)) (ivar : Int) : Except error_t (map_t String (List ℚ)) := do
  let gname ← particles_t.getkey gvarnames ivar
  let gvar ← vars.at gname
  let f ← vec_at gvar (icell.gt ps.grid.grid_properties inode)
  let pname ← particles_t.getkey pvarnames ivar
  let pvar ← dprops.at pname
  let old ← vec_at pvar idx
  let pvar ← vec_assign pvar idx (old + N * f)
  pure (dprops.store pname pvar)

/-- The expression
`apply_mass ? icell->shp(xx, yy, inode) * M[icell->gt(inode)] : icell->shp(xx, yy, inode)`
of `g2p`. -/
def particles_t.g2p_N (ps : particles_t) (apply_mass : Bool) (icell : cell_t)
    (xx yy : ℚ) (inode : Int) : Except error_t ℚ :=
  if apply_mass then do
    let m ← vec_at ps.M (icell.gt ps.grid.grid_properties inode)
    pure (icell.shp ps.grid.grid_properties xx yy inode * m)
  else pure (icell.shp ps.grid.grid_properties xx yy inode)

/-- The body of the loop over `inode` of `g2p`. -/
def particles_t.g2p_node (ps : particles_t) (vars : map_t String (List ℚ))
    (gvarnames pvarnames : List String) (apply_mass : Bool) (icell : cell_t) (idx : Int)
    (xx yy : ℚ)
    (dprops : map_t String (List ℚ)) (inode : Int) : Except error_t (map_t String (List ℚ)) := do
  let N ← ps.g2p_N apply_mass icell xx yy inode
  (index_range gvarnames.length).foldlM
    (ps.g2p_var vars gvarnames pvarnames icell idx inode N) dprops

/-- The body of the loop over the bucket of `icell` of `g2p`, for the bucket
entry `idx`. -/
def particles_t.g2p_particle (ps : particles_t) (vars : map_t String (List ℚ))
    (gvarnames pvarnames : List String) (apply_mass : Bool) (icell : cell_t)
    (dprops : map_t String (List ℚ)) (idx : Int) : Except error_t (map_t String (List ℚ)) := do
  let xx ← vec_at ps.x idx
  let yy ← vec_at ps.y idx
  (index_range 4).foldlM
    (ps.g2p_node vars gvarnames pvarnames apply_mass icell idx xx yy) dprops

/-- The body of the cell loop of `g2p`. -/
def particles_t.g2p_cell (ps : particles_t) (vars : map_t String (List ℚ))
    (gvarnames pvarnames : List String) (apply_mass : Bool)
    (dprops : map_t String (List ℚ)) (icell : cell_t) : Except error_t (map_t String (List ℚ)) :=
  if ps.grd_to_ptcl.count icell.get_global_cell_idx > 0 then do
    let bucket ← ps.grd_to_ptcl.at icell.get_global_cell_idx
    bucket.foldlM (ps.g2p_particle vars gvarnames pvarnames apply_mass icell) dprops
  else pure dprops

/-- The member template `particles_t::g2p` with the name lists
`gvarnames`, `pvarnames` of type `std::vector<std::string>`. -/
def particles_t.g2p (ps : particles_t) (vars : map_t String (List ℚ))
    (gvarnames pvarnames : List String) (apply_mass : Bool) : Except error_t particles_t := do
  let cells ← ps.sweep
  let dprops ← cells.foldlM (ps.g2p_cell vars gvarnames pvarnames apply_mass) ps.dprops
  pure { ps with dprops := dprops }

/-! ## Specification-side definitions -/

/-- The lengths of the vectors of a map of named vectors. -/
def shape (m : map_t String (List ℚ)) : String → Option Nat :=
  fun name => (m name).map List.length

/-- The entry `m[name][n]` of a map of named vectors (0 where there is none). -/
def entry (m : map_t String (List ℚ)) (name : String) (n : Nat) : ℚ :=
  (m.subscript name).getD n 0

/-- Spec 4.5, one accumulation: what the bucket entry `idx` of cell `icell`
adds to entry `n` of the grid field `name` through local node `inode` and the
name pair number `ivar`: `N_inode (x_idx, y_idx) * particle_attr[idx]` when the
pair's destination is `name` and the node is `n`. -/
def p2g_term (ps : particles_t) (pvarnames gvarnames : List String) (icell : cell_t)
    (idx inode ivar : Int) (name : String) (n : Nat) : ℚ :=
  if gvarnames.getD ivar.toNat "" = name ∧ icell.gt ps.grid.grid_properties inode = n then
    icell.shp ps.grid.grid_properties (ps.x.getD idx.toNat 0) (ps.y.getD idx.toNat 0) inode
      * entry ps.dprops (pvarnames.getD ivar.toNat "") idx.toNat
  else 0

/-- Spec 4.5: the total that the accumulation of `p2g` adds to entry `n` of the
grid field `name`: the sum over the cells, the entries of each cell's bucket,
the 4 nodes and the name pairs. -/
def p2g_sum (ps : particles_t) (cells : List cell_t) (pvarnames gvarnames : List String)
    (name : String) (n : Nat) : ℚ :=
  (cells.map fun icell =>
    ((ps.grd_to_ptcl.subscript icell.get_global_cell_idx).map fun idx =>
      ((index_range 4).map fun inode =>
        ((index_range gvarnames.length).map fun ivar =>
          p2g_term ps pvarnames gvarnames icell idx inode ivar name n).sum).sum).sum).sum

/-- What `p2g` needs of the bucket entry `idx` of cell `icell` for every
subscript and lookup of its accumulation to be defined: `idx` is an index of
`x`, `y` and of the source attribute of every name pair, and the four node ids
of the cell are indices of every destination field (`sh` gives the lengths of
the fields). -/
def p2g_ready (ps : particles_t) (sh : String → Option Nat) (pvarnames gvarnames : List String)
    (icell : cell_t) (idx : Int) : Prop :=
  0 ≤ idx ∧ idx.toNat < ps.x.length ∧ idx.toNat < ps.y.length ∧
  (∀ ivar : Nat, ivar < gvarnames.length →
    ∃ pname pv, pvarnames[ivar]? = some pname ∧ ps.dprops pname = some pv ∧
      idx.toNat < pv.length) ∧
  (∀ inode ∈ index_range 4, ∀ gname ∈ gvarnames,
    ∃ len, sh gname = some len ∧ 0 ≤ icell.gt ps.grid.grid_properties inode ∧
      (icell.gt ps.grid.grid_properties inode).toNat < len)

/-- Spec 8.7, the concrete scenario: the grid with 2 rows, 2 columns and
`hx = hy = 0.5`. -/
def scenario_grid : quadgrid_t :=
  (quadgrid_t.construct none 0 0 0 0).set_sizes 2 2 (1 / 2) (1 / 2)

/-- Spec 8.7: one particle at `(0.25, 0.25)` with attribute `mass = 2.0`, before
the index is built. -/
def scenario_particles : particles_t :=
  { x := [1 / 4]
    y := [1 / 4]
    iprops := fun _ => none
    dprops := fun name => if name = "mass" then some [2] else none
    M := List.replicate 9 0
    grd_to_ptcl := fun _ => none
    grid := scenario_grid }

/-- Spec 8.7: one zeroed grid field, `rho`. -/
def scenario_fields : map_t String (List ℚ) :=
  fun name => if name = "rho" then some (List.replicate 9 0) else none

/-- Spec 4.4: the bucket key of particle `ii`, the global id
`sub2gind (floor (y/hy), floor (x/hx))` of the cell computed from its
position. -/
def particles_t.cell_key (ps : particles_t) (ii : Int) : Int :=
  ps.grid.sub2gind (Int.floor (ps.y.getD ii.toNat 0 / ps.grid.hy))
    (Int.floor (ps.x.getD ii.toNat 0 / ps.grid.hx))

/-- Spec 8.7: the particle of the scenario with its index built: the bucket of
cell 0 lists particle 0. -/
def scenario_indexed : particles_t :=
  { scenario_particles with grd_to_ptcl := fun k => if k = 0 then some [0] else none }

/-- The weight `N` of `g2p` for local node `inode` of cell `icell` at the bucket
entry `idx`: `shp * M[gt (inode)]` with `apply_mass`, `shp` without. -/
def g2p_weight (ps : particles_t) (apply_mass : Bool) (icell : cell_t) (idx inode : Int) : ℚ :=
  if apply_mass then
    icell.shp ps.grid.grid_properties (ps.x.getD idx.toNat 0) (ps.y.getD idx.toNat 0) inode
      * ps.M.getD (icell.gt ps.grid.grid_properties inode).toNat 0
  else
    icell.shp ps.grid.grid_properties (ps.x.getD idx.toNat 0) (ps.y.getD idx.toNat 0) inode

/-- Spec 4.6, one accumulation: what the bucket entry `idx` of cell `icell`
adds to entry `p` of the particle attribute `name` through local node `inode`
and the name pair number `ivar`. -/
def g2p_term (ps : particles_t) (vars : map_t String (List ℚ))
    (gvarnames pvarnames : List String) (apply_mass : Bool) (icell : cell_t)
    (idx inode ivar : Int) (name : String) (p : Nat) : ℚ :=
  if pvarnames.getD ivar.toNat "" = name ∧ idx = p then
    g2p_weight ps apply_mass icell idx inode
      * entry vars (gvarnames.getD ivar.toNat "") (icell.gt ps.grid.grid_properties inode).toNat
  else 0

/-- Spec 4.6: the total that `g2p` adds to entry `p` of the particle attribute
`name`: the sum over the cells, the entries of each cell's bucket, the 4 nodes
and the name pairs. -/
def g2p_sum (ps : particles_t) (cells : List cell_t) (vars : map_t String (List ℚ))
    (gvarnames pvarnames : List String) (apply_mass : Bool) (name : String) (p : Nat) : ℚ :=
  (cells.map fun icell =>
    ((ps.grd_to_ptcl.subscript icell.get_global_cell_idx).map fun idx =>
      ((index_range 4).map fun inode =>
        ((index_range gvarnames.length).map fun ivar =>
          g2p_term ps vars gvarnames pvarnames apply_mass icell idx inode ivar name p).sum
        ).sum).sum).sum

/-- What `g2p` needs of the bucket entry `idx` of cell `icell` for every
subscript and lookup to be defined: `idx` is an index of `x`, `y` and of the
destination attribute of every name pair (`sh` gives the lengths of the
attributes), and the four node ids of the cell are indices of every source
field, and of `M` when `apply_mass` is set. -/
def g2p_ready (ps : particles_t) (sh : String → Option Nat) (vars : map_t String (List ℚ))
    (gvarnames pvarnames : List String) (apply_mass : Bool) (icell : cell_t) (idx : Int) :
    Prop :=
  0 ≤ idx ∧ idx.toNat < ps.x.length ∧ idx.toNat < ps.y.length ∧
  ∀ inode ∈ index_range 4,
    (apply_mass = true → 0 ≤ icell.gt ps.grid.grid_properties inode ∧
      (icell.gt ps.grid.grid_properties inode).toNat < ps.M.length) ∧
    ∀ ivar : Nat, ivar < gvarnames.length →
      ∃ gname gvar pname len, gvarnames[ivar]? = some gname ∧ vars gname = some gvar ∧
        0 ≤ icell.gt ps.grid.grid_properties inode ∧
        (icell.gt ps.grid.grid_properties inode).toNat < gvar.length ∧
        pvarnames[ivar]? = some pname ∧ sh pname = some len ∧ idx.toNat < len

/-- A particle set and a map of grid fields that are sized for a transfer on
the grid with `R` rows and `C` columns: `x` and `y` are as long as each other,
`M` has one entry per node, every entry of the bucket of a valid cell is a
particle index, every grid field of `gvarnames` is present with one entry per
node, and every name pair has a particle attribute that is present with one
entry per particle. -/
def transfer_ready (ps : particles_t) (R C : Int) (vars : map_t String (List ℚ))
    (gvarnames pvarnames : List String) : Prop :=
  ps.y.length = ps.x.length ∧
  (ps.M.length : Int) = (R + 1) * (C + 1) ∧
  (∀ k : Int, 0 ≤ k → k < R * C → ∀ idx ∈ ps.grd_to_ptcl.subscript k,
    0 ≤ idx ∧ idx.toNat < ps.x.length) ∧
  (∀ gname ∈ gvarnames, ∃ f, vars gname = some f ∧ (f.length : Int) = (R + 1) * (C + 1)) ∧
  (∀ ivar : Nat, ivar < gvarnames.length →
    ∃ pname a, pvarnames[ivar]? = some pname ∧ ps.dprops pname = some a ∧
      a.length = ps.x.length)

/-- A sized particle set on the 1x1 grid with `hx = hy = 1`: one particle at the
centre of the cell, listed once, with the zeroed attributes `a` and `b`. -/
def centre_particles : particles_t :=
  { x := [1 / 2]
    y := [1 / 2]
    iprops := fun _ => none
    dprops := fun name => if name = "a" ∨ name = "b" then some [0] else none
    M := [1 / 4, 1 / 4, 1 / 4, 1 / 4]
    grd_to_ptcl := fun k => if k = 0 then some [0] else none
    grid := (quadgrid_t.construct none 0 0 0 0).set_sizes 1 1 1 1 }

/-- Two grid fields on the 1x1 grid, `f` and `h`, equal to 1 at every node. -/
def unit_fields : map_t String (List ℚ) :=
  fun name => if name = "f" ∨ name = "h" then some [1, 1, 1, 1] else none

/-- Spec 8.5: the position of particle `i` lies within the grid extent
`[0, C*hx) × [0, R*hy)`. -/
def particles_t.in_extent (ps : particles_t) (R C : Int) (i : Int) : Prop :=
  0 ≤ ps.x.getD i.toNat 0 ∧ ps.x.getD i.toNat 0 < (C : ℚ) * ps.grid.hx ∧
  0 ≤ ps.y.getD i.toNat 0 ∧ ps.y.getD i.toNat 0 < (R : ℚ) * ps.grid.hy

/-- One particle at `(1/2, 5/2)` on the 2x2 grid with `hx = hy = 1`, whose
extent is `[0, 2) × [0, 2)`: the particle lies above the grid. -/
def stray_particles : particles_t :=
  { x := [1 / 2]
    y := [5 / 2]
    iprops := fun _ => none
    dprops := fun _ => none
    M := List.replicate 9 0
    grd_to_ptcl := fun _ => none
    grid := (quadgrid_t.construct none 0 0 0 0).set_sizes 2 2 1 1 }

/-- The total shape-function weight that the particles listed in the buckets
of `cells` have at node `n`: the sum over the cells, the entries of each
cell's bucket and the 4 nodes of `N_inode (x_idx, y_idx)` where the node is
`n`. -/
def shape_weight_sum (ps : particles_t) (cells : List cell_t) (n : Nat) : ℚ :=
  (cells.map fun icell =>
    ((ps.grd_to_ptcl.subscript icell.get_global_cell_idx).map fun idx =>
      ((index_range 4).map fun inode =>
        if icell.gt ps.grid.grid_properties inode = (n : Int) then
          icell.shp ps.grid.grid_properties (ps.x.getD idx.toNat 0) (ps.y.getD idx.toNat 0)
            inode
        else 0).sum).sum).sum

/-- Two particles at the centre of the single cell of the 1x1 grid with
`hx = hy = 1`, the attribute `a` equal to 1 at both, the attribute `b` zeroed,
`M` as `build_mass` leaves it, and no index yet. -/
def twin_particles : particles_t :=
  { x := [1 / 2, 1 / 2]
    y := [1 / 2, 1 / 2]
    iprops := fun _ => none
    dprops := fun name =>
      if name = "a" then some (List.replicate 2 1)
      else if name = "b" then some (List.replicate 2 0)
      else none
    M := [1 / 4, 1 / 4, 1 / 4, 1 / 4]
    grd_to_ptcl := fun _ => none
    grid := (quadgrid_t.construct none 0 0 0 0).set_sizes 1 1 1 1 }

/-- One zeroed grid field `f` on the 1x1 grid. -/
def zero_field : map_t String (List ℚ) :=
  fun name => if name = "f" then some (List.replicate 4 0) else none

/-- One particle at the centre of the single cell of the 1x1 grid with
`hx = hy = 1`, the attribute `a` equal to 3, the attribute `b` zeroed, `M` as
`build_mass` leaves it, and no index yet. -/
def lone_particle : particles_t :=
  { x := [1 / 2]
    y := [1 / 2]
    iprops := fun _ => none
    dprops := fun name =>
      if name = "a" then some (List.replicate 1 3)
      else if name = "b" then some (List.replicate 1 0)
      else none
    M := [1 / 4, 1 / 4, 1 / 4, 1 / 4]
    grd_to_ptcl := fun _ => none
    grid := (quadgrid_t.construct none 0 0 0 0).set_sizes 1 1 1 1 }

/-- One particle at `(5/2, 1/2)` on the 2x2 grid with `hx = hy = 1`, whose
extent is `[0, 2) × [0, 2)`: the particle lies to the right of the grid. -/
def side_particles : particles_t :=
  { x := [5 / 2]
    y := [1 / 2]
    iprops := fun _ => none
    dprops := fun _ => none
    M := List.replicate 9 0
    grd_to_ptcl := fun _ => none
    grid := (quadgrid_t.construct none 0 0 0 0).set_sizes 2 2 1 1 }

/-- The grid and the iterator after `n` steps `++icell` from the state `s`. -/
def incr_steps : Nat → quadgrid_t × cell_iterator → quadgrid_t × cell_iterator
  | 0, s => s
  | n + 1, s => incr_steps n (s.2.operator_incr s.1)

/-- A particle set on the grid that `set_sizes (0, 3, 1, 1)` leaves, which has
no cell: one particle at `(1/2, 1/2)` with the zeroed attribute `a`, listed in
the bucket of key 0. -/
def phantom_particles : particles_t :=
  { x := [1 / 2]
    y := [1 / 2]
    iprops := fun _ => none
    dprops := fun name => if name = "a" then some [0] else none
    M := List.replicate 4 0
    grd_to_ptcl := fun k => if k = 0 then some [0] else none
    grid := (quadgrid_t.construct none 0 0 0 0).set_sizes 0 3 1 1 }

/-- What `g2p` needs of the bucket entry `idx` of cell `icell` for every
subscript to be defined, whether or not the names are keys: `idx` is an index
of `x` and `y`, the four node ids of the cell are indices of `M` when
`apply_mass` is set, every name pair has its two names, the four node ids are
indices of the source field if `vars` holds it, and `idx` is an index of the
destination attribute if `sh`, the lengths of the attributes, has it. -/
def g2p_sized (ps : particles_t) (sh : String → Option Nat) (vars : map_t String (List ℚ))
    (gvarnames pvarnames : List String) (apply_mass : Bool) (icell : cell_t) (idx : Int) :
    Prop :=
  0 ≤ idx ∧ idx.toNat < ps.x.length ∧ idx.toNat < ps.y.length ∧
  ∀ inode ∈ index_range 4,
    (apply_mass = true → 0 ≤ icell.gt ps.grid.grid_properties inode ∧
      (icell.gt ps.grid.grid_properties inode).toNat < ps.M.length) ∧
    ∀ ivar : Nat, ivar < gvarnames.length →
      ∃ gname pname, gvarnames[ivar]? = some gname ∧ pvarnames[ivar]? = some pname ∧
        (∀ gvar, vars gname = some gvar →
          0 ≤ icell.gt ps.grid.grid_properties inode ∧
          (icell.gt ps.grid.grid_properties inode).toNat < gvar.length) ∧
        (∀ len, sh pname = some len → idx.toNat < len)

/-- What `p2g` needs of the bucket entry `idx` of cell `icell` for every
subscript of its accumulation to be defined, whether or not the particle
attribute names are keys: `idx` is an index of `x` and `y`, every name pair has
its source name, `idx` is an index of the source attribute if `dprops` holds
it, and the four node ids of the cell are indices of every destination field
(`sh` gives the lengths of the fields). -/
def p2g_sized (ps : particles_t) (sh : String → Option Nat) (pvarnames gvarnames : List String)
    (icell : cell_t) (idx : Int) : Prop :=
  0 ≤ idx ∧ idx.toNat < ps.x.length ∧ idx.toNat < ps.y.length ∧
  (∀ ivar : Nat, ivar < gvarnames.length →
    ∃ pname, pvarnames[ivar]? = some pname ∧
      ∀ pv, ps.dprops pname = some pv → idx.toNat < pv.length) ∧
  (∀ inode ∈ index_range 4, ∀ gname ∈ gvarnames,
    ∃ len, sh gname = some len ∧ 0 ≤ icell.gt ps.grid.grid_properties inode ∧
      (icell.gt ps.grid.grid_properties inode).toNat < len)

/-- A particle set and a map of grid fields in which all that is present is
sized for a transfer on the grid with `R` rows and `C` columns: `x` and `y` are
as long as each other, `M` has one entry per node, every entry of the bucket of
a valid cell is a particle index, every grid field of `gvarnames` that `vars`
holds has one entry per node, and every name pair has a particle attribute
name, whose attribute has one entry per particle if `dprops` holds it. -/
def transfer_sized (ps : particles_t) (R C : Int) (vars : map_t String (List ℚ))
    (gvarnames pvarnames : List String) : Prop :=
  ps.y.length = ps.x.length ∧
  (ps.M.length : Int) = (R + 1) * (C + 1) ∧
  (∀ k : Int, 0 ≤ k → k < R * C → ∀ idx ∈ ps.grd_to_ptcl.subscript k,
    0 ≤ idx ∧ idx.toNat < ps.x.length) ∧
  (∀ gname ∈ gvarnames, ∀ f, vars gname = some f → (f.length : Int) = (R + 1) * (C + 1)) ∧
  (∀ ivar : Nat, ivar < gvarnames.length →
    ∃ pname, pvarnames[ivar]? = some pname ∧
      ∀ a, ps.dprops pname = some a → a.length = ps.x.length)

/-- The number of the cells of `cells` that have the node `n` as a corner. -/
def corner_count (gp : grid_properties_t) (cells : List cell_t) (n : Int) : Nat :=
  (cells.filter fun icell =>
    (index_range 4).any fun inode => decide (icell.gt gp inode = n)).length

/-! ## Binary64 arithmetic

The definitions above read `double` as an exact rational, which is the reading
of the claims that are stated in exact arithmetic.  The definitions below read
it as IEEE 754 binary64, where every operation rounds its exact result; they
are used where rounding decides a claim. -/

/-- The integer nearest to `x`, the even one of the two when `x` lies half way
between them. -/
def round_half_even (x : ℚ) : Int :=
  if x - (Int.floor x : ℚ) < 1 / 2 then Int.floor x
  else if 1 / 2 < x - (Int.floor x : ℚ) then Int.floor x + 1
  else if Int.floor x % 2 = 0 then Int.floor x
  else Int.floor x + 1

/-- The binary64 value nearest to `x` (IEEE 754 round to nearest, ties to
even).  Around `x` the binary64 values are the multiples of `2^(e-52)`, where
`e = floor (log2 |x|)`, and no less than `-1022`: below `2^(-1022)` the values
are the subnormal ones, the multiples of `2^(-1074)`.  An `x` that binary64
would round to an infinity (`|x| ≥ 2^1024`) is rounded as if the exponent had
no upper bound. -/
def round_double (x : ℚ) : ℚ :=
  if x = 0 then 0
  else
    (round_half_even (x / (2 : ℚ) ^ (max (Int.log 2 |x|) (-1022) - 52)) : ℚ)
      * (2 : ℚ) ^ (max (Int.log 2 |x|) (-1022) - 52)

/-- The statement `M[icell->gt (inode)] += (grid.hx () / 2.) * (grid.hy () / 2.)`
of `build_mass` in binary64 arithmetic: the two quotients, their product and
the sum are each rounded. -/
def particles_t.build_mass_node_double (ps : particles_t) (icell : cell_t) (M : List ℚ)
    (inode : Int) : Except error_t (List ℚ) := do
  let old ← vec_at M (icell.gt ps.grid.grid_properties inode)
  vec_assign M (icell.gt ps.grid.grid_properties inode)
    (round_double
      (old + round_double (round_double (ps.grid.hx / 2) * round_double (ps.grid.hy / 2))))

/-- The member `particles_t::build_mass` in binary64 arithmetic. -/
def particles_t.build_mass_double (ps : particles_t) : Except error_t particles_t := do
  let M0 : List ℚ := List.replicate ps.M.length 0
  let cells ← ps.sweep
  let M ← cells.foldlM
    (fun (M : List ℚ) (icell : cell_t) =>
      (index_range cell_t.nodes_per_cell.toNat).foldlM (ps.build_mass_node_double icell) M)
    M0
  pure { ps with M := M }

/-- No particle, on the 1x1 grid with `hx = hy = 2^(-540)`, two positive
binary64 values; `M` has one entry per node. -/
def tiny_cell_particles : particles_t :=
  { x := []
    y := []
    iprops := fun _ => none
    dprops := fun _ => none
    M := List.replicate 4 1
    grd_to_ptcl := fun _ => none
    grid := (quadgrid_t.construct none 0 0 0 0).set_sizes 1 1
      ((2 : ℚ) ^ (-540 : Int)) ((2 : ℚ) ^ (-540 : Int)) }

/-- The member `particles_t::init_particle_mesh` in binary64 arithmetic: the
quotients `x[ii] / grid.hx ()` and `y[ii] / grid.hy ()` are rounded before
`std::floor`, which is exact. -/
def particles_t.init_particle_mesh_double (ps : particles_t) : Except error_t particles_t := do
  let cleared : map_t Int (List Int) :=
    fun k => (ps.grd_to_ptcl k).map (fun _ => [])
  let grd_to_ptcl ← (index_range ps.x.length).foldlM
    (fun (m : map_t Int (List Int)) (ii : Int) => do
      let xi ← vec_at ps.x ii
      let yi ← vec_at ps.y ii
      let c : Int := Int.floor (round_double (xi / ps.grid.hx))
      let r : Int := Int.floor (round_double (yi / ps.grid.hy))
      pure (m.store (ps.grid.sub2gind r c) (m.subscript (ps.grid.sub2gind r c) ++ [ii])))
    cleared
  pure { ps with grd_to_ptcl := grd_to_ptcl }

/-- The bucket key of particle `ii` as binary64 arithmetic computes it:
`sub2gind (floor (y/hy), floor (x/hx))` with the two quotients rounded. -/
def particles_t.cell_key_double (ps : particles_t) (ii : Int) : Int :=
  ps.grid.sub2gind (Int.floor (round_double (ps.y.getD ii.toNat 0 / ps.grid.hy)))
    (Int.floor (round_double (ps.x.getD ii.toNat 0 / ps.grid.hx)))

/-- One particle at `(-2^(-1074), 1/2)` on the 1x1 grid with `hx = 2`,
`hy = 1`, whose extent is `[0, 2) × [0, 1)`: the particle lies to the left of
the grid, at the negative binary64 value nearest to 0. -/
def underflow_particles : particles_t :=
  { x := [-(2 : ℚ) ^ (-1074 : Int)]
    y := [1 / 2]
    iprops := fun _ => none
    dprops := fun _ => none
    M := List.replicate 4 0
    grd_to_ptcl := fun _ => none
    grid := (quadgrid_t.construct none 0 0 0 0).set_sizes 1 1 2 1 }

/-! ## Cell sweep -/

theorem sweep_from_nullptr (fuel : Nat) (g : quadgrid_t) :
    sweep_from fuel g { data := cell_ptr.nullptr } = some [] := by
  cases fuel <;> simp [sweep_from, cell_iterator.operator_ne, cell_iterator.operator_eq,
    quadgrid_t.end_cell_sweep]

theorem sweep_from_current (fuel : Nat) (g : quadgrid_t) :
    sweep_from (fuel + 1) g { data := cell_ptr.current_cell }
      = (sweep_from fuel
          (cell_iterator.operator_incr g { data := cell_ptr.current_cell }).1
          (cell_iterator.operator_incr g { data := cell_ptr.current_cell }).2).map
        (fun rest => g.current_cell :: rest) := by
  simp [sweep_from, cell_iterator.operator_ne, cell_iterator.operator_eq,
    quadgrid_t.end_cell_sweep]

theorem sweep_from_set_sizes (R C : Int) (hx hy : ℚ) (hR : 1 ≤ R)
    (g0 : quadgrid_t) (b : Bool) :
    ∀ (n fuel k : Nat) (g : quadgrid_t), n + 1 ≤ fuel → (k : Int) + n + 1 = R * C →
      g.grid_properties = (g0.set_sizes R C hx hy).grid_properties →
      g.current_cell = sweep_cell R b k →
      sweep_from fuel g { data := cell_ptr.current_cell }
        = some ((List.range' k (n + 1)).map (sweep_cell R b)) := by
  intro n
  induction n with
  | zero =>
    intro fuel k g hf hk hgp hc
    obtain ⟨f, rfl⟩ : ∃ f, fuel = f + 1 := ⟨fuel - 1, by omega⟩
    have hkey : (k : Int) % R + R * ((k : Int) / R) = k := Int.emod_add_ediv _ _
    have hstep : cell_iterator.operator_incr g { data := cell_ptr.current_cell }
        = (g, { data := cell_ptr.nullptr }) := by
      simp only [cell_iterator.operator_incr, hgp, hc, quadgrid_t.set_sizes, sweep_cell,
        cell_t.num_rows, cell_t.end_cell_row, cell_t.end_cell_col]
      rw [if_pos]
      rw [hkey]
      have : R * (C - 1) = R * C - R := by ring
      rw [this]
      push_cast at hk
      linarith
    rw [sweep_from_current, hstep]
    simp [sweep_from_nullptr, hc]
  | succ n ih =>
    intro fuel k g hf hk hgp hc
    obtain ⟨f, rfl⟩ : ∃ f, fuel = f + 1 := ⟨fuel - 1, by omega⟩
    have hkey : (k : Int) % R + R * ((k : Int) / R) = k := Int.emod_add_ediv _ _
    have hk0 : (0 : Int) ≤ (k : Int) + 1 := by omega
    have hR0 : (0 : Int) ≤ R := by omega
    have hstep : cell_iterator.operator_incr g { data := cell_ptr.current_cell }
        = ({ g with current_cell := sweep_cell R b (k + 1) },
           { data := cell_ptr.current_cell }) := by
      simp only [cell_iterator.operator_incr, hgp, hc, quadgrid_t.set_sizes, sweep_cell,
        cell_t.num_rows, cell_t.end_cell_row, cell_t.end_cell_col,
        cell_t.start_cell_row, cell_t.start_cell_col]
      rw [if_neg]
      · rw [hkey, Int.tmod_eq_emod hk0 hR0, Int.tdiv_eq_ediv hk0 hR0]
        simp
      · rw [hkey]
        have : R * (C - 1) = R * C - R := by ring
        rw [this]
        push_cast at hk
        linarith
    rw [sweep_from_current, hstep]
    simp only
    rw [ih f (k + 1) { g with current_cell := sweep_cell R b (k + 1) } (by omega)
      (by push_cast at hk ⊢; linarith) hgp rfl]
    simp [hc, List.range'_succ]

theorem cell_sweep_set_sizes (g : quadgrid_t) (R C : Int) (hx hy : ℚ)
    (hR : 1 ≤ R) (hC : 1 ≤ C) :
    (g.set_sizes R C hx hy).cell_sweep
      = some ((List.range (R * C).toNat).map (sweep_cell R g.current_cell.is_ghost)) := by
  have hpos : 1 ≤ R * C := by nlinarith
  obtain ⟨n, hn⟩ : ∃ n : Nat, (R * C).toNat = n + 1 := ⟨(R * C).toNat - 1, by omega⟩
  have hfuel : (g.set_sizes R C hx hy).sweep_fuel = n + 1 := by
    simp only [quadgrid_t.sweep_fuel, quadgrid_t.set_sizes]
    have : R * (C - 1) = R * C - R := by ring
    rw [this]
    have h2 : R - 1 + (R * C - R) - (0 + R * 0) = R * C - 1 := by ring
    rw [h2]
    omega
  rw [quadgrid_t.cell_sweep, hfuel, hn, List.range_eq_range']
  apply sweep_from_set_sizes R C hx hy hR g g.current_cell.is_ghost n (n + 1) 0
  · exact le_refl _
  · push_cast; omega
  · rfl
  · simp [quadgrid_t.begin_cell_sweep, quadgrid_t.set_sizes, cell_t.reset, sweep_cell]

theorem sweep_from_terminates :
    ∀ (fuel : Nat) (g : quadgrid_t),
      ((g.grid_properties.end_cell_row
          + g.grid_properties.numrows * g.grid_properties.end_cell_col)
        - (g.current_cell.rowidx
          + g.grid_properties.numrows * g.current_cell.colidx)).toNat + 1 ≤ fuel →
      ∃ cells, sweep_from fuel g { data := cell_ptr.current_cell } = some cells := by
  intro fuel
  induction fuel with
  | zero => intro g h; omega
  | succ f ih =>
    intro g h
    rw [sweep_from_current]
    by_cases hlast : g.current_cell.rowidx
        + g.grid_properties.numrows * g.current_cell.colidx + 1
        > g.grid_properties.end_cell_row
          + g.grid_properties.numrows * g.grid_properties.end_cell_col
    · have hstep : cell_iterator.operator_incr g { data := cell_ptr.current_cell }
          = (g, { data := cell_ptr.nullptr }) := by
        simp only [cell_iterator.operator_incr, cell_t.num_rows, cell_t.end_cell_row,
          cell_t.end_cell_col]
        rw [if_pos hlast]
      rw [hstep]
      exact ⟨[g.current_cell], by simp [sweep_from_nullptr]⟩
    · have hkey := Int.tmod_add_tdiv
        (g.current_cell.rowidx + g.grid_properties.numrows * g.current_cell.colidx + 1)
        g.grid_properties.numrows
      simp only [cell_iterator.operator_incr, cell_t.num_rows, cell_t.end_cell_row,
        cell_t.end_cell_col, cell_t.start_cell_row, cell_t.start_cell_col]
      rw [if_neg hlast]
      simp only
      obtain ⟨cells, hcells⟩ := ih
        { g with
          current_cell :=
            { g.current_cell with
              rowidx := (g.current_cell.rowidx
                + g.grid_properties.numrows * g.current_cell.colidx + 1).tmod
                  g.grid_properties.numrows
              colidx := (g.current_cell.rowidx
                + g.grid_properties.numrows * g.current_cell.colidx + 1).tdiv
                  g.grid_properties.numrows
              global_cell_idx := g.current_cell.rowidx
                + g.grid_properties.numrows * g.current_cell.colidx + 1
              local_cell_idx := g.current_cell.rowidx
                + g.grid_properties.numrows * g.current_cell.colidx + 1
                - (g.grid_properties.start_cell_row
                  + g.grid_properties.numrows * g.grid_properties.start_cell_col) } }
        (by
          simp only
          rw [hkey]
          omega)
      exact ⟨g.current_cell :: cells, by rw [hcells]; rfl⟩

/-- The fuel of `quadgrid_t.cell_sweep` is enough on every grid: the sweep
always reaches `end_cell_sweep ()`. -/
theorem cell_sweep_terminates (g : quadgrid_t) : ∃ cells, g.cell_sweep = some cells := by
  apply sweep_from_terminates
  simp [quadgrid_t.begin_cell_sweep, cell_t.reset, quadgrid_t.sweep_fuel]
/-- C1: after `set_sizes (R, C, hx, hy)` with `R, C ≥ 1`, from any cursor state,
the sweep from `begin_cell_sweep ()` to `end_cell_sweep ()` visits exactly
`R * C` cells; the `k`-th has `row_idx = k mod R`, `col_idx = k div R` and
`get_global_cell_idx = k`; so each `(r, c)` of `[0,R) × [0,C)` is visited
exactly once, the row index varying fastest. -/
theorem cell_sweep_row_fastest (g : quadgrid_t) (R C : Int) (hx hy : ℚ)
    (hR : 1 ≤ R) (hC : 1 ≤ C) :
    ∃ cells : List cell_t,
      (g.set_sizes R C hx hy).cell_sweep = some cells ∧
      (cells.length : Int) = R * C ∧
      (∀ (k : Nat) (cell : cell_t), cells[k]? = some cell →
        cell.row_idx = (k : Int) % R ∧ cell.col_idx = (k : Int) / R ∧
        cell.get_global_cell_idx = k) ∧
      (∀ r c : Int, 0 ≤ r → r < R → 0 ≤ c → c < C →
        ∃! k : Nat, ∃ cell : cell_t,
          cells[k]? = some cell ∧ cell.row_idx = r ∧ cell.col_idx = c) := by
  have hpos : 1 ≤ R * C := by nlinarith
  refine ⟨_, cell_sweep_set_sizes g R C hx hy hR hC, ?_, ?_, ?_⟩
  · simp only [List.length_map, List.length_range]
    omega
  · intro k cell hk
    rw [List.getElem?_map] at hk
    by_cases hlt : k < (R * C).toNat
    · rw [List.getElem?_range hlt] at hk
      simp only [Option.map_some', Option.some.injEq] at hk
      subst hk
      simp [sweep_cell, cell_t.row_idx, cell_t.col_idx, cell_t.get_global_cell_idx]
    · rw [List.getElem?_eq_none (by simpa using hlt)] at hk
      simp at hk
  · intro r c hr0 hr hc0 hc
    have hrc0 : 0 ≤ r + R * c := by nlinarith
    have hrc : r + R * c < R * C := by nlinarith
    have hmod : (r + R * c) % R = r := by
      rw [Int.add_mul_emod_self_left]
      exact Int.emod_eq_of_lt hr0 hr
    have hdiv : (r + R * c) / R = c := by
      rw [Int.add_mul_ediv_left _ _ (by omega : R ≠ 0), Int.ediv_eq_zero_of_lt hr0 hr]
      simp
    refine ⟨(r + R * c).toNat, ⟨sweep_cell R g.current_cell.is_ghost (r + R * c).toNat, ?_, ?_, ?_⟩, ?_⟩
    · rw [List.getElem?_map, List.getElem?_range (by omega)]
      rfl
    · simp [sweep_cell, cell_t.row_idx, Int.toNat_of_nonneg hrc0, hmod]
    · simp [sweep_cell, cell_t.col_idx, Int.toNat_of_nonneg hrc0, hdiv]
    · rintro k ⟨cell, hk, hrow, hcol⟩
      rw [List.getElem?_map] at hk
      by_cases hlt : k < (R * C).toNat
      · rw [List.getElem?_range hlt] at hk
        simp only [Option.map_some', Option.some.injEq] at hk
        subst hk
        simp only [sweep_cell, cell_t.row_idx, cell_t.col_idx] at hrow hcol
        have := Int.emod_add_ediv (k : Int) R
        rw [hrow, hcol] at this
        omega
      · rw [List.getElem?_eq_none (by simpa using hlt)] at hk
        simp at hk

theorem cell_sweep_row_fastest_witness :
    ∃ cells : List cell_t,
      ((quadgrid_t.construct none 7 8 9 10).set_sizes 2 3 1 1).cell_sweep = some cells ∧
      (cells.length : Int) = 2 * 3 ∧
      (∀ (k : Nat) (cell : cell_t), cells[k]? = some cell →
        cell.row_idx = (k : Int) % 2 ∧ cell.col_idx = (k : Int) / 2 ∧
        cell.get_global_cell_idx = k) ∧
      (∀ r c : Int, 0 ≤ r → r < 2 → 0 ≤ c → c < 3 →
        ∃! k : Nat, ∃ cell : cell_t,
          cells[k]? = some cell ∧ cell.row_idx = r ∧ cell.col_idx = c) :=
  cell_sweep_row_fastest (quadgrid_t.construct none 7 8 9 10) 2 3 1 1 (by decide) (by decide)

/-! ## Node numbering and boundary edges -/

theorem gt_zero (gp : grid_properties_t) (c : cell_t) :
    c.gt gp 0 = c.rowidx + c.colidx * (gp.numrows + 1) := by
  simp [cell_t.gt, cell_t.row_idx, cell_t.col_idx, cell_t.num_rows]

theorem gt_one (gp : grid_properties_t) (c : cell_t) :
    c.gt gp 1 = c.rowidx + c.colidx * (gp.numrows + 1) + 1 := by
  simp [cell_t.gt, cell_t.row_idx, cell_t.col_idx, cell_t.num_rows]

theorem gt_two (gp : grid_properties_t) (c : cell_t) :
    c.gt gp 2 = c.rowidx + c.colidx * (gp.numrows + 1) + (gp.numrows + 1) := by
  simp [cell_t.gt, cell_t.row_idx, cell_t.col_idx, cell_t.num_rows]

theorem gt_three (gp : grid_properties_t) (c : cell_t) :
    c.gt gp 3 = c.rowidx + c.colidx * (gp.numrows + 1) + (gp.numrows + 2) := by
  simp [cell_t.gt, cell_t.row_idx, cell_t.col_idx, cell_t.num_rows]

theorem gt_range (gp : grid_properties_t) (c : cell_t) (C : Int)
    (hr0 : 0 ≤ c.rowidx) (hr : c.rowidx < gp.numrows)
    (hc0 : 0 ≤ c.colidx) (hc : c.colidx < C) (i : Int) (hi0 : 0 ≤ i) (hi : i ≤ 3) :
    0 ≤ c.gt gp i ∧ c.gt gp i < (gp.numrows + 1) * (C + 1) := by
  have h1 : 0 ≤ c.colidx * (gp.numrows + 1) := by nlinarith
  have h2 : (c.colidx + 1) * (gp.numrows + 1) ≤ C * (gp.numrows + 1) := by nlinarith
  have hi4 : i = 0 ∨ i = 1 ∨ i = 2 ∨ i = 3 := by omega
  rcases hi4 with rfl | rfl | rfl | rfl
  · rw [gt_zero]; constructor <;> nlinarith
  · rw [gt_one]; constructor <;> nlinarith
  · rw [gt_two]; constructor <;> nlinarith
  · rw [gt_three]; constructor <;> nlinarith

/-- C2: on a grid with `R, C ≥ 1`, the four global node ids of every cell
`(r, c)` of `[0,R) × [0,C)` are pairwise distinct and lie in
`[0, (R+1)*(C+1))`, and every node id of that range is `gt (i)` of some cell
for some `i` in `0..3`. -/
theorem gt_node_numbering (g : quadgrid_t) (R C : Int) (hx hy : ℚ)
    (hR : 1 ≤ R) (hC : 1 ≤ C) :
    (g.set_sizes R C hx hy).num_global_nodes = (R + 1) * (C + 1) ∧
    (∀ cell : cell_t, 0 ≤ cell.row_idx → cell.row_idx < R →
        0 ≤ cell.col_idx → cell.col_idx < C →
      (∀ i j : Int, 0 ≤ i → i ≤ 3 → 0 ≤ j → j ≤ 3 → i ≠ j →
        cell.gt (g.set_sizes R C hx hy).grid_properties i
          ≠ cell.gt (g.set_sizes R C hx hy).grid_properties j) ∧
      (∀ i : Int, 0 ≤ i → i ≤ 3 →
        0 ≤ cell.gt (g.set_sizes R C hx hy).grid_properties i ∧
        cell.gt (g.set_sizes R C hx hy).grid_properties i
          < (g.set_sizes R C hx hy).num_global_nodes)) ∧
    (∀ n : Int, 0 ≤ n → n < (g.set_sizes R C hx hy).num_global_nodes →
      ∃ cell : cell_t, 0 ≤ cell.row_idx ∧ cell.row_idx < R ∧
        0 ≤ cell.col_idx ∧ cell.col_idx < C ∧
        ∃ i : Int, 0 ≤ i ∧ i ≤ 3 ∧
          cell.gt (g.set_sizes R C hx hy).grid_properties i = n) := by
  have hnodes : (g.set_sizes R C hx hy).num_global_nodes = (R + 1) * (C + 1) := rfl
  have hrows : (g.set_sizes R C hx hy).grid_properties.numrows = R := rfl
  refine ⟨hnodes, ?_, ?_⟩
  · intro cell hr0 hr hc0 hc
    constructor
    · intro i j hi0 hi hj0 hj hij
      have hi4 : i = 0 ∨ i = 1 ∨ i = 2 ∨ i = 3 := by omega
      have hj4 : j = 0 ∨ j = 1 ∨ j = 2 ∨ j = 3 := by omega
      rcases hi4 with rfl | rfl | rfl | rfl <;> rcases hj4 with rfl | rfl | rfl | rfl <;>
        first
        | exact absurd rfl hij
        | (simp only [gt_zero, gt_one, gt_two, gt_three, hrows]; omega)
    · intro i hi0 hi
      rw [hnodes]
      have := gt_range (g.set_sizes R C hx hy).grid_properties cell C
        hr0 (by rw [hrows]; exact hr) hc0 hc i hi0 hi
      rw [hrows] at this
      exact this
  · intro n hn0 hn
    rw [hnodes] at hn
    have hR1 : 0 < R + 1 := by omega
    have hmod0 : 0 ≤ n % (R + 1) := Int.emod_nonneg _ (by omega)
    have hmod1 : n % (R + 1) < R + 1 := Int.emod_lt_of_pos _ hR1
    have hdiv0 : 0 ≤ n / (R + 1) := Int.ediv_nonneg hn0 (by omega)
    have hdiv1 : n / (R + 1) < C + 1 := by
      apply Int.ediv_lt_of_lt_mul hR1
      linarith
    have hsum : n % (R + 1) + (R + 1) * (n / (R + 1)) = n := Int.emod_add_ediv _ _
    have hcomm : (R + 1) * (n / (R + 1)) = n / (R + 1) * (R + 1) := mul_comm _ _
    by_cases ha : n % (R + 1) = R <;> by_cases hb : n / (R + 1) = C
    · refine ⟨⟨false, R - 1, C - 1, 0, 0⟩, by simp [cell_t.row_idx]; omega,
        by simp [cell_t.row_idx], by simp [cell_t.col_idx]; omega,
        by simp [cell_t.col_idx], 3, by omega, by omega, ?_⟩
      rw [gt_three, hrows]
      simp only
      rw [ha, hb] at hsum
      linarith
    · refine ⟨⟨false, R - 1, n / (R + 1), 0, 0⟩, by simp [cell_t.row_idx]; omega,
        by simp [cell_t.row_idx], by simp [cell_t.col_idx]; omega,
        by simp [cell_t.col_idx]; omega, 1, by omega, by omega, ?_⟩
      rw [gt_one, hrows]
      simp only
      rw [ha] at hsum
      linarith
    · refine ⟨⟨false, n % (R + 1), C - 1, 0, 0⟩, by simp [cell_t.row_idx]; omega,
        by simp [cell_t.row_idx]; omega, by simp [cell_t.col_idx]; omega,
        by simp [cell_t.col_idx], 2, by omega, by omega, ?_⟩
      rw [gt_two, hrows]
      simp only
      rw [hb] at hsum
      linarith
    · refine ⟨⟨false, n % (R + 1), n / (R + 1), 0, 0⟩, by simp [cell_t.row_idx]; omega,
        by simp [cell_t.row_idx]; omega, by simp [cell_t.col_idx]; omega,
        by simp [cell_t.col_idx]; omega, 0, by omega, by omega, ?_⟩
      rw [gt_zero, hrows]
      simp only
      linarith

theorem gt_node_numbering_witness :
    ((quadgrid_t.construct none 0 0 0 0).set_sizes 2 3 1 1).num_global_nodes
      = (2 + 1) * (3 + 1) ∧
    (∀ cell : cell_t, 0 ≤ cell.row_idx → cell.row_idx < 2 →
        0 ≤ cell.col_idx → cell.col_idx < 3 →
      (∀ i j : Int, 0 ≤ i → i ≤ 3 → 0 ≤ j → j ≤ 3 → i ≠ j →
        cell.gt ((quadgrid_t.construct none 0 0 0 0).set_sizes 2 3 1 1).grid_properties i
          ≠ cell.gt ((quadgrid_t.construct none 0 0 0 0).set_sizes 2 3 1 1).grid_properties j) ∧
      (∀ i : Int, 0 ≤ i → i ≤ 3 →
        0 ≤ cell.gt ((quadgrid_t.construct none 0 0 0 0).set_sizes 2 3 1 1).grid_properties i ∧
        cell.gt ((quadgrid_t.construct none 0 0 0 0).set_sizes 2 3 1 1).grid_properties i
          < ((quadgrid_t.construct none 0 0 0 0).set_sizes 2 3 1 1).num_global_nodes)) ∧
    (∀ n : Int, 0 ≤ n →
        n < ((quadgrid_t.construct none 0 0 0 0).set_sizes 2 3 1 1).num_global_nodes →
      ∃ cell : cell_t, 0 ≤ cell.row_idx ∧ cell.row_idx < 2 ∧
        0 ≤ cell.col_idx ∧ cell.col_idx < 3 ∧
        ∃ i : Int, 0 ≤ i ∧ i ≤ 3 ∧
          cell.gt ((quadgrid_t.construct none 0 0 0 0).set_sizes 2 3 1 1).grid_properties i
            = n) :=
  gt_node_numbering (quadgrid_t.construct none 0 0 0 0) 2 3 1 1 (by decide) (by decide)

/-- C3: for the cell in row `r` and column `c` of a grid with `R` rows,
`gt (0) = r + c*(R+1)`, `gt (1) = r + c*(R+1) + 1`,
`gt (2) = r + c*(R+1) + (R+1)` and `gt (3) = r + c*(R+1) + (R+2)`. -/
theorem gt_formula (gp : grid_properties_t) (cell : cell_t) :
    cell.gt gp 0 = cell.row_idx + cell.col_idx * (gp.numrows + 1) ∧
    cell.gt gp 1 = cell.row_idx + cell.col_idx * (gp.numrows + 1) + 1 ∧
    cell.gt gp 2 = cell.row_idx + cell.col_idx * (gp.numrows + 1) + (gp.numrows + 1) ∧
    cell.gt gp 3 = cell.row_idx + cell.col_idx * (gp.numrows + 1) + (gp.numrows + 2) :=
  ⟨gt_zero gp cell, gt_one gp cell, gt_two gp cell, gt_three gp cell⟩

/-- C4: on a grid with `R` rows and `C` columns, for the cell `(r, c)` and every
edge index `k`: `e (0) = 0` exactly when `r = 0`, `e (1) = 1` exactly when
`r = R-1`, `e (2) = 2` exactly when `c = 0`, `e (3) = 3` exactly when
`c = C-1`, and in every other (cell, edge) combination, `k` outside `0..3`
included, `e (k) = NOT_ON_BOUNDARY = -1`.  On the 3x3 grid `e (0)` is a
boundary tag only in row 0, `e (1)` only in row 2, `e (2)` only in column 0
and `e (3)` only in column 2.  The bounds `R, C ≥ 1` and `(r, c)` in
`[0,R) × [0,C)` are not needed for the general part. -/
theorem e_boundary_tags :
    (∀ (gp : grid_properties_t) (cell : cell_t),
      (cell.e gp 0 = 0 ↔ cell.row_idx = 0) ∧
      (cell.e gp 1 = 1 ↔ cell.row_idx = gp.numrows - 1) ∧
      (cell.e gp 2 = 2 ↔ cell.col_idx = 0) ∧
      (cell.e gp 3 = 3 ↔ cell.col_idx = gp.numcols - 1) ∧
      (∀ k : Int,
        ¬ ((k = 0 ∧ cell.row_idx = 0) ∨ (k = 1 ∧ cell.row_idx = gp.numrows - 1) ∨
           (k = 2 ∧ cell.col_idx = 0) ∨ (k = 3 ∧ cell.col_idx = gp.numcols - 1)) →
        cell.e gp k = cell_t.NOT_ON_BOUNDARY) ∧
      cell_t.NOT_ON_BOUNDARY = -1) ∧
    (∀ (g : quadgrid_t) (hx hy : ℚ) (cell : cell_t),
      0 ≤ cell.row_idx → cell.row_idx < 3 → 0 ≤ cell.col_idx → cell.col_idx < 3 →
      (cell.e (g.set_sizes 3 3 hx hy).grid_properties 0 ≠ cell_t.NOT_ON_BOUNDARY
        ↔ cell.row_idx = 0) ∧
      (cell.e (g.set_sizes 3 3 hx hy).grid_properties 1 ≠ cell_t.NOT_ON_BOUNDARY
        ↔ cell.row_idx = 2) ∧
      (cell.e (g.set_sizes 3 3 hx hy).grid_properties 2 ≠ cell_t.NOT_ON_BOUNDARY
        ↔ cell.col_idx = 0) ∧
      (cell.e (g.set_sizes 3 3 hx hy).grid_properties 3 ≠ cell_t.NOT_ON_BOUNDARY
        ↔ cell.col_idx = 2)) := by
  constructor
  · intro gp cell
    refine ⟨?_, ?_, ?_, ?_, ?_, rfl⟩
    · by_cases h : cell.row_idx = 0 <;>
        simp [cell_t.e, cell_t.NOT_ON_BOUNDARY, h]
    · by_cases h : cell.row_idx = gp.numrows - 1 <;>
        simp [cell_t.e, cell_t.NOT_ON_BOUNDARY, cell_t.num_rows, h]
    · by_cases h : cell.col_idx = 0 <;>
        simp [cell_t.e, cell_t.NOT_ON_BOUNDARY, h]
    · by_cases h : cell.col_idx = gp.numcols - 1 <;>
        simp [cell_t.e, cell_t.NOT_ON_BOUNDARY, cell_t.num_cols, h]
    · intro k hk
      simp only [not_or, not_and] at hk
      obtain ⟨h0, h1, h2, h3⟩ := hk
      unfold cell_t.e
      rw [if_neg (fun h => h0 h.2 h.1), if_neg (fun h => h1 h.2 h.1),
        if_neg (fun h => h2 h.2 h.1), if_neg (fun h => h3 h.2 h.1)]
  · intro g hx hy cell hr0 hr hc0 hc
    refine ⟨?_, ?_, ?_, ?_⟩
    · by_cases h : cell.row_idx = 0 <;>
        simp [cell_t.e, cell_t.NOT_ON_BOUNDARY, h]
    · by_cases h : cell.row_idx = 2 <;>
        simp [cell_t.e, cell_t.NOT_ON_BOUNDARY, cell_t.num_rows, quadgrid_t.set_sizes, h]
    · by_cases h : cell.col_idx = 0 <;>
        simp [cell_t.e, cell_t.NOT_ON_BOUNDARY, h]
    · by_cases h : cell.col_idx = 2 <;>
        simp [cell_t.e, cell_t.NOT_ON_BOUNDARY, cell_t.num_cols, quadgrid_t.set_sizes, h]

theorem e_boundary_tags_witness :
    (cell_t.e ((quadgrid_t.construct none 0 0 0 0).set_sizes 3 3 1 1).grid_properties
        (sweep_cell 3 false 5) 1 ≠ cell_t.NOT_ON_BOUNDARY
      ↔ (sweep_cell 3 false 5).row_idx = 2) :=
  (e_boundary_tags.2 (quadgrid_t.construct none 0 0 0 0) 1 1 (sweep_cell 3 false 5)
    (by decide) (by decide) (by decide) (by decide)).2.1

/-! ## Loops that return, and what they add up -/

theorem except_bind_ok {ε α β : Type} (a : α) (f : α → Except ε β) :
    (Except.ok a >>= f) = f a := rfl

theorem except_bind_error {ε α β : Type} (e : ε) (f : α → Except ε β) :
    (Except.error e >>= f) = Except.error e := rfl

theorem except_pure {ε α : Type} (a : α) : (pure a : Except ε α) = Except.ok a := rfl

theorem foldlM_nil_ok {ε σ α : Type} (step : σ → α → Except ε σ) (s : σ) :
    List.foldlM step s [] = Except.ok s := rfl

theorem foldlM_cons_ok {ε σ α : Type} (step : σ → α → Except ε σ) (s s' : σ) (a : α)
    (l : List α) (h : step s a = Except.ok s') :
    List.foldlM step s (a :: l) = List.foldlM step s' l := by
  rw [List.foldlM_cons, h]
  rfl

/-- A loop whose every step returns, keeps the invariant `inv` and adds
`delta a k` to the observable `val · k`, returns, keeps `inv` and adds the sum
of the steps. -/
theorem foldlM_additive {ε σ α κ : Type} (inv : σ → Prop) (val : σ → κ → ℚ)
    (step : σ → α → Except ε σ) (delta : α → κ → ℚ) :
    ∀ (l : List α),
      (∀ a ∈ l, ∀ s, inv s →
        ∃ s', step s a = Except.ok s' ∧ inv s' ∧ ∀ k, val s' k = val s k + delta a k) →
      ∀ s, inv s →
        ∃ s', List.foldlM step s l = Except.ok s' ∧ inv s' ∧
          ∀ k, val s' k = val s k + (l.map (fun a => delta a k)).sum := by
  intro l
  induction l with
  | nil =>
    intro _ s hs
    exact ⟨s, rfl, hs, by simp⟩
  | cons a l ih =>
    intro hstep s hs
    obtain ⟨s1, h1, hinv1, hval1⟩ := hstep a (List.mem_cons_self a l) s hs
    obtain ⟨s2, h2, hinv2, hval2⟩ :=
      ih (fun b hb => hstep b (List.mem_cons_of_mem a hb)) s1 hinv1
    refine ⟨s2, ?_, hinv2, ?_⟩
    · rw [foldlM_cons_ok step s s1 a l h1, h2]
    · intro k
      rw [hval2 k, hval1 k, List.map_cons, List.sum_cons]
      ring

theorem vec_at_ok {α : Type} (v : List α) (i : Int) (a : α) (h0 : 0 ≤ i)
    (h : v[i.toNat]? = some a) : vec_at v i = Except.ok a := by
  unfold vec_at
  rw [if_neg (by omega), h]

theorem vec_assign_ok {α : Type} (v : List α) (i : Int) (a : α) (h0 : 0 ≤ i)
    (h : i.toNat < v.length) : vec_assign v i a = Except.ok (v.set i.toNat a) := by
  unfold vec_assign
  rw [if_pos ⟨h0, h⟩]

theorem mem_index_range {n : Nat} {i : Int} (h : i ∈ index_range n) :
    0 ≤ i ∧ i.toNat < n := by
  simp only [index_range, List.mem_map, List.mem_range] at h
  obtain ⟨k, hk, rfl⟩ := h
  exact ⟨Int.ofNat_nonneg k, by simpa using hk⟩

theorem shape_some {m : map_t String (List ℚ)} {name : String} {len : Nat}
    (h : shape m name = some len) : ∃ v, m name = some v ∧ v.length = len := by
  unfold shape at h
  cases hv : m name with
  | none => rw [hv] at h; simp at h
  | some v => rw [hv] at h; exact ⟨v, rfl, by simpa using h⟩

/-- Writing `a` into the entry `n` of the vector stored under `name`: the
shape stays, the entry becomes `a`, every other entry stays. -/
theorem store_set_spec (m : map_t String (List ℚ)) (name : String) (v : List ℚ)
    (n : Nat) (a : ℚ) (hv : m name = some v) (hn : n < v.length) :
    shape (m.store name (v.set n a)) = shape m ∧
    ∀ name' n', entry (m.store name (v.set n a)) name' n'
      = if name' = name ∧ n' = n then a else entry m name' n' := by
  constructor
  · funext name'
    unfold shape map_t.store
    by_cases h : name' = name
    · subst h
      simp [hv]
    · simp [h]
  · intro name' n'
    unfold entry map_t.subscript map_t.store
    by_cases h : name' = name
    · subst h
      simp only [if_true, Option.getD_some, true_and, hv]
      by_cases h' : n' = n
      · subst h'
        simp [List.getD_eq_getElem?_getD, List.getElem?_set, hn]
      · have h'' : n ≠ n' := fun e => h' e.symm
        simp [List.getD_eq_getElem?_getD, List.getElem?_set, h', h'']
    · simp [h]

theorem entry_eq_getElem (m : map_t String (List ℚ)) (name : String) (v : List ℚ)
    (n : Nat) (hv : m name = some v) (hn : n < v.length) :
    v[n]? = some (entry m name n) := by
  unfold entry map_t.subscript
  rw [hv]
  simp [List.getD_eq_getElem?_getD, List.getElem?_eq_getElem hn]

/-! ## Particle-to-grid accumulation -/

theorem p2g_var_spec (ps : particles_t) (pvarnames gvarnames : List String)
    (icell : cell_t) (idx inode : Int) (N : ℚ) (vars : map_t String (List ℚ)) (ivar : Int)
    (pname gname : String) (pv : List ℚ) (len : Nat)
    (hi : 0 ≤ ivar) (hp : pvarnames[ivar.toNat]? = some pname)
    (hd : ps.dprops pname = some pv) (hidx0 : 0 ≤ idx) (hidx : idx.toNat < pv.length)
    (hg : gvarnames[ivar.toNat]? = some gname) (hsh : shape vars gname = some len)
    (hgt0 : 0 ≤ icell.gt ps.grid.grid_properties inode)
    (hgt : (icell.gt ps.grid.grid_properties inode).toNat < len) :
    ∃ vars', ps.p2g_var pvarnames gvarnames icell idx inode N vars ivar = Except.ok vars' ∧
      shape vars' = shape vars ∧
      ∀ name n, entry vars' name n = entry vars name n +
        (if gname = name ∧ icell.gt ps.grid.grid_properties inode = n then
          N * entry ps.dprops pname idx.toNat else 0) := by
  obtain ⟨v, hv, hlen⟩ := shape_some hsh
  have hgt' : (icell.gt ps.grid.grid_properties inode).toNat < v.length := by omega
  have hsub : vars.subscript gname = v := by simp [map_t.subscript, hv]
  obtain ⟨hshape, hentry⟩ := store_set_spec vars gname v
    (icell.gt ps.grid.grid_properties inode).toNat
    (entry vars gname (icell.gt ps.grid.grid_properties inode).toNat
      + N * entry ps.dprops pname idx.toNat) hv hgt'
  refine ⟨_, ?_, hshape, ?_⟩
  · unfold particles_t.p2g_var particles_t.getkey
    rw [vec_at_ok pvarnames ivar pname hi hp]
    simp only [except_bind_ok, map_t.at, hd]
    rw [vec_at_ok pv idx _ hidx0 (entry_eq_getElem ps.dprops pname pv idx.toNat hd hidx)]
    simp only [except_bind_ok]
    rw [vec_at_ok gvarnames ivar gname hi hg]
    simp only [except_bind_ok, hsub]
    rw [vec_at_ok v _ _ hgt0 (entry_eq_getElem vars gname v _ hv hgt')]
    simp only [except_bind_ok]
    rw [vec_assign_ok v _ _ hgt0 hgt']
    rfl
  · intro name n
    rw [hentry name n]
    by_cases h1 : name = gname
    · subst h1
      by_cases h2 : n = (icell.gt ps.grid.grid_properties inode).toNat
      · subst h2
        simp [Int.toNat_of_nonneg hgt0]
      · have h3 : ¬ icell.gt ps.grid.grid_properties inode = (n : Int) := by
          intro e
          apply h2
          rw [e]
          simp
        simp [h2, h3]
    · have h1' : ¬ gname = name := fun e => h1 e.symm
      simp [h1, h1']

theorem getD_of_getElem? {α : Type} (l : List α) (n : Nat) (a d : α) (h : l[n]? = some a) :
    l.getD n d = a := by
  simp [List.getD_eq_getElem?_getD, h]

theorem p2g_node_spec (ps : particles_t) (sh : String → Option Nat)
    (pvarnames gvarnames : List String) (icell : cell_t) (idx : Int)
    (hready : p2g_ready ps sh pvarnames gvarnames icell idx)
    (inode : Int) (hinode : inode ∈ index_range 4)
    (vars : map_t String (List ℚ)) (hvars : shape vars = sh) :
    ∃ vars', ps.p2g_node pvarnames gvarnames icell idx
        (ps.x.getD idx.toNat 0) (ps.y.getD idx.toNat 0) vars inode = Except.ok vars' ∧
      shape vars' = sh ∧
      ∀ k : String × Nat, entry vars' k.1 k.2 = entry vars k.1 k.2 +
        ((index_range gvarnames.length).map fun ivar =>
          p2g_term ps pvarnames gvarnames icell idx inode ivar k.1 k.2).sum := by
  obtain ⟨hidx0, _, _, hnames, hfields⟩ := hready
  unfold particles_t.p2g_node
  apply foldlM_additive (fun s => shape s = sh) (fun s (k : String × Nat) => entry s k.1 k.2)
  · intro ivar hivar s hs
    obtain ⟨hi0, hi⟩ := mem_index_range hivar
    obtain ⟨pname, pv, hp, hd, hlen⟩ := hnames ivar.toNat hi
    have hg : gvarnames[ivar.toNat]? = some (gvarnames[ivar.toNat]) :=
      List.getElem?_eq_getElem hi
    obtain ⟨len, hsh, hgt0, hgt⟩ := hfields inode hinode _ (List.getElem_mem hi)
    obtain ⟨s', hok, hshape, hentry⟩ := p2g_var_spec ps pvarnames gvarnames icell idx inode
      (icell.shp ps.grid.grid_properties (ps.x.getD idx.toNat 0) (ps.y.getD idx.toNat 0) inode)
      s ivar pname _ pv len hi0 hp hd hidx0 hlen hg (by rw [hs]; exact hsh) hgt0 hgt
    refine ⟨s', hok, by rw [hshape, hs], ?_⟩
    intro k
    rw [hentry k.1 k.2]
    unfold p2g_term
    rw [getD_of_getElem? gvarnames ivar.toNat _ "" hg,
      getD_of_getElem? pvarnames ivar.toNat _ "" hp]
  · exact hvars

theorem p2g_particle_spec (ps : particles_t) (sh : String → Option Nat)
    (pvarnames gvarnames : List String) (icell : cell_t) (idx : Int)
    (hready : p2g_ready ps sh pvarnames gvarnames icell idx)
    (vars : map_t String (List ℚ)) (hvars : shape vars = sh) :
    ∃ vars', ps.p2g_particle pvarnames gvarnames icell vars idx = Except.ok vars' ∧
      shape vars' = sh ∧
      ∀ k : String × Nat, entry vars' k.1 k.2 = entry vars k.1 k.2 +
        ((index_range 4).map fun inode =>
          ((index_range gvarnames.length).map fun ivar =>
            p2g_term ps pvarnames gvarnames icell idx inode ivar k.1 k.2).sum).sum := by
  have hx : vec_at ps.x idx = Except.ok (ps.x.getD idx.toNat 0) := by
    apply vec_at_ok _ _ _ hready.1
    rw [List.getElem?_eq_getElem hready.2.1]
    simp [List.getD_eq_getElem?_getD, List.getElem?_eq_getElem hready.2.1]
  have hy : vec_at ps.y idx = Except.ok (ps.y.getD idx.toNat 0) := by
    apply vec_at_ok _ _ _ hready.1
    rw [List.getElem?_eq_getElem hready.2.2.1]
    simp [List.getD_eq_getElem?_getD, List.getElem?_eq_getElem hready.2.2.1]
  unfold particles_t.p2g_particle
  rw [hx, hy]
  simp only [except_bind_ok]
  apply foldlM_additive (fun s => shape s = sh) (fun s (k : String × Nat) => entry s k.1 k.2)
  · intro inode hinode s hs
    exact p2g_node_spec ps sh pvarnames gvarnames icell idx hready inode hinode s hs
  · exact hvars

theorem p2g_cell_spec (ps : particles_t) (sh : String → Option Nat)
    (pvarnames gvarnames : List String) (icell : cell_t)
    (hready : ∀ idx ∈ ps.grd_to_ptcl.subscript icell.get_global_cell_idx,
      p2g_ready ps sh pvarnames gvarnames icell idx)
    (vars : map_t String (List ℚ)) (hvars : shape vars = sh) :
    ∃ vars', ps.p2g_cell pvarnames gvarnames vars icell = Except.ok vars' ∧
      shape vars' = sh ∧
      ∀ k : String × Nat, entry vars' k.1 k.2 = entry vars k.1 k.2 +
        ((ps.grd_to_ptcl.subscript icell.get_global_cell_idx).map fun idx =>
          ((index_range 4).map fun inode =>
            ((index_range gvarnames.length).map fun ivar =>
              p2g_term ps pvarnames gvarnames icell idx inode ivar k.1 k.2).sum).sum).sum := by
  unfold particles_t.p2g_cell
  cases hb : ps.grd_to_ptcl icell.get_global_cell_idx with
  | none =>
    refine ⟨vars, ?_, hvars, ?_⟩
    · simp [map_t.count, hb, except_pure]
    · intro k
      simp [map_t.subscript, hb]
  | some bucket =>
    have hsub : ps.grd_to_ptcl.subscript icell.get_global_cell_idx = bucket := by
      simp [map_t.subscript, hb]
    rw [hsub] at hready ⊢
    simp only [map_t.count, hb, Option.isSome_some, if_true, map_t.at, except_bind_ok]
    rw [if_pos (by decide)]
    apply foldlM_additive (fun s => shape s = sh) (fun s (k : String × Nat) => entry s k.1 k.2)
    · intro idx hidx s hs
      exact p2g_particle_spec ps sh pvarnames gvarnames icell idx (hready idx hidx) s hs
    · exact hvars

/-- The accumulation of `p2g` (`apply_mass = false`) returns, keeps the lengths
of the fields and adds `p2g_sum` to every entry, when every bucket entry of
every swept cell is ready. -/
theorem p2g_accumulate (ps : particles_t) (cells : List cell_t)
    (pvarnames gvarnames : List String) (vars : map_t String (List ℚ))
    (hcells : ps.grid.cell_sweep = some cells)
    (hready : ∀ icell ∈ cells, ∀ idx ∈ ps.grd_to_ptcl.subscript icell.get_global_cell_idx,
      p2g_ready ps (shape vars) pvarnames gvarnames icell idx) :
    ∃ vars', ps.p2g vars pvarnames gvarnames false = Except.ok vars' ∧
      shape vars' = shape vars ∧
      ∀ name n, entry vars' name n
        = entry vars name n + p2g_sum ps cells pvarnames gvarnames name n := by
  obtain ⟨vars', hok, hshape, hentry⟩ :=
    foldlM_additive (fun s => shape s = shape vars)
      (fun s (k : String × Nat) => entry s k.1 k.2)
      (ps.p2g_cell pvarnames gvarnames)
      (fun icell (k : String × Nat) =>
        ((ps.grd_to_ptcl.subscript icell.get_global_cell_idx).map fun idx =>
          ((index_range 4).map fun inode =>
            ((index_range gvarnames.length).map fun ivar =>
              p2g_term ps pvarnames gvarnames icell idx inode ivar k.1 k.2).sum).sum).sum)
      cells
      (fun icell hicell s hs =>
        p2g_cell_spec ps (shape vars) pvarnames gvarnames icell (hready icell hicell) s hs)
      vars rfl
  refine ⟨vars', ?_, hshape, fun name n => hentry (name, n)⟩
  unfold particles_t.p2g particles_t.sweep
  rw [hcells]
  simp only [except_bind_ok]
  rw [hok]
  rfl

/-! ## Nodal mass -/

theorem sweep_cell_range (R C : Int) (b : Bool) (k : Nat) (hR : 1 ≤ R)
    (hk : k < (R * C).toNat) :
    0 ≤ (sweep_cell R b k).rowidx ∧ (sweep_cell R b k).rowidx < R ∧
    0 ≤ (sweep_cell R b k).colidx ∧ (sweep_cell R b k).colidx < C := by
  have hR0 : 0 < R := by omega
  have hk' : (k : Int) < C * R := by
    rw [mul_comm]
    omega
  refine ⟨Int.emod_nonneg _ (by omega), Int.emod_lt_of_pos _ hR0,
    Int.ediv_nonneg (Int.ofNat_nonneg k) (by omega), Int.ediv_lt_of_lt_mul hR0 hk'⟩

theorem sum_set_add (v : List ℚ) (n : Nat) (d : ℚ) (hn : n < v.length) :
    (v.set n (v.getD n 0 + d)).sum = v.sum + d := by
  induction v generalizing n with
  | nil => simp at hn
  | cons a v ih =>
    cases n with
    | zero =>
      simp only [List.set_cons_zero, List.sum_cons, List.getD_cons_zero]
      ring
    | succ n =>
      simp only [List.set_cons_succ, List.sum_cons, List.getD_cons_succ]
      rw [ih n (by simpa using hn)]
      ring

theorem build_mass_node_spec (ps : particles_t) (icell : cell_t) (M : List ℚ) (inode : Int)
    (hgt0 : 0 ≤ icell.gt ps.grid.grid_properties inode)
    (hgt : (icell.gt ps.grid.grid_properties inode).toNat < M.length) :
    ps.build_mass_node icell M inode
      = Except.ok (M.set (icell.gt ps.grid.grid_properties inode).toNat
          (M.getD (icell.gt ps.grid.grid_properties inode).toNat 0
            + (ps.grid.hx / 2) * (ps.grid.hy / 2))) := by
  unfold particles_t.build_mass_node
  rw [vec_at_ok M _ (M.getD (icell.gt ps.grid.grid_properties inode).toNat 0) hgt0
    (by simp [List.getD_eq_getElem?_getD, List.getElem?_eq_getElem hgt])]
  simp only [except_bind_ok]
  rw [vec_assign_ok M _ _ hgt0 hgt]

/-- C5: on a grid with `R, C ≥ 1` and cell sizes `hx`, `hy`, `build_mass ()` on a
vector `M` of length `(R+1)*(C+1)`, whatever it held, returns and leaves the
sum of all entries of `M` equal to `R*C*hx*hy`. -/
theorem build_mass_total (ps : particles_t) (g : quadgrid_t) (R C : Int) (hx hy : ℚ)
    (hR : 1 ≤ R) (hC : 1 ≤ C) (hgrid : ps.grid = g.set_sizes R C hx hy)
    (hM : (ps.M.length : Int) = (R + 1) * (C + 1)) :
    ∃ ps', ps.build_mass = Except.ok ps' ∧ ps'.M.length = ps.M.length ∧
      ps'.M.sum = R * C * hx * hy := by
  have hcells := cell_sweep_set_sizes g R C hx hy hR hC
  rw [← hgrid] at hcells
  have hrows : ps.grid.grid_properties.numrows = R := by rw [hgrid]; rfl
  obtain ⟨M', hok, hlen, hsum⟩ :=
    foldlM_additive (fun (M : List ℚ) => M.length = ps.M.length)
      (fun (M : List ℚ) (_ : Unit) => M.sum)
      (fun (M : List ℚ) (icell : cell_t) =>
        (index_range cell_t.nodes_per_cell.toNat).foldlM (ps.build_mass_node icell) M)
      (fun (_ : cell_t) (_ : Unit) =>
        ((index_range cell_t.nodes_per_cell.toNat).map
          (fun _ => (ps.grid.hx / 2) * (ps.grid.hy / 2))).sum)
      ((List.range (R * C).toNat).map (sweep_cell R g.current_cell.is_ghost))
      (by
        intro icell hicell M hMlen
        apply foldlM_additive (fun (M : List ℚ) => M.length = ps.M.length)
          (fun (M : List ℚ) (_ : Unit) => M.sum)
        · intro inode hinode M1 hM1
          simp only [List.mem_map, List.mem_range] at hicell
          obtain ⟨k, hk, rfl⟩ := hicell
          obtain ⟨hr0, hr, hc0, hc⟩ := sweep_cell_range R C g.current_cell.is_ghost k hR hk
          obtain ⟨hi0, hi⟩ := mem_index_range hinode
          have hi3 : inode ≤ 3 := by
            have : cell_t.nodes_per_cell.toNat = 4 := rfl
            omega
          obtain ⟨hgt0, hgt⟩ := gt_range ps.grid.grid_properties
            (sweep_cell R g.current_cell.is_ghost k) C hr0 (by rw [hrows]; exact hr)
            hc0 hc inode hi0 hi3
          rw [hrows] at hgt
          have hgt' : ((sweep_cell R g.current_cell.is_ghost k).gt
              ps.grid.grid_properties inode).toNat < M1.length := by
            rw [hM1]
            omega
          refine ⟨_, build_mass_node_spec ps _ M1 inode hgt0 hgt', ?_, ?_⟩
          · rw [List.length_set, hM1]
          · intro _
            exact sum_set_add M1 _ _ hgt'
        · exact hMlen)
      (List.replicate ps.M.length 0) (by simp)
  refine ⟨{ ps with M := M' }, ?_, hlen, ?_⟩
  · unfold particles_t.build_mass particles_t.sweep
    rw [hcells]
    simp only [except_bind_ok]
    rw [hok]
    rfl
  · have hnodes : cell_t.nodes_per_cell.toNat = 4 := rfl
    have hhx : ps.grid.hx = hx := by rw [hgrid]; rfl
    have hhy : ps.grid.hy = hy := by rw [hgrid]; rfl
    have hRC : (((R * C).toNat : Int) : ℚ) = (R : ℚ) * (C : ℚ) := by
      rw [Int.toNat_of_nonneg (by nlinarith)]
      push_cast
      ring
    have h := hsum ()
    simp only [List.map_map, List.map_const', List.sum_replicate, List.length_map,
      List.length_range, index_range, hnodes, hhx, hhy, smul_eq_mul, nsmul_eq_mul,
      Function.comp_def] at h
    simp only [h]
    push_cast at hRC ⊢
    rw [hRC]
    ring

theorem build_mass_total_witness :
    ∃ ps', particles_t.build_mass
        { x := [], y := [], iprops := fun _ => none, dprops := fun _ => none,
          M := [5, 5, 5, 5, 5, 5], grd_to_ptcl := fun _ => none,
          grid := (quadgrid_t.construct none 0 0 0 0).set_sizes 2 1 (1 / 2) 3 }
        = Except.ok ps' ∧
      ps'.M.length = [(5 : ℚ), 5, 5, 5, 5, 5].length ∧
      ps'.M.sum = ((2 : Int) : ℚ) * ((1 : Int) : ℚ) * (1 / 2) * 3 :=
  build_mass_total
    { x := [], y := [], iprops := fun _ => none, dprops := fun _ => none,
      M := [5, 5, 5, 5, 5, 5], grd_to_ptcl := fun _ => none,
      grid := (quadgrid_t.construct none 0 0 0 0).set_sizes 2 1 (1 / 2) 3 }
    (quadgrid_t.construct none 0 0 0 0) 2 1 (1 / 2) 3 (by decide) (by decide) rfl (by decide)

/-! ## One particle scattered to the grid -/

theorem sum_map_eq_single {α : Type} (l : List α) (a0 : α) (f : α → ℚ) (hnodup : l.Nodup)
    (hmem : a0 ∈ l) (h0 : ∀ a ∈ l, a ≠ a0 → f a = 0) : (l.map f).sum = f a0 := by
  induction l with
  | nil => simp at hmem
  | cons b l ih =>
    rw [List.nodup_cons] at hnodup
    rw [List.map_cons, List.sum_cons]
    by_cases hb : b = a0
    · subst hb
      have hrest : (l.map f).sum = 0 := by
        apply List.sum_eq_zero
        intro x hx
        simp only [List.mem_map] at hx
        obtain ⟨a, ha, rfl⟩ := hx
        exact h0 a (List.mem_cons_of_mem _ ha) (fun e => hnodup.1 (e ▸ ha))
      rw [hrest, add_zero]
    · have hmem' : a0 ∈ l := by
        rcases List.mem_cons.mp hmem with e | e
        · exact absurd e.symm hb
        · exact e
      rw [h0 b (List.mem_cons_self _ _) hb, zero_add]
      exact ih hnodup.2 hmem' (fun a ha => h0 a (List.mem_cons_of_mem _ ha))

theorem sum_map_eq_zero {α : Type} (l : List α) (f : α → ℚ) (h0 : ∀ a ∈ l, f a = 0) :
    (l.map f).sum = 0 := by
  apply List.sum_eq_zero
  intro x hx
  simp only [List.mem_map] at hx
  obtain ⟨a, ha, rfl⟩ := hx
  exact h0 a ha

theorem gt_congr (gp : grid_properties_t) (c1 c2 : cell_t) (hr : c1.rowidx = c2.rowidx)
    (hc : c1.colidx = c2.colidx) (i : Int) : c1.gt gp i = c2.gt gp i := by
  simp [cell_t.gt, cell_t.row_idx, cell_t.col_idx, cell_t.num_rows, hr, hc]

theorem shp_congr (gp : grid_properties_t) (c1 c2 : cell_t) (hr : c1.rowidx = c2.rowidx)
    (hc : c1.colidx = c2.colidx) (x y : ℚ) (i : Int) : c1.shp gp x y i = c2.shp gp x y i := by
  simp [cell_t.shp, cell_t.row_idx, cell_t.col_idx, hr, hc]

theorem sweep_cell_of_sub (R C r c : Int) (b : Bool) (hr0 : 0 ≤ r) (hr : r < R)
    (hc0 : 0 ≤ c) (hc : c < C) :
    (r + R * c).toNat < (R * C).toNat ∧
    ((r + R * c).toNat : Int) = r + R * c ∧
    (sweep_cell R b (r + R * c).toNat).rowidx = r ∧
    (sweep_cell R b (r + R * c).toNat).colidx = c := by
  have hrc0 : 0 ≤ r + R * c := by nlinarith
  have hrc : r + R * c < R * C := by nlinarith
  have hcast : ((r + R * c).toNat : Int) = r + R * c := Int.toNat_of_nonneg hrc0
  refine ⟨by omega, hcast, ?_, ?_⟩
  · simp only [sweep_cell, hcast]
    rw [Int.add_mul_emod_self_left]
    exact Int.emod_eq_of_lt hr0 hr
  · simp only [sweep_cell, hcast]
    rw [Int.add_mul_ediv_left _ _ (by omega : R ≠ 0), Int.ediv_eq_zero_of_lt hr0 hr]
    simp

theorem index_range_four : index_range 4 = [0, 1, 2, 3] := by decide

theorem index_range_one : index_range 1 = [0] := by decide

/-- With one name pair and the single bucket `[p]` at the valid cell `(r, c)`,
`p2g` without mass returns and adds to every entry `n` of the destination
field the weights of the nodes of the cell that are numbered `n`. -/
theorem p2g_single_sum (ps : particles_t) (g : quadgrid_t) (R C : Int) (hx hy : ℚ)
    (r c p : Int) (src dst : String) (vars : map_t String (List ℚ)) (attr field : List ℚ)
    (cell : cell_t)
    (hgrid : ps.grid = g.set_sizes R C hx hy)
    (hr0 : 0 ≤ r) (hr : r < R) (hc0 : 0 ≤ c) (hc : c < C)
    (hrow : cell.row_idx = r) (hcol : cell.col_idx = c)
    (hbucket : ps.grd_to_ptcl.subscript (r + R * c) = [p])
    (hothers : ∀ k : Int, 0 ≤ k → k < R * C → k ≠ r + R * c → ps.grd_to_ptcl.subscript k = [])
    (hp0 : 0 ≤ p) (hpx : p.toNat < ps.x.length) (hpy : p.toNat < ps.y.length)
    (hattr : ps.dprops src = some attr) (hpa : p.toNat < attr.length)
    (hfield : vars dst = some field) (hlen : (R + 1) * (C + 1) ≤ (field.length : Int)) :
    ∃ vars', ps.p2g vars [src] [dst] false = Except.ok vars' ∧
      shape vars' = shape vars ∧
      ∀ name n, entry vars' name n = entry vars name n +
        (([0, 1, 2, 3] : List Int).map fun inode =>
          if dst = name ∧ cell.gt ps.grid.grid_properties inode = (n : Int) then
            cell.shp ps.grid.grid_properties (ps.x.getD p.toNat 0) (ps.y.getD p.toNat 0) inode
              * attr.getD p.toNat 0
          else 0).sum := by
  have hR : 1 ≤ R := by omega
  have hC : 1 ≤ C := by omega
  have hcells := cell_sweep_set_sizes g R C hx hy hR hC
  rw [← hgrid] at hcells
  have hrows : ps.grid.grid_properties.numrows = R := by rw [hgrid]; rfl
  obtain ⟨hk0, hcast, hrow0, hcol0⟩ :=
    sweep_cell_of_sub R C r c g.current_cell.is_ghost hr0 hr hc0 hc
  have hglobal : ∀ k : Nat,
      (sweep_cell R g.current_cell.is_ghost k).get_global_cell_idx = (k : Int) := fun _ => rfl
  have hempty : ∀ k : Nat, k < (R * C).toNat → k ≠ (r + R * c).toNat →
      ps.grd_to_ptcl.subscript (k : Int) = [] := by
    intro k hk hne
    apply hothers k (Int.ofNat_nonneg k) (by omega)
    omega
  have hfull : ps.grd_to_ptcl.subscript (((r + R * c).toNat : Nat) : Int) = [p] := by
    rw [hcast]
    exact hbucket
  obtain ⟨vars', hok, hshape, hentry⟩ := p2g_accumulate ps _ [src] [dst] vars hcells (by
    intro icell hicell idx hidx
    simp only [List.mem_map, List.mem_range] at hicell
    obtain ⟨k, hk, rfl⟩ := hicell
    rw [hglobal k] at hidx
    by_cases hkk : k = (r + R * c).toNat
    · subst hkk
      rw [hfull] at hidx
      simp only [List.mem_singleton] at hidx
      subst hidx
      refine ⟨hp0, hpx, hpy, ?_, ?_⟩
      · intro ivar hivar
        simp only [List.length_singleton, Nat.lt_one_iff] at hivar
        subst hivar
        exact ⟨src, attr, rfl, hattr, hpa⟩
      · intro inode hinode gname hgname
        simp only [List.mem_singleton] at hgname
        subst hgname
        obtain ⟨hi0, hi⟩ := mem_index_range hinode
        obtain ⟨hgt0, hgt⟩ := gt_range ps.grid.grid_properties
          (sweep_cell R g.current_cell.is_ghost (r + R * c).toNat) C
          (by rw [hrow0]; exact hr0) (by rw [hrow0, hrows]; exact hr)
          (by rw [hcol0]; exact hc0) (by rw [hcol0]; exact hc) inode hi0 (by omega)
        rw [hrows] at hgt
        exact ⟨field.length, by simp [shape, hfield], hgt0, by omega⟩
    · rw [hempty k hk hkk] at hidx
      simp at hidx)
  refine ⟨vars', hok, hshape, ?_⟩
  intro name n
  rw [hentry name n]
  congr 1
  unfold p2g_sum
  rw [List.map_map]
  rw [sum_map_eq_single (List.range (R * C).toNat) (r + R * c).toNat _
    (List.nodup_range _) (List.mem_range.mpr hk0) (by
      intro k hk hne
      simp only [Function.comp_apply, hglobal k]
      rw [hempty k (List.mem_range.mp hk) hne]
      simp)]
  simp only [Function.comp_apply, hglobal, hfull, List.map_cons, List.map_nil, List.sum_cons,
    List.sum_nil, add_zero, index_range_four, index_range_one, List.length_singleton,
    p2g_term]
  have hgt : ∀ i, (sweep_cell R g.current_cell.is_ghost (r + R * c).toNat).gt
      ps.grid.grid_properties i = cell.gt ps.grid.grid_properties i :=
    fun i => gt_congr _ _ _ (by rw [hrow0]; exact hrow.symm) (by rw [hcol0]; exact hcol.symm) i
  have hshp : ∀ x y i, (sweep_cell R g.current_cell.is_ghost (r + R * c).toNat).shp
      ps.grid.grid_properties x y i = cell.shp ps.grid.grid_properties x y i :=
    fun x y i =>
      shp_congr _ _ _ (by rw [hrow0]; exact hrow.symm) (by rw [hcol0]; exact hcol.symm) x y i
  have hentry_attr : entry ps.dprops src p.toNat = attr.getD p.toNat 0 := by
    simp [entry, map_t.subscript, hattr]
  simp [hgt, hshp, hentry_attr]

/-! ## The grid-to-particle index -/

theorem vec_at_getD (v : List ℚ) (i : Int) (h0 : 0 ≤ i) (h : i.toNat < v.length) :
    vec_at v i = Except.ok (v.getD i.toNat 0) := by
  apply vec_at_ok _ _ _ h0
  simp [List.getD_eq_getElem?_getD, List.getElem?_eq_getElem h]

theorem init_particle_mesh_fold (ps : particles_t) :
    ∀ (l : List Int),
      (∀ i ∈ l, 0 ≤ i ∧ i.toNat < ps.x.length ∧ i.toNat < ps.y.length) →
      ∀ m : map_t Int (List Int),
        ∃ m', List.foldlM
            (fun (m : map_t Int (List Int)) (ii : Int) => do
              let xi ← vec_at ps.x ii
              let yi ← vec_at ps.y ii
              let c : Int := Int.floor (xi / ps.grid.hx)
              let r : Int := Int.floor (yi / ps.grid.hy)
              pure (m.store (ps.grid.sub2gind r c)
                (m.subscript (ps.grid.sub2gind r c) ++ [ii])))
            m l = Except.ok m' ∧
          ∀ k, m'.subscript k = m.subscript k ++ l.filter (fun i => decide (ps.cell_key i = k)) ∧
            ((m' k).isSome ↔ ((m k).isSome ∨ ∃ i ∈ l, ps.cell_key i = k)) := by
  intro l
  induction l with
  | nil =>
    intro _ m
    exact ⟨m, rfl, fun k => ⟨by simp, by simp⟩⟩
  | cons a l ih =>
    intro hl m
    obtain ⟨ha0, hax, hay⟩ := hl a (List.mem_cons_self a l)
    obtain ⟨m', hok, hm'⟩ := ih (fun i hi => hl i (List.mem_cons_of_mem a hi))
      (m.store (ps.cell_key a) (m.subscript (ps.cell_key a) ++ [a]))
    refine ⟨m', ?_, ?_⟩
    · rw [List.foldlM_cons, vec_at_getD ps.x a ha0 hax, vec_at_getD ps.y a ha0 hay]
      exact hok
    · intro k
      obtain ⟨hsub, hsome⟩ := hm' k
      by_cases hk : ps.cell_key a = k
      · subst hk
        constructor
        · rw [hsub]
          simp [map_t.subscript, map_t.store, List.filter_cons]
        · rw [hsome]
          simp [map_t.store]
      · have hk' : ¬ k = ps.cell_key a := fun e => hk e.symm
        constructor
        · rw [hsub]
          simp [map_t.subscript, map_t.store, List.filter_cons, hk, hk']
        · rw [hsome]
          simp [map_t.store, hk, hk']

/-- The index that `init_particle_mesh` builds: it returns when `y` is as long
as `x`, changes nothing else, and the bucket of every key `k` lists, in
increasing order, the particles whose key is `k`; a key is present when it was
present before or is the key of a particle. -/
theorem init_particle_mesh_spec (ps : particles_t) (hxy : ps.x.length ≤ ps.y.length) :
    ∃ ps', ps.init_particle_mesh = Except.ok ps' ∧
      ps'.x = ps.x ∧ ps'.y = ps.y ∧ ps'.iprops = ps.iprops ∧ ps'.dprops = ps.dprops ∧
      ps'.M = ps.M ∧ ps'.grid = ps.grid ∧
      ∀ k, ps'.grd_to_ptcl.subscript k
          = (index_range ps.x.length).filter (fun i => decide (ps.cell_key i = k)) ∧
        ((ps'.grd_to_ptcl k).isSome ↔
          ((ps.grd_to_ptcl k).isSome ∨ ∃ i ∈ index_range ps.x.length, ps.cell_key i = k)) := by
  obtain ⟨m', hok, hm'⟩ := init_particle_mesh_fold ps (index_range ps.x.length)
    (fun i hi => ⟨(mem_index_range hi).1, (mem_index_range hi).2,
      lt_of_lt_of_le (mem_index_range hi).2 hxy⟩)
    (fun k => (ps.grd_to_ptcl k).map (fun _ => []))
  refine ⟨{ ps with grd_to_ptcl := m' }, ?_, rfl, rfl, rfl, rfl, rfl, rfl, ?_⟩
  · unfold particles_t.init_particle_mesh
    simp only []
    rw [hok]
    rfl
  · intro k
    obtain ⟨hsub, hsome⟩ := hm' k
    constructor
    · rw [hsub]
      cases h : ps.grd_to_ptcl k <;> simp [map_t.subscript, h]
    · rw [hsome]
      cases h : ps.grd_to_ptcl k <;> simp [h]

theorem gt_sum_single (gp : grid_properties_t) (cell : cell_t) (hR : 1 ≤ gp.numrows)
    (f : Int → ℚ) (i : Int) (hi0 : 0 ≤ i) (hi : i ≤ 3) :
    (([0, 1, 2, 3] : List Int).map fun inode =>
      if cell.gt gp inode = cell.gt gp i then f inode else 0).sum = f i := by
  have hi4 : i = 0 ∨ i = 1 ∨ i = 2 ∨ i = 3 := by omega
  simp only [List.map_cons, List.map_nil, List.sum_cons, List.sum_nil]
  rcases hi4 with rfl | rfl | rfl | rfl <;>
    simp only [gt_zero, gt_one, gt_two, gt_three] <;>
    split_ifs <;> first | (exfalso; omega) | simp

theorem eq_of_entries (m : map_t String (List ℚ)) (name : String) (v target : List ℚ)
    (hv : m name = some v) (hlen : v.length = target.length)
    (h : ∀ n, n < target.length → entry m name n = target.getD n 0) : v = target := by
  apply List.ext_getElem hlen
  intro n h1 h2
  have e1 := entry_eq_getElem m name v n hv h1
  rw [List.getElem?_eq_getElem h1] at e1
  have e2 := h n h2
  rw [List.getD_eq_getElem?_getD, List.getElem?_eq_getElem h2] at e2
  simp only [Option.some.injEq, Option.getD_some] at e1 e2
  rw [e1, e2]

/-- C6: when the index holds exactly one particle `p`, bucketed in the valid
cell `(r, c)`, `p2g` with `apply_mass = false` and one (source, destination)
name pair returns and adds `shp (x_p, y_p, i) * attr[p]` to the destination
field at node `gt (i)` of that cell for `i = 0..3`, every other node
unchanged.  On the 2x2 grid with `hx = hy = 0.5`, the particle at
`(0.25, 0.25)` with attribute 2 and a zeroed field, each bilinear weight is
`0.25`, nodes 0, 1, 3, 4 receive `0.5` and nodes 2, 5, 6, 7, 8 stay 0. -/
theorem p2g_single_particle :
    (∀ (ps : particles_t) (g : quadgrid_t) (R C : Int) (hx hy : ℚ) (r c p : Int)
      (src dst : String) (vars : map_t String (List ℚ)) (attr field : List ℚ) (cell : cell_t),
      ps.grid = g.set_sizes R C hx hy →
      0 ≤ r → r < R → 0 ≤ c → c < C → cell.row_idx = r → cell.col_idx = c →
      ps.grd_to_ptcl.subscript (r + R * c) = [p] →
      (∀ k : Int, 0 ≤ k → k < R * C → k ≠ r + R * c → ps.grd_to_ptcl.subscript k = []) →
      0 ≤ p → p.toNat < ps.x.length → p.toNat < ps.y.length →
      ps.dprops src = some attr → p.toNat < attr.length →
      vars dst = some field → (R + 1) * (C + 1) ≤ (field.length : Int) →
      ∃ vars' field', ps.p2g vars [src] [dst] false = Except.ok vars' ∧
        vars' dst = some field' ∧ field'.length = field.length ∧
        (∀ i : Int, 0 ≤ i → i ≤ 3 →
          field'.getD (cell.gt ps.grid.grid_properties i).toNat 0
            = field.getD (cell.gt ps.grid.grid_properties i).toNat 0
              + cell.shp ps.grid.grid_properties (ps.x.getD p.toNat 0) (ps.y.getD p.toNat 0) i
                * attr.getD p.toNat 0) ∧
        (∀ n : Nat, (∀ i : Int, 0 ≤ i → i ≤ 3 → cell.gt ps.grid.grid_properties i ≠ n) →
          field'.getD n 0 = field.getD n 0)) ∧
    (∃ ps vars', scenario_particles.init_particle_mesh = Except.ok ps ∧
      ps.p2g scenario_fields ["mass"] ["rho"] false = Except.ok vars' ∧
      vars' "rho" = some [1 / 2, 1 / 2, 0, 1 / 2, 1 / 2, 0, 0, 0, 0] ∧
      ∀ i : Int, 0 ≤ i → i ≤ 3 →
        (sweep_cell 2 false 0).shp scenario_grid.grid_properties (1 / 4) (1 / 4) i = 1 / 4) := by
  constructor
  · intro ps g R C hx hy r c p src dst vars attr field cell hgrid hr0 hr hc0 hc hrow hcol
      hbucket hothers hp0 hpx hpy hattr hpa hfield hlen
    obtain ⟨vars', hok, hshape, hentry⟩ := p2g_single_sum ps g R C hx hy r c p src dst vars
      attr field cell hgrid hr0 hr hc0 hc hrow hcol hbucket hothers hp0 hpx hpy hattr hpa
      hfield hlen
    obtain ⟨field', hfield', hlen'⟩ := shape_some
      (show shape vars' dst = some field.length by rw [hshape]; simp [shape, hfield])
    have hrows : ps.grid.grid_properties.numrows = R := by rw [hgrid]; rfl
    have he' : ∀ n, entry vars' dst n = field'.getD n 0 := fun n => by
      simp [entry, map_t.subscript, hfield']
    have he : ∀ n, entry vars dst n = field.getD n 0 := fun n => by
      simp [entry, map_t.subscript, hfield]
    have hrow' : cell.rowidx = r := hrow
    have hcol' : cell.colidx = c := hcol
    refine ⟨vars', field', hok, hfield', hlen', ?_, ?_⟩
    · intro i hi0 hi
      obtain ⟨hgt0, _⟩ := gt_range ps.grid.grid_properties cell C
        (by omega) (by omega) (by omega) (by omega) i hi0 hi
      have h := hentry dst (cell.gt ps.grid.grid_properties i).toNat
      rw [he', he, Int.toNat_of_nonneg hgt0] at h
      rw [h]
      congr 1
      simp only [true_and]
      exact gt_sum_single ps.grid.grid_properties cell (by omega) _ i hi0 hi
    · intro n hn
      have h := hentry dst n
      rw [he', he] at h
      rw [h]
      simp [hn 0 (by decide) (by decide), hn 1 (by decide) (by decide),
        hn 2 (by decide) (by decide), hn 3 (by decide) (by decide)]
  · obtain ⟨ps, hinit, hx, hy, _, hd, _, hgrid, hidx⟩ :=
      init_particle_mesh_spec scenario_particles (le_refl _)
    have hkey : scenario_particles.cell_key 0 = 0 := by
      norm_num [particles_t.cell_key, scenario_particles, scenario_grid, quadgrid_t.sub2gind,
        quadgrid_t.set_sizes, quadgrid_t.hx, quadgrid_t.hy]
    have hrange : index_range scenario_particles.x.length = [0] := by decide
    have hsub : ∀ k : Int, ps.grd_to_ptcl.subscript k = if k = 0 then [0] else [] := by
      intro k
      rw [(hidx k).1, hrange]
      by_cases hk : k = 0
      · subst hk
        simp [List.filter_cons, hkey]
      · have hk' : ¬ (0 : Int) = k := fun e => hk e.symm
        simp [List.filter_cons, hkey, hk, hk']
    obtain ⟨vars', hok, hshape, hentry⟩ := p2g_single_sum ps (quadgrid_t.construct none 0 0 0 0)
      2 2 (1 / 2) (1 / 2) 0 0 0 "mass" "rho" scenario_fields [2] (List.replicate 9 0)
      (sweep_cell 2 false 0) (by rw [hgrid]; rfl) (by decide) (by decide) (by decide)
      (by decide) (by decide) (by decide) (by rw [hsub]; rfl)
      (by
        intro k _ _ hk
        rw [hsub]
        simp only [mul_zero, add_zero] at hk
        rw [if_neg hk])
      (by decide) (by rw [hx]; decide) (by rw [hy]; decide) (by rw [hd]; rfl) (by decide)
      rfl (by decide)
    obtain ⟨field', hfield', hlen'⟩ := shape_some
      (show shape vars' "rho" = some 9 by rw [hshape]; simp [shape, scenario_fields])
    have hshp : ∀ i : Int, 0 ≤ i → i ≤ 3 →
        (sweep_cell 2 false 0).shp scenario_grid.grid_properties (1 / 4) (1 / 4) i = 1 / 4 := by
      intro i hi0 hi
      have hi4 : i = 0 ∨ i = 1 ∨ i = 2 ∨ i = 3 := by omega
      rcases hi4 with rfl | rfl | rfl | rfl <;>
        norm_num [cell_t.shp, sweep_cell, scenario_grid, quadgrid_t.set_sizes, cell_t.col_idx,
          cell_t.row_idx]
    refine ⟨ps, vars', hinit, hok, ?_, hshp⟩
    rw [hfield']
    congr 1
    apply eq_of_entries vars' "rho" field' _ hfield' (by rw [hlen']; rfl)
    intro n hn
    have hgrid' : ps.grid = scenario_grid := hgrid
    rw [hentry "rho" n, hx, hy, hgrid']
    have h0 := hshp 0 (by decide) (by decide)
    have h1 := hshp 1 (by decide) (by decide)
    have h2 := hshp 2 (by decide) (by decide)
    have h3 := hshp 3 (by decide) (by decide)
    have hpos : scenario_particles.x.getD (0 : Int).toNat 0 = 1 / 4 := rfl
    have hpos' : scenario_particles.y.getD (0 : Int).toNat 0 = 1 / 4 := rfl
    have hzero : entry scenario_fields "rho" n = 0 := by
      simp only [entry, map_t.subscript, scenario_fields, if_true, Option.getD_some]
      rw [List.getD_eq_getElem?_getD, List.getElem?_replicate]
      split_ifs <;> rfl
    rw [hzero, hpos, hpos']
    simp only [List.map_cons, List.map_nil, List.sum_cons, List.sum_nil, h0, h1, h2, h3,
      true_and, zero_add, add_zero]
    have hgp : scenario_grid.grid_properties.numrows = 2 := rfl
    simp only [gt_zero, gt_one, gt_two, gt_three, hgp, sweep_cell]
    simp only [List.length_cons, List.length_nil] at hn
    interval_cases n <;> norm_num

theorem p2g_single_particle_witness :
    ∃ vars' field', scenario_indexed.p2g scenario_fields ["mass"] ["rho"] false
        = Except.ok vars' ∧
      vars' "rho" = some field' ∧ field'.length = (List.replicate 9 (0 : ℚ)).length ∧
      (∀ i : Int, 0 ≤ i → i ≤ 3 →
        field'.getD ((sweep_cell 2 false 0).gt scenario_indexed.grid.grid_properties i).toNat 0
          = (List.replicate 9 (0 : ℚ)).getD
              ((sweep_cell 2 false 0).gt scenario_indexed.grid.grid_properties i).toNat 0
            + (sweep_cell 2 false 0).shp scenario_indexed.grid.grid_properties
                (scenario_indexed.x.getD (0 : Int).toNat 0)
                (scenario_indexed.y.getD (0 : Int).toNat 0) i
              * ([2] : List ℚ).getD (0 : Int).toNat 0) ∧
      (∀ n : Nat,
        (∀ i : Int, 0 ≤ i → i ≤ 3 →
          (sweep_cell 2 false 0).gt scenario_indexed.grid.grid_properties i ≠ n) →
        field'.getD n 0 = (List.replicate 9 (0 : ℚ)).getD n 0) :=
  p2g_single_particle.1 scenario_indexed (quadgrid_t.construct none 0 0 0 0) 2 2 (1 / 2) (1 / 2)
    0 0 0 "mass" "rho" scenario_fields [2] (List.replicate 9 0) (sweep_cell 2 false 0)
    rfl (by decide) (by decide) (by decide) (by decide) (by decide) (by decide)
    (by decide)
    (by
      intro k _ _ hk
      simp only [mul_zero, add_zero] at hk
      simp [scenario_indexed, map_t.subscript, hk])
    (by decide) (by decide) (by decide) rfl (by decide) rfl (by decide)

/-! ## Grid-to-particle accumulation -/

theorem g2p_var_spec (ps : particles_t) (vars : map_t String (List ℚ))
    (gvarnames pvarnames : List String) (icell : cell_t) (idx inode : Int) (N : ℚ)
    (dprops : map_t String (List ℚ)) (ivar : Int)
    (gname pname : String) (gvar : List ℚ) (len : Nat)
    (hi : 0 ≤ ivar) (hg : gvarnames[ivar.toNat]? = some gname)
    (hv : vars gname = some gvar)
    (hgt0 : 0 ≤ icell.gt ps.grid.grid_properties inode)
    (hgt : (icell.gt ps.grid.grid_properties inode).toNat < gvar.length)
    (hp : pvarnames[ivar.toNat]? = some pname) (hsh : shape dprops pname = some len)
    (hidx0 : 0 ≤ idx) (hidx : idx.toNat < len) :
    ∃ dprops', ps.g2p_var vars gvarnames pvarnames icell idx inode N dprops ivar
        = Except.ok dprops' ∧
      shape dprops' = shape dprops ∧
      ∀ name p, entry dprops' name p = entry dprops name p +
        (if pname = name ∧ idx = p then
          N * entry vars gname (icell.gt ps.grid.grid_properties inode).toNat else 0) := by
  obtain ⟨pv, hpv, hlen⟩ := shape_some hsh
  have hidx' : idx.toNat < pv.length := by omega
  obtain ⟨hshape, hentry⟩ := store_set_spec dprops pname pv idx.toNat
    (entry dprops pname idx.toNat
      + N * entry vars gname (icell.gt ps.grid.grid_properties inode).toNat) hpv hidx'
  refine ⟨_, ?_, hshape, ?_⟩
  · unfold particles_t.g2p_var particles_t.getkey
    rw [vec_at_ok gvarnames ivar gname hi hg]
    simp only [except_bind_ok, map_t.at, hv]
    rw [vec_at_ok gvar _ _ hgt0 (entry_eq_getElem vars gname gvar _ hv hgt)]
    simp only [except_bind_ok]
    rw [vec_at_ok pvarnames ivar pname hi hp]
    simp only [except_bind_ok, hpv]
    rw [vec_at_ok pv idx _ hidx0 (entry_eq_getElem dprops pname pv idx.toNat hpv hidx')]
    simp only [except_bind_ok]
    rw [vec_assign_ok pv _ _ hidx0 hidx']
    rfl
  · intro name p
    rw [hentry name p]
    by_cases h1 : name = pname
    · subst h1
      by_cases h2 : p = idx.toNat
      · subst h2
        simp [Int.toNat_of_nonneg hidx0]
      · have h3 : ¬ idx = (p : Int) := by
          intro e
          apply h2
          rw [e]
          simp
        simp [h2, h3]
    · have h1' : ¬ pname = name := fun e => h1 e.symm
      simp [h1, h1']

theorem g2p_node_spec (ps : particles_t) (sh : String → Option Nat)
    (vars : map_t String (List ℚ)) (gvarnames pvarnames : List String) (apply_mass : Bool)
    (icell : cell_t) (idx : Int)
    (hready : g2p_ready ps sh vars gvarnames pvarnames apply_mass icell idx)
    (inode : Int) (hinode : inode ∈ index_range 4)
    (dprops : map_t String (List ℚ)) (hdprops : shape dprops = sh) :
    ∃ dprops', ps.g2p_node vars gvarnames pvarnames apply_mass icell idx
        (ps.x.getD idx.toNat 0) (ps.y.getD idx.toNat 0) dprops inode = Except.ok dprops' ∧
      shape dprops' = sh ∧
      ∀ k : String × Nat, entry dprops' k.1 k.2 = entry dprops k.1 k.2 +
        ((index_range gvarnames.length).map fun ivar =>
          g2p_term ps vars gvarnames pvarnames apply_mass icell idx inode ivar k.1 k.2).sum := by
  obtain ⟨hidx0, _, _, hnodes⟩ := hready
  obtain ⟨hmass, hnames⟩ := hnodes inode hinode
  have hN : ps.g2p_N apply_mass icell (ps.x.getD idx.toNat 0) (ps.y.getD idx.toNat 0) inode
      = Except.ok (g2p_weight ps apply_mass icell idx inode) := by
    unfold g2p_weight particles_t.g2p_N
    cases apply_mass with
    | false => rfl
    | true =>
      obtain ⟨h0, h1⟩ := hmass rfl
      simp only [if_true]
      rw [vec_at_getD ps.M _ h0 h1]
      rfl
  unfold particles_t.g2p_node
  rw [hN]
  simp only [except_bind_ok]
  apply foldlM_additive (fun s => shape s = sh) (fun s (k : String × Nat) => entry s k.1 k.2)
  · intro ivar hivar s hs
    obtain ⟨hi0, hi⟩ := mem_index_range hivar
    obtain ⟨gname, gvar, pname, len, hg, hv, hgt0, hgt, hp, hsh, hlen⟩ := hnames ivar.toNat hi
    obtain ⟨s', hok, hshape, hentry⟩ := g2p_var_spec ps vars gvarnames pvarnames icell idx
      inode (g2p_weight ps apply_mass icell idx inode) s ivar gname pname gvar len hi0 hg hv
      hgt0 hgt hp (by rw [hs]; exact hsh) hidx0 hlen
    refine ⟨s', hok, by rw [hshape, hs], ?_⟩
    intro k
    rw [hentry k.1 k.2]
    unfold g2p_term
    rw [getD_of_getElem? gvarnames ivar.toNat _ "" hg,
      getD_of_getElem? pvarnames ivar.toNat _ "" hp]
  · exact hdprops

theorem g2p_particle_spec (ps : particles_t) (sh : String → Option Nat)
    (vars : map_t String (List ℚ)) (gvarnames pvarnames : List String) (apply_mass : Bool)
    (icell : cell_t) (idx : Int)
    (hready : g2p_ready ps sh vars gvarnames pvarnames apply_mass icell idx)
    (dprops : map_t String (List ℚ)) (hdprops : shape dprops = sh) :
    ∃ dprops', ps.g2p_particle vars gvarnames pvarnames apply_mass icell dprops idx
        = Except.ok dprops' ∧
      shape dprops' = sh ∧
      ∀ k : String × Nat, entry dprops' k.1 k.2 = entry dprops k.1 k.2 +
        ((index_range 4).map fun inode =>
          ((index_range gvarnames.length).map fun ivar =>
            g2p_term ps vars gvarnames pvarnames apply_mass icell idx inode ivar k.1 k.2).sum
          ).sum := by
  unfold particles_t.g2p_particle
  rw [vec_at_getD ps.x idx hready.1 hready.2.1, vec_at_getD ps.y idx hready.1 hready.2.2.1]
  simp only [except_bind_ok]
  apply foldlM_additive (fun s => shape s = sh) (fun s (k : String × Nat) => entry s k.1 k.2)
  · intro inode hinode s hs
    exact g2p_node_spec ps sh vars gvarnames pvarnames apply_mass icell idx hready inode
      hinode s hs
  · exact hdprops

theorem g2p_cell_spec (ps : particles_t) (sh : String → Option Nat)
    (vars : map_t String (List ℚ)) (gvarnames pvarnames : List String) (apply_mass : Bool)
    (icell : cell_t)
    (hready : ∀ idx ∈ ps.grd_to_ptcl.subscript icell.get_global_cell_idx,
      g2p_ready ps sh vars gvarnames pvarnames apply_mass icell idx)
    (dprops : map_t String (List ℚ)) (hdprops : shape dprops = sh) :
    ∃ dprops', ps.g2p_cell vars gvarnames pvarnames apply_mass dprops icell
        = Except.ok dprops' ∧
      shape dprops' = sh ∧
      ∀ k : String × Nat, entry dprops' k.1 k.2 = entry dprops k.1 k.2 +
        ((ps.grd_to_ptcl.subscript icell.get_global_cell_idx).map fun idx =>
          ((index_range 4).map fun inode =>
            ((index_range gvarnames.length).map fun ivar =>
              g2p_term ps vars gvarnames pvarnames apply_mass icell idx inode ivar k.1 k.2).sum
            ).sum).sum := by
  unfold particles_t.g2p_cell
  cases hb : ps.grd_to_ptcl icell.get_global_cell_idx with
  | none =>
    refine ⟨dprops, ?_, hdprops, ?_⟩
    · simp [map_t.count, hb, except_pure]
    · intro k
      simp [map_t.subscript, hb]
  | some bucket =>
    have hsub : ps.grd_to_ptcl.subscript icell.get_global_cell_idx = bucket := by
      simp [map_t.subscript, hb]
    rw [hsub] at hready ⊢
    simp only [map_t.count, hb, Option.isSome_some, if_true, map_t.at, except_bind_ok]
    rw [if_pos (by decide)]
    apply foldlM_additive (fun s => shape s = sh) (fun s (k : String × Nat) => entry s k.1 k.2)
    · intro idx hidx s hs
      exact g2p_particle_spec ps sh vars gvarnames pvarnames apply_mass icell idx
        (hready idx hidx) s hs
    · exact hdprops

/-- The transfer `g2p` returns, changes only `dprops`, keeps the lengths of the
attributes and adds `g2p_sum` to every entry, when every bucket entry of every
swept cell is ready. -/
theorem g2p_accumulate (ps : particles_t) (cells : List cell_t)
    (vars : map_t String (List ℚ)) (gvarnames pvarnames : List String) (apply_mass : Bool)
    (hcells : ps.grid.cell_sweep = some cells)
    (hready : ∀ icell ∈ cells, ∀ idx ∈ ps.grd_to_ptcl.subscript icell.get_global_cell_idx,
      g2p_ready ps (shape ps.dprops) vars gvarnames pvarnames apply_mass icell idx) :
    ∃ ps', ps.g2p vars gvarnames pvarnames apply_mass = Except.ok ps' ∧
      ps'.x = ps.x ∧ ps'.y = ps.y ∧ ps'.iprops = ps.iprops ∧ ps'.M = ps.M ∧
      ps'.grd_to_ptcl = ps.grd_to_ptcl ∧ ps'.grid = ps.grid ∧
      shape ps'.dprops = shape ps.dprops ∧
      ∀ name p, entry ps'.dprops name p
        = entry ps.dprops name p
          + g2p_sum ps cells vars gvarnames pvarnames apply_mass name p := by
  obtain ⟨dprops', hok, hshape, hentry⟩ :=
    foldlM_additive (fun s => shape s = shape ps.dprops)
      (fun s (k : String × Nat) => entry s k.1 k.2)
      (ps.g2p_cell vars gvarnames pvarnames apply_mass)
      (fun icell (k : String × Nat) =>
        ((ps.grd_to_ptcl.subscript icell.get_global_cell_idx).map fun idx =>
          ((index_range 4).map fun inode =>
            ((index_range gvarnames.length).map fun ivar =>
              g2p_term ps vars gvarnames pvarnames apply_mass icell idx inode ivar k.1 k.2).sum
            ).sum).sum)
      cells
      (fun icell hicell s hs =>
        g2p_cell_spec ps (shape ps.dprops) vars gvarnames pvarnames apply_mass icell
          (hready icell hicell) s hs)
      ps.dprops rfl
  refine ⟨{ ps with dprops := dprops' }, ?_, rfl, rfl, rfl, rfl, rfl, rfl, hshape,
    fun name p => hentry (name, p)⟩
  unfold particles_t.g2p particles_t.sweep
  rw [hcells]
  simp only [except_bind_ok]
  rw [hok]
  rfl

/-! ## Transfers on a sized particle set -/

theorem swept_cell_facts (ps : particles_t) (g : quadgrid_t) (R C : Int) (hx hy : ℚ)
    (hR : 1 ≤ R) (hgrid : ps.grid = g.set_sizes R C hx hy) (icell : cell_t)
    (hicell : icell ∈ (List.range (R * C).toNat).map (sweep_cell R g.current_cell.is_ghost)) :
    0 ≤ icell.get_global_cell_idx ∧ icell.get_global_cell_idx < R * C ∧
    ∀ inode ∈ index_range 4, 0 ≤ icell.gt ps.grid.grid_properties inode ∧
      icell.gt ps.grid.grid_properties inode < (R + 1) * (C + 1) := by
  simp only [List.mem_map, List.mem_range] at hicell
  obtain ⟨k, hk, rfl⟩ := hicell
  have hrows : ps.grid.grid_properties.numrows = R := by rw [hgrid]; rfl
  obtain ⟨hr0, hr, hc0, hc⟩ := sweep_cell_range R C g.current_cell.is_ghost k hR hk
  refine ⟨Int.ofNat_nonneg k, ?_, ?_⟩
  · show (k : Int) < R * C
    omega
  · intro inode hinode
    obtain ⟨hi0, hi⟩ := mem_index_range hinode
    have := gt_range ps.grid.grid_properties (sweep_cell R g.current_cell.is_ghost k) C
      hr0 (by rw [hrows]; exact hr) hc0 hc inode hi0 (by omega)
    rw [hrows] at this
    exact this

theorem transfer_ready_p2g (ps : particles_t) (g : quadgrid_t) (R C : Int) (hx hy : ℚ)
    (hR : 1 ≤ R) (hgrid : ps.grid = g.set_sizes R C hx hy)
    (vars : map_t String (List ℚ)) (gvarnames pvarnames : List String)
    (hready : transfer_ready ps R C vars gvarnames pvarnames) :
    ∀ icell ∈ (List.range (R * C).toNat).map (sweep_cell R g.current_cell.is_ghost),
      ∀ idx ∈ ps.grd_to_ptcl.subscript icell.get_global_cell_idx,
        p2g_ready ps (shape vars) pvarnames gvarnames icell idx := by
  intro icell hicell idx hidx
  obtain ⟨hy', _, hb, hf, ha⟩ := hready
  obtain ⟨hk0, hk, hgt⟩ := swept_cell_facts ps g R C hx hy hR hgrid icell hicell
  obtain ⟨hidx0, hidxx⟩ := hb _ hk0 hk idx hidx
  refine ⟨hidx0, hidxx, by omega, ?_, ?_⟩
  · intro ivar hivar
    obtain ⟨pname, a, hp, hd, hlen⟩ := ha ivar hivar
    exact ⟨pname, a, hp, hd, by omega⟩
  · intro inode hinode gname hgname
    obtain ⟨f, hfv, hflen⟩ := hf gname hgname
    obtain ⟨h0, h1⟩ := hgt inode hinode
    exact ⟨f.length, by simp [shape, hfv], h0, by omega⟩

theorem transfer_ready_g2p (ps : particles_t) (g : quadgrid_t) (R C : Int) (hx hy : ℚ)
    (hR : 1 ≤ R) (hgrid : ps.grid = g.set_sizes R C hx hy)
    (vars : map_t String (List ℚ)) (gvarnames pvarnames : List String) (apply_mass : Bool)
    (hready : transfer_ready ps R C vars gvarnames pvarnames) :
    ∀ icell ∈ (List.range (R * C).toNat).map (sweep_cell R g.current_cell.is_ghost),
      ∀ idx ∈ ps.grd_to_ptcl.subscript icell.get_global_cell_idx,
        g2p_ready ps (shape ps.dprops) vars gvarnames pvarnames apply_mass icell idx := by
  intro icell hicell idx hidx
  obtain ⟨hy', hM, hb, hf, ha⟩ := hready
  obtain ⟨hk0, hk, hgt⟩ := swept_cell_facts ps g R C hx hy hR hgrid icell hicell
  obtain ⟨hidx0, hidxx⟩ := hb _ hk0 hk idx hidx
  refine ⟨hidx0, hidxx, by omega, ?_⟩
  intro inode hinode
  obtain ⟨h0, h1⟩ := hgt inode hinode
  refine ⟨fun _ => ⟨h0, by omega⟩, ?_⟩
  intro ivar hivar
  obtain ⟨pname, a, hp, hd, hlen⟩ := ha ivar hivar
  obtain ⟨f, hfv, hflen⟩ := hf _ (List.getElem_mem hivar)
  exact ⟨_, f, pname, a.length, List.getElem?_eq_getElem hivar, hfv, h0, by omega, hp,
    by simp [shape, hd], by omega⟩

theorem sum_map_count_one {α : Type} [DecidableEq α] (l : List α) (a0 : α) (f : α → ℚ)
    (hcount : l.count a0 = 1) (h0 : ∀ a ∈ l, a ≠ a0 → f a = 0) : (l.map f).sum = f a0 := by
  induction l with
  | nil => simp at hcount
  | cons b l ih =>
    rw [List.map_cons, List.sum_cons]
    by_cases hb : b = a0
    · subst hb
      rw [List.count_cons_self] at hcount
      have hnot : b ∉ l := by
        rw [← List.count_eq_zero]
        omega
      rw [sum_map_eq_zero l f
        (fun a ha => h0 a (List.mem_cons_of_mem _ ha) (fun e => hnot (e ▸ ha))), add_zero]
    · rw [List.count_cons_of_ne (fun e => hb e.symm)] at hcount
      rw [h0 b (List.mem_cons_self _ _) hb, zero_add]
      exact ih hcount (fun a ha => h0 a (List.mem_cons_of_mem _ ha))

theorem index_range_nodup (n : Nat) : (index_range n).Nodup := by
  unfold index_range
  exact (List.nodup_range n).map (fun a b h => by simpa using h)

theorem mem_index_range_of_lt (n j : Nat) (h : j < n) : (j : Int) ∈ index_range n := by
  unfold index_range
  exact List.mem_map.mpr ⟨j, List.mem_range.mpr h, rfl⟩

/-- For a particle `p` that the buckets of the valid cells list exactly once, in
the bucket of cell `(r, c)`, and a destination name that only the name pair
number `j` has, `g2p_sum` is the sum over the 4 nodes of that cell of the
weight times the entry of the source field of pair `j`. -/
theorem g2p_sum_single (ps : particles_t) (R C : Int) (b : Bool) (r c p : Int)
    (vars : map_t String (List ℚ)) (gvarnames pvarnames : List String) (apply_mass : Bool)
    (j : Nat) (gsrc pdst : String)
    (hr0 : 0 ≤ r) (hr : r < R) (hc0 : 0 ≤ c) (hc : c < C) (hp0 : 0 ≤ p)
    (hcount : (ps.grd_to_ptcl.subscript (r + R * c)).count p = 1)
    (hothers : ∀ k : Int, 0 ≤ k → k < R * C → k ≠ r + R * c →
      p ∉ ps.grd_to_ptcl.subscript k)
    (hj : j < gvarnames.length)
    (hg : gvarnames[j]? = some gsrc) (hp : pvarnames[j]? = some pdst)
    (hnames : ∀ i : Nat, i < gvarnames.length → ∃ pname, pvarnames[i]? = some pname)
    (huniq : ∀ i : Nat, i < gvarnames.length → pvarnames[i]? = some pdst → i = j) :
    g2p_sum ps ((List.range (R * C).toNat).map (sweep_cell R b)) vars gvarnames pvarnames
        apply_mass pdst p.toNat
      = ((index_range 4).map fun inode =>
          g2p_weight ps apply_mass (sweep_cell R b (r + R * c).toNat) p inode
            * entry vars gsrc
                ((sweep_cell R b (r + R * c).toNat).gt ps.grid.grid_properties inode).toNat
          ).sum := by
  obtain ⟨hk0, hcast, _, _⟩ := sweep_cell_of_sub R C r c b hr0 hr hc0 hc
  have hglobal : ∀ k : Nat, (sweep_cell R b k).get_global_cell_idx = (k : Int) := fun _ => rfl
  have hpcast : ((p.toNat : Nat) : Int) = p := Int.toNat_of_nonneg hp0
  have hzero : ∀ (icell : cell_t) (idx : Int), idx ≠ p →
      ((index_range 4).map fun inode =>
        ((index_range gvarnames.length).map fun ivar =>
          g2p_term ps vars gvarnames pvarnames apply_mass icell idx inode ivar pdst
            p.toNat).sum).sum = 0 := by
    intro icell idx hne
    apply sum_map_eq_zero
    intro inode _
    apply sum_map_eq_zero
    intro ivar _
    unfold g2p_term
    rw [hpcast, if_neg (fun h => hne h.2)]
  unfold g2p_sum
  rw [List.map_map]
  rw [sum_map_eq_single (List.range (R * C).toNat) (r + R * c).toNat _
    (List.nodup_range _) (List.mem_range.mpr hk0) (by
      intro k hk hne
      simp only [Function.comp_apply, hglobal k]
      apply sum_map_eq_zero
      intro idx hidx
      apply hzero
      intro e
      subst e
      exact hothers k (Int.ofNat_nonneg k) (by have := List.mem_range.mp hk; omega)
        (by omega) hidx)]
  simp only [Function.comp_apply, hglobal, hcast]
  rw [sum_map_count_one _ p _ hcount (fun idx _ hne => hzero _ idx hne)]
  congr 1
  apply List.map_congr_left
  intro inode _
  rw [sum_map_eq_single (index_range gvarnames.length) (j : Int) _
    (index_range_nodup _) (mem_index_range_of_lt _ _ hj) (by
      intro ivar hivar hne
      obtain ⟨hi0, hi⟩ := mem_index_range hivar
      obtain ⟨pname, hpname⟩ := hnames ivar.toNat hi
      unfold g2p_term
      rw [getD_of_getElem? pvarnames ivar.toNat pname "" hpname, if_neg]
      rintro ⟨e, _⟩
      subst e
      have := huniq ivar.toNat hi hpname
      omega)]
  unfold g2p_term
  simp only [Int.toNat_ofNat]
  rw [getD_of_getElem? pvarnames j pdst "" hp, getD_of_getElem? gvarnames j gsrc "" hg,
    if_pos ⟨rfl, hpcast.symm⟩]

theorem centre_particles_ready (gvarnames pvarnames : List String)
    (hg : ∀ gname ∈ gvarnames, gname = "f" ∨ gname = "h")
    (hp : ∀ ivar : Nat, ivar < gvarnames.length →
      ∃ pname, pvarnames[ivar]? = some pname ∧ (pname = "a" ∨ pname = "b")) :
    transfer_ready centre_particles 1 1 unit_fields gvarnames pvarnames := by
  refine ⟨rfl, by decide, ?_, ?_, ?_⟩
  · intro k _ _ idx hidx
    by_cases hk : k = 0
    · subst hk
      simp only [centre_particles, map_t.subscript, if_true, Option.getD_some,
        List.mem_singleton] at hidx
      subst hidx
      exact ⟨le_refl _, by decide⟩
    · simp [centre_particles, map_t.subscript, hk] at hidx
  · intro gname hgname
    refine ⟨[1, 1, 1, 1], ?_, by decide⟩
    simp [unit_fields, hg gname hgname]
  · intro ivar hivar
    obtain ⟨pname, hpname, hab⟩ := hp ivar hivar
    refine ⟨pname, [0], hpname, ?_, rfl⟩
    simp [centre_particles, hab]

/-- C8 (amended): for a particle `p` that the buckets of the valid cells list
exactly once, in the bucket of the cell `(r, c)`, and a name pair (grid source,
particle destination) whose destination name occurs once among the pairs,
`g2p` on a sized particle set returns and leaves `attr_dst[p]` equal to its
value before the call plus the sum over `i = 0..3` of
`shp (x_p, y_p, i) * field[gt (i)]` without `apply_mass` and of
`shp (x_p, y_p, i) * field[gt (i)] * M[gt (i)]` with it. -/
theorem g2p_increment (ps : particles_t) (g : quadgrid_t) (R C : Int) (hx hy : ℚ)
    (r c p : Int) (vars : map_t String (List ℚ)) (gvarnames pvarnames : List String)
    (apply_mass : Bool) (j : Nat) (gsrc pdst : String) (field attr : List ℚ) (cell : cell_t)
    (hgrid : ps.grid = g.set_sizes R C hx hy)
    (hready : transfer_ready ps R C vars gvarnames pvarnames)
    (hr0 : 0 ≤ r) (hr : r < R) (hc0 : 0 ≤ c) (hc : c < C)
    (hrow : cell.row_idx = r) (hcol : cell.col_idx = c)
    (hcount : (ps.grd_to_ptcl.subscript (r + R * c)).count p = 1)
    (hothers : ∀ k : Int, 0 ≤ k → k < R * C → k ≠ r + R * c →
      p ∉ ps.grd_to_ptcl.subscript k)
    (hj : j < gvarnames.length)
    (hg : gvarnames[j]? = some gsrc) (hp : pvarnames[j]? = some pdst)
    (huniq : ∀ i : Nat, i < gvarnames.length → pvarnames[i]? = some pdst → i = j)
    (hfield : vars gsrc = some field) (hattr : ps.dprops pdst = some attr) :
    ∃ ps' attr', ps.g2p vars gvarnames pvarnames apply_mass = Except.ok ps' ∧
      ps'.dprops pdst = some attr' ∧ attr'.length = attr.length ∧
      attr'.getD p.toNat 0 = attr.getD p.toNat 0 +
        (([0, 1, 2, 3] : List Int).map fun i =>
          if apply_mass = true then
            cell.shp ps.grid.grid_properties (ps.x.getD p.toNat 0) (ps.y.getD p.toNat 0) i
              * field.getD (cell.gt ps.grid.grid_properties i).toNat 0
              * ps.M.getD (cell.gt ps.grid.grid_properties i).toNat 0
          else
            cell.shp ps.grid.grid_properties (ps.x.getD p.toNat 0) (ps.y.getD p.toNat 0) i
              * field.getD (cell.gt ps.grid.grid_properties i).toNat 0).sum := by
  have hR : 1 ≤ R := by omega
  have hC : 1 ≤ C := by omega
  have hcells := cell_sweep_set_sizes g R C hx hy hR hC
  rw [← hgrid] at hcells
  obtain ⟨ps', hok, _, _, _, _, _, _, hshape, hentry⟩ := g2p_accumulate ps _ vars gvarnames
    pvarnames apply_mass hcells
    (transfer_ready_g2p ps g R C hx hy hR hgrid vars gvarnames pvarnames apply_mass hready)
  obtain ⟨attr', hattr', hlen'⟩ := shape_some
    (show shape ps'.dprops pdst = some attr.length by rw [hshape]; simp [shape, hattr])
  obtain ⟨_, _, hrow0, hcol0⟩ :=
    sweep_cell_of_sub R C r c g.current_cell.is_ghost hr0 hr hc0 hc
  have hmem : p ∈ ps.grd_to_ptcl.subscript (r + R * c) := by
    rw [← List.count_pos_iff]
    omega
  have hp0 : 0 ≤ p :=
    (hready.2.2.1 (r + R * c) (by nlinarith) (by nlinarith) p hmem).1
  refine ⟨ps', attr', hok, hattr', hlen', ?_⟩
  have h := hentry pdst p.toNat
  rw [g2p_sum_single ps R C g.current_cell.is_ghost r c p vars gvarnames pvarnames apply_mass
    j gsrc pdst hr0 hr hc0 hc hp0 hcount hothers hj hg hp
    (fun i hi => by
      obtain ⟨pname, _, hpn, _⟩ := hready.2.2.2.2 i hi
      exact ⟨pname, hpn⟩)
    huniq] at h
  have he' : entry ps'.dprops pdst p.toNat = attr'.getD p.toNat 0 := by
    simp [entry, map_t.subscript, hattr']
  have he : entry ps.dprops pdst p.toNat = attr.getD p.toNat 0 := by
    simp [entry, map_t.subscript, hattr]
  have hf : ∀ n, entry vars gsrc n = field.getD n 0 := fun n => by
    simp [entry, map_t.subscript, hfield]
  have hgt : ∀ i, (sweep_cell R g.current_cell.is_ghost (r + R * c).toNat).gt
      ps.grid.grid_properties i = cell.gt ps.grid.grid_properties i :=
    fun i => gt_congr _ _ _ (by rw [hrow0]; exact hrow.symm) (by rw [hcol0]; exact hcol.symm) i
  have hshp : ∀ x y i, (sweep_cell R g.current_cell.is_ghost (r + R * c).toNat).shp
      ps.grid.grid_properties x y i = cell.shp ps.grid.grid_properties x y i :=
    fun x y i =>
      shp_congr _ _ _ (by rw [hrow0]; exact hrow.symm) (by rw [hcol0]; exact hcol.symm) x y i
  rw [he', he] at h
  rw [h, index_range_four]
  congr 1
  refine congrArg List.sum (List.map_congr_left ?_)
  intro i _
  unfold g2p_weight
  rw [hf, hgt, hshp]
  cases apply_mass with
  | false => simp
  | true =>
    simp only [if_true]
    ring

theorem g2p_increment_witness :
    ∃ ps' attr', centre_particles.g2p unit_fields ["f"] ["a"] true = Except.ok ps' ∧
      ps'.dprops "a" = some attr' ∧ attr'.length = ([0] : List ℚ).length ∧
      attr'.getD (0 : Int).toNat 0 = ([0] : List ℚ).getD (0 : Int).toNat 0 +
        (([0, 1, 2, 3] : List Int).map fun i =>
          if true = true then
            (sweep_cell 1 false 0).shp centre_particles.grid.grid_properties
                (centre_particles.x.getD (0 : Int).toNat 0)
                (centre_particles.y.getD (0 : Int).toNat 0) i
              * ([1, 1, 1, 1] : List ℚ).getD
                  ((sweep_cell 1 false 0).gt centre_particles.grid.grid_properties i).toNat 0
              * centre_particles.M.getD
                  ((sweep_cell 1 false 0).gt centre_particles.grid.grid_properties i).toNat 0
          else
            (sweep_cell 1 false 0).shp centre_particles.grid.grid_properties
                (centre_particles.x.getD (0 : Int).toNat 0)
                (centre_particles.y.getD (0 : Int).toNat 0) i
              * ([1, 1, 1, 1] : List ℚ).getD
                  ((sweep_cell 1 false 0).gt centre_particles.grid.grid_properties i).toNat
                  0).sum :=
  g2p_increment centre_particles (quadgrid_t.construct none 0 0 0 0) 1 1 1 1 0 0 0
    unit_fields ["f"] ["a"] true 0 "f" "a" [1, 1, 1, 1] [0] (sweep_cell 1 false 0) rfl
    (centre_particles_ready ["f"] ["a"] (by simp)
      (by
        intro ivar hivar
        simp only [List.length_singleton, Nat.lt_one_iff] at hivar
        subst hivar
        exact ⟨"a", rfl, Or.inl rfl⟩))
    (by decide) (by decide) (by decide) (by decide) (by decide) (by decide) (by decide)
    (by
      intro k _ _ hk
      simp only [mul_zero, add_zero] at hk
      simp [centre_particles, map_t.subscript, hk])
    (by decide) rfl rfl
    (by
      intro i hi _
      simpa using hi)
    rfl rfl

/-- C8, counterexample: on the 1x1 grid with the particle 0 at the centre of the
cell, the fields `f` and `h` equal to 1 and the destination `a` named by both
pairs (`f`, `a`) and (`h`, `a`), `g2p` leaves `a[0] = 2`, and not the value
`0 + sum of shp * f[gt (i)] = 1` that the claim gives for the pair (`f`, `a`). -/
theorem g2p_repeated_destination :
    ∃ ps', centre_particles.g2p unit_fields ["f", "h"] ["a", "a"] false = Except.ok ps' ∧
      entry ps'.dprops "a" 0 = 2 ∧
      entry centre_particles.dprops "a" 0 +
        (([0, 1, 2, 3] : List Int).map fun i =>
          (sweep_cell 1 false 0).shp centre_particles.grid.grid_properties
              (centre_particles.x.getD 0 0) (centre_particles.y.getD 0 0) i
            * entry unit_fields "f"
                ((sweep_cell 1 false 0).gt centre_particles.grid.grid_properties i).toNat).sum
        = 1 ∧
      entry ps'.dprops "a" 0 ≠
        entry centre_particles.dprops "a" 0 +
          (([0, 1, 2, 3] : List Int).map fun i =>
            (sweep_cell 1 false 0).shp centre_particles.grid.grid_properties
                (centre_particles.x.getD 0 0) (centre_particles.y.getD 0 0) i
              * entry unit_fields "f"
                  ((sweep_cell 1 false 0).gt centre_particles.grid.grid_properties i).toNat
            ).sum := by
  have hcells : centre_particles.grid.cell_sweep = some [sweep_cell 1 false 0] := by decide
  have hready := centre_particles_ready ["f", "h"] ["a", "a"] (by simp)
    (by
      intro ivar hivar
      simp only [List.length_cons, List.length_nil] at hivar
      interval_cases ivar
      · exact ⟨"a", rfl, Or.inl rfl⟩
      · exact ⟨"a", rfl, Or.inl rfl⟩)
  obtain ⟨ps', hok, _, _, _, _, _, _, _, hentry⟩ := g2p_accumulate centre_particles
    [sweep_cell 1 false 0] unit_fields ["f", "h"] ["a", "a"] false hcells
    (transfer_ready_g2p centre_particles (quadgrid_t.construct none 0 0 0 0) 1 1 1 1
      (by decide) rfl unit_fields ["f", "h"] ["a", "a"] false hready)
  have hg0 : (sweep_cell 1 false 0).gt centre_particles.grid.grid_properties 0 = 0 := by
    decide
  have hg1 : (sweep_cell 1 false 0).gt centre_particles.grid.grid_properties 1 = 1 := by
    decide
  have hg2 : (sweep_cell 1 false 0).gt centre_particles.grid.grid_properties 2 = 2 := by
    decide
  have hg3 : (sweep_cell 1 false 0).gt centre_particles.grid.grid_properties 3 = 3 := by
    decide
  have hshp : ∀ i : Int, 0 ≤ i → i ≤ 3 →
      (sweep_cell 1 false 0).shp centre_particles.grid.grid_properties (1 / 2) (1 / 2) i
        = 1 / 4 := by
    intro i hi0 hi
    have hi4 : i = 0 ∨ i = 1 ∨ i = 2 ∨ i = 3 := by omega
    rcases hi4 with rfl | rfl | rfl | rfl <;>
      norm_num [cell_t.shp, sweep_cell, centre_particles, quadgrid_t.set_sizes, cell_t.col_idx,
        cell_t.row_idx]
  have t0 : Int.toNat 0 = 0 := rfl
  have t1 : Int.toNat 1 = 1 := rfl
  have t2 : Int.toNat 2 = 2 := rfl
  have t3 : Int.toNat 3 = 3 := rfl
  have n0 : (["a", "a"] : List String).getD 0 "" = "a" := rfl
  have n1 : (["a", "a"] : List String).getD 1 "" = "a" := rfl
  have n2 : (["f", "h"] : List String).getD 0 "" = "f" := rfl
  have n3 : (["f", "h"] : List String).getD 1 "" = "h" := rfl
  have hx0 : centre_particles.x.getD 0 0 = 1 / 2 := rfl
  have hy0 : centre_particles.y.getD 0 0 = 1 / 2 := rfl
  have hf : ∀ n : Nat, n < 4 → entry unit_fields "f" n = 1 := by
    intro n hn
    interval_cases n <;> rfl
  have hh : ∀ n : Nat, n < 4 → entry unit_fields "h" n = 1 := by
    intro n hn
    interval_cases n <;> rfl
  have ha : entry centre_particles.dprops "a" 0 = 0 := rfl
  have hactual : entry ps'.dprops "a" 0 = 2 := by
    rw [hentry "a" 0]
    simp only [g2p_sum, List.map_cons, List.map_nil, List.sum_cons, List.sum_nil]
    have hb : centre_particles.grd_to_ptcl.subscript
        (sweep_cell 1 false 0).get_global_cell_idx = [0] := by decide
    have hr : index_range ["f", "h"].length = [0, 1] := by decide
    rw [hb, hr, index_range_four]
    simp only [List.map_cons, List.map_nil, List.sum_cons, List.sum_nil, g2p_term, g2p_weight,
      hg0, hg1, hg2, hg3, t0, t1, t2, t3, hx0, hy0,
      hshp 0 (by decide) (by decide), hshp 1 (by decide) (by decide),
      hshp 2 (by decide) (by decide), hshp 3 (by decide) (by decide),
      n0, n1, n2, n3,
      hf 0 (by decide), hf 1 (by decide), hf 2 (by decide), hf 3 (by decide),
      hh 0 (by decide), hh 1 (by decide), hh 2 (by decide), hh 3 (by decide), ha]
    norm_num
  have hclaimed : entry centre_particles.dprops "a" 0 +
        (([0, 1, 2, 3] : List Int).map fun i =>
          (sweep_cell 1 false 0).shp centre_particles.grid.grid_properties
              (centre_particles.x.getD 0 0) (centre_particles.y.getD 0 0) i
            * entry unit_fields "f"
                ((sweep_cell 1 false 0).gt centre_particles.grid.grid_properties i).toNat).sum
        = 1 := by
    simp only [List.map_cons, List.map_nil, List.sum_cons, List.sum_nil,
      hg0, hg1, hg2, hg3, t0, t1, t2, t3, hx0, hy0,
      hshp 0 (by decide) (by decide), hshp 1 (by decide) (by decide),
      hshp 2 (by decide) (by decide), hshp 3 (by decide) (by decide),
      hf 0 (by decide), hf 1 (by decide), hf 2 (by decide), hf 3 (by decide), ha]
    norm_num
  refine ⟨ps', hok, hactual, hclaimed, ?_⟩
  rw [hactual, hclaimed]
  norm_num

/-! ## Division by the nodal mass -/

/-- A loop whose every step returns, keeps the invariant `inv` and multiplies
the observable `val · k` by `factor a k`, returns, keeps `inv` and multiplies by
the product of the steps. -/
theorem foldlM_multiplicative {ε σ α κ : Type} (inv : σ → Prop) (val : σ → κ → ℚ)
    (step : σ → α → Except ε σ) (factor : α → κ → ℚ) :
    ∀ (l : List α),
      (∀ a ∈ l, ∀ s, inv s →
        ∃ s', step s a = Except.ok s' ∧ inv s' ∧ ∀ k, val s' k = val s k * factor a k) →
      ∀ s, inv s →
        ∃ s', List.foldlM step s l = Except.ok s' ∧ inv s' ∧
          ∀ k, val s' k = val s k * (l.map (fun a => factor a k)).prod := by
  intro l
  induction l with
  | nil =>
    intro _ s hs
    exact ⟨s, rfl, hs, by simp⟩
  | cons a l ih =>
    intro hstep s hs
    obtain ⟨s1, h1, hinv1, hval1⟩ := hstep a (List.mem_cons_self a l) s hs
    obtain ⟨s2, h2, hinv2, hval2⟩ :=
      ih (fun b hb => hstep b (List.mem_cons_of_mem a hb)) s1 hinv1
    refine ⟨s2, ?_, hinv2, ?_⟩
    · rw [foldlM_cons_ok step s s1 a l h1, h2]
    · intro k
      rw [hval2 k, hval1 k, List.map_cons, List.prod_cons]
      ring

theorem prod_map_eq_one {α : Type} (l : List α) (f : α → ℚ) (h1 : ∀ a ∈ l, f a = 1) :
    (l.map f).prod = 1 := by
  induction l with
  | nil => rfl
  | cons b l ih =>
    rw [List.map_cons, List.prod_cons, h1 b (List.mem_cons_self _ _),
      ih (fun a ha => h1 a (List.mem_cons_of_mem _ ha)), one_mul]

theorem prod_map_eq_single {α : Type} (l : List α) (a0 : α) (f : α → ℚ) (hnodup : l.Nodup)
    (hmem : a0 ∈ l) (h1 : ∀ a ∈ l, a ≠ a0 → f a = 1) : (l.map f).prod = f a0 := by
  induction l with
  | nil => simp at hmem
  | cons b l ih =>
    rw [List.nodup_cons] at hnodup
    rw [List.map_cons, List.prod_cons]
    by_cases hb : b = a0
    · subst hb
      rw [prod_map_eq_one l f
        (fun a ha => h1 a (List.mem_cons_of_mem _ ha) (fun e => hnodup.1 (e ▸ ha))), mul_one]
    · have hmem' : a0 ∈ l := by
        rcases List.mem_cons.mp hmem with e | e
        · exact absurd e.symm hb
        · exact e
      rw [h1 b (List.mem_cons_self _ _) hb, one_mul]
      exact ih hnodup.2 hmem' (fun a ha => h1 a (List.mem_cons_of_mem _ ha))

theorem prod_map_ite_count (l : List String) (name : String) (c : ℚ) :
    (l.map fun g => if g = name then c else 1).prod = c ^ l.count name := by
  induction l with
  | nil => simp
  | cons b l ih =>
    rw [List.map_cons, List.prod_cons, ih]
    by_cases hb : b = name
    · subst hb
      rw [if_pos rfl, List.count_cons_self, pow_succ]
      ring
    · rw [if_neg hb, List.count_cons_of_ne (fun e => hb e.symm), one_mul]

theorem map_index_range_getD (l : List String) (h : String → ℚ) :
    (index_range l.length).map (fun ivar => h (l.getD ivar.toNat "")) = l.map h := by
  unfold index_range
  rw [List.map_map]
  apply List.ext_getElem
  · simp
  · intro n h1 h2
    simp only [List.length_map, List.length_range] at h1
    simp [List.getD_eq_getElem?_getD, List.getElem?_eq_getElem h1]

theorem p2g_divide_spec (ps : particles_t) (gvarnames : List String) (ivar : Int)
    (vars : map_t String (List ℚ)) (ii : Int) (gname : String) (len : Nat)
    (hi : 0 ≤ ivar) (hg : gvarnames[ivar.toNat]? = some gname)
    (hii0 : 0 ≤ ii) (hiiM : ii.toNat < ps.M.length)
    (hsh : shape vars gname = some len) (hii : ii.toNat < len) :
    ∃ vars', ps.p2g_divide gvarnames ivar vars ii = Except.ok vars' ∧
      shape vars' = shape vars ∧
      ∀ name n, entry vars' name n = entry vars name n *
        (if gname = name ∧ ii.toNat = n then (ps.M.getD ii.toNat 0)⁻¹ else 1) := by
  obtain ⟨v, hv, hlen⟩ := shape_some hsh
  have hii' : ii.toNat < v.length := by omega
  have hsub : vars.subscript gname = v := by simp [map_t.subscript, hv]
  obtain ⟨hshape, hentry⟩ := store_set_spec vars gname v ii.toNat
    (entry vars gname ii.toNat / ps.M.getD ii.toNat 0) hv hii'
  refine ⟨_, ?_, hshape, ?_⟩
  · unfold particles_t.p2g_divide particles_t.getkey
    rw [vec_at_getD ps.M ii hii0 hiiM]
    simp only [except_bind_ok]
    rw [vec_at_ok gvarnames ivar gname hi hg]
    simp only [except_bind_ok, hsub]
    rw [vec_at_ok v _ _ hii0 (entry_eq_getElem vars gname v _ hv hii')]
    simp only [except_bind_ok]
    rw [vec_assign_ok v _ _ hii0 hii']
    rfl
  · intro name n
    rw [hentry name n]
    by_cases h1 : name = gname
    · subst h1
      by_cases h2 : n = ii.toNat
      · subst h2
        simp [div_eq_mul_inv]
      · have h3 : ¬ ii.toNat = n := fun e => h2 e.symm
        simp [h2, h3]
    · have h1' : ¬ gname = name := fun e => h1 e.symm
      simp [h1, h1']

/-- The division loop of `p2g`: on fields that are at least as long as `M` it
returns, keeps the lengths and divides the entry `n < M.size ()` of the field
`name` by `M[n]` once for every occurrence of `name` in `gvarnames`. -/
theorem p2g_divide_all (ps : particles_t) (gvarnames : List String)
    (vars : map_t String (List ℚ))
    (hfields : ∀ gname ∈ gvarnames, ∃ len, shape vars gname = some len ∧ ps.M.length ≤ len) :
    ∃ vars', (index_range gvarnames.length).foldlM
        (fun (vars : map_t String (List ℚ)) (ivar : Int) =>
          (index_range ps.M.length).foldlM (ps.p2g_divide gvarnames ivar) vars) vars
        = Except.ok vars' ∧
      shape vars' = shape vars ∧
      ∀ name n, entry vars' name n = entry vars name n *
        (if n < ps.M.length then ((ps.M.getD n 0)⁻¹) ^ gvarnames.count name else 1) := by
  obtain ⟨vars', hok, hshape, hentry⟩ :=
    foldlM_multiplicative (fun s => shape s = shape vars)
      (fun s (k : String × Nat) => entry s k.1 k.2)
      (fun (vars : map_t String (List ℚ)) (ivar : Int) =>
        (index_range ps.M.length).foldlM (ps.p2g_divide gvarnames ivar) vars)
      (fun ivar (k : String × Nat) =>
        if gvarnames.getD ivar.toNat "" = k.1 then
          (if k.2 < ps.M.length then (ps.M.getD k.2 0)⁻¹ else 1)
        else 1)
      (index_range gvarnames.length)
      (by
        intro ivar hivar s hs
        obtain ⟨hi0, hi⟩ := mem_index_range hivar
        have hg : gvarnames[ivar.toNat]? = some (gvarnames[ivar.toNat]) :=
          List.getElem?_eq_getElem hi
        obtain ⟨len, hsh, hlen⟩ := hfields _ (List.getElem_mem hi)
        obtain ⟨s', hok', hshape', hentry'⟩ :=
          foldlM_multiplicative (fun s => shape s = shape vars)
            (fun s (k : String × Nat) => entry s k.1 k.2)
            (ps.p2g_divide gvarnames ivar)
            (fun ii (k : String × Nat) =>
              if gvarnames[ivar.toNat] = k.1 ∧ ii.toNat = k.2 then (ps.M.getD ii.toNat 0)⁻¹
              else 1)
            (index_range ps.M.length)
            (by
              intro ii hii s1 hs1
              obtain ⟨hii0, hiiM⟩ := mem_index_range hii
              obtain ⟨s2, h2ok, h2shape, h2entry⟩ := p2g_divide_spec ps gvarnames ivar s1 ii
                _ len hi0 hg hii0 hiiM (by rw [hs1]; exact hsh) (by omega)
              exact ⟨s2, h2ok, h2shape.trans hs1, fun k => h2entry k.1 k.2⟩)
            s hs
        refine ⟨s', hok', hshape', ?_⟩
        intro k
        have hk' := hentry' k
        beta_reduce at hk' ⊢
        rw [hk']
        congr 1
        rw [getD_of_getElem? gvarnames ivar.toNat _ "" hg]
        by_cases hname : gvarnames[ivar.toNat] = k.1
        · rw [if_pos hname]
          by_cases hk : k.2 < ps.M.length
          · rw [if_pos hk, prod_map_eq_single (index_range ps.M.length) (k.2 : Int) _
              (index_range_nodup _) (mem_index_range_of_lt _ _ hk) (by
                intro ii hii hne
                rw [if_neg]
                rintro ⟨_, e⟩
                have := (mem_index_range hii).1
                omega)]
            simp [hname]
          · rw [if_neg hk]
            apply prod_map_eq_one
            intro ii hii
            rw [if_neg]
            rintro ⟨_, e⟩
            have := (mem_index_range hii).2
            omega
        · rw [if_neg hname]
          apply prod_map_eq_one
          intro ii _
          rw [if_neg (fun h => hname h.1)])
      vars rfl
  refine ⟨vars', hok, hshape, ?_⟩
  intro name n
  have hk' := hentry (name, n)
  beta_reduce at hk'
  rw [hk']
  congr 1
  rw [map_index_range_getD gvarnames
    (fun g => if g = name then (if n < ps.M.length then (ps.M.getD n 0)⁻¹ else 1) else 1)]
  rw [prod_map_ite_count]
  by_cases hn : n < ps.M.length
  · rw [if_pos hn, if_pos hn]
  · rw [if_neg hn, if_neg hn, one_pow]

theorem p2g_true_eq_bind (ps : particles_t) (vars : map_t String (List ℚ))
    (pvarnames gvarnames : List String) :
    ps.p2g vars pvarnames gvarnames true
      = (ps.p2g vars pvarnames gvarnames false >>= fun vars =>
          (index_range gvarnames.length).foldlM
            (fun (vars : map_t String (List ℚ)) (ivar : Int) =>
              (index_range ps.M.length).foldlM (ps.p2g_divide gvarnames ivar) vars) vars) := by
  unfold particles_t.p2g
  cases ps.sweep with
  | error e => rfl
  | ok cells =>
    simp only [except_bind_ok]
    cases List.foldlM (ps.p2g_cell pvarnames gvarnames) vars cells with
    | error e => rfl
    | ok v => rfl

/-- On a sized particle set `p2g` returns with and without `apply_mass`, and
with `apply_mass` every entry `n` of the field `name` is the entry that `p2g`
without `apply_mass` leaves, divided by `M[n]` once for every occurrence of
`name` in the destination list. -/
theorem p2g_with_mass (ps : particles_t) (g : quadgrid_t) (R C : Int) (hx hy : ℚ)
    (hR : 1 ≤ R) (hC : 1 ≤ C) (hgrid : ps.grid = g.set_sizes R C hx hy)
    (vars : map_t String (List ℚ)) (pvarnames gvarnames : List String)
    (hready : transfer_ready ps R C vars gvarnames pvarnames) :
    ∃ vars0 vars1, ps.p2g vars pvarnames gvarnames false = Except.ok vars0 ∧
      ps.p2g vars pvarnames gvarnames true = Except.ok vars1 ∧
      shape vars0 = shape vars ∧ shape vars1 = shape vars ∧
      (∀ name n, entry vars0 name n = entry vars name n
        + p2g_sum ps ((List.range (R * C).toNat).map (sweep_cell R g.current_cell.is_ghost))
            pvarnames gvarnames name n) ∧
      (∀ name n, entry vars1 name n = entry vars0 name n *
        (if n < ps.M.length then ((ps.M.getD n 0)⁻¹) ^ gvarnames.count name else 1)) := by
  have hcells := cell_sweep_set_sizes g R C hx hy hR hC
  rw [← hgrid] at hcells
  obtain ⟨vars0, hok0, hshape0, hentry0⟩ := p2g_accumulate ps _ pvarnames gvarnames vars hcells
    (transfer_ready_p2g ps g R C hx hy hR hgrid vars gvarnames pvarnames hready)
  obtain ⟨vars1, hok1, hshape1, hentry1⟩ := p2g_divide_all ps gvarnames vars0 (by
    intro gname hgname
    obtain ⟨f, hf, hlen⟩ := hready.2.2.2.1 gname hgname
    refine ⟨f.length, by rw [hshape0]; simp [shape, hf], ?_⟩
    have := hready.2.1
    omega)
  refine ⟨vars0, vars1, hok0, ?_, hshape0, hshape1.trans hshape0, hentry0, hentry1⟩
  rw [p2g_true_eq_bind, hok0]
  exact hok1

/-- C7, the failing input: on the 1x1 grid with `M[n] = 1/4`, the field `f`
equal to 1 and the destination list `[f, f]`, `p2g` with `apply_mass = false`
leaves `f[0] = 1` and `p2g` with `apply_mass = true` leaves `f[0] = 16`: the
entry is divided by `M[0]` twice, and is not `f[0] / M[0] = 4`. -/
theorem p2g_repeated_destination :
    ∃ vars0 vars1,
      centre_particles.p2g unit_fields ["a", "b"] ["f", "f"] false = Except.ok vars0 ∧
      centre_particles.p2g unit_fields ["a", "b"] ["f", "f"] true = Except.ok vars1 ∧
      entry vars0 "f" 0 = 1 ∧ centre_particles.M.getD 0 0 = 1 / 4 ∧
      entry vars1 "f" 0 = 16 ∧
      entry vars1 "f" 0 ≠ entry vars0 "f" 0 / centre_particles.M.getD 0 0 := by
  obtain ⟨vars0, vars1, hok0, hok1, _, _, hentry0, hentry1⟩ :=
    p2g_with_mass centre_particles (quadgrid_t.construct none 0 0 0 0) 1 1 1 1 (by decide)
      (by decide) rfl unit_fields ["a", "b"] ["f", "f"]
      (centre_particles_ready ["f", "f"] ["a", "b"] (by simp)
        (by
          intro ivar hivar
          simp only [List.length_cons, List.length_nil] at hivar
          interval_cases ivar
          · exact ⟨"a", rfl, Or.inl rfl⟩
          · exact ⟨"b", rfl, Or.inr rfl⟩))
  have hM : centre_particles.M.getD 0 0 = 1 / 4 := rfl
  have ha : ∀ n, entry centre_particles.dprops "a" n = 0 := by
    intro n
    cases n <;> rfl
  have hb : ∀ n, entry centre_particles.dprops "b" n = 0 := by
    intro n
    cases n <;> rfl
  have h0 : entry vars0 "f" 0 = 1 := by
    rw [hentry0 "f" 0]
    have hf : entry unit_fields "f" 0 = 1 := rfl
    have hsum : p2g_sum centre_particles
        ((List.range ((1 : Int) * 1).toNat).map
          (sweep_cell 1 (quadgrid_t.construct none 0 0 0 0).current_cell.is_ghost))
        ["a", "b"] ["f", "f"] "f" 0 = 0 := by
      unfold p2g_sum
      apply sum_map_eq_zero
      intro icell _
      apply sum_map_eq_zero
      intro idx _
      apply sum_map_eq_zero
      intro inode _
      apply sum_map_eq_zero
      intro ivar hivar
      obtain ⟨hi0, hi⟩ := mem_index_range hivar
      simp only [List.length_cons, List.length_nil] at hi
      have hivar2 : ivar = 0 ∨ ivar = 1 := by omega
      unfold p2g_term
      have n0 : (["a", "b"] : List String).getD (0 : Int).toNat "" = "a" := rfl
      have n1 : (["a", "b"] : List String).getD (1 : Int).toNat "" = "b" := rfl
      rcases hivar2 with rfl | rfl
      · rw [n0, ha]
        simp
      · rw [n1, hb]
        simp
    rw [hf, hsum, add_zero]
  have h1 : entry vars1 "f" 0 = 16 := by
    rw [hentry1 "f" 0, h0, if_pos (by decide), hM]
    have hc : (["f", "f"] : List String).count "f" = 2 := by decide
    rw [hc]
    norm_num
  refine ⟨vars0, vars1, hok0, hok1, h0, hM, h1, ?_⟩
  rw [h1, h0, hM]
  norm_num

/-! ## The index partitions the particles -/

theorem cell_key_valid (ps : particles_t) (g : quadgrid_t) (R C : Int) (hx hy : ℚ)
    (hhx : 0 < hx) (hhy : 0 < hy) (hgrid : ps.grid = g.set_sizes R C hx hy) (i : Int)
    (hin : ps.in_extent R C i) : 0 ≤ ps.cell_key i ∧ ps.cell_key i < R * C := by
  obtain ⟨hx0, hx1, hy0, hy1⟩ := hin
  have hgx : ps.grid.hx = hx := by rw [hgrid]; rfl
  have hgy : ps.grid.hy = hy := by rw [hgrid]; rfl
  have hrows : ps.grid.grid_properties.numrows = R := by rw [hgrid]; rfl
  rw [hgx] at hx1
  rw [hgy] at hy1
  have hc0 : 0 ≤ Int.floor (ps.x.getD i.toNat 0 / hx) :=
    Int.floor_nonneg.mpr (div_nonneg hx0 (le_of_lt hhx))
  have hc1 : Int.floor (ps.x.getD i.toNat 0 / hx) < C := by
    rw [Int.floor_lt, div_lt_iff₀ hhx]
    exact hx1
  have hr0 : 0 ≤ Int.floor (ps.y.getD i.toNat 0 / hy) :=
    Int.floor_nonneg.mpr (div_nonneg hy0 (le_of_lt hhy))
  have hr1 : Int.floor (ps.y.getD i.toNat 0 / hy) < R := by
    rw [Int.floor_lt, div_lt_iff₀ hhy]
    exact hy1
  unfold particles_t.cell_key quadgrid_t.sub2gind
  rw [hgx, hgy, hrows]
  constructor <;> nlinarith

/-! ## Scatter followed by gather -/

theorem sum_map_mul_left (l : List Int) (v : ℚ) (f : Int → ℚ) :
    (l.map fun a => v * f a).sum = v * (l.map f).sum := by
  induction l with
  | nil => simp
  | cons a l ih => simp only [List.map_cons, List.sum_cons, ih]; ring

theorem sum_map_mul_left_cell (l : List cell_t) (v : ℚ) (f : cell_t → ℚ) :
    (l.map fun a => v * f a).sum = v * (l.map f).sum := by
  induction l with
  | nil => simp
  | cons a l ih => simp only [List.map_cons, List.sum_cons, ih]; ring

/-- With one name pair and a source attribute equal to `v` at every listed
particle, the sum that `p2g` accumulates at a node is `v` times the total shape
weight at the node. -/
theorem p2g_sum_uniform (ps : particles_t) (cells : List cell_t) (src dst : String) (v : ℚ)
    (hv : ∀ icell ∈ cells, ∀ idx ∈ ps.grd_to_ptcl.subscript icell.get_global_cell_idx,
      entry ps.dprops src idx.toNat = v) (n : Nat) :
    p2g_sum ps cells [src] [dst] dst n = v * shape_weight_sum ps cells n := by
  unfold p2g_sum shape_weight_sum
  rw [← sum_map_mul_left_cell]
  refine congrArg List.sum (List.map_congr_left ?_)
  intro icell hicell
  rw [← sum_map_mul_left]
  refine congrArg List.sum (List.map_congr_left ?_)
  intro idx hidx
  rw [← sum_map_mul_left]
  refine congrArg List.sum (List.map_congr_left ?_)
  intro inode _
  have n0 : ([src] : List String).getD (0 : Int).toNat "" = src := rfl
  have n1 : ([dst] : List String).getD (0 : Int).toNat "" = dst := rfl
  simp only [List.length_singleton, index_range_one, List.map_cons, List.map_nil,
    List.sum_cons, List.sum_nil, add_zero, p2g_term]
  rw [n0, n1, hv icell hicell idx hidx]
  by_cases h : icell.gt ps.grid.grid_properties inode = (n : Int)
  · rw [if_pos ⟨rfl, h⟩, if_pos h]
    ring
  · rw [if_neg (fun e => h e.2), if_neg h, mul_zero]

/-- The index that `init_particle_mesh` builds lists every particle exactly
once, in the bucket of its key. -/
theorem fresh_index_listing (ps0 ps : particles_t) (hxy : ps0.x.length ≤ ps0.y.length)
    (hinit : ps0.init_particle_mesh = Except.ok ps) :
    ps.x = ps0.x ∧ ps.y = ps0.y ∧ ps.dprops = ps0.dprops ∧ ps.M = ps0.M ∧
    ps.grid = ps0.grid ∧
    (∀ (k idx : Int), idx ∈ ps.grd_to_ptcl.subscript k →
      0 ≤ idx ∧ idx.toNat < ps0.x.length ∧ ps0.cell_key idx = k) ∧
    (∀ p : Int, 0 ≤ p → p < ps0.x.length →
      (ps.grd_to_ptcl.subscript (ps0.cell_key p)).count p = 1) := by
  obtain ⟨ps', hok, hx, hy, _, hd, hM, hgrid, hidx⟩ := init_particle_mesh_spec ps0 hxy
  rw [hinit] at hok
  injection hok with hok
  subst hok
  refine ⟨hx, hy, hd, hM, hgrid, ?_, ?_⟩
  · intro k idx hmem
    rw [(hidx k).1, List.mem_filter] at hmem
    obtain ⟨h0, h1⟩ := mem_index_range hmem.1
    exact ⟨h0, h1, by simpa using hmem.2⟩
  · intro p hp0 hp
    rw [(hidx _).1]
    have hmem : p ∈ index_range ps0.x.length := by
      have := mem_index_range_of_lt ps0.x.length p.toNat (by omega)
      rwa [Int.toNat_of_nonneg hp0] at this
    exact List.count_eq_one_of_mem ((index_range_nodup _).filter _)
      (List.mem_filter.mpr ⟨hmem, by simp⟩)

theorem shp_sum_one (gp : grid_properties_t) (cell : cell_t) (x y : ℚ) :
    cell.shp gp x y 0 + cell.shp gp x y 1 + cell.shp gp x y 2 + cell.shp gp x y 3 = 1 := by
  simp only [cell_t.shp]
  norm_num
  ring

theorem entry_replicate (m : map_t String (List ℚ)) (name : String) (len : Nat) (v : ℚ)
    (h : m name = some (List.replicate len v)) (n : Nat) (hn : n < len) :
    entry m name n = v := by
  simp [entry, map_t.subscript, h, List.getD_eq_getElem?_getD, List.getElem?_replicate, hn]

theorem cell_rc_valid (ps : particles_t) (g : quadgrid_t) (R C : Int) (hx hy : ℚ)
    (hhx : 0 < hx) (hhy : 0 < hy) (hgrid : ps.grid = g.set_sizes R C hx hy) (i : Int)
    (hin : ps.in_extent R C i) :
    0 ≤ Int.floor (ps.y.getD i.toNat 0 / ps.grid.hy) ∧
    Int.floor (ps.y.getD i.toNat 0 / ps.grid.hy) < R ∧
    0 ≤ Int.floor (ps.x.getD i.toNat 0 / ps.grid.hx) ∧
    Int.floor (ps.x.getD i.toNat 0 / ps.grid.hx) < C ∧
    ps.cell_key i = Int.floor (ps.y.getD i.toNat 0 / ps.grid.hy)
      + R * Int.floor (ps.x.getD i.toNat 0 / ps.grid.hx) := by
  obtain ⟨hx0, hx1, hy0, hy1⟩ := hin
  have hgx : ps.grid.hx = hx := by rw [hgrid]; rfl
  have hgy : ps.grid.hy = hy := by rw [hgrid]; rfl
  have hrows : ps.grid.grid_properties.numrows = R := by rw [hgrid]; rfl
  rw [hgx] at hx1 ⊢
  rw [hgy] at hy1 ⊢
  refine ⟨Int.floor_nonneg.mpr (div_nonneg hy0 (le_of_lt hhy)), ?_,
    Int.floor_nonneg.mpr (div_nonneg hx0 (le_of_lt hhx)), ?_, ?_⟩
  · rw [Int.floor_lt, div_lt_iff₀ hhy]
    exact hy1
  · rw [Int.floor_lt, div_lt_iff₀ hhx]
    exact hx1
  · unfold particles_t.cell_key quadgrid_t.sub2gind
    rw [hgx, hgy, hrows]

/-- Scatter with mass then gather without, from a freshly built index with every
particle within the extent, a source attribute equal to `v`, a zeroed field
and a zeroed destination attribute: both calls return, and the destination
attribute of particle `p` is the sum over the 4 nodes of its cell of
`shp * (v * W / M)`, `W` the total shape weight at the node. -/
theorem round_trip_formula (ps0 ps : particles_t) (g : quadgrid_t) (R C : Int) (hx hy : ℚ)
    (v : ℚ) (src dst out : String) (vars : map_t String (List ℚ))
    (hR : 1 ≤ R) (hC : 1 ≤ C) (hhx : 0 < hx) (hhy : 0 < hy)
    (hgrid : ps0.grid = g.set_sizes R C hx hy)
    (hxy : ps0.x.length = ps0.y.length)
    (hM : (ps0.M.length : Int) = (R + 1) * (C + 1))
    (hin : ∀ i : Int, 0 ≤ i → i < ps0.x.length → ps0.in_extent R C i)
    (hsrc : ps0.dprops src = some (List.replicate ps0.x.length v))
    (hout : ps0.dprops out = some (List.replicate ps0.x.length 0))
    (hdst : vars dst = some (List.replicate ((R + 1) * (C + 1)).toNat 0))
    (hinit : ps0.init_particle_mesh = Except.ok ps) :
    ∃ vars1 ps', ps.p2g vars [src] [dst] true = Except.ok vars1 ∧
      ps.g2p vars1 [dst] [out] false = Except.ok ps' ∧
      ∀ (p : Int) (cell : cell_t), 0 ≤ p → p < ps0.x.length →
        cell.row_idx = Int.floor (ps0.y.getD p.toNat 0 / ps0.grid.hy) →
        cell.col_idx = Int.floor (ps0.x.getD p.toNat 0 / ps0.grid.hx) →
        entry ps'.dprops out p.toNat =
          (([0, 1, 2, 3] : List Int).map fun i =>
            cell.shp ps0.grid.grid_properties (ps0.x.getD p.toNat 0) (ps0.y.getD p.toNat 0) i
              * (v * shape_weight_sum ps
                    ((List.range (R * C).toNat).map (sweep_cell R g.current_cell.is_ghost))
                    (cell.gt ps0.grid.grid_properties i).toNat
                  / ps0.M.getD (cell.gt ps0.grid.grid_properties i).toNat 0)).sum := by
  obtain ⟨hpx, hpy, hpd, hpM, hpgrid, hlisted, hcount⟩ :=
    fresh_index_listing ps0 ps (le_of_eq hxy) hinit
  have hgrid' : ps.grid = g.set_sizes R C hx hy := by rw [hpgrid, hgrid]
  have hnodes0 : 0 ≤ (R + 1) * (C + 1) := by nlinarith
  have hbuckets : ∀ k : Int, 0 ≤ k → k < R * C → ∀ idx ∈ ps.grd_to_ptcl.subscript k,
      0 ≤ idx ∧ idx.toNat < ps.x.length := by
    intro k _ _ idx hidx
    obtain ⟨h0, h1, _⟩ := hlisted k idx hidx
    exact ⟨h0, by rw [hpx]; exact h1⟩
  have hready1 : transfer_ready ps R C vars [dst] [src] := by
    refine ⟨by rw [hpx, hpy, hxy], by rw [hpM]; exact hM, hbuckets, ?_, ?_⟩
    · intro gname hgname
      simp only [List.mem_singleton] at hgname
      subst hgname
      exact ⟨_, hdst, by simp [Int.toNat_of_nonneg hnodes0]⟩
    · intro ivar hivar
      simp only [List.length_singleton, Nat.lt_one_iff] at hivar
      subst hivar
      exact ⟨src, _, rfl, by rw [hpd]; exact hsrc, by simp [hpx]⟩
  obtain ⟨vars0, vars1, _, hok1, _, hshape1, hentry0, hentry1⟩ :=
    p2g_with_mass ps g R C hx hy hR hC hgrid' vars [src] [dst] hready1
  obtain ⟨f1, hf1, hlen1⟩ := shape_some
    (show shape vars1 dst = some ((R + 1) * (C + 1)).toNat by
      rw [hshape1]; simp [shape, hdst])
  have hready2 : transfer_ready ps R C vars1 [dst] [out] := by
    refine ⟨by rw [hpx, hpy, hxy], by rw [hpM]; exact hM, hbuckets, ?_, ?_⟩
    · intro gname hgname
      simp only [List.mem_singleton] at hgname
      subst hgname
      exact ⟨f1, hf1, by rw [hlen1, Int.toNat_of_nonneg hnodes0]⟩
    · intro ivar hivar
      simp only [List.length_singleton, Nat.lt_one_iff] at hivar
      subst hivar
      exact ⟨out, _, rfl, by rw [hpd]; exact hout, by simp [hpx]⟩
  have hcells := cell_sweep_set_sizes g R C hx hy hR hC
  rw [← hgrid'] at hcells
  obtain ⟨ps', hok2, _, _, _, _, _, _, _, hentry2⟩ := g2p_accumulate ps _ vars1 [dst] [out]
    false hcells (transfer_ready_g2p ps g R C hx hy hR hgrid' vars1 [dst] [out] false hready2)
  refine ⟨vars1, ps', hok1, hok2, ?_⟩
  intro p cell hp0 hp hrow hcol
  have hpin : ps0.in_extent R C p := hin p hp0 hp
  obtain ⟨hr0, hr, hc0, hc, hkey⟩ := cell_rc_valid ps0 g R C hx hy hhx hhy hgrid p hpin
  rw [← hrow] at hr0 hr hkey
  rw [← hcol] at hc0 hc hkey
  have hzero : entry ps.dprops out p.toNat = 0 :=
    entry_replicate ps.dprops out _ 0 (by rw [hpd]; exact hout) p.toNat (by omega)
  rw [hentry2 out p.toNat, hzero, zero_add]
  rw [g2p_sum_single ps R C g.current_cell.is_ghost cell.row_idx cell.col_idx p vars1
    [dst] [out] false 0 dst out hr0 hr hc0 hc hp0
    (by rw [← hkey]; exact hcount p hp0 hp)
    (by
      intro k _ _ hk hmem
      apply hk
      rw [← hkey]
      exact (hlisted k p hmem).2.2.symm)
    (by simp) rfl rfl
    (by
      intro i hi
      simp only [List.length_singleton, Nat.lt_one_iff] at hi
      subst hi
      exact ⟨out, rfl⟩)
    (by
      intro i hi _
      simpa using hi)]
  obtain ⟨_, _, hrow0, hcol0⟩ :=
    sweep_cell_of_sub R C cell.row_idx cell.col_idx g.current_cell.is_ghost hr0 hr hc0 hc
  have hgt : ∀ i, (sweep_cell R g.current_cell.is_ghost
      (cell.row_idx + R * cell.col_idx).toNat).gt ps.grid.grid_properties i
        = cell.gt ps0.grid.grid_properties i := by
    intro i
    rw [hpgrid]
    exact gt_congr _ _ _ hrow0 hcol0 i
  have hshp : ∀ x y i, (sweep_cell R g.current_cell.is_ghost
      (cell.row_idx + R * cell.col_idx).toNat).shp ps.grid.grid_properties x y i
        = cell.shp ps0.grid.grid_properties x y i := by
    intro x y i
    rw [hpgrid]
    exact shp_congr _ _ _ hrow0 hcol0 x y i
  have hrows : ps0.grid.grid_properties.numrows = R := by rw [hgrid]; rfl
  rw [index_range_four]
  refine congrArg List.sum (List.map_congr_left ?_)
  intro i hi
  have hi03 : 0 ≤ i ∧ i ≤ 3 := by
    simp only [List.mem_cons, List.mem_singleton, List.not_mem_nil, or_false] at hi
    omega
  obtain ⟨hgt0, hgt1⟩ := gt_range ps0.grid.grid_properties cell C hr0
    (by rw [hrows]; exact hr) hc0 hc i hi03.1 hi03.2
  rw [hrows] at hgt1
  have hnode : (cell.gt ps0.grid.grid_properties i).toNat < ((R + 1) * (C + 1)).toNat := by
    omega
  have hnodeM : (cell.gt ps0.grid.grid_properties i).toNat < ps.M.length := by
    rw [hpM]
    omega
  have hcount1 : ([dst] : List String).count dst = 1 := by simp
  unfold g2p_weight
  simp only [Bool.false_eq_true, if_false]
  rw [hgt, hshp, hentry1, hentry0, if_pos hnodeM, hcount1, pow_one,
    entry_replicate vars dst _ 0 hdst _ hnode, zero_add,
    p2g_sum_uniform ps _ src dst v (by
      intro icell _ idx hidx
      obtain ⟨_, h1, _⟩ := hlisted _ idx hidx
      exact entry_replicate ps.dprops src _ v (by rw [hpd]; exact hsrc) _ h1),
    hpx, hpy, hpM, div_eq_mul_inv]
theorem twin_build_mass : twin_particles.build_mass = Except.ok twin_particles := by
  have hcells : twin_particles.grid.cell_sweep = some [sweep_cell 1 false 0] := by decide
  have hr : index_range cell_t.nodes_per_cell.toNat = [0, 1, 2, 3] := by decide
  have hg0 : (sweep_cell 1 false 0).gt twin_particles.grid.grid_properties 0 = 0 := by decide
  have hg1 : (sweep_cell 1 false 0).gt twin_particles.grid.grid_properties 1 = 1 := by decide
  have hg2 : (sweep_cell 1 false 0).gt twin_particles.grid.grid_properties 2 = 2 := by decide
  have hg3 : (sweep_cell 1 false 0).gt twin_particles.grid.grid_properties 3 = 3 := by decide
  have hhx : twin_particles.grid.hx = 1 := rfl
  have hhy : twin_particles.grid.hy = 1 := rfl
  have hlen : twin_particles.M.length = 4 := rfl
  have t0 : Int.toNat 0 = 0 := rfl
  have t1 : Int.toNat 1 = 1 := rfl
  have t2 : Int.toNat 2 = 2 := rfl
  have t3 : Int.toNat 3 = 3 := rfl
  show twin_particles.build_mass
    = Except.ok { twin_particles with M := [1 / 4, 1 / 4, 1 / 4, 1 / 4] }
  unfold particles_t.build_mass particles_t.sweep
  rw [hcells]
  simp only [except_bind_ok, hr, hlen, List.foldlM_cons, List.foldlM_nil,
    particles_t.build_mass_node, hg0, hg1, hg2, hg3, hhx, hhy, vec_at, vec_assign,
    t0, t1, t2, t3]
  norm_num [except_bind_ok, except_pure]
  rfl

theorem twin_in_extent (i : Int) (_h0 : 0 ≤ i) (h1 : i < twin_particles.x.length) :
    twin_particles.in_extent 1 1 i := by
  have hlen : twin_particles.x.length = 2 := rfl
  rw [hlen] at h1
  have hi : i = 0 ∨ i = 1 := by omega
  have hhx : twin_particles.grid.hx = 1 := rfl
  have hhy : twin_particles.grid.hy = 1 := rfl
  have hx0 : twin_particles.x.getD (0 : Int).toNat 0 = 1 / 2 := rfl
  have hx1 : twin_particles.x.getD (1 : Int).toNat 0 = 1 / 2 := rfl
  have hy0 : twin_particles.y.getD (0 : Int).toNat 0 = 1 / 2 := rfl
  have hy1 : twin_particles.y.getD (1 : Int).toNat 0 = 1 / 2 := rfl
  unfold particles_t.in_extent
  rw [hhx, hhy]
  rcases hi with rfl | rfl
  · rw [hx0, hy0]
    norm_num
  · rw [hx1, hy1]
    norm_num

/-- C9 (amended): on a grid with `R, C ≥ 1` and `hx, hy > 0`, with every
particle within the extent, a freshly built index, `M` of nonzero entries,
every particle carrying the value `v`, a zeroed grid field and a zeroed
destination attribute, `p2g` with `apply_mass = true` followed by `g2p` with
`apply_mass = false` returns and leaves at particle `p` the sum over the 4
nodes of its cell of `shp * (v * W / M)`, where `W` is the total shape weight of
all particles at the node; that is `v` at every particle at whose 4 nodes
`W` equals `M`. -/
theorem round_trip_uniform (ps0 : particles_t) (g : quadgrid_t) (R C : Int) (hx hy : ℚ)
    (v : ℚ) (src dst out : String) (vars : map_t String (List ℚ))
    (hR : 1 ≤ R) (hC : 1 ≤ C) (hhx : 0 < hx) (hhy : 0 < hy)
    (hgrid : ps0.grid = g.set_sizes R C hx hy)
    (hxy : ps0.x.length = ps0.y.length)
    (hM : (ps0.M.length : Int) = (R + 1) * (C + 1))
    (hMnz : ∀ n : Nat, n < ps0.M.length → ps0.M.getD n 0 ≠ 0)
    (hin : ∀ i : Int, 0 ≤ i → i < ps0.x.length → ps0.in_extent R C i)
    (hsrc : ps0.dprops src = some (List.replicate ps0.x.length v))
    (hout : ps0.dprops out = some (List.replicate ps0.x.length 0))
    (hdst : vars dst = some (List.replicate ((R + 1) * (C + 1)).toNat 0)) :
    ∃ ps vars1 ps', ps0.init_particle_mesh = Except.ok ps ∧
      ps.p2g vars [src] [dst] true = Except.ok vars1 ∧
      ps.g2p vars1 [dst] [out] false = Except.ok ps' ∧
      ∀ (p : Int) (cell : cell_t), 0 ≤ p → p < ps0.x.length →
        cell.row_idx = Int.floor (ps0.y.getD p.toNat 0 / ps0.grid.hy) →
        cell.col_idx = Int.floor (ps0.x.getD p.toNat 0 / ps0.grid.hx) →
        entry ps'.dprops out p.toNat =
          (([0, 1, 2, 3] : List Int).map fun i =>
            cell.shp ps0.grid.grid_properties (ps0.x.getD p.toNat 0) (ps0.y.getD p.toNat 0) i
              * (v * shape_weight_sum ps
                    ((List.range (R * C).toNat).map (sweep_cell R g.current_cell.is_ghost))
                    (cell.gt ps0.grid.grid_properties i).toNat
                  / ps0.M.getD (cell.gt ps0.grid.grid_properties i).toNat 0)).sum ∧
        ((∀ i : Int, 0 ≤ i → i ≤ 3 →
            shape_weight_sum ps
                ((List.range (R * C).toNat).map (sweep_cell R g.current_cell.is_ghost))
                (cell.gt ps0.grid.grid_properties i).toNat
              = ps0.M.getD (cell.gt ps0.grid.grid_properties i).toNat 0) →
          entry ps'.dprops out p.toNat = v) := by
  obtain ⟨ps, hinit, _⟩ := init_particle_mesh_spec ps0 (le_of_eq hxy)
  obtain ⟨vars1, ps', hok1, hok2, hformula⟩ := round_trip_formula ps0 ps g R C hx hy v src dst
    out vars hR hC hhx hhy hgrid hxy hM hin hsrc hout hdst hinit
  refine ⟨ps, vars1, ps', hinit, hok1, hok2, ?_⟩
  intro p cell hp0 hp hrow hcol
  have hval := hformula p cell hp0 hp hrow hcol
  refine ⟨hval, ?_⟩
  intro hW
  obtain ⟨hr0, hr, hc0, hc, _⟩ := cell_rc_valid ps0 g R C hx hy hhx hhy hgrid p (hin p hp0 hp)
  rw [← hrow] at hr0 hr
  rw [← hcol] at hc0 hc
  have hrows : ps0.grid.grid_properties.numrows = R := by rw [hgrid]; rfl
  have hterm : ∀ i : Int, 0 ≤ i → i ≤ 3 →
      v * shape_weight_sum ps
          ((List.range (R * C).toNat).map (sweep_cell R g.current_cell.is_ghost))
          (cell.gt ps0.grid.grid_properties i).toNat
        / ps0.M.getD (cell.gt ps0.grid.grid_properties i).toNat 0 = v := by
    intro i hi0 hi
    obtain ⟨hgt0, hgt1⟩ := gt_range ps0.grid.grid_properties cell C hr0
      (by rw [hrows]; exact hr) hc0 hc i hi0 hi
    rw [hrows] at hgt1
    rw [hW i hi0 hi, mul_div_assoc, div_self (hMnz _ (by omega)), mul_one]
  rw [hval]
  simp only [List.map_cons, List.map_nil, List.sum_cons, List.sum_nil,
    hterm 0 (by decide) (by decide), hterm 1 (by decide) (by decide),
    hterm 2 (by decide) (by decide), hterm 3 (by decide) (by decide)]
  have hone := shp_sum_one ps0.grid.grid_properties cell (ps0.x.getD p.toNat 0)
    (ps0.y.getD p.toNat 0)
  linear_combination v * hone

theorem round_trip_uniform_witness :
    ∃ ps vars1 ps', lone_particle.init_particle_mesh = Except.ok ps ∧
      ps.p2g zero_field ["a"] ["f"] true = Except.ok vars1 ∧
      ps.g2p vars1 ["f"] ["b"] false = Except.ok ps' ∧
      entry ps'.dprops "b" 0 = 3 := by
  have hin : ∀ i : Int, 0 ≤ i → i < lone_particle.x.length → lone_particle.in_extent 1 1 i := by
    intro i h0 h1
    have hlen : lone_particle.x.length = 1 := rfl
    rw [hlen] at h1
    have hi : i = 0 := by omega
    subst hi
    have hhx : lone_particle.grid.hx = 1 := rfl
    have hhy : lone_particle.grid.hy = 1 := rfl
    have hx0 : lone_particle.x.getD (0 : Int).toNat 0 = 1 / 2 := rfl
    have hy0 : lone_particle.y.getD (0 : Int).toNat 0 = 1 / 2 := rfl
    unfold particles_t.in_extent
    rw [hhx, hhy, hx0, hy0]
    norm_num
  obtain ⟨ps, vars1, ps', hinit, hok1, hok2, hval⟩ :=
    round_trip_uniform lone_particle (quadgrid_t.construct none 0 0 0 0) 1 1 1 1 3 "a" "f" "b"
      zero_field (by decide) (by decide) (by norm_num) (by norm_num) rfl rfl (by decide)
      (by
        intro n hn
        have hlen : lone_particle.M.length = 4 := rfl
        rw [hlen] at hn
        interval_cases n <;>
          (show (1 / 4 : ℚ) ≠ 0
           norm_num))
      hin rfl rfl rfl
  refine ⟨ps, vars1, ps', hinit, hok1, hok2, ?_⟩
  obtain ⟨ps2, hinit2, hpx, hpy, _, _, _, hpgrid, hidx⟩ :=
    init_particle_mesh_spec lone_particle (le_refl _)
  rw [hinit] at hinit2
  injection hinit2 with hps
  subst hps
  have hfloor : Int.floor ((1 / 2 : ℚ) / 1) = 0 := by norm_num
  have hkey : lone_particle.cell_key 0 = 0 := by
    show quadgrid_t.sub2gind lone_particle.grid (Int.floor ((1 / 2 : ℚ) / 1))
      (Int.floor ((1 / 2 : ℚ) / 1)) = 0
    rw [hfloor]
    rfl
  have hbucket : ps.grd_to_ptcl.subscript 0 = [0] := by
    rw [(hidx 0).1]
    have hlen : index_range lone_particle.x.length = [0] := rfl
    rw [hlen]
    simp [List.filter_cons, hkey]
  have hcells : (List.range ((1 : Int) * 1).toNat).map
      (sweep_cell 1 (quadgrid_t.construct none 0 0 0 0).current_cell.is_ghost)
      = [sweep_cell 1 false 0] := rfl
  have hg0 : (sweep_cell 1 false 0).gt lone_particle.grid.grid_properties 0 = 0 := by decide
  have hg1 : (sweep_cell 1 false 0).gt lone_particle.grid.grid_properties 1 = 1 := by decide
  have hg2 : (sweep_cell 1 false 0).gt lone_particle.grid.grid_properties 2 = 2 := by decide
  have hg3 : (sweep_cell 1 false 0).gt lone_particle.grid.grid_properties 3 = 3 := by decide
  have hshp : ∀ i : Int, 0 ≤ i → i ≤ 3 →
      (sweep_cell 1 false 0).shp lone_particle.grid.grid_properties (1 / 2) (1 / 2) i
        = 1 / 4 := by
    intro i hi0 hi
    have hi4 : i = 0 ∨ i = 1 ∨ i = 2 ∨ i = 3 := by omega
    rcases hi4 with rfl | rfl | rfl | rfl <;>
      norm_num [cell_t.shp, sweep_cell, lone_particle, quadgrid_t.set_sizes, cell_t.col_idx,
        cell_t.row_idx]
  have hx0 : lone_particle.x.getD (0 : Int).toNat 0 = 1 / 2 := rfl
  have hy0 : lone_particle.y.getD (0 : Int).toNat 0 = 1 / 2 := rfl
  have hglobal : (sweep_cell 1 false 0).get_global_cell_idx = 0 := rfl
  have hW : ∀ n : Nat, n < 4 → shape_weight_sum ps [sweep_cell 1 false 0] n = 1 / 4 := by
    intro n hn
    unfold shape_weight_sum
    simp only [List.map_cons, List.map_nil, List.sum_cons, List.sum_nil, hglobal, hbucket,
      index_range_four, hpgrid, hg0, hg1, hg2, hg3, hpx, hpy, hx0, hy0,
      hshp 0 (by decide) (by decide), hshp 1 (by decide) (by decide),
      hshp 2 (by decide) (by decide), hshp 3 (by decide) (by decide)]
    interval_cases n <;> norm_num
  have t0 : Int.toNat 0 = 0 := rfl
  have t1 : Int.toNat 1 = 1 := rfl
  have t2 : Int.toNat 2 = 2 := rfl
  have t3 : Int.toNat 3 = 3 := rfl
  have hM : ∀ n : Nat, n < 4 → lone_particle.M.getD n 0 = 1 / 4 := by
    intro n hn
    interval_cases n <;> rfl
  have hres := (hval 0 (sweep_cell 1 false 0) (le_refl _) (by decide)
    (by
      show (0 : Int) = Int.floor ((1 / 2 : ℚ) / 1)
      rw [hfloor])
    (by
      show (0 : Int) = Int.floor ((1 / 2 : ℚ) / 1)
      rw [hfloor])).2
    (by
      intro i hi0 hi
      have hi4 : i = 0 ∨ i = 1 ∨ i = 2 ∨ i = 3 := by omega
      rw [hcells]
      rcases hi4 with rfl | rfl | rfl | rfl
      · rw [hg0, t0, hW 0 (by decide), hM 0 (by decide)]
      · rw [hg1, t1, hW 1 (by decide), hM 1 (by decide)]
      · rw [hg2, t2, hW 2 (by decide), hM 2 (by decide)]
      · rw [hg3, t3, hW 3 (by decide), hM 3 (by decide)])
  exact hres

/-- C9, counterexample: two particles at the centre of the single cell of the
1x1 grid with `hx = hy = 1`, `M` as `build_mass` leaves it, the index fresh,
both carrying `v = 1`: `p2g` with mass into the zeroed field `f`, then `g2p`
without mass into the zeroed attribute `b`, leaves `b[0] = 2`, not 1. -/
theorem round_trip_twin_particles :
    twin_particles.build_mass = Except.ok twin_particles ∧
    (∀ i : Int, 0 ≤ i → i < twin_particles.x.length → twin_particles.in_extent 1 1 i) ∧
    ∃ ps vars1 ps', twin_particles.init_particle_mesh = Except.ok ps ∧
      ps.p2g zero_field ["a"] ["f"] true = Except.ok vars1 ∧
      ps.g2p vars1 ["f"] ["b"] false = Except.ok ps' ∧
      entry twin_particles.dprops "a" 0 = 1 ∧ entry twin_particles.dprops "a" 1 = 1 ∧
      entry ps'.dprops "b" 0 = 2 ∧ entry ps'.dprops "b" 0 ≠ 1 := by
  refine ⟨twin_build_mass, twin_in_extent, ?_⟩
  obtain ⟨ps, hinit, hpx, hpy, _, _, _, hpgrid, hidx⟩ :=
    init_particle_mesh_spec twin_particles (le_refl _)
  obtain ⟨vars1, ps', hok1, hok2, hformula⟩ := round_trip_formula twin_particles ps
    (quadgrid_t.construct none 0 0 0 0) 1 1 1 1 1 "a" "f" "b" zero_field (by decide)
    (by decide) (by norm_num) (by norm_num) rfl rfl (by decide) twin_in_extent rfl rfl rfl
    hinit
  have hfloor : Int.floor ((1 / 2 : ℚ) / 1) = 0 := by norm_num
  have hkey : ∀ i : Int, i ∈ index_range 2 → twin_particles.cell_key i = 0 := by
    intro i hi
    obtain ⟨h0, h1⟩ := mem_index_range hi
    have hi2 : i = 0 ∨ i = 1 := by omega
    rcases hi2 with rfl | rfl
    · show quadgrid_t.sub2gind twin_particles.grid (Int.floor ((1 / 2 : ℚ) / 1))
        (Int.floor ((1 / 2 : ℚ) / 1)) = 0
      rw [hfloor]
      rfl
    · show quadgrid_t.sub2gind twin_particles.grid (Int.floor ((1 / 2 : ℚ) / 1))
        (Int.floor ((1 / 2 : ℚ) / 1)) = 0
      rw [hfloor]
      rfl
  have hbucket : ps.grd_to_ptcl.subscript 0 = [0, 1] := by
    rw [(hidx 0).1]
    have hlen : twin_particles.x.length = 2 := rfl
    rw [hlen, List.filter_eq_self.mpr (fun i hi => by simp [hkey i hi])]
    rfl
  have hcells : (List.range ((1 : Int) * 1).toNat).map
      (sweep_cell 1 (quadgrid_t.construct none 0 0 0 0).current_cell.is_ghost)
      = [sweep_cell 1 false 0] := rfl
  have hg0' : (sweep_cell 1 false 0).gt twin_particles.grid.grid_properties 0 = 0 := by decide
  have hg1' : (sweep_cell 1 false 0).gt twin_particles.grid.grid_properties 1 = 1 := by decide
  have hg2' : (sweep_cell 1 false 0).gt twin_particles.grid.grid_properties 2 = 2 := by decide
  have hg3' : (sweep_cell 1 false 0).gt twin_particles.grid.grid_properties 3 = 3 := by decide
  have hx0' : twin_particles.x.getD 0 0 = 1 / 2 := rfl
  have hy0' : twin_particles.y.getD 0 0 = 1 / 2 := rfl
  have hshp : ∀ i : Int, 0 ≤ i → i ≤ 3 →
      (sweep_cell 1 false 0).shp twin_particles.grid.grid_properties (1 / 2) (1 / 2) i
        = 1 / 4 := by
    intro i hi0 hi
    have hi4 : i = 0 ∨ i = 1 ∨ i = 2 ∨ i = 3 := by omega
    rcases hi4 with rfl | rfl | rfl | rfl <;>
      norm_num [cell_t.shp, sweep_cell, twin_particles, quadgrid_t.set_sizes, cell_t.col_idx,
        cell_t.row_idx]
  have hx0 : twin_particles.x.getD (0 : Int).toNat 0 = 1 / 2 := rfl
  have hx1 : twin_particles.x.getD (1 : Int).toNat 0 = 1 / 2 := rfl
  have hy0 : twin_particles.y.getD (0 : Int).toNat 0 = 1 / 2 := rfl
  have hy1 : twin_particles.y.getD (1 : Int).toNat 0 = 1 / 2 := rfl
  have hglobal : (sweep_cell 1 false 0).get_global_cell_idx = 0 := rfl
  have hW : ∀ n : Nat, n < 4 → shape_weight_sum ps [sweep_cell 1 false 0] n = 1 / 2 := by
    intro n hn
    unfold shape_weight_sum
    simp only [List.map_cons, List.map_nil, List.sum_cons, List.sum_nil, hglobal, hbucket,
      index_range_four, hpgrid, hg0', hg1', hg2', hg3', hpx, hpy, hx0, hx1, hy0, hy1,
      hshp 0 (by decide) (by decide), hshp 1 (by decide) (by decide),
      hshp 2 (by decide) (by decide), hshp 3 (by decide) (by decide)]
    interval_cases n <;> norm_num
  have hval := hformula 0 (sweep_cell 1 false 0) (le_refl _) (by decide)
    (by
      show (0 : Int) = Int.floor ((1 / 2 : ℚ) / 1)
      rw [hfloor])
    (by
      show (0 : Int) = Int.floor ((1 / 2 : ℚ) / 1)
      rw [hfloor])
  have t0 : Int.toNat 0 = 0 := rfl
  have t1 : Int.toNat 1 = 1 := rfl
  have t2 : Int.toNat 2 = 2 := rfl
  have t3 : Int.toNat 3 = 3 := rfl
  have hM0 : twin_particles.M.getD 0 0 = 1 / 4 := rfl
  have hM1 : twin_particles.M.getD 1 0 = 1 / 4 := rfl
  have hM2 : twin_particles.M.getD 2 0 = 1 / 4 := rfl
  have hM3 : twin_particles.M.getD 3 0 = 1 / 4 := rfl
  have hresult : entry ps'.dprops "b" 0 = 2 := by
    have e : entry ps'.dprops "b" (0 : Int).toNat = 2 := by
      rw [hval, hcells]
      simp only [List.map_cons, List.map_nil, List.sum_cons, List.sum_nil, hg0', hg1', hg2',
        hg3', t0, t1, t2, t3, hW 0 (by decide), hW 1 (by decide), hW 2 (by decide),
        hW 3 (by decide), hM0, hM1, hM2, hM3, hx0', hy0',
        hshp 0 (by decide) (by decide), hshp 1 (by decide) (by decide),
        hshp 2 (by decide) (by decide), hshp 3 (by decide) (by decide)]
      norm_num
    exact e
  refine ⟨ps, vars1, ps', hinit, hok1, hok2, rfl, rfl, hresult, ?_⟩
  rw [hresult]
  norm_num

/-! ## Sentinel values and partition of unity -/

/-- C13, amended: for every cell and every node index `i` outside `0..3`,
`gt (i)` is the sentinel `-1`, and after `set_sizes` so is `t (i)`; for `i` in
`0..3` neither is `-1` on a cell with `r, c ≥ 0` of a grid whose row count is
not negative (`numrows ≥ 0`). -/
theorem gt_t_sentinel :
    (∀ (gp : grid_properties_t) (cell : cell_t) (i : Int), (i < 0 ∨ 3 < i) →
      cell.gt gp i = -1) ∧
    (∀ (g : quadgrid_t) (R C : Int) (hx hy : ℚ) (cell : cell_t) (i : Int), (i < 0 ∨ 3 < i) →
      cell.t (g.set_sizes R C hx hy).grid_properties i = -1) ∧
    (∀ (gp : grid_properties_t) (cell : cell_t) (i : Int), 0 ≤ gp.numrows →
      0 ≤ cell.row_idx → 0 ≤ cell.col_idx → 0 ≤ i → i ≤ 3 → cell.gt gp i ≠ -1) ∧
    (∀ (g : quadgrid_t) (R C : Int) (hx hy : ℚ) (cell : cell_t) (i : Int), 0 ≤ R →
      0 ≤ cell.row_idx → 0 ≤ cell.col_idx → 0 ≤ i → i ≤ 3 →
      cell.t (g.set_sizes R C hx hy).grid_properties i ≠ -1) := by
  have hout : ∀ (gp : grid_properties_t) (cell : cell_t) (i : Int), (i < 0 ∨ 3 < i) →
      cell.gt gp i = -1 := by
    intro gp cell i hi
    unfold cell_t.gt
    rw [if_neg (by omega), if_neg (by omega), if_neg (by omega), if_neg (by omega)]
  have hin : ∀ (gp : grid_properties_t) (cell : cell_t) (i : Int), 0 ≤ gp.numrows →
      0 ≤ cell.row_idx → 0 ≤ cell.col_idx → 0 ≤ i → i ≤ 3 → 0 ≤ cell.gt gp i := by
    intro gp cell i hR hr hc hi0 hi
    have hr' : 0 ≤ cell.rowidx := hr
    have hc' : 0 ≤ cell.colidx := hc
    have hprod : 0 ≤ cell.colidx * (gp.numrows + 1) := by nlinarith
    have hi4 : i = 0 ∨ i = 1 ∨ i = 2 ∨ i = 3 := by omega
    rcases hi4 with rfl | rfl | rfl | rfl
    · rw [gt_zero]; omega
    · rw [gt_one]; omega
    · rw [gt_two]; omega
    · rw [gt_three]; omega
  refine ⟨hout, ?_, ?_, ?_⟩
  · intro g R C hx hy cell i hi
    unfold cell_t.t
    simp only [hout _ cell i hi, quadgrid_t.set_sizes]
    rw [if_pos (Or.inl (by decide))]
  · intro gp cell i hR hr hc hi0 hi
    have := hin gp cell i hR hr hc hi0 hi
    omega
  · intro g R C hx hy cell i hR hr hc hi0 hi
    have h := hin (g.set_sizes R C hx hy).grid_properties cell i hR hr hc hi0 hi
    unfold cell_t.t
    simp only [quadgrid_t.set_sizes] at h ⊢
    split_ifs <;> omega

theorem gt_t_sentinel_witness :
    (sweep_cell 2 false 3).gt
        ((quadgrid_t.construct none 0 0 0 0).set_sizes 2 2 1 1).grid_properties 7 = -1 ∧
    (sweep_cell 2 false 3).t
        ((quadgrid_t.construct none 0 0 0 0).set_sizes 2 2 1 1).grid_properties (-2) = -1 ∧
    (sweep_cell 2 false 3).gt
        ((quadgrid_t.construct none 0 0 0 0).set_sizes 2 2 1 1).grid_properties 3 ≠ -1 ∧
    (sweep_cell 2 false 3).t
        ((quadgrid_t.construct none 0 0 0 0).set_sizes 2 2 1 1).grid_properties 3 ≠ -1 :=
  ⟨gt_t_sentinel.1 _ (sweep_cell 2 false 3) 7 (by decide),
   gt_t_sentinel.2.1 (quadgrid_t.construct none 0 0 0 0) 2 2 1 1 (sweep_cell 2 false 3) (-2)
     (by decide),
   gt_t_sentinel.2.2.1 _ (sweep_cell 2 false 3) 3 (by decide) (by decide) (by decide)
     (by decide) (by decide),
   gt_t_sentinel.2.2.2 (quadgrid_t.construct none 0 0 0 0) 2 2 1 1 (sweep_cell 2 false 3) 3
     (by decide) (by decide) (by decide) (by decide) (by decide)⟩

/-- C14: for the cell `(r, c)` of a grid with `hx, hy > 0` and every point
`(x, y)` with `c*hx < x < (c+1)*hx` and `r*hy < y < (r+1)*hy`, the four
shape-function values `shp (x, y, 0..3)` sum to 1; each of them is positive
there. -/
theorem shp_partition_of_unity (gp : grid_properties_t) (cell : cell_t) (x y : ℚ)
    (hhx : 0 < gp.hx) (hhy : 0 < gp.hy)
    (hx0 : (cell.col_idx : ℚ) * gp.hx < x) (hx1 : x < ((cell.col_idx : ℚ) + 1) * gp.hx)
    (hy0 : (cell.row_idx : ℚ) * gp.hy < y) (hy1 : y < ((cell.row_idx : ℚ) + 1) * gp.hy) :
    cell.shp gp x y 0 + cell.shp gp x y 1 + cell.shp gp x y 2 + cell.shp gp x y 3 = 1 ∧
    ∀ i : Int, 0 ≤ i → i ≤ 3 → 0 < cell.shp gp x y i := by
  refine ⟨shp_sum_one gp cell x y, ?_⟩
  have hxi0 : 0 < (x - (cell.col_idx : ℚ) * gp.hx) / gp.hx := div_pos (by linarith) hhx
  have hxi1 : (x - (cell.col_idx : ℚ) * gp.hx) / gp.hx < 1 := by
    rw [div_lt_one hhx]
    linarith
  have heta0 : 0 < (y - (cell.row_idx : ℚ) * gp.hy) / gp.hy := div_pos (by linarith) hhy
  have heta1 : (y - (cell.row_idx : ℚ) * gp.hy) / gp.hy < 1 := by
    rw [div_lt_one hhy]
    linarith
  intro i hi0 hi
  have hi4 : i = 0 ∨ i = 1 ∨ i = 2 ∨ i = 3 := by omega
  rcases hi4 with rfl | rfl | rfl | rfl
  · simp only [cell_t.shp, if_true]
    exact mul_pos (by linarith) (by linarith)
  · simp only [cell_t.shp]
    norm_num
    exact mul_pos (by linarith) heta0
  · simp only [cell_t.shp]
    norm_num
    exact mul_pos hxi0 (by linarith)
  · simp only [cell_t.shp]
    norm_num
    exact mul_pos hxi0 heta0

theorem shp_partition_of_unity_witness :
    (sweep_cell 2 false 0).shp scenario_grid.grid_properties (1 / 4) (1 / 4) 0
      + (sweep_cell 2 false 0).shp scenario_grid.grid_properties (1 / 4) (1 / 4) 1
      + (sweep_cell 2 false 0).shp scenario_grid.grid_properties (1 / 4) (1 / 4) 2
      + (sweep_cell 2 false 0).shp scenario_grid.grid_properties (1 / 4) (1 / 4) 3 = 1 ∧
    ∀ i : Int, 0 ≤ i → i ≤ 3 →
      0 < (sweep_cell 2 false 0).shp scenario_grid.grid_properties (1 / 4) (1 / 4) i :=
  shp_partition_of_unity scenario_grid.grid_properties (sweep_cell 2 false 0) (1 / 4) (1 / 4)
    (by norm_num [scenario_grid, quadgrid_t.set_sizes])
    (by norm_num [scenario_grid, quadgrid_t.set_sizes])
    (by norm_num [scenario_grid, quadgrid_t.set_sizes, sweep_cell, cell_t.col_idx])
    (by norm_num [scenario_grid, quadgrid_t.set_sizes, sweep_cell, cell_t.col_idx])
    (by norm_num [scenario_grid, quadgrid_t.set_sizes, sweep_cell, cell_t.row_idx])
    (by norm_num [scenario_grid, quadgrid_t.set_sizes, sweep_cell, cell_t.row_idx])

/-! ## Particles outside the grid extent -/

theorem sweep_set_sizes (ps : particles_t) (g : quadgrid_t) (R C : Int) (hx hy : ℚ)
    (hR : 1 ≤ R) (hC : 1 ≤ C) (hgrid : ps.grid = g.set_sizes R C hx hy) :
    ps.sweep = Except.ok
      ((List.range (R * C).toNat).map (sweep_cell R g.current_cell.is_ghost)) := by
  unfold particles_t.sweep
  rw [hgrid, cell_sweep_set_sizes g R C hx hy hR hC]

/-- With the quotients taken exactly, on a grid with `R, C ≥ 1` and
`hx, hy > 0`, a particle `i` whose position lies beside the grid extent,
`x ≥ C*hx` with `y ≥ 0` or `x < 0` with `y < R*hy`, is filed by
`init_particle_mesh ()` under the key `floor (y/hy) + R*floor (x/hx)`, which
lies outside `[0, R*C)`, and is in the bucket of no cell that the cell sweep
visits. -/
theorem outside_key_exact (ps : particles_t) (g : quadgrid_t) (R C : Int) (hx hy : ℚ)
    (hR : 1 ≤ R) (hC : 1 ≤ C) (hhx : 0 < hx) (hhy : 0 < hy)
    (hgrid : ps.grid = g.set_sizes R C hx hy) (hxy : ps.x.length = ps.y.length)
    (i : Int) (hi0 : 0 ≤ i) (hi : i < ps.x.length)
    (hout : ((C : ℚ) * hx ≤ ps.x.getD i.toNat 0 ∧ 0 ≤ ps.y.getD i.toNat 0) ∨
      (ps.x.getD i.toNat 0 < 0 ∧ ps.y.getD i.toNat 0 < (R : ℚ) * hy)) :
    ps.cell_key i = Int.floor (ps.y.getD i.toNat 0 / hy)
      + R * Int.floor (ps.x.getD i.toNat 0 / hx) ∧
    (ps.cell_key i < 0 ∨ R * C ≤ ps.cell_key i) ∧
    ∃ ps' cells, ps.init_particle_mesh = Except.ok ps' ∧ ps'.sweep = Except.ok cells ∧
      i ∈ ps'.grd_to_ptcl.subscript (ps.cell_key i) ∧
      ∀ icell ∈ cells, i ∉ ps'.grd_to_ptcl.subscript icell.get_global_cell_idx := by
  have hgx : ps.grid.hx = hx := by rw [hgrid]; rfl
  have hgy : ps.grid.hy = hy := by rw [hgrid]; rfl
  have hrows : ps.grid.grid_properties.numrows = R := by rw [hgrid]; rfl
  have hkey : ps.cell_key i = Int.floor (ps.y.getD i.toNat 0 / hy)
      + R * Int.floor (ps.x.getD i.toNat 0 / hx) := by
    simp only [particles_t.cell_key, quadgrid_t.sub2gind, hgx, hgy, hrows]
  have hrange : ps.cell_key i < 0 ∨ R * C ≤ ps.cell_key i := by
    rw [hkey]
    rcases hout with ⟨hxC, hy0⟩ | ⟨hx0, hyR⟩
    · right
      have hc : C ≤ Int.floor (ps.x.getD i.toNat 0 / hx) := by
        rw [Int.le_floor, le_div_iff₀ hhx]
        exact hxC
      have hr : 0 ≤ Int.floor (ps.y.getD i.toNat 0 / hy) :=
        Int.floor_nonneg.mpr (div_nonneg hy0 (le_of_lt hhy))
      nlinarith
    · left
      have hc : Int.floor (ps.x.getD i.toNat 0 / hx) < 0 := by
        rw [Int.floor_lt, div_lt_iff₀ hhx]
        simpa using hx0
      have hr : Int.floor (ps.y.getD i.toNat 0 / hy) < R := by
        rw [Int.floor_lt, div_lt_iff₀ hhy]
        exact hyR
      nlinarith
  refine ⟨hkey, hrange, ?_⟩
  obtain ⟨ps', hok, _, _, _, _, _, hg', hidx⟩ := init_particle_mesh_spec ps (le_of_eq hxy)
  have hgrid' : ps'.grid = g.set_sizes R C hx hy := by rw [hg', hgrid]
  refine ⟨ps', _, hok, sweep_set_sizes ps' g R C hx hy hR hC hgrid', ?_, ?_⟩
  · rw [(hidx _).1, List.mem_filter]
    refine ⟨?_, by simp⟩
    obtain ⟨n, rfl⟩ := Int.eq_ofNat_of_zero_le hi0
    exact mem_index_range_of_lt _ _ (by exact_mod_cast hi)
  · intro icell hicell hmem
    obtain ⟨hk0, hk, _⟩ := swept_cell_facts ps' g R C hx hy hR hgrid' icell hicell
    rw [(hidx _).1, List.mem_filter] at hmem
    have hkk : ps.cell_key i = icell.get_global_cell_idx := by simpa using hmem.2
    omega

/-! ## The sweep of an empty grid -/

theorem cell_sweep_degenerate (g : quadgrid_t) (R C : Int) (hx hy : ℚ)
    (h0 : R = 0 ∨ C = 0) :
    (g.set_sizes R C hx hy).cell_sweep
      = some [{ is_ghost := g.current_cell.is_ghost, rowidx := 0, colidx := 0,
                local_cell_idx := 0, global_cell_idx := 0 }] ∧
    (g.set_sizes R C hx hy).num_local_cells = 0 := by
  have hlim : R - 1 + R * (C - 1) = -1 := by
    rcases h0 with rfl | rfl <;> ring
  have hfuel : (g.set_sizes R C hx hy).sweep_fuel = 1 := by
    simp only [quadgrid_t.sweep_fuel, quadgrid_t.set_sizes]
    rw [hlim]
    simp
  constructor
  · rw [quadgrid_t.cell_sweep, hfuel]
    show sweep_from (0 + 1) _ { data := cell_ptr.current_cell } = _
    rw [sweep_from_current]
    have hstep : (cell_iterator.operator_incr (g.set_sizes R C hx hy).begin_cell_sweep.1
        { data := cell_ptr.current_cell }).2 = { data := cell_ptr.nullptr } := by
      simp only [cell_iterator.operator_incr, quadgrid_t.begin_cell_sweep, cell_t.reset,
        quadgrid_t.set_sizes, cell_t.num_rows, cell_t.end_cell_row, cell_t.end_cell_col]
      rw [if_pos]
      rw [hlim]
      simp
    rw [hstep, sweep_from_nullptr]
    simp [quadgrid_t.begin_cell_sweep, cell_t.reset, quadgrid_t.set_sizes]
  · show R * C = 0
    rcases h0 with rfl | rfl <;> ring

/-- C15, failing input: on the grid that `set_sizes (R, C, hx, hy)` leaves with
`R, C ≥ 0` and `R = 0` or `C = 0`, and on the default-constructed grid, the
sweep from `begin_cell_sweep ()` to `end_cell_sweep ()` produces one cell, the
cell `(0, 0)` with global index 0, while `num_local_cells ()` is 0. -/
theorem cell_sweep_empty_grid :
    (∀ (g : quadgrid_t) (R C : Int) (hx hy : ℚ), 0 ≤ R → 0 ≤ C → (R = 0 ∨ C = 0) →
      (g.set_sizes R C hx hy).cell_sweep
        = some [{ is_ghost := g.current_cell.is_ghost, rowidx := 0, colidx := 0,
                  local_cell_idx := 0, global_cell_idx := 0 }] ∧
      (g.set_sizes R C hx hy).num_local_cells = 0) ∧
    (∀ (mpi : Option (Int × Int)) (u0 u1 u2 u3 : Int),
      ((quadgrid_t.construct mpi u0 u1 u2 u3).cell_sweep).map List.length = some 1 ∧
      (quadgrid_t.construct mpi u0 u1 u2 u3).num_local_cells = 0) := by
  constructor
  · intro g R C hx hy _ _ h0
    exact cell_sweep_degenerate g R C hx hy h0
  · intro mpi u0 u1 u2 u3
    refine ⟨?_, rfl⟩
    show Option.map List.length
      (sweep_from (0 + 1) _ { data := cell_ptr.current_cell }) = _
    rw [sweep_from_current]
    have hstep : (cell_iterator.operator_incr
        (quadgrid_t.construct mpi u0 u1 u2 u3).begin_cell_sweep.1
        { data := cell_ptr.current_cell }).2 = { data := cell_ptr.nullptr } := by
      simp [cell_iterator.operator_incr, quadgrid_t.begin_cell_sweep, cell_t.reset,
        quadgrid_t.construct, cell_t.num_rows, cell_t.end_cell_row, cell_t.end_cell_col]
    rw [hstep, sweep_from_nullptr]
    rfl

theorem cell_sweep_empty_grid_witness :
    ((quadgrid_t.construct none 0 0 0 0).set_sizes 0 3 1 1).cell_sweep
        = some [{ is_ghost := (quadgrid_t.construct none 0 0 0 0).current_cell.is_ghost,
                  rowidx := 0, colidx := 0, local_cell_idx := 0, global_cell_idx := 0 }] ∧
      ((quadgrid_t.construct none 0 0 0 0).set_sizes 0 3 1 1).num_local_cells = 0 :=
  cell_sweep_empty_grid.1 (quadgrid_t.construct none 0 0 0 0) 0 3 1 1 (by decide) (by decide)
    (Or.inl rfl)

/-! ## The cursor between `reset` and the end of the sweep -/

theorem incr_steps_succ (n : Nat) (s : quadgrid_t × cell_iterator) :
    incr_steps (n + 1) s = (incr_steps n s).2.operator_incr (incr_steps n s).1 := by
  induction n generalizing s with
  | zero => rfl
  | succ n ih =>
    show incr_steps (n + 1) (s.2.operator_incr s.1) = _
    rw [ih]
    rfl

theorem incr_steps_set_sizes (R C : Int) (hx hy : ℚ) (hR : 1 ≤ R) (hC : 1 ≤ C)
    (g0 : quadgrid_t) (n : Nat) :
    (n < (R * C).toNat →
      (incr_steps n (g0.set_sizes R C hx hy).begin_cell_sweep).2
        = { data := cell_ptr.current_cell } ∧
      (incr_steps n (g0.set_sizes R C hx hy).begin_cell_sweep).1.grid_properties
        = (g0.set_sizes R C hx hy).grid_properties ∧
      (incr_steps n (g0.set_sizes R C hx hy).begin_cell_sweep).1.current_cell
        = sweep_cell R g0.current_cell.is_ghost n) ∧
    ((R * C).toNat ≤ n →
      (incr_steps n (g0.set_sizes R C hx hy).begin_cell_sweep).2
        = { data := cell_ptr.nullptr }) := by
  have hpos : 1 ≤ R * C := by nlinarith
  induction n with
  | zero =>
    refine ⟨fun _ => ⟨rfl, rfl, ?_⟩, fun h => by omega⟩
    simp [incr_steps, quadgrid_t.begin_cell_sweep, cell_t.reset, quadgrid_t.set_sizes,
      sweep_cell]
  | succ n ih =>
    rw [incr_steps_succ]
    generalize incr_steps n (g0.set_sizes R C hx hy).begin_cell_sweep = s at ih ⊢
    obtain ⟨g1, it⟩ := s
    by_cases hn : n < (R * C).toNat
    · obtain ⟨hit, hgp, hc⟩ := ih.1 hn
      simp only at hit hgp hc
      have hkey : (n : Int) % R + R * ((n : Int) / R) = n := Int.emod_add_ediv _ _
      have hk0 : (0 : Int) ≤ (n : Int) + 1 := by omega
      have hR0 : (0 : Int) ≤ R := by omega
      have hlim : R * (C - 1) = R * C - R := by ring
      rw [hit]
      constructor
      · intro hn1
        have hif : ¬ ((n : Int) % R + R * ((n : Int) / R) + 1 > R - 1 + R * (C - 1)) := by
          rw [hkey, hlim]
          omega
        simp only [cell_iterator.operator_incr, hgp, hc, quadgrid_t.set_sizes, sweep_cell,
          cell_t.num_rows, cell_t.end_cell_row, cell_t.end_cell_col,
          cell_t.start_cell_row, cell_t.start_cell_col]
        rw [if_neg hif]
        refine ⟨rfl, rfl, ?_⟩
        simp only [hkey, Int.tmod_eq_emod hk0 hR0, Int.tdiv_eq_ediv hk0 hR0]
        simp
      · intro hn1
        have hif : (n : Int) % R + R * ((n : Int) / R) + 1 > R - 1 + R * (C - 1) := by
          rw [hkey, hlim]
          omega
        simp only [cell_iterator.operator_incr, hgp, hc, quadgrid_t.set_sizes, sweep_cell,
          cell_t.num_rows, cell_t.end_cell_row, cell_t.end_cell_col]
        rw [if_pos hif]
    · have hend := ih.2 (by omega)
      simp only at hend
      refine ⟨fun h => by omega, fun _ => ?_⟩
      rw [hend]
      rfl

/-- C16: on a grid configured by `set_sizes` with `R, C ≥ 1`, the cursor after
`reset ()` (in `begin_cell_sweep ()`) and `n` steps `operator++` has not reached
the end when `n < R*C`, and whenever it has not reached the end it satisfies
`0 ≤ rowidx < R`, `0 ≤ colidx < C`, `global_cell_idx = rowidx + R*colidx` and
`local_cell_idx = global_cell_idx - (start_cell_row + R*start_cell_col)`,
which is `global_cell_idx`. -/
theorem cursor_invariant (g : quadgrid_t) (R C : Int) (hx hy : ℚ) (hR : 1 ≤ R) (hC : 1 ≤ C)
    (n : Nat) :
    ((n : Int) < R * C →
      (incr_steps n (g.set_sizes R C hx hy).begin_cell_sweep).2.operator_ne
        (g.set_sizes R C hx hy).end_cell_sweep = true) ∧
    ((incr_steps n (g.set_sizes R C hx hy).begin_cell_sweep).2.operator_ne
        (g.set_sizes R C hx hy).end_cell_sweep = true →
      0 ≤ (incr_steps n (g.set_sizes R C hx hy).begin_cell_sweep).1.current_cell.rowidx ∧
      (incr_steps n (g.set_sizes R C hx hy).begin_cell_sweep).1.current_cell.rowidx < R ∧
      0 ≤ (incr_steps n (g.set_sizes R C hx hy).begin_cell_sweep).1.current_cell.colidx ∧
      (incr_steps n (g.set_sizes R C hx hy).begin_cell_sweep).1.current_cell.colidx < C ∧
      (incr_steps n (g.set_sizes R C hx hy).begin_cell_sweep).1.current_cell.global_cell_idx
        = (incr_steps n (g.set_sizes R C hx hy).begin_cell_sweep).1.current_cell.rowidx
          + R * (incr_steps n (g.set_sizes R C hx hy).begin_cell_sweep).1.current_cell.colidx ∧
      (incr_steps n (g.set_sizes R C hx hy).begin_cell_sweep).1.current_cell.local_cell_idx
        = (incr_steps n (g.set_sizes R C hx hy).begin_cell_sweep).1.current_cell.global_cell_idx
          - ((incr_steps n
                (g.set_sizes R C hx hy).begin_cell_sweep).1.grid_properties.start_cell_row
              + R * (incr_steps n
                (g.set_sizes R C hx hy).begin_cell_sweep).1.grid_properties.start_cell_col) ∧
      (incr_steps n (g.set_sizes R C hx hy).begin_cell_sweep).1.current_cell.local_cell_idx
        = (incr_steps n
            (g.set_sizes R C hx hy).begin_cell_sweep).1.current_cell.global_cell_idx) := by
  obtain ⟨hlt, hge⟩ := incr_steps_set_sizes R C hx hy hR hC g n
  constructor
  · intro hn
    rw [(hlt (by omega)).1]
    rfl
  · intro hne
    have hn : n < (R * C).toNat := by
      by_contra hcon
      rw [hge (by omega)] at hne
      simp [cell_iterator.operator_ne, cell_iterator.operator_eq,
        quadgrid_t.end_cell_sweep] at hne
    obtain ⟨_, hgp, hc⟩ := hlt hn
    obtain ⟨hr0, hr, hc0, hcC⟩ := sweep_cell_range R C g.current_cell.is_ghost n hR hn
    rw [hgp, hc]
    refine ⟨hr0, hr, hc0, hcC, ?_, ?_, rfl⟩
    · exact (Int.emod_add_ediv _ _).symm
    · simp [sweep_cell, quadgrid_t.set_sizes]

theorem cursor_invariant_witness :
    (incr_steps 3 ((quadgrid_t.construct none 0 0 0 0).set_sizes 2 2 1 1).begin_cell_sweep
        ).2.operator_ne
      ((quadgrid_t.construct none 0 0 0 0).set_sizes 2 2 1 1).end_cell_sweep = true ∧
    (incr_steps 3 ((quadgrid_t.construct none 0 0 0 0).set_sizes 2 2 1 1).begin_cell_sweep
        ).1.current_cell.rowidx < 2 ∧
    (incr_steps 3 ((quadgrid_t.construct none 0 0 0 0).set_sizes 2 2 1 1).begin_cell_sweep
        ).1.current_cell.colidx < 2 :=
  ⟨(cursor_invariant (quadgrid_t.construct none 0 0 0 0) 2 2 1 1 (by decide) (by decide) 3).1
    (by decide),
   ((cursor_invariant (quadgrid_t.construct none 0 0 0 0) 2 2 1 1 (by decide) (by decide) 3).2
    (by decide)).2.1,
   ((cursor_invariant (quadgrid_t.construct none 0 0 0 0) 2 2 1 1 (by decide) (by decide) 3).2
    (by decide)).2.2.2.1⟩

/-! ## The index is a function of the positions -/

theorem index_range_pairwise (n : Nat) : (index_range n).Pairwise (fun a b => a < b) := by
  unfold index_range
  rw [List.pairwise_map]
  exact (List.pairwise_lt_range n).imp (fun h => Int.ofNat_lt.mpr h)

theorem option_list_ext {α : Type} (a b : Option (List α))
    (hs : a.isSome ↔ b.isSome) (hv : a.getD [] = b.getD []) : a = b := by
  cases a <;> cases b <;> simp_all

/-- C18: for every previous content of `grd_to_ptcl` and every list of particle
positions, after `init_particle_mesh ()` the bucket of each key `k` is the list,
in increasing order, of the particle indices `i` with
`floor (y_i/hy) + R*floor (x_i/hx) = k`; a key is present exactly when it was
present before or is the cell id of a particle, so a previously present key of
no particle holds the empty bucket; and a second call of
`init_particle_mesh ()` returns the same particle set as the first. -/
theorem init_particle_mesh_idempotent (ps : particles_t) (hxy : ps.x.length = ps.y.length) :
    ∃ ps', ps.init_particle_mesh = Except.ok ps' ∧
      (∀ k : Int, ps'.grd_to_ptcl.subscript k
        = (index_range ps.x.length).filter (fun i =>
            decide (Int.floor (ps.y.getD i.toNat 0 / ps.grid.hy)
              + ps.grid.num_rows * Int.floor (ps.x.getD i.toNat 0 / ps.grid.hx) = k))) ∧
      (∀ k : Int, (ps'.grd_to_ptcl.subscript k).Pairwise (fun a b => a < b)) ∧
      (∀ k : Int, (ps'.grd_to_ptcl k).isSome ↔
        ((ps.grd_to_ptcl k).isSome ∨ ∃ i ∈ index_range ps.x.length,
          Int.floor (ps.y.getD i.toNat 0 / ps.grid.hy)
            + ps.grid.num_rows * Int.floor (ps.x.getD i.toNat 0 / ps.grid.hx) = k)) ∧
      (∀ k : Int, (ps.grd_to_ptcl k).isSome →
        (∀ i ∈ index_range ps.x.length,
          Int.floor (ps.y.getD i.toNat 0 / ps.grid.hy)
            + ps.grid.num_rows * Int.floor (ps.x.getD i.toNat 0 / ps.grid.hx) ≠ k) →
        ps'.grd_to_ptcl k = some []) ∧
      ps'.init_particle_mesh = Except.ok ps' := by
  obtain ⟨ps', hok, hx', hy', hi', hd', hM', hg', hidx⟩ :=
    init_particle_mesh_spec ps (le_of_eq hxy)
  have hsub : ∀ k : Int, ps'.grd_to_ptcl.subscript k
      = (index_range ps.x.length).filter (fun i =>
          decide (Int.floor (ps.y.getD i.toNat 0 / ps.grid.hy)
            + ps.grid.num_rows * Int.floor (ps.x.getD i.toNat 0 / ps.grid.hx) = k)) :=
    fun k => (hidx k).1
  have hsome : ∀ k : Int, (ps'.grd_to_ptcl k).isSome ↔
      ((ps.grd_to_ptcl k).isSome ∨ ∃ i ∈ index_range ps.x.length,
        Int.floor (ps.y.getD i.toNat 0 / ps.grid.hy)
          + ps.grid.num_rows * Int.floor (ps.x.getD i.toNat 0 / ps.grid.hx) = k) :=
    fun k => (hidx k).2
  refine ⟨ps', hok, hsub, ?_, hsome, ?_, ?_⟩
  · intro k
    rw [hsub k]
    exact (index_range_pairwise _).filter _
  · intro k hk hno
    have h1 : (ps'.grd_to_ptcl k).isSome := (hsome k).mpr (Or.inl hk)
    have h2 : ps'.grd_to_ptcl.subscript k = [] := by
      rw [hsub k, List.filter_eq_nil_iff]
      intro i hi
      simpa using hno i hi
    unfold map_t.subscript at h2
    cases hval : ps'.grd_to_ptcl k with
    | none => rw [hval] at h1; exact absurd h1 (by decide)
    | some v => rw [hval] at h2; exact congrArg some h2
  · obtain ⟨ps'', hok2, hx2, hy2, hi2, hd2, hM2, hg2, hidx2⟩ :=
      init_particle_mesh_spec ps' (by rw [hx', hy']; exact le_of_eq hxy)
    have hkey : ∀ i, ps'.cell_key i = ps.cell_key i := by
      intro i
      simp only [particles_t.cell_key, hx', hy', hg']
    have hmap : ps''.grd_to_ptcl = ps'.grd_to_ptcl := by
      funext k
      apply option_list_ext
      · rw [(hidx2 k).2]
        constructor
        · rintro (h | ⟨i, hi, hik⟩)
          · exact h
          · rw [hx'] at hi
            rw [hkey] at hik
            exact (hidx k).2.mpr (Or.inr ⟨i, hi, hik⟩)
        · exact Or.inl
      · have h1 := (hidx2 k).1
        have h2 := (hidx k).1
        unfold map_t.subscript at h1 h2
        rw [h1, h2, hx']
        simp only [hkey]
    rw [hok2]
    congr 1
    cases ps''
    cases ps'
    simp only at hx2 hy2 hi2 hd2 hM2 hg2 hmap
    simp only [particles_t.mk.injEq]
    exact ⟨hx2, hy2, hi2, hd2, hM2, hmap, hg2⟩

theorem init_particle_mesh_idempotent_witness :
    ∃ ps', stray_particles.init_particle_mesh = Except.ok ps' ∧
      (∀ k : Int, ps'.grd_to_ptcl.subscript k
        = (index_range stray_particles.x.length).filter (fun i =>
            decide (Int.floor (stray_particles.y.getD i.toNat 0 / stray_particles.grid.hy)
              + stray_particles.grid.num_rows
                * Int.floor (stray_particles.x.getD i.toNat 0 / stray_particles.grid.hx)
              = k))) ∧
      (∀ k : Int, (ps'.grd_to_ptcl.subscript k).Pairwise (fun a b => a < b)) ∧
      (∀ k : Int, (ps'.grd_to_ptcl k).isSome ↔
        ((stray_particles.grd_to_ptcl k).isSome ∨ ∃ i ∈ index_range stray_particles.x.length,
          Int.floor (stray_particles.y.getD i.toNat 0 / stray_particles.grid.hy)
            + stray_particles.grid.num_rows
              * Int.floor (stray_particles.x.getD i.toNat 0 / stray_particles.grid.hx) = k)) ∧
      (∀ k : Int, (stray_particles.grd_to_ptcl k).isSome →
        (∀ i ∈ index_range stray_particles.x.length,
          Int.floor (stray_particles.y.getD i.toNat 0 / stray_particles.grid.hy)
            + stray_particles.grid.num_rows
              * Int.floor (stray_particles.x.getD i.toNat 0 / stray_particles.grid.hx) ≠ k) →
        ps'.grd_to_ptcl k = some []) ∧
      ps'.init_particle_mesh = Except.ok ps' :=
  init_particle_mesh_idempotent stray_particles rfl

/-! ## What a transfer that returns has left alone -/

theorem except_bind_eq_ok {ε α β : Type} (x : Except ε α) (f : α → Except ε β) (b : β) :
    (x >>= f) = Except.ok b ↔ ∃ a, x = Except.ok a ∧ f a = Except.ok b := by
  cases x with
  | error e =>
    constructor
    · intro h
      exact absurd h (by simp [except_bind_error])
    · rintro ⟨a, ha, _⟩
      exact absurd ha (by simp)
  | ok a =>
    rw [except_bind_ok]
    constructor
    · intro h
      exact ⟨a, rfl, h⟩
    · rintro ⟨a', ha, h⟩
      cases ha
      exact h

theorem vec_at_eq_ok {α : Type} {v : List α} {i : Int} {a : α}
    (h : vec_at v i = Except.ok a) : 0 ≤ i ∧ v[i.toNat]? = some a := by
  unfold vec_at at h
  split_ifs at h with hi
  cases hv : v[i.toNat]? with
  | none => rw [hv] at h; simp at h
  | some b =>
    rw [hv] at h
    simp only [Except.ok.injEq] at h
    exact ⟨by omega, by rw [h]⟩

theorem vec_assign_eq_ok {α : Type} {v v' : List α} {i : Int} {a : α}
    (h : vec_assign v i a = Except.ok v') :
    0 ≤ i ∧ i.toNat < v.length ∧ v' = v.set i.toNat a := by
  unfold vec_assign at h
  split_ifs at h with hi
  simp only [Except.ok.injEq] at h
  exact ⟨hi.1, hi.2, h.symm⟩

theorem at_eq_ok {K V : Type} {m : map_t K V} {k : K} {v : V}
    (h : m.at k = Except.ok v) : m k = some v := by
  unfold map_t.at at h
  cases hv : m k with
  | none => rw [hv] at h; simp at h
  | some b =>
    rw [hv] at h
    simp only [Except.ok.injEq] at h
    rw [h]

/-- A loop whose every step that returns keeps `Q`, keeps `Q` when it returns. -/
theorem foldlM_preserves {ε σ α : Type} (Q : σ → Prop) (step : σ → α → Except ε σ) :
    ∀ (l : List α),
      (∀ a ∈ l, ∀ s s', Q s → step s a = Except.ok s' → Q s') →
      ∀ s s', Q s → List.foldlM step s l = Except.ok s' → Q s' := by
  intro l
  induction l with
  | nil =>
    intro _ s s' hs h
    rw [foldlM_nil_ok] at h
    cases h
    exact hs
  | cons a l ih =>
    intro hstep s s' hs h
    rw [List.foldlM_cons, except_bind_eq_ok] at h
    obtain ⟨s1, h1, h2⟩ := h
    exact ih (fun b hb => hstep b (List.mem_cons_of_mem a hb)) s1 s'
      (hstep a (List.mem_cons_self a l) s s1 hs h1) h2

/-- What one accumulation of `g2p` that returns has done: it has replaced entry
`idx` of one attribute named in `pvarnames`. -/
theorem g2p_var_eq_ok (ps : particles_t) (vars : map_t String (List ℚ))
    (gvarnames pvarnames : List String) (icell : cell_t) (idx inode : Int) (N : ℚ)
    (d d' : map_t String (List ℚ)) (ivar : Int)
    (h : ps.g2p_var vars gvarnames pvarnames icell idx inode N d ivar = Except.ok d') :
    ∃ pname pvar v, pname ∈ pvarnames ∧ d pname = some pvar ∧ 0 ≤ idx ∧
      d' = d.store pname (pvar.set idx.toNat v) := by
  unfold particles_t.g2p_var at h
  simp only [except_bind_eq_ok, bind_assoc] at h
  obtain ⟨gname, _, gvar, _, f, _, pname, hpn, pvar, hpv, old, _, pvar', hassign, hstore⟩ := h
  have hd' : d' = d.store pname pvar' := by
    rw [except_pure] at hstore
    cases hstore
    rfl
  obtain ⟨hi0, hilt, hset⟩ := vec_assign_eq_ok hassign
  have hmem : pname ∈ pvarnames := by
    obtain ⟨_, hget⟩ := vec_at_eq_ok hpn
    exact List.getElem?_mem hget
  exact ⟨pname, pvar, _, hmem, at_eq_ok hpv, hi0, by rw [hd', hset]⟩

theorem g2p_node_preserves (ps : particles_t) (vars : map_t String (List ℚ))
    (gvarnames pvarnames : List String) (apply_mass : Bool)
    (Q : map_t String (List ℚ) → Prop) (icell : cell_t) (idx : Int)
    (hvar : ∀ (inode : Int) (N : ℚ) (d d' : map_t String (List ℚ)) (ivar : Int), Q d →
      ps.g2p_var vars gvarnames pvarnames icell idx inode N d ivar = Except.ok d' → Q d')
    (xx yy : ℚ) (d d' : map_t String (List ℚ)) (inode : Int) (hd : Q d)
    (h : ps.g2p_node vars gvarnames pvarnames apply_mass icell idx xx yy d inode
      = Except.ok d') : Q d' := by
  unfold particles_t.g2p_node at h
  rw [except_bind_eq_ok] at h
  obtain ⟨N, _, hfold⟩ := h
  exact foldlM_preserves Q _ _ (fun ivar _ s s' hs hstep => hvar inode N s s' ivar hs hstep)
    d d' hd hfold

theorem g2p_particle_preserves (ps : particles_t) (vars : map_t String (List ℚ))
    (gvarnames pvarnames : List String) (apply_mass : Bool)
    (Q : map_t String (List ℚ) → Prop) (icell : cell_t) (idx : Int)
    (hvar : ∀ (inode : Int) (N : ℚ) (d d' : map_t String (List ℚ)) (ivar : Int), Q d →
      ps.g2p_var vars gvarnames pvarnames icell idx inode N d ivar = Except.ok d' → Q d')
    (d d' : map_t String (List ℚ)) (hd : Q d)
    (h : ps.g2p_particle vars gvarnames pvarnames apply_mass icell d idx = Except.ok d') :
    Q d' := by
  unfold particles_t.g2p_particle at h
  simp only [except_bind_eq_ok] at h
  obtain ⟨xx, _, yy, _, hfold⟩ := h
  exact foldlM_preserves Q _ _
    (fun inode _ s s' hs hstep =>
      g2p_node_preserves ps vars gvarnames pvarnames apply_mass Q icell idx hvar xx yy s s'
        inode hs hstep)
    d d' hd hfold

theorem g2p_cell_preserves (ps : particles_t) (vars : map_t String (List ℚ))
    (gvarnames pvarnames : List String) (apply_mass : Bool)
    (Q : map_t String (List ℚ) → Prop) (icell : cell_t)
    (hvar : ∀ idx ∈ ps.grd_to_ptcl.subscript icell.get_global_cell_idx,
      ∀ (inode : Int) (N : ℚ) (d d' : map_t String (List ℚ)) (ivar : Int), Q d →
      ps.g2p_var vars gvarnames pvarnames icell idx inode N d ivar = Except.ok d' → Q d')
    (d d' : map_t String (List ℚ)) (hd : Q d)
    (h : ps.g2p_cell vars gvarnames pvarnames apply_mass d icell = Except.ok d') :
    Q d' := by
  unfold particles_t.g2p_cell at h
  split_ifs at h with hcount
  · rw [except_bind_eq_ok] at h
    obtain ⟨bucket, hb, hfold⟩ := h
    have hsub : ps.grd_to_ptcl.subscript icell.get_global_cell_idx = bucket := by
      unfold map_t.subscript
      rw [at_eq_ok hb]
      rfl
    rw [hsub] at hvar
    exact foldlM_preserves Q _ _
      (fun idx hidx s s' hs hstep =>
        g2p_particle_preserves ps vars gvarnames pvarnames apply_mass Q icell idx
          (hvar idx hidx) s s' hs hstep)
      d d' hd hfold
  · rw [except_pure] at h
    cases h
    exact hd

/-- A call of `g2p` that returns has changed `dprops` only, and `dprops` has
every property `Q` that it had before and that every accumulation into a
bucket entry of a swept cell keeps. -/
theorem g2p_preserves (ps ps' : particles_t) (vars : map_t String (List ℚ))
    (gvarnames pvarnames : List String) (apply_mass : Bool)
    (h : ps.g2p vars gvarnames pvarnames apply_mass = Except.ok ps') :
    ps'.x = ps.x ∧ ps'.y = ps.y ∧ ps'.M = ps.M ∧ ps'.grd_to_ptcl = ps.grd_to_ptcl ∧
    ps'.iprops = ps.iprops ∧ ps'.grid = ps.grid ∧
    ∃ cells, ps.grid.cell_sweep = some cells ∧
      ∀ Q : map_t String (List ℚ) → Prop,
        (∀ icell ∈ cells, ∀ idx ∈ ps.grd_to_ptcl.subscript icell.get_global_cell_idx,
          ∀ (inode : Int) (N : ℚ) (d d' : map_t String (List ℚ)) (ivar : Int), Q d →
          ps.g2p_var vars gvarnames pvarnames icell idx inode N d ivar = Except.ok d' →
          Q d') →
        Q ps.dprops → Q ps'.dprops := by
  unfold particles_t.g2p at h
  simp only [except_bind_eq_ok] at h
  obtain ⟨cells, hcells, d', hfold, hps'⟩ := h
  rw [except_pure] at hps'
  cases hps'
  refine ⟨rfl, rfl, rfl, rfl, rfl, rfl, cells, ?_, ?_⟩
  · unfold particles_t.sweep at hcells
    cases hs : ps.grid.cell_sweep with
    | none => rw [hs] at hcells; simp at hcells
    | some c =>
      rw [hs] at hcells
      simp only [Except.ok.injEq] at hcells
      rw [hcells]
  · intro Q hvar hQ
    exact foldlM_preserves Q _ _
      (fun icell hicell s s' hs hstep =>
        g2p_cell_preserves ps vars gvarnames pvarnames apply_mass Q icell
          (hvar icell hicell) s s' hs hstep)
      ps.dprops d' hQ hfold

theorem phantom_g2p :
    ∃ ps', phantom_particles.g2p unit_fields ["f"] ["a"] false = Except.ok ps' ∧
      entry ps'.dprops "a" 0 = 1 := by
  have hcells := (cell_sweep_degenerate (quadgrid_t.construct none 0 0 0 0) 0 3 1 1
    (Or.inl rfl)).1
  have hcells' : phantom_particles.grid.cell_sweep = some [sweep_cell 0 false 0] := hcells
  obtain ⟨ps', hok, _, _, _, _, _, _, _, hentry⟩ :=
    g2p_accumulate phantom_particles [sweep_cell 0 false 0] unit_fields ["f"] ["a"] false
      hcells' (by
        intro icell hicell idx hidx
        simp only [List.mem_singleton] at hicell
        subst hicell
        have hidx0 : idx = 0 := by
          simpa [phantom_particles, map_t.subscript, sweep_cell,
            cell_t.get_global_cell_idx] using hidx
        subst hidx0
        refine ⟨le_refl _, by decide, by decide, ?_⟩
        intro inode hinode
        refine ⟨fun h => absurd h (by decide), ?_⟩
        intro ivar hivar
        simp only [List.length_singleton, Nat.lt_one_iff] at hivar
        subst hivar
        refine ⟨"f", [1, 1, 1, 1], "a", 1, rfl, rfl, ?_, ?_, rfl, rfl, by decide⟩
        · obtain ⟨h0, h1⟩ := mem_index_range hinode
          have : inode = 0 ∨ inode = 1 ∨ inode = 2 ∨ inode = 3 := by omega
          rcases this with rfl | rfl | rfl | rfl <;> decide
        · obtain ⟨h0, h1⟩ := mem_index_range hinode
          have : inode = 0 ∨ inode = 1 ∨ inode = 2 ∨ inode = 3 := by omega
          rcases this with rfl | rfl | rfl | rfl <;> decide)
  refine ⟨ps', hok, ?_⟩
  rw [hentry]
  have t0 : Int.toNat 0 = 0 := rfl
  have t1 : Int.toNat 1 = 1 := rfl
  have t2 : Int.toNat 2 = 2 := rfl
  simp [g2p_sum, g2p_term, g2p_weight, index_range, entry, map_t.subscript,
    phantom_particles, unit_fields, sweep_cell, cell_t.get_global_cell_idx, cell_t.gt,
    cell_t.shp, quadgrid_t.set_sizes, cell_t.row_idx, cell_t.col_idx, cell_t.num_rows,
    List.range_succ, t0, t1, t2]
  norm_num

/-- C19: on a grid with `R, C ≥ 1`, every call of `g2p` that returns leaves `x`,
`y`, `M`, `grd_to_ptcl`, the integer attributes and the grid as they were,
every real attribute not named in the destination list as it was, and entry
`p` of every real attribute as it was for every particle `p` that the bucket
of no cell with id in `[0, R*C)` lists.  Failing input: on the grid of
`set_sizes (0, 3, 1, 1)`, where `[0, R*C)` is empty, the sweep still visits
the cell `(0, 0)`, and `g2p` raises entry 0 of the attribute `a` of the
particle listed under key 0 from 0 to 1. -/
theorem g2p_frame :
    (∀ (ps ps' : particles_t) (g : quadgrid_t) (R C : Int) (hx hy : ℚ)
      (vars : map_t String (List ℚ)) (gvarnames pvarnames : List String) (apply_mass : Bool),
      1 ≤ R → 1 ≤ C → ps.grid = g.set_sizes R C hx hy →
      ps.g2p vars gvarnames pvarnames apply_mass = Except.ok ps' →
      ps'.x = ps.x ∧ ps'.y = ps.y ∧ ps'.M = ps.M ∧ ps'.grd_to_ptcl = ps.grd_to_ptcl ∧
      ps'.iprops = ps.iprops ∧ ps'.grid = ps.grid ∧
      (∀ name : String, name ∉ pvarnames → ps'.dprops name = ps.dprops name) ∧
      (∀ (name : String) (p : Nat),
        (∀ k : Int, 0 ≤ k → k < R * C → (p : Int) ∉ ps.grd_to_ptcl.subscript k) →
        (ps'.dprops name).bind (fun a => a[p]?) = (ps.dprops name).bind (fun a => a[p]?))) ∧
    (∃ ps', phantom_particles.g2p unit_fields ["f"] ["a"] false = Except.ok ps' ∧
      (∀ k : Int, 0 ≤ k → k < 0 * 3 →
        (0 : Int) ∉ phantom_particles.grd_to_ptcl.subscript k) ∧
      entry phantom_particles.dprops "a" 0 = 0 ∧ entry ps'.dprops "a" 0 = 1) := by
  constructor
  · intro ps ps' g R C hx hy vars gvarnames pvarnames apply_mass hR hC hgrid hok
    obtain ⟨h1, h2, h3, h4, h5, h6, cells, hcells, hframe⟩ :=
      g2p_preserves ps ps' vars gvarnames pvarnames apply_mass hok
    rw [hgrid, cell_sweep_set_sizes g R C hx hy hR hC] at hcells
    simp only [Option.some.injEq] at hcells
    refine ⟨h1, h2, h3, h4, h5, h6, ?_, ?_⟩
    · intro name hname
      refine hframe (fun d => d name = ps.dprops name) ?_ rfl
      intro icell _ idx _ inode N d d' ivar hd hstep
      obtain ⟨pname, pvar, v, hmem, _, _, hd'⟩ :=
        g2p_var_eq_ok ps vars gvarnames pvarnames icell idx inode N d d' ivar hstep
      rw [hd', ← hd]
      unfold map_t.store
      rw [if_neg (fun e : name = pname => hname (e ▸ hmem))]
    · intro name p hp
      refine hframe (fun d => (d name).bind (fun a => a[p]?)
        = (ps.dprops name).bind (fun a => a[p]?)) ?_ rfl
      intro icell hicell idx hidx inode N d d' ivar hd hstep
      rw [← hcells] at hicell
      obtain ⟨hk0, hk, _⟩ := swept_cell_facts ps g R C hx hy hR hgrid icell hicell
      have hpidx : (p : Int) ≠ idx := fun e => hp _ hk0 hk (e ▸ hidx)
      obtain ⟨pname, pvar, v, _, hdp, hi0, hd'⟩ :=
        g2p_var_eq_ok ps vars gvarnames pvarnames icell idx inode N d d' ivar hstep
      rw [← hd, hd']
      unfold map_t.store
      by_cases hn : name = pname
      · rw [if_pos hn, hn, hdp]
        simp only [Option.some_bind]
        rw [List.getElem?_set_ne]
        omega
      · rw [if_neg hn]
  · obtain ⟨ps', hok, h1⟩ := phantom_g2p
    refine ⟨ps', hok, ?_, rfl, h1⟩
    intro k hk0 hk
    omega

theorem g2p_frame_witness :
    ∃ ps', centre_particles.g2p unit_fields ["f"] ["a"] false = Except.ok ps' ∧
      ps'.x = centre_particles.x ∧ ps'.y = centre_particles.y ∧
      ps'.M = centre_particles.M ∧ ps'.grd_to_ptcl = centre_particles.grd_to_ptcl ∧
      ps'.iprops = centre_particles.iprops ∧ ps'.grid = centre_particles.grid ∧
      (∀ name : String, name ∉ ["a"] → ps'.dprops name = centre_particles.dprops name) ∧
      (∀ (name : String) (p : Nat),
        (∀ k : Int, 0 ≤ k → k < 1 * 1 →
          (p : Int) ∉ centre_particles.grd_to_ptcl.subscript k) →
        (ps'.dprops name).bind (fun a => a[p]?)
          = (centre_particles.dprops name).bind (fun a => a[p]?)) := by
  obtain ⟨ps', hok, _⟩ :=
    g2p_accumulate centre_particles _ unit_fields ["f"] ["a"] false
      (cell_sweep_set_sizes (quadgrid_t.construct none 0 0 0 0) 1 1 1 1 (by decide) (by decide))
      (transfer_ready_g2p centre_particles (quadgrid_t.construct none 0 0 0 0) 1 1 1 1
        (by decide) rfl unit_fields ["f"] ["a"] false
        (centre_particles_ready ["f"] ["a"] (by simp)
          (by
            intro ivar hivar
            simp only [List.length_singleton, Nat.lt_one_iff] at hivar
            subst hivar
            exact ⟨"a", rfl, Or.inl rfl⟩)))
  exact ⟨ps', hok, g2p_frame.1 centre_particles ps' (quadgrid_t.construct none 0 0 0 0) 1 1 1 1
    unit_fields ["f"] ["a"] false (by decide) (by decide) rfl hok⟩

/-! ## Names that are not keys -/

/-- A loop whose every step either returns and keeps `inv` or fails with `e`
does the same. -/
theorem foldlM_ok_or_error {ε σ α : Type} (inv : σ → Prop) (step : σ → α → Except ε σ)
    (e : ε) :
    ∀ (l : List α),
      (∀ a ∈ l, ∀ s, inv s →
        (∃ s', step s a = Except.ok s' ∧ inv s') ∨ step s a = Except.error e) →
      ∀ s, inv s →
        (∃ s', List.foldlM step s l = Except.ok s' ∧ inv s') ∨
          List.foldlM step s l = Except.error e := by
  intro l
  induction l with
  | nil =>
    intro _ s hs
    exact Or.inl ⟨s, rfl, hs⟩
  | cons a l ih =>
    intro hstep s hs
    rcases hstep a (List.mem_cons_self a l) s hs with ⟨s1, h1, hinv1⟩ | herr
    · rw [foldlM_cons_ok step s s1 a l h1]
      exact ih (fun b hb => hstep b (List.mem_cons_of_mem a hb)) s1 hinv1
    · right
      rw [List.foldlM_cons, herr]
      rfl

/-- A loop whose every step either returns and keeps `inv` or fails with `e`,
and one of whose steps fails with `e` from every state with `inv`, fails with
`e`. -/
theorem foldlM_error_of_mem {ε σ α : Type} (inv : σ → Prop) (step : σ → α → Except ε σ)
    (e : ε) :
    ∀ (l : List α),
      (∀ a ∈ l, ∀ s, inv s →
        (∃ s', step s a = Except.ok s' ∧ inv s') ∨ step s a = Except.error e) →
      (∃ a ∈ l, ∀ s, inv s → step s a = Except.error e) →
      ∀ s, inv s → List.foldlM step s l = Except.error e := by
  intro l
  induction l with
  | nil =>
    intro _ hex
    obtain ⟨a, ha, _⟩ := hex
    simp at ha
  | cons a l ih =>
    intro hstep hex s hs
    rcases hstep a (List.mem_cons_self a l) s hs with ⟨s1, h1, hinv1⟩ | herr
    · rw [foldlM_cons_ok step s s1 a l h1]
      obtain ⟨b, hb, hberr⟩ := hex
      rcases List.mem_cons.mp hb with rfl | hbl
      · rw [hberr s hs] at h1
        simp at h1
      · exact ih (fun c hc => hstep c (List.mem_cons_of_mem a hc)) ⟨b, hbl, hberr⟩ s1 hinv1
    · rw [List.foldlM_cons, herr]
      rfl

/-- One accumulation of `g2p` on sized vectors returns and keeps the lengths
when both names are keys, and fails with `out_of_range` when one is not. -/
theorem g2p_var_sized (ps : particles_t) (sh : String → Option Nat)
    (vars : map_t String (List ℚ)) (gvarnames pvarnames : List String) (icell : cell_t)
    (idx inode : Int) (N : ℚ) (dprops : map_t String (List ℚ)) (ivar : Int)
    (gname pname : String) (hdprops : shape dprops = sh)
    (hi : 0 ≤ ivar) (hg : gvarnames[ivar.toNat]? = some gname)
    (hp : pvarnames[ivar.toNat]? = some pname)
    (hgv : ∀ gvar, vars gname = some gvar →
      0 ≤ icell.gt ps.grid.grid_properties inode ∧
      (icell.gt ps.grid.grid_properties inode).toNat < gvar.length)
    (hidx0 : 0 ≤ idx) (hpv : ∀ len, sh pname = some len → idx.toNat < len) :
    ((vars gname ≠ none ∧ sh pname ≠ none) ∧
      ∃ dprops', ps.g2p_var vars gvarnames pvarnames icell idx inode N dprops ivar
        = Except.ok dprops' ∧ shape dprops' = sh) ∨
    ((vars gname = none ∨ sh pname = none) ∧
      ps.g2p_var vars gvarnames pvarnames icell idx inode N dprops ivar
        = Except.error error_t.out_of_range) := by
  cases hvg : vars gname with
  | none =>
    right
    refine ⟨Or.inl rfl, ?_⟩
    unfold particles_t.g2p_var particles_t.getkey
    rw [vec_at_ok gvarnames ivar gname hi hg]
    simp only [except_bind_ok, map_t.at, hvg]
    rfl
  | some gvar =>
    obtain ⟨hgt0, hgt⟩ := hgv gvar hvg
    cases hsp : sh pname with
    | none =>
      right
      refine ⟨Or.inr rfl, ?_⟩
      have hd : dprops pname = none := by
        have := congrFun hdprops pname
        rw [hsp] at this
        simpa [shape] using this
      obtain ⟨f, hf⟩ : ∃ f, gvar[(icell.gt ps.grid.grid_properties inode).toNat]? = some f :=
        ⟨_, List.getElem?_eq_getElem hgt⟩
      unfold particles_t.g2p_var particles_t.getkey
      rw [vec_at_ok gvarnames ivar gname hi hg]
      simp only [except_bind_ok, map_t.at, hvg]
      rw [vec_at_ok gvar _ f hgt0 hf, vec_at_ok pvarnames ivar pname hi hp]
      simp only [except_bind_ok, hd]
      rfl
    | some len =>
      left
      refine ⟨⟨by simp, by simp⟩, ?_⟩
      obtain ⟨d', hok, hshape, _⟩ := g2p_var_spec ps vars gvarnames pvarnames icell idx
        inode N dprops ivar gname pname gvar len hi hg hvg hgt0 hgt hp
        (by rw [hdprops]; exact hsp) hidx0 (hpv len hsp)
      exact ⟨d', hok, by rw [hshape, hdprops]⟩

theorem g2p_node_sized (ps : particles_t) (sh : String → Option Nat)
    (vars : map_t String (List ℚ)) (gvarnames pvarnames : List String) (apply_mass : Bool)
    (icell : cell_t) (idx : Int)
    (hsized : g2p_sized ps sh vars gvarnames pvarnames apply_mass icell idx)
    (habsent : ∃ (ivar : Nat) (gname pname : String), gvarnames[ivar]? = some gname ∧
      pvarnames[ivar]? = some pname ∧ (vars gname = none ∨ sh pname = none))
    (xx yy : ℚ) (inode : Int) (hinode : inode ∈ index_range 4)
    (dprops : map_t String (List ℚ)) (hdprops : shape dprops = sh) :
    ps.g2p_node vars gvarnames pvarnames apply_mass icell idx xx yy dprops inode
      = Except.error error_t.out_of_range := by
  obtain ⟨hidx0, _, _, hnodes⟩ := hsized
  obtain ⟨hmass, hnames⟩ := hnodes inode hinode
  obtain ⟨N, hN⟩ : ∃ N, ps.g2p_N apply_mass icell xx yy inode = Except.ok N := by
    unfold particles_t.g2p_N
    cases apply_mass with
    | false => exact ⟨_, rfl⟩
    | true =>
      obtain ⟨h0, h1⟩ := hmass rfl
      simp only [if_true]
      rw [vec_at_getD ps.M _ h0 h1]
      exact ⟨_, rfl⟩
  unfold particles_t.g2p_node
  rw [hN]
  simp only [except_bind_ok]
  have hstep : ∀ ivar ∈ index_range gvarnames.length, ∀ s, shape s = sh →
      ∃ gname pname, gvarnames[ivar.toNat]? = some gname ∧
        pvarnames[ivar.toNat]? = some pname ∧
        (((vars gname ≠ none ∧ sh pname ≠ none) ∧
          ∃ s', ps.g2p_var vars gvarnames pvarnames icell idx inode N s ivar
            = Except.ok s' ∧ shape s' = sh) ∨
        ((vars gname = none ∨ sh pname = none) ∧
          ps.g2p_var vars gvarnames pvarnames icell idx inode N s ivar
            = Except.error error_t.out_of_range)) := by
    intro ivar hivar s hs
    obtain ⟨hi0, hi⟩ := mem_index_range hivar
    obtain ⟨gname, pname, hg, hp, hgv, hpv⟩ := hnames ivar.toNat hi
    exact ⟨gname, pname, hg, hp, g2p_var_sized ps sh vars gvarnames pvarnames icell idx inode
      N s ivar gname pname hs hi0 hg hp hgv hidx0 hpv⟩
  apply foldlM_error_of_mem (fun s => shape s = sh)
  · intro ivar hivar s hs
    obtain ⟨_, _, _, _, h⟩ := hstep ivar hivar s hs
    rcases h with ⟨_, h⟩ | ⟨_, h⟩
    · exact Or.inl h
    · exact Or.inr h
  · obtain ⟨j, gname, pname, hg, hp, hab⟩ := habsent
    have hj : j < gvarnames.length := by
      by_contra hcon
      rw [List.getElem?_eq_none (by omega)] at hg
      simp at hg
    refine ⟨(j : Int), mem_index_range_of_lt _ _ hj, ?_⟩
    intro s hs
    obtain ⟨gname', pname', hg', hp', h⟩ := hstep (j : Int) (mem_index_range_of_lt _ _ hj) s hs
    have hjj : ((j : Int)).toNat = j := Int.toNat_ofNat j
    rw [hjj, hg] at hg'
    rw [hjj, hp] at hp'
    cases hg'
    cases hp'
    rcases h with ⟨⟨h1, h2⟩, _⟩ | ⟨_, h⟩
    · rcases hab with hab | hab
      · exact absurd hab h1
      · exact absurd hab h2
    · exact h
  · exact hdprops

theorem g2p_particle_sized (ps : particles_t) (sh : String → Option Nat)
    (vars : map_t String (List ℚ)) (gvarnames pvarnames : List String) (apply_mass : Bool)
    (icell : cell_t) (idx : Int)
    (hsized : g2p_sized ps sh vars gvarnames pvarnames apply_mass icell idx)
    (habsent : ∃ (ivar : Nat) (gname pname : String), gvarnames[ivar]? = some gname ∧
      pvarnames[ivar]? = some pname ∧ (vars gname = none ∨ sh pname = none))
    (dprops : map_t String (List ℚ)) (hdprops : shape dprops = sh) :
    ps.g2p_particle vars gvarnames pvarnames apply_mass icell dprops idx
      = Except.error error_t.out_of_range := by
  have hs := hsized
  obtain ⟨hidx0, hx, hy, _⟩ := hs
  unfold particles_t.g2p_particle
  rw [vec_at_getD ps.x idx hidx0 hx, vec_at_getD ps.y idx hidx0 hy]
  simp only [except_bind_ok]
  apply foldlM_error_of_mem (fun s => shape s = sh)
  · intro inode hinode s hs
    exact Or.inr (g2p_node_sized ps sh vars gvarnames pvarnames apply_mass icell idx hsized
      habsent _ _ inode hinode s hs)
  · refine ⟨0, by decide, ?_⟩
    intro s hs
    exact g2p_node_sized ps sh vars gvarnames pvarnames apply_mass icell idx hsized
      habsent _ _ 0 (by decide) s hs
  · exact hdprops

theorem g2p_cell_sized (ps : particles_t) (sh : String → Option Nat)
    (vars : map_t String (List ℚ)) (gvarnames pvarnames : List String) (apply_mass : Bool)
    (icell : cell_t)
    (hsized : ∀ idx ∈ ps.grd_to_ptcl.subscript icell.get_global_cell_idx,
      g2p_sized ps sh vars gvarnames pvarnames apply_mass icell idx)
    (habsent : ∃ (ivar : Nat) (gname pname : String), gvarnames[ivar]? = some gname ∧
      pvarnames[ivar]? = some pname ∧ (vars gname = none ∨ sh pname = none))
    (dprops : map_t String (List ℚ)) (hdprops : shape dprops = sh) :
    (ps.grd_to_ptcl.subscript icell.get_global_cell_idx = [] ∧
      ps.g2p_cell vars gvarnames pvarnames apply_mass dprops icell = Except.ok dprops) ∨
    (ps.grd_to_ptcl.subscript icell.get_global_cell_idx ≠ [] ∧
      ps.g2p_cell vars gvarnames pvarnames apply_mass dprops icell
        = Except.error error_t.out_of_range) := by
  unfold particles_t.g2p_cell
  cases hb : ps.grd_to_ptcl icell.get_global_cell_idx with
  | none =>
    left
    refine ⟨by simp [map_t.subscript, hb], ?_⟩
    simp [map_t.count, hb, except_pure]
  | some bucket =>
    have hsub : ps.grd_to_ptcl.subscript icell.get_global_cell_idx = bucket := by
      simp [map_t.subscript, hb]
    rw [hsub] at hsized ⊢
    simp only [map_t.count, hb, Option.isSome_some, if_true, map_t.at, except_bind_ok]
    rw [if_pos (by decide)]
    cases bucket with
    | nil => exact Or.inl ⟨rfl, rfl⟩
    | cons idx rest =>
      right
      refine ⟨by simp, ?_⟩
      apply foldlM_error_of_mem (fun s => shape s = sh)
      · intro i hi s hs
        exact Or.inr (g2p_particle_sized ps sh vars gvarnames pvarnames apply_mass icell i
          (hsized i hi) habsent s hs)
      · refine ⟨idx, List.mem_cons_self _ _, ?_⟩
        intro s hs
        exact g2p_particle_sized ps sh vars gvarnames pvarnames apply_mass icell idx
          (hsized idx (List.mem_cons_self _ _)) habsent s hs
      · exact hdprops

/-- A call of `g2p` on sized vectors in which a name of some pair is not a key,
and in which the bucket of a swept cell lists a particle, fails with
`out_of_range`. -/
theorem g2p_missing_key (ps : particles_t) (cells : List cell_t)
    (vars : map_t String (List ℚ)) (gvarnames pvarnames : List String) (apply_mass : Bool)
    (hcells : ps.grid.cell_sweep = some cells)
    (hsized : ∀ icell ∈ cells, ∀ idx ∈ ps.grd_to_ptcl.subscript icell.get_global_cell_idx,
      g2p_sized ps (shape ps.dprops) vars gvarnames pvarnames apply_mass icell idx)
    (habsent : ∃ (ivar : Nat) (gname pname : String), gvarnames[ivar]? = some gname ∧
      pvarnames[ivar]? = some pname ∧ (vars gname = none ∨ ps.dprops pname = none))
    (hvisit : ∃ icell ∈ cells, ps.grd_to_ptcl.subscript icell.get_global_cell_idx ≠ []) :
    ps.g2p vars gvarnames pvarnames apply_mass = Except.error error_t.out_of_range := by
  have habsent' : ∃ (ivar : Nat) (gname pname : String), gvarnames[ivar]? = some gname ∧
      pvarnames[ivar]? = some pname ∧ (vars gname = none ∨ shape ps.dprops pname = none) := by
    obtain ⟨j, gname, pname, hg, hp, hab⟩ := habsent
    refine ⟨j, gname, pname, hg, hp, ?_⟩
    rcases hab with hab | hab
    · exact Or.inl hab
    · exact Or.inr (by simp [shape, hab])
  have hfold : List.foldlM (ps.g2p_cell vars gvarnames pvarnames apply_mass) ps.dprops cells
      = Except.error error_t.out_of_range := by
    apply foldlM_error_of_mem (fun s => shape s = shape ps.dprops)
    · intro icell hicell s hs
      rcases g2p_cell_sized ps (shape ps.dprops) vars gvarnames pvarnames apply_mass icell
        (hsized icell hicell) habsent' s hs with ⟨_, h⟩ | ⟨_, h⟩
      · exact Or.inl ⟨s, h, hs⟩
      · exact Or.inr h
    · obtain ⟨icell, hicell, hne⟩ := hvisit
      refine ⟨icell, hicell, ?_⟩
      intro s hs
      rcases g2p_cell_sized ps (shape ps.dprops) vars gvarnames pvarnames apply_mass icell
        (hsized icell hicell) habsent' s hs with ⟨he, _⟩ | ⟨_, h⟩
      · exact absurd he hne
      · exact h
    · rfl
  unfold particles_t.g2p particles_t.sweep
  rw [hcells]
  simp only [except_bind_ok]
  rw [hfold]
  rfl

/-- One accumulation of `p2g` on sized vectors, into a field that `vars` holds,
returns and keeps the lengths when the source name is a key of `dprops`, and
fails with `out_of_range` when it is not. -/
theorem p2g_var_sized (ps : particles_t) (sh : String → Option Nat)
    (pvarnames gvarnames : List String) (icell : cell_t) (idx inode : Int) (N : ℚ)
    (vars : map_t String (List ℚ)) (ivar : Int) (pname gname : String) (len : Nat)
    (hvars : shape vars = sh)
    (hi : 0 ≤ ivar) (hp : pvarnames[ivar.toNat]? = some pname)
    (hidx0 : 0 ≤ idx) (hpv : ∀ pv, ps.dprops pname = some pv → idx.toNat < pv.length)
    (hg : gvarnames[ivar.toNat]? = some gname) (hsh : sh gname = some len)
    (hgt0 : 0 ≤ icell.gt ps.grid.grid_properties inode)
    (hgt : (icell.gt ps.grid.grid_properties inode).toNat < len) :
    (ps.dprops pname ≠ none ∧
      ∃ vars', ps.p2g_var pvarnames gvarnames icell idx inode N vars ivar = Except.ok vars' ∧
        shape vars' = sh) ∨
    (ps.dprops pname = none ∧
      ps.p2g_var pvarnames gvarnames icell idx inode N vars ivar
        = Except.error error_t.out_of_range) := by
  cases hd : ps.dprops pname with
  | none =>
    right
    refine ⟨rfl, ?_⟩
    unfold particles_t.p2g_var particles_t.getkey
    rw [vec_at_ok pvarnames ivar pname hi hp]
    simp only [except_bind_ok, map_t.at, hd]
    rfl
  | some pv =>
    left
    refine ⟨by simp, ?_⟩
    obtain ⟨v', hok, hshape, _⟩ := p2g_var_spec ps pvarnames gvarnames icell idx inode N vars
      ivar pname gname pv len hi hp hd hidx0 (hpv pv hd) hg (by rw [hvars]; exact hsh) hgt0 hgt
    exact ⟨v', hok, by rw [hshape, hvars]⟩

theorem p2g_node_sized (ps : particles_t) (sh : String → Option Nat)
    (pvarnames gvarnames : List String) (icell : cell_t) (idx : Int)
    (hsized : p2g_sized ps sh pvarnames gvarnames icell idx)
    (habsent : ∃ (ivar : Nat) (pname : String), ivar < gvarnames.length ∧
      pvarnames[ivar]? = some pname ∧ ps.dprops pname = none)
    (xx yy : ℚ) (inode : Int) (hinode : inode ∈ index_range 4)
    (vars : map_t String (List ℚ)) (hvars : shape vars = sh) :
    ps.p2g_node pvarnames gvarnames icell idx xx yy vars inode
      = Except.error error_t.out_of_range := by
  obtain ⟨hidx0, _, _, hnames, hnodes⟩ := hsized
  unfold particles_t.p2g_node
  simp only []
  have hstep : ∀ ivar ∈ index_range gvarnames.length, ∀ s, shape s = sh →
      ∃ pname, pvarnames[ivar.toNat]? = some pname ∧
        ((ps.dprops pname ≠ none ∧
          ∃ s', ps.p2g_var pvarnames gvarnames icell idx inode
              (icell.shp ps.grid.grid_properties xx yy inode) s ivar = Except.ok s' ∧
            shape s' = sh) ∨
        (ps.dprops pname = none ∧
          ps.p2g_var pvarnames gvarnames icell idx inode
              (icell.shp ps.grid.grid_properties xx yy inode) s ivar
            = Except.error error_t.out_of_range)) := by
    intro ivar hivar s hs
    obtain ⟨hi0, hi⟩ := mem_index_range hivar
    obtain ⟨pname, hp, hpv⟩ := hnames ivar.toNat hi
    obtain ⟨gname, hg⟩ : ∃ gname, gvarnames[ivar.toNat]? = some gname :=
      ⟨_, List.getElem?_eq_getElem hi⟩
    obtain ⟨len, hsh, hgt0, hgt⟩ := hnodes inode hinode gname (List.getElem?_mem hg)
    exact ⟨pname, hp, p2g_var_sized ps sh pvarnames gvarnames icell idx inode _ s ivar pname
      gname len hs hi0 hp hidx0 hpv hg hsh hgt0 hgt⟩
  apply foldlM_error_of_mem (fun s => shape s = sh)
  · intro ivar hivar s hs
    obtain ⟨_, _, h⟩ := hstep ivar hivar s hs
    rcases h with ⟨_, h⟩ | ⟨_, h⟩
    · exact Or.inl h
    · exact Or.inr h
  · obtain ⟨j, pname, hj, hp, hab⟩ := habsent
    refine ⟨(j : Int), mem_index_range_of_lt _ _ hj, ?_⟩
    intro s hs
    obtain ⟨pname', hp', h⟩ := hstep (j : Int) (mem_index_range_of_lt _ _ hj) s hs
    have hjj : ((j : Int)).toNat = j := Int.toNat_ofNat j
    rw [hjj, hp] at hp'
    cases hp'
    rcases h with ⟨h1, _⟩ | ⟨_, h⟩
    · exact absurd hab h1
    · exact h
  · exact hvars

theorem p2g_particle_sized (ps : particles_t) (sh : String → Option Nat)
    (pvarnames gvarnames : List String) (icell : cell_t) (idx : Int)
    (hsized : p2g_sized ps sh pvarnames gvarnames icell idx)
    (habsent : ∃ (ivar : Nat) (pname : String), ivar < gvarnames.length ∧
      pvarnames[ivar]? = some pname ∧ ps.dprops pname = none)
    (vars : map_t String (List ℚ)) (hvars : shape vars = sh) :
    ps.p2g_particle pvarnames gvarnames icell vars idx
      = Except.error error_t.out_of_range := by
  have hs := hsized
  obtain ⟨hidx0, hx, hy, _⟩ := hs
  unfold particles_t.p2g_particle
  rw [vec_at_getD ps.x idx hidx0 hx, vec_at_getD ps.y idx hidx0 hy]
  simp only [except_bind_ok]
  apply foldlM_error_of_mem (fun s => shape s = sh)
  · intro inode hinode s hs
    exact Or.inr (p2g_node_sized ps sh pvarnames gvarnames icell idx hsized habsent _ _ inode
      hinode s hs)
  · refine ⟨0, by decide, ?_⟩
    intro s hs
    exact p2g_node_sized ps sh pvarnames gvarnames icell idx hsized habsent _ _ 0
      (by decide) s hs
  · exact hvars

theorem p2g_cell_sized (ps : particles_t) (sh : String → Option Nat)
    (pvarnames gvarnames : List String) (icell : cell_t)
    (hsized : ∀ idx ∈ ps.grd_to_ptcl.subscript icell.get_global_cell_idx,
      p2g_sized ps sh pvarnames gvarnames icell idx)
    (habsent : ∃ (ivar : Nat) (pname : String), ivar < gvarnames.length ∧
      pvarnames[ivar]? = some pname ∧ ps.dprops pname = none)
    (vars : map_t String (List ℚ)) (hvars : shape vars = sh) :
    (ps.grd_to_ptcl.subscript icell.get_global_cell_idx = [] ∧
      ps.p2g_cell pvarnames gvarnames vars icell = Except.ok vars) ∨
    (ps.grd_to_ptcl.subscript icell.get_global_cell_idx ≠ [] ∧
      ps.p2g_cell pvarnames gvarnames vars icell = Except.error error_t.out_of_range) := by
  unfold particles_t.p2g_cell
  cases hb : ps.grd_to_ptcl icell.get_global_cell_idx with
  | none =>
    left
    refine ⟨by simp [map_t.subscript, hb], ?_⟩
    simp [map_t.count, hb, except_pure]
  | some bucket =>
    have hsub : ps.grd_to_ptcl.subscript icell.get_global_cell_idx = bucket := by
      simp [map_t.subscript, hb]
    rw [hsub] at hsized ⊢
    simp only [map_t.count, hb, Option.isSome_some, if_true, map_t.at, except_bind_ok]
    rw [if_pos (by decide)]
    cases bucket with
    | nil => exact Or.inl ⟨rfl, rfl⟩
    | cons idx rest =>
      right
      refine ⟨by simp, ?_⟩
      apply foldlM_error_of_mem (fun s => shape s = sh)
      · intro i hi s hs
        exact Or.inr (p2g_particle_sized ps sh pvarnames gvarnames icell i
          (hsized i hi) habsent s hs)
      · refine ⟨idx, List.mem_cons_self _ _, ?_⟩
        intro s hs
        exact p2g_particle_sized ps sh pvarnames gvarnames icell idx
          (hsized idx (List.mem_cons_self _ _)) habsent s hs
      · exact hvars

/-- A call of `p2g` on sized vectors, into fields that `vars` holds, in which
the source name of some pair is not a key of `dprops`, and in which the bucket
of a swept cell lists a particle, fails with `out_of_range`. -/
theorem p2g_missing_key (ps : particles_t) (cells : List cell_t)
    (vars : map_t String (List ℚ)) (pvarnames gvarnames : List String) (apply_mass : Bool)
    (hcells : ps.grid.cell_sweep = some cells)
    (hsized : ∀ icell ∈ cells, ∀ idx ∈ ps.grd_to_ptcl.subscript icell.get_global_cell_idx,
      p2g_sized ps (shape vars) pvarnames gvarnames icell idx)
    (habsent : ∃ (ivar : Nat) (pname : String), ivar < gvarnames.length ∧
      pvarnames[ivar]? = some pname ∧ ps.dprops pname = none)
    (hvisit : ∃ icell ∈ cells, ps.grd_to_ptcl.subscript icell.get_global_cell_idx ≠ []) :
    ps.p2g vars pvarnames gvarnames apply_mass = Except.error error_t.out_of_range := by
  have hfold : List.foldlM (ps.p2g_cell pvarnames gvarnames) vars cells
      = Except.error error_t.out_of_range := by
    apply foldlM_error_of_mem (fun s => shape s = shape vars)
    · intro icell hicell s hs
      rcases p2g_cell_sized ps (shape vars) pvarnames gvarnames icell
        (hsized icell hicell) habsent s hs with ⟨_, h⟩ | ⟨_, h⟩
      · exact Or.inl ⟨s, h, hs⟩
      · exact Or.inr h
    · obtain ⟨icell, hicell, hne⟩ := hvisit
      refine ⟨icell, hicell, ?_⟩
      intro s hs
      rcases p2g_cell_sized ps (shape vars) pvarnames gvarnames icell
        (hsized icell hicell) habsent s hs with ⟨he, _⟩ | ⟨_, h⟩
      · exact absurd he hne
      · exact h
    · rfl
  unfold particles_t.p2g particles_t.sweep
  rw [hcells]
  simp only [except_bind_ok]
  rw [hfold]
  rfl

theorem foldlM_fixed {ε σ α : Type} (step : σ → α → Except ε σ) (s : σ) :
    ∀ (l : List α), (∀ a ∈ l, step s a = Except.ok s) → List.foldlM step s l = Except.ok s := by
  intro l
  induction l with
  | nil => intro _; rfl
  | cons a l ih =>
    intro h
    rw [foldlM_cons_ok step s s a l (h a (List.mem_cons_self a l))]
    exact ih (fun b hb => h b (List.mem_cons_of_mem a hb))

theorem swept_cell_of_id (R C : Int) (b : Bool) (k : Int) (hk0 : 0 ≤ k)
    (hk : k < R * C) :
    ∃ icell ∈ (List.range (R * C).toNat).map (sweep_cell R b),
      icell.get_global_cell_idx = k := by
  refine ⟨sweep_cell R b k.toNat, List.mem_map.mpr ⟨k.toNat, List.mem_range.mpr (by omega), rfl⟩,
    ?_⟩
  show ((k.toNat : Nat) : Int) = k
  omega

theorem transfer_sized_g2p (ps : particles_t) (g : quadgrid_t) (R C : Int) (hx hy : ℚ)
    (hR : 1 ≤ R) (hgrid : ps.grid = g.set_sizes R C hx hy)
    (vars : map_t String (List ℚ)) (gvarnames pvarnames : List String) (apply_mass : Bool)
    (hsized : transfer_sized ps R C vars gvarnames pvarnames) :
    ∀ icell ∈ (List.range (R * C).toNat).map (sweep_cell R g.current_cell.is_ghost),
      ∀ idx ∈ ps.grd_to_ptcl.subscript icell.get_global_cell_idx,
        g2p_sized ps (shape ps.dprops) vars gvarnames pvarnames apply_mass icell idx := by
  intro icell hicell idx hidx
  obtain ⟨hy', hM, hb, hf, ha⟩ := hsized
  obtain ⟨hk0, hk, hgt⟩ := swept_cell_facts ps g R C hx hy hR hgrid icell hicell
  obtain ⟨hidx0, hidxx⟩ := hb _ hk0 hk idx hidx
  refine ⟨hidx0, hidxx, by omega, ?_⟩
  intro inode hinode
  obtain ⟨h0, h1⟩ := hgt inode hinode
  refine ⟨fun _ => ⟨h0, by omega⟩, ?_⟩
  intro ivar hivar
  obtain ⟨pname, hp, hd⟩ := ha ivar hivar
  obtain ⟨gname, hg⟩ : ∃ gname, gvarnames[ivar]? = some gname :=
    ⟨_, List.getElem?_eq_getElem hivar⟩
  refine ⟨gname, pname, hg, hp, ?_, ?_⟩
  · intro gvar hgv
    have := hf gname (List.getElem?_mem hg) gvar hgv
    exact ⟨h0, by omega⟩
  · intro len hlen
    obtain ⟨a, ha', hal⟩ := shape_some hlen
    have := hd a ha'
    omega

theorem transfer_sized_p2g (ps : particles_t) (g : quadgrid_t) (R C : Int) (hx hy : ℚ)
    (hR : 1 ≤ R) (hgrid : ps.grid = g.set_sizes R C hx hy)
    (vars : map_t String (List ℚ)) (gvarnames pvarnames : List String)
    (hsized : transfer_sized ps R C vars gvarnames pvarnames)
    (hvars : ∀ gname ∈ gvarnames, vars gname ≠ none) :
    ∀ icell ∈ (List.range (R * C).toNat).map (sweep_cell R g.current_cell.is_ghost),
      ∀ idx ∈ ps.grd_to_ptcl.subscript icell.get_global_cell_idx,
        p2g_sized ps (shape vars) pvarnames gvarnames icell idx := by
  intro icell hicell idx hidx
  obtain ⟨hy', _, hb, hf, ha⟩ := hsized
  obtain ⟨hk0, hk, hgt⟩ := swept_cell_facts ps g R C hx hy hR hgrid icell hicell
  obtain ⟨hidx0, hidxx⟩ := hb _ hk0 hk idx hidx
  refine ⟨hidx0, hidxx, by omega, ?_, ?_⟩
  · intro ivar hivar
    obtain ⟨pname, hp, hd⟩ := ha ivar hivar
    refine ⟨pname, hp, ?_⟩
    intro pv hpv
    have := hd pv hpv
    omega
  · intro inode hinode gname hgname
    obtain ⟨h0, h1⟩ := hgt inode hinode
    cases hv : vars gname with
    | none => exact absurd hv (hvars gname hgname)
    | some f =>
      have := hf gname hgname f hv
      exact ⟨f.length, by simp [shape, hv], h0, by omega⟩

/-- Lookups through `at ()` that are reached: on a grid with `R, C ≥ 1`, with
vectors that are sized for the grid wherever they are present and with a
particle listed in the bucket of some valid cell, a call of `g2p` in which the
source name of some pair is not a key of `vars`, or its destination name not a
key of `dprops`, fails with `out_of_range`; a call of `p2g` into fields that
`vars` holds, in which the source name of some pair is not a key of `dprops`,
fails with `out_of_range`; and no accumulation of `g2p` that returns has
created a key of `dprops`. -/
theorem lookup_missing_key (ps : particles_t) (g : quadgrid_t) (R C : Int) (hx hy : ℚ)
    (vars : map_t String (List ℚ)) (gvarnames pvarnames : List String) (apply_mass : Bool)
    (hR : 1 ≤ R) (hC : 1 ≤ C) (hgrid : ps.grid = g.set_sizes R C hx hy)
    (hsized : transfer_sized ps R C vars gvarnames pvarnames)
    (hvisit : ∃ k : Int, 0 ≤ k ∧ k < R * C ∧ ps.grd_to_ptcl.subscript k ≠ []) :
    ((∃ (ivar : Nat) (gname pname : String), gvarnames[ivar]? = some gname ∧
        pvarnames[ivar]? = some pname ∧ (vars gname = none ∨ ps.dprops pname = none)) →
      ps.g2p vars gvarnames pvarnames apply_mass = Except.error error_t.out_of_range) ∧
    ((∀ gname ∈ gvarnames, vars gname ≠ none) →
      (∃ (ivar : Nat) (pname : String), ivar < gvarnames.length ∧
        pvarnames[ivar]? = some pname ∧ ps.dprops pname = none) →
      ps.p2g vars pvarnames gvarnames apply_mass = Except.error error_t.out_of_range) ∧
    (∀ (icell : cell_t) (idx inode : Int) (N : ℚ) (d d' : map_t String (List ℚ)) (ivar : Int),
      ps.g2p_var vars gvarnames pvarnames icell idx inode N d ivar = Except.ok d' →
      ∀ name : String, (d' name).isSome = (d name).isSome) := by
  have hcells := cell_sweep_set_sizes g R C hx hy hR hC
  rw [← hgrid] at hcells
  have hvisit' : ∃ icell ∈ (List.range (R * C).toNat).map
      (sweep_cell R g.current_cell.is_ghost),
      ps.grd_to_ptcl.subscript icell.get_global_cell_idx ≠ [] := by
    obtain ⟨k, hk0, hk, hne⟩ := hvisit
    obtain ⟨icell, hicell, hid⟩ := swept_cell_of_id R C g.current_cell.is_ghost k hk0 hk
    exact ⟨icell, hicell, by rw [hid]; exact hne⟩
  refine ⟨?_, ?_, ?_⟩
  · intro habsent
    exact g2p_missing_key ps _ vars gvarnames pvarnames apply_mass hcells
      (transfer_sized_g2p ps g R C hx hy hR hgrid vars gvarnames pvarnames apply_mass hsized)
      habsent hvisit'
  · intro hvars habsent
    exact p2g_missing_key ps _ vars pvarnames gvarnames apply_mass hcells
      (transfer_sized_p2g ps g R C hx hy hR hgrid vars gvarnames pvarnames hsized hvars)
      habsent hvisit'
  · intro icell idx inode N d d' ivar hok name
    obtain ⟨pname, pvar, v, _, hdp, _, hd'⟩ :=
      g2p_var_eq_ok ps vars gvarnames pvarnames icell idx inode N d d' ivar hok
    rw [hd']
    unfold map_t.store
    by_cases hn : name = pname
    · rw [if_pos hn, hn, hdp]
      rfl
    · rw [if_neg hn]

theorem centre_particles_sized :
    transfer_sized centre_particles 1 1 unit_fields ["f"] ["c"] := by
  refine ⟨rfl, by decide, ?_, ?_, ?_⟩
  · intro k _ _ idx hidx
    by_cases hk : k = 0
    · subst hk
      simp only [centre_particles, map_t.subscript, if_true, Option.getD_some,
        List.mem_singleton] at hidx
      subst hidx
      exact ⟨le_refl _, by decide⟩
    · simp [centre_particles, map_t.subscript, hk] at hidx
  · intro gname hgname f hf
    simp only [List.mem_singleton] at hgname
    subst hgname
    have : f = [1, 1, 1, 1] := by
      simpa [unit_fields] using hf.symm
    subst this
    decide
  · intro ivar hivar
    simp only [List.length_singleton, Nat.lt_one_iff] at hivar
    subst hivar
    refine ⟨"c", rfl, ?_⟩
    intro a ha
    have hnone : centre_particles.dprops "c" = none := by decide
    rw [hnone] at ha
    simp at ha

/-- Lookups that are not reached, and the subscript of `p2g`: `g2p` and `p2g`
without `apply_mass`, with the names `nofield`, which is not a key of the grid
fields, and `noattr`, which is not a key of `dprops`, return normally on the
particle set of the 2x2 scenario before its index is built, where no bucket
lists a particle; and `p2g` with a listed particle and a destination name `zz`
that is not a key of the grid fields does not fail with `out_of_range`: it
subscripts the empty vector that `vars[zz]` refers to. -/
theorem absent_name_evaluations :
    scenario_fields "nofield" = none ∧ scenario_particles.dprops "noattr" = none ∧
    scenario_particles.g2p scenario_fields ["nofield"] ["noattr"] false
      = Except.ok scenario_particles ∧
    scenario_particles.p2g scenario_fields ["noattr"] ["nofield"] false
      = Except.ok scenario_fields ∧
    unit_fields "zz" = none ∧
    centre_particles.p2g unit_fields ["a"] ["zz"] false
      = Except.error error_t.undefined_behaviour := by
  have hcells : scenario_particles.grid.cell_sweep = _ :=
    cell_sweep_set_sizes (quadgrid_t.construct none 0 0 0 0) 2 2 (1 / 2) (1 / 2)
      (by decide) (by decide)
  have hcells1 : centre_particles.grid.cell_sweep = _ :=
    cell_sweep_set_sizes (quadgrid_t.construct none 0 0 0 0) 1 1 1 1 (by decide) (by decide)
  refine ⟨by decide, by decide, ?_, ?_, by decide, ?_⟩
  · unfold particles_t.g2p particles_t.sweep
    rw [hcells]
    simp only [except_bind_ok]
    rw [foldlM_fixed]
    · rfl
    · intro icell _
      rfl
  · unfold particles_t.p2g particles_t.sweep
    rw [hcells]
    simp only [except_bind_ok]
    rw [foldlM_fixed]
    · rfl
    · intro icell _
      rfl
  · unfold particles_t.p2g particles_t.sweep
    rw [hcells1]
    simp only [except_bind_ok]
    have hfold : List.foldlM (centre_particles.p2g_cell ["a"] ["zz"]) unit_fields
        (List.map (sweep_cell 1 (quadgrid_t.construct none 0 0 0 0).current_cell.is_ghost)
          (List.range (1 * 1 : Int).toNat))
        = Except.error error_t.undefined_behaviour := by
      have hr : (List.range (1 * 1 : Int).toNat) = [0] := by decide
      rw [hr]
      simp only [List.map_cons, List.map_nil, List.foldlM_cons]
      have hcell : centre_particles.p2g_cell ["a"] ["zz"] unit_fields
          (sweep_cell 1 (quadgrid_t.construct none 0 0 0 0).current_cell.is_ghost 0)
          = Except.error error_t.undefined_behaviour := by
        simp [particles_t.p2g_cell, map_t.count, map_t.at, centre_particles, sweep_cell,
          cell_t.get_global_cell_idx, particles_t.p2g_particle, vec_at, index_range,
          List.range_succ, particles_t.p2g_node, particles_t.p2g_var, particles_t.getkey,
          map_t.subscript, unit_fields, except_bind_ok, except_bind_error, bind, Except.bind,
          pure, Except.pure, cell_t.gt, cell_t.row_idx, cell_t.col_idx, cell_t.num_rows,
          quadgrid_t.set_sizes]
      rw [hcell]
      rfl
    rw [hfold]
    rfl

/-! ## The scatter conserves the total -/

theorem list_sum_eq_range (l : List ℚ) :
    l.sum = ((List.range l.length).map fun n => l.getD n 0).sum := by
  induction l with
  | nil => rfl
  | cons a l ih =>
    rw [List.length_cons, List.range_succ_eq_map, List.map_cons, List.sum_cons, List.sum_cons,
      List.map_map, ih]
    rfl

theorem sum_map_comm {α β : Type} (l : List α) (m : List β) (f : α → β → ℚ) :
    (l.map fun a => (m.map fun b => f a b).sum).sum
      = (m.map fun b => (l.map fun a => f a b).sum).sum := by
  induction l with
  | nil => simp
  | cons a l ih =>
    simp only [List.map_cons, List.sum_cons]
    rw [ih, List.sum_map_add]

theorem sum_map_filter (l : List Int) (p : Int → Bool) (f : Int → ℚ) :
    ((l.filter p).map f).sum = (l.map fun i => if p i then f i else 0).sum := by
  induction l with
  | nil => rfl
  | cons a l ih =>
    by_cases h : p a
    · simp [List.filter_cons, h, ih]
    · simp [List.filter_cons, h, ih]

theorem sum_range_indicator (L : Nat) (k : Int) (X : ℚ) (hk0 : 0 ≤ k) (hk : k.toNat < L) :
    ((List.range L).map fun (n : Nat) => if k = (n : Int) then X else 0).sum = X := by
  rw [sum_map_eq_single (List.range L) k.toNat _ (List.nodup_range L) (List.mem_range.mpr hk)]
  · rw [if_pos (by omega)]
  · intro n _ hn
    rw [if_neg (by omega)]

/-- Summed over the nodes, what `p2g` accumulates from one name pair is the sum
of the source attribute over the bucket entries of the swept cells, each
weighted with the sum of its four shape-function values, which is 1. -/
theorem p2g_sum_total (ps : particles_t) (cells : List cell_t) (src dst : String) (L : Nat)
    (hgt : ∀ icell ∈ cells, ∀ inode ∈ index_range 4,
      0 ≤ icell.gt ps.grid.grid_properties inode ∧
      (icell.gt ps.grid.grid_properties inode).toNat < L) :
    ((List.range L).map fun n => p2g_sum ps cells [src] [dst] dst n).sum
      = (cells.map fun icell =>
          ((ps.grd_to_ptcl.subscript icell.get_global_cell_idx).map fun idx =>
            entry ps.dprops src idx.toNat).sum).sum := by
  unfold p2g_sum
  rw [sum_map_comm]
  refine congrArg List.sum (List.map_congr_left ?_)
  intro icell hicell
  rw [sum_map_comm]
  refine congrArg List.sum (List.map_congr_left ?_)
  intro idx _
  rw [sum_map_comm]
  have hnode : ∀ inode ∈ index_range 4,
      ((List.range L).map fun n =>
        ((index_range [dst].length).map fun ivar =>
          p2g_term ps [src] [dst] icell idx inode ivar dst n).sum).sum
      = icell.shp ps.grid.grid_properties (ps.x.getD idx.toNat 0) (ps.y.getD idx.toNat 0)
          inode * entry ps.dprops src idx.toNat := by
    intro inode hinode
    obtain ⟨h0, h1⟩ := hgt icell hicell inode hinode
    rw [← sum_range_indicator L (icell.gt ps.grid.grid_properties inode)
      (icell.shp ps.grid.grid_properties (ps.x.getD idx.toNat 0) (ps.y.getD idx.toNat 0)
          inode * entry ps.dprops src idx.toNat) h0 h1]
    refine congrArg List.sum (List.map_congr_left ?_)
    intro n _
    simp [index_range_one, p2g_term]
  rw [List.map_congr_left hnode, index_range_four]
  simp only [List.map_cons, List.map_nil, List.sum_cons, List.sum_nil]
  have hone := shp_sum_one ps.grid.grid_properties icell (ps.x.getD idx.toNat 0)
    (ps.y.getD idx.toNat 0)
  linear_combination (entry ps.dprops src idx.toNat) * hone

/-- Summed over the buckets of the keys below `N`, a function of the particle
index sums to its sum over all particles, when every particle's key is below
`N` and the buckets are those a fresh index has. -/
theorem sum_over_buckets (key : Int → Int) (N len : Nat) (f : Int → ℚ)
    (hkey : ∀ i ∈ index_range len, 0 ≤ key i ∧ (key i).toNat < N) :
    ((List.range N).map fun (k : Nat) =>
        (((index_range len).filter fun i => decide (key i = (k : Int))).map f).sum).sum
      = ((index_range len).map f).sum := by
  have h1 : ∀ k ∈ List.range N,
      (((index_range len).filter fun i => decide (key i = (k : Int))).map f).sum
        = ((index_range len).map fun i => if key i = (k : Int) then f i else 0).sum := by
    intro k _
    rw [sum_map_filter]
    refine congrArg List.sum (List.map_congr_left ?_)
    intro i _
    simp
  rw [List.map_congr_left h1, sum_map_comm]
  refine congrArg List.sum (List.map_congr_left ?_)
  intro i hi
  obtain ⟨h0, hlt⟩ := hkey i hi
  exact sum_range_indicator N (key i) (f i) h0 hlt

/-- C20: on a grid with `R, C ≥ 1`, for particles that a fresh
`init_particle_mesh ()` files under valid cell ids, a particle attribute `src`
and a zeroed grid field `dst`: `init_particle_mesh ()` and `p2g` with
`apply_mass = false` return, and the entries of the field sum to the sum of
the attribute over the particles. -/
theorem p2g_conserves_total (ps0 : particles_t) (g : quadgrid_t) (R C : Int) (hx hy : ℚ)
    (src dst : String) (vars : map_t String (List ℚ)) (attr : List ℚ)
    (hR : 1 ≤ R) (hC : 1 ≤ C) (hgrid : ps0.grid = g.set_sizes R C hx hy)
    (hxy : ps0.x.length = ps0.y.length)
    (hvalid : ∀ i : Int, 0 ≤ i → i < ps0.x.length →
      0 ≤ ps0.cell_key i ∧ ps0.cell_key i < R * C)
    (hsrc : ps0.dprops src = some attr) (hlen : attr.length = ps0.x.length)
    (hdst : vars dst = some (List.replicate ((R + 1) * (C + 1)).toNat 0)) :
    ∃ ps vars' field, ps0.init_particle_mesh = Except.ok ps ∧
      ps.p2g vars [src] [dst] false = Except.ok vars' ∧
      vars' dst = some field ∧ field.length = ((R + 1) * (C + 1)).toNat ∧
      field.sum = attr.sum := by
  obtain ⟨ps, hinit, hpx, hpy, _, hpd, _, hpgrid, hidx⟩ :=
    init_particle_mesh_spec ps0 (le_of_eq hxy)
  have hgrid' : ps.grid = g.set_sizes R C hx hy := by rw [hpgrid, hgrid]
  have hnodes0 : 0 ≤ (R + 1) * (C + 1) := by nlinarith
  have hcells := cell_sweep_set_sizes g R C hx hy hR hC
  rw [← hgrid'] at hcells
  have hshape : shape vars dst = some ((R + 1) * (C + 1)).toNat := by
    simp [shape, hdst]
  have hready : ∀ icell ∈ (List.range (R * C).toNat).map
      (sweep_cell R g.current_cell.is_ghost),
      ∀ idx ∈ ps.grd_to_ptcl.subscript icell.get_global_cell_idx,
        p2g_ready ps (shape vars) [src] [dst] icell idx := by
    intro icell hicell idx hmem
    obtain ⟨_, _, hgt⟩ := swept_cell_facts ps g R C hx hy hR hgrid' icell hicell
    rw [(hidx _).1, List.mem_filter] at hmem
    obtain ⟨hi0, hi⟩ := mem_index_range hmem.1
    refine ⟨hi0, by rw [hpx]; exact hi, by rw [hpy, ← hxy]; exact hi, ?_, ?_⟩
    · intro ivar hivar
      simp only [List.length_singleton, Nat.lt_one_iff] at hivar
      subst hivar
      exact ⟨src, attr, rfl, by rw [hpd]; exact hsrc, by omega⟩
    · intro inode hinode gname hgname
      simp only [List.mem_singleton] at hgname
      subst hgname
      obtain ⟨h0, h1⟩ := hgt inode hinode
      exact ⟨_, hshape, h0, by omega⟩
  obtain ⟨vars', hok, hsh', hentry⟩ := p2g_accumulate ps _ [src] [dst] vars hcells hready
  obtain ⟨field, hfield, hflen⟩ := shape_some (by rw [hsh']; exact hshape :
    shape vars' dst = some ((R + 1) * (C + 1)).toNat)
  refine ⟨ps, vars', field, hinit, hok, hfield, hflen, ?_⟩
  have hfe : ∀ n, field.getD n 0 = entry vars' dst n := by
    intro n
    simp [entry, map_t.subscript, hfield]
  have hzero : ∀ n ∈ List.range field.length, entry vars dst n = 0 := by
    intro n hn
    exact entry_replicate vars dst _ 0 hdst n (by rw [← hflen]; exact List.mem_range.mp hn)
  have hstep : ∀ n ∈ List.range field.length, field.getD n 0
      = p2g_sum ps ((List.range (R * C).toNat).map (sweep_cell R g.current_cell.is_ghost))
          [src] [dst] dst n := by
    intro n hn
    rw [hfe, hentry, hzero n hn, zero_add]
  rw [list_sum_eq_range field, List.map_congr_left hstep,
    p2g_sum_total ps _ src dst field.length (by
      intro icell hicell inode hinode
      obtain ⟨_, _, hgt⟩ := swept_cell_facts ps g R C hx hy hR hgrid' icell hicell
      obtain ⟨h0, h1⟩ := hgt inode hinode
      exact ⟨h0, by omega⟩)]
  rw [List.map_map]
  have hbucket : ∀ k ∈ List.range (R * C).toNat,
      ((fun icell : cell_t =>
        ((ps.grd_to_ptcl.subscript icell.get_global_cell_idx).map fun idx =>
          entry ps.dprops src idx.toNat).sum) ∘ sweep_cell R g.current_cell.is_ghost) k
      = (((index_range ps0.x.length).filter fun i => decide (ps0.cell_key i = (k : Int))).map
          fun idx => entry ps.dprops src idx.toNat).sum := by
    intro k _
    show ((ps.grd_to_ptcl.subscript (k : Int)).map _).sum = _
    rw [(hidx _).1]
  rw [List.map_congr_left hbucket,
    sum_over_buckets ps0.cell_key (R * C).toNat ps0.x.length _ (by
      intro i hi
      obtain ⟨hi0, hilt⟩ := mem_index_range hi
      obtain ⟨h0, h1⟩ := hvalid i hi0 (by omega)
      exact ⟨h0, by omega⟩)]
  rw [list_sum_eq_range attr, hlen]
  unfold index_range
  rw [List.map_map]
  refine congrArg List.sum (List.map_congr_left ?_)
  intro n _
  simp [entry, map_t.subscript, hpd, hsrc]

theorem p2g_conserves_total_witness :
    ∃ ps vars' field, twin_particles.init_particle_mesh = Except.ok ps ∧
      ps.p2g zero_field ["a"] ["f"] false = Except.ok vars' ∧
      vars' "f" = some field ∧ field.length = ((1 + 1) * (1 + 1) : Int).toNat ∧
      field.sum = (List.replicate 2 (1 : ℚ)).sum :=
  p2g_conserves_total twin_particles (quadgrid_t.construct none 0 0 0 0) 1 1 1 1 "a" "f"
    zero_field (List.replicate 2 1) (by decide) (by decide) rfl rfl
    (fun i h0 h1 => cell_key_valid twin_particles (quadgrid_t.construct none 0 0 0 0) 1 1 1 1
      (by norm_num) (by norm_num) rfl i (twin_in_extent i h0 h1))
    rfl rfl rfl

/-! ## The entries of the nodal mass -/

theorem getD_set_add (M : List ℚ) (k n : Nat) (d : ℚ) (hk : k < M.length) :
    (M.set k (M.getD k 0 + d)).getD n 0 = M.getD n 0 + (if k = n then d else 0) := by
  simp only [List.getD_eq_getElem?_getD, List.getElem?_set]
  by_cases h : k = n
  · subst h
    simp [hk]
  · simp [h]

/-- The call `build_mass ()` returns when the node ids of the swept cells are
indices of `M`, and leaves in entry `n` the sum, over the swept cells and their
4 nodes, of `(hx/2)*(hy/2)` where the node is `n`. -/
theorem build_mass_pointwise (ps : particles_t) (cells : List cell_t)
    (hcells : ps.grid.cell_sweep = some cells)
    (hgt : ∀ icell ∈ cells, ∀ inode ∈ index_range 4,
      0 ≤ icell.gt ps.grid.grid_properties inode ∧
      (icell.gt ps.grid.grid_properties inode).toNat < ps.M.length) :
    ∃ ps', ps.build_mass = Except.ok ps' ∧ ps'.M.length = ps.M.length ∧
      ∀ n : Nat, ps'.M.getD n 0
        = (cells.map fun icell =>
            ((index_range 4).map fun inode =>
              if icell.gt ps.grid.grid_properties inode = (n : Int) then
                (ps.grid.hx / 2) * (ps.grid.hy / 2)
              else 0).sum).sum := by
  have hnodes : cell_t.nodes_per_cell.toNat = 4 := rfl
  obtain ⟨M', hok, hlen, hval⟩ :=
    foldlM_additive (fun (M : List ℚ) => M.length = ps.M.length)
      (fun (M : List ℚ) (n : Nat) => M.getD n 0)
      (fun (M : List ℚ) (icell : cell_t) =>
        (index_range cell_t.nodes_per_cell.toNat).foldlM (ps.build_mass_node icell) M)
      (fun (icell : cell_t) (n : Nat) =>
        ((index_range 4).map fun inode =>
          if icell.gt ps.grid.grid_properties inode = (n : Int) then
            (ps.grid.hx / 2) * (ps.grid.hy / 2)
          else 0).sum)
      cells
      (by
        intro icell hicell M hMlen
        rw [hnodes]
        apply foldlM_additive (fun (M : List ℚ) => M.length = ps.M.length)
          (fun (M : List ℚ) (n : Nat) => M.getD n 0)
        · intro inode hinode M1 hM1
          obtain ⟨hgt0, hgt1⟩ := hgt icell hicell inode hinode
          have hgt' : (icell.gt ps.grid.grid_properties inode).toNat < M1.length := by
            rw [hM1]
            exact hgt1
          refine ⟨_, build_mass_node_spec ps _ M1 inode hgt0 hgt', ?_, ?_⟩
          · rw [List.length_set, hM1]
          · intro n
            rw [getD_set_add M1 _ n _ hgt']
            congr 1
            by_cases h : icell.gt ps.grid.grid_properties inode = (n : Int)
            · rw [if_pos h, if_pos (by omega)]
            · rw [if_neg h, if_neg (by omega)]
        · exact hMlen)
      (List.replicate ps.M.length 0) (by simp)
  refine ⟨{ ps with M := M' }, ?_, hlen, ?_⟩
  · unfold particles_t.build_mass particles_t.sweep
    rw [hcells]
    simp only [except_bind_ok]
    rw [hok]
    rfl
  · intro n
    have h := hval n
    simp only [List.getD_eq_getElem?_getD, List.getElem?_replicate] at h ⊢
    rw [h]
    split_ifs <;> simp

theorem node_decomp (R r c a b : Int) (hr0 : 0 ≤ r) (hr : r ≤ R) (ha0 : 0 ≤ a) (ha : a ≤ R) :
    r + c * (R + 1) = a + b * (R + 1) ↔ r = a ∧ c = b := by
  constructor
  · intro h
    have hcb : c = b := by
      by_contra hne
      rcases lt_or_gt_of_ne hne with hlt | hgt
      · have h1 : 1 ≤ b - c := by omega
        have h2 : (R + 1) * 1 ≤ (R + 1) * (b - c) :=
          mul_le_mul_of_nonneg_left h1 (by omega)
        nlinarith
      · have h1 : 1 ≤ c - b := by omega
        have h2 : (R + 1) * 1 ≤ (R + 1) * (c - b) :=
          mul_le_mul_of_nonneg_left h1 (by omega)
        nlinarith
    subst hcb
    exact ⟨by linarith, rfl⟩
  · rintro ⟨rfl, rfl⟩
    rfl

/-- The number of cells `k` of the sweep whose corner at the offset `(dr, dc)`
is the node in row `a` and column `b` of the node grid: 1 when the cell
`(a - dr, b - dc)` is a cell of the grid, 0 when it is not. -/
theorem sum_cells_offset (R C : Int) (hR : 1 ≤ R) (a b dr dc : Int)
    (hdr0 : 0 ≤ dr) (hdr : dr ≤ 1)
    (ha0 : 0 ≤ a) (ha : a ≤ R) :
    ((List.range (R * C).toNat).map fun (k : Nat) =>
      if ((k : Int) % R + dr) + ((k : Int) / R + dc) * (R + 1) = a + b * (R + 1)
      then (1 : ℚ) else 0).sum
      = if dr ≤ a ∧ a - dr < R ∧ dc ≤ b ∧ b - dc < C then 1 else 0 := by
  have hR0 : 0 < R := by omega
  have hiff : ∀ k : Nat,
      ((k : Int) % R + dr) + ((k : Int) / R + dc) * (R + 1) = a + b * (R + 1)
        ↔ (k : Int) % R = a - dr ∧ (k : Int) / R = b - dc := by
    intro k
    have h1 := Int.emod_nonneg (k : Int) (ne_of_gt hR0)
    have h2 := Int.emod_lt_of_pos (k : Int) hR0
    rw [node_decomp R _ _ a b (by omega) (by omega) ha0 ha]
    constructor
    · rintro ⟨h3, h4⟩
      exact ⟨by omega, by omega⟩
    · rintro ⟨h3, h4⟩
      exact ⟨by omega, by omega⟩
  by_cases hvalid : dr ≤ a ∧ a - dr < R ∧ dc ≤ b ∧ b - dc < C
  · rw [if_pos hvalid]
    obtain ⟨v1, v2, v3, v4⟩ := hvalid
    have hk0 : 0 ≤ (a - dr) + R * (b - dc) := by nlinarith
    have hklt : (a - dr) + R * (b - dc) < R * C := by
      have : R * (b - dc) ≤ R * (C - 1) := mul_le_mul_of_nonneg_left (by omega) (by omega)
      nlinarith
    have hmod : ((a - dr) + R * (b - dc)) % R = a - dr := by
      rw [Int.add_mul_emod_self_left]
      exact Int.emod_eq_of_lt (by omega) v2
    have hdiv : ((a - dr) + R * (b - dc)) / R = b - dc := by
      rw [Int.add_mul_ediv_left _ _ (ne_of_gt hR0), Int.ediv_eq_zero_of_lt (by omega) v2]
      simp
    have hcast : ((((a - dr) + R * (b - dc)).toNat : Nat) : Int) = (a - dr) + R * (b - dc) :=
      Int.toNat_of_nonneg hk0
    rw [sum_map_eq_single (List.range (R * C).toNat) ((a - dr) + R * (b - dc)).toNat _
      (List.nodup_range _) (List.mem_range.mpr (by omega))]
    · rw [if_pos]
      rw [hiff, hcast]
      exact ⟨hmod, hdiv⟩
    · intro k _ hne
      rw [if_neg]
      rw [hiff]
      rintro ⟨h3, h4⟩
      apply hne
      have hk := Int.emod_add_ediv (k : Int) R
      rw [h3, h4] at hk
      omega
  · rw [if_neg hvalid]
    apply sum_map_eq_zero
    intro k hk
    rw [if_neg]
    rw [hiff]
    rintro ⟨h3, h4⟩
    apply hvalid
    have h1 := Int.emod_nonneg (k : Int) (ne_of_gt hR0)
    have h2 := Int.emod_lt_of_pos (k : Int) hR0
    have h5 : 0 ≤ (k : Int) / R := Int.ediv_nonneg (Int.ofNat_nonneg k) (by omega)
    have hkN : (k : Int) < C * R := by
      have := List.mem_range.mp hk
      rw [mul_comm]
      omega
    have h6 : (k : Int) / R < C := Int.ediv_lt_of_lt_mul hR0 hkN
    exact ⟨by omega, by omega, by omega, by omega⟩

theorem filter_length_eq_sum {α : Type} (l : List α) (p : α → Bool) :
    ((l.filter p).length : ℚ) = (l.map fun a => if p a then (1 : ℚ) else 0).sum := by
  induction l with
  | nil => simp
  | cons a l ih =>
    by_cases h : p a
    · simp [List.filter_cons, h, ih]
      ring
    · simp [List.filter_cons, h, ih]

/-- On a grid with `R, C ≥ 1` the number of swept cells that have the node `n`
of the node grid as a corner is 1, 2 or 4, and it is the number of pairs of a
swept cell and one of its 4 local nodes whose global id is `n`. -/
theorem corner_count_spec (gp : grid_properties_t) (R C : Int) (ghost : Bool)
    (hR : 1 ≤ R) (hC : 1 ≤ C) (hrows : gp.numrows = R) (n : Int) (hn0 : 0 ≤ n)
    (hn : n < (R + 1) * (C + 1)) :
    ((corner_count gp ((List.range (R * C).toNat).map (sweep_cell R ghost)) n : Nat) : ℚ)
      = (((List.range (R * C).toNat).map (sweep_cell R ghost)).map fun icell =>
          ((index_range 4).map fun inode =>
            if icell.gt gp inode = n then (1 : ℚ) else 0).sum).sum ∧
    (corner_count gp ((List.range (R * C).toNat).map (sweep_cell R ghost)) n = 1 ∨
      corner_count gp ((List.range (R * C).toNat).map (sweep_cell R ghost)) n = 2 ∨
      corner_count gp ((List.range (R * C).toNat).map (sweep_cell R ghost)) n = 4) := by
  have hR1 : 0 < R + 1 := by omega
  have ha0 : 0 ≤ n % (R + 1) := Int.emod_nonneg n (ne_of_gt hR1)
  have ha : n % (R + 1) ≤ R := by
    have := Int.emod_lt_of_pos n hR1
    omega
  have hb0 : 0 ≤ n / (R + 1) := Int.ediv_nonneg hn0 (by omega)
  have hb : n / (R + 1) ≤ C := by
    have : n / (R + 1) < C + 1 := Int.ediv_lt_of_lt_mul hR1 (by rw [mul_comm]; exact hn)
    omega
  have hnab : n % (R + 1) + n / (R + 1) * (R + 1) = n := by
    have := Int.emod_add_ediv n (R + 1)
    rw [mul_comm] at this
    exact this
  have hfirst : ((corner_count gp ((List.range (R * C).toNat).map (sweep_cell R ghost)) n
        : Nat) : ℚ)
      = (((List.range (R * C).toNat).map (sweep_cell R ghost)).map fun icell =>
          ((index_range 4).map fun inode =>
            if icell.gt gp inode = n then (1 : ℚ) else 0).sum).sum := by
    unfold corner_count
    rw [filter_length_eq_sum]
    refine congrArg List.sum (List.map_congr_left ?_)
    intro icell _
    rw [index_range_four]
    simp only [List.any_cons, List.any_nil, Bool.or_false, Bool.or_eq_true, decide_eq_true_eq,
      List.map_cons, List.map_nil, List.sum_cons, List.sum_nil, gt_zero, gt_one, gt_two,
      gt_three, hrows]
    split_ifs <;> first | (exfalso; omega) | norm_num
  have hsum : (((List.range (R * C).toNat).map (sweep_cell R ghost)).map fun icell =>
      ((index_range 4).map fun inode =>
        if icell.gt gp inode = n then (1 : ℚ) else 0).sum).sum
      = (if (0 : Int) ≤ n % (R + 1) ∧ n % (R + 1) - 0 < R ∧ (0 : Int) ≤ n / (R + 1) ∧
            n / (R + 1) - 0 < C then (1 : ℚ) else 0)
        + (if (1 : Int) ≤ n % (R + 1) ∧ n % (R + 1) - 1 < R ∧ (0 : Int) ≤ n / (R + 1) ∧
            n / (R + 1) - 0 < C then (1 : ℚ) else 0)
        + (if (0 : Int) ≤ n % (R + 1) ∧ n % (R + 1) - 0 < R ∧ (1 : Int) ≤ n / (R + 1) ∧
            n / (R + 1) - 1 < C then (1 : ℚ) else 0)
        + (if (1 : Int) ≤ n % (R + 1) ∧ n % (R + 1) - 1 < R ∧ (1 : Int) ≤ n / (R + 1) ∧
            n / (R + 1) - 1 < C then (1 : ℚ) else 0) := by
    rw [← sum_cells_offset R C hR (n % (R + 1)) (n / (R + 1)) 0 0 (by decide) (by decide)
        ha0 ha,
      ← sum_cells_offset R C hR (n % (R + 1)) (n / (R + 1)) 1 0 (by decide) (by decide)
        ha0 ha,
      ← sum_cells_offset R C hR (n % (R + 1)) (n / (R + 1)) 0 1 (by decide) (by decide)
        ha0 ha,
      ← sum_cells_offset R C hR (n % (R + 1)) (n / (R + 1)) 1 1 (by decide) (by decide)
        ha0 ha,
      ← List.sum_map_add, ← List.sum_map_add, ← List.sum_map_add, List.map_map]
    refine congrArg List.sum (List.map_congr_left ?_)
    intro k _
    rw [index_range_four]
    simp only [Function.comp, List.map_cons, List.map_nil, List.sum_cons, List.sum_nil,
      gt_zero, gt_one, gt_two, gt_three, hrows, sweep_cell, add_zero]
    rw [hnab]
    have e0 : ((k : Int) % R + (k : Int) / R * (R + 1) = n)
        ↔ ((k : Int) % R + 0 + ((k : Int) / R + 0) * (R + 1) = n) := by
      constructor <;> intro h <;> linarith
    have e1 : ((k : Int) % R + (k : Int) / R * (R + 1) + 1 = n)
        ↔ ((k : Int) % R + 1 + ((k : Int) / R + 0) * (R + 1) = n) := by
      constructor <;> intro h <;> linarith
    have e2 : ((k : Int) % R + (k : Int) / R * (R + 1) + (R + 1) = n)
        ↔ ((k : Int) % R + 0 + ((k : Int) / R + 1) * (R + 1) = n) := by
      constructor <;> intro h <;> linarith
    have e3 : ((k : Int) % R + (k : Int) / R * (R + 1) + (R + 2) = n)
        ↔ ((k : Int) % R + 1 + ((k : Int) / R + 1) * (R + 1) = n) := by
      constructor <;> intro h <;> linarith
    rw [if_congr e0 rfl rfl, if_congr e1 rfl rfl, if_congr e2 rfl rfl, if_congr e3 rfl rfl]
    ring_nf
  refine ⟨hfirst, ?_⟩
  have hq : ((corner_count gp ((List.range (R * C).toNat).map (sweep_cell R ghost)) n
        : Nat) : ℚ) = 1 ∨
      ((corner_count gp ((List.range (R * C).toNat).map (sweep_cell R ghost)) n : Nat) : ℚ)
        = 2 ∨
      ((corner_count gp ((List.range (R * C).toNat).map (sweep_cell R ghost)) n : Nat) : ℚ)
        = 4 := by
    rw [hfirst, hsum]
    split_ifs <;> first | (exfalso; omega) | norm_num
  rcases hq with h | h | h
  · exact Or.inl (by exact_mod_cast h)
  · exact Or.inr (Or.inl (by exact_mod_cast h))
  · exact Or.inr (Or.inr (by exact_mod_cast h))

/-- In exact arithmetic, on a grid with `R, C ≥ 1` and `hx, hy > 0`,
`build_mass ()` on a vector `M` with one entry per node returns, and every
entry `M[n]`, `n` in `[0, (R+1)*(C+1))`, is `k*(hx/2)*(hy/2)` with `k` the
number of swept cells that have `n` as a corner; `k` is 1, 2 or 4, so
`M[n] > 0`. -/
theorem mass_entries_exact (ps : particles_t) (g : quadgrid_t) (R C : Int) (hx hy : ℚ)
    (hR : 1 ≤ R) (hC : 1 ≤ C) (hhx : 0 < hx) (hhy : 0 < hy)
    (hgrid : ps.grid = g.set_sizes R C hx hy)
    (hM : (ps.M.length : Int) = (R + 1) * (C + 1)) :
    ∃ ps' cells, ps.build_mass = Except.ok ps' ∧ ps.grid.cell_sweep = some cells ∧
      (ps'.M.length : Int) = (R + 1) * (C + 1) ∧
      ∀ n : Nat, (n : Int) < (R + 1) * (C + 1) →
        ps'.M.getD n 0
          = (corner_count ps.grid.grid_properties cells n : ℚ) * (hx / 2) * (hy / 2) ∧
        (corner_count ps.grid.grid_properties cells n = 1 ∨
          corner_count ps.grid.grid_properties cells n = 2 ∨
          corner_count ps.grid.grid_properties cells n = 4) ∧
        0 < ps'.M.getD n 0 ∧ ps'.M.getD n 0 ≠ 0 := by
  have hcells := cell_sweep_set_sizes g R C hx hy hR hC
  rw [← hgrid] at hcells
  have hrows : ps.grid.grid_properties.numrows = R := by rw [hgrid]; rfl
  have hgx : ps.grid.hx = hx := by rw [hgrid]; rfl
  have hgy : ps.grid.hy = hy := by rw [hgrid]; rfl
  obtain ⟨ps', hok, hlen, hval⟩ := build_mass_pointwise ps _ hcells (by
    intro icell hicell inode hinode
    obtain ⟨_, _, hgt⟩ := swept_cell_facts ps g R C hx hy hR hgrid icell hicell
    obtain ⟨h0, h1⟩ := hgt inode hinode
    exact ⟨h0, by omega⟩)
  refine ⟨ps', _, hok, hcells, by rw [hlen]; exact hM, ?_⟩
  intro n hn
  obtain ⟨hcount, hk⟩ := corner_count_spec ps.grid.grid_properties R C g.current_cell.is_ghost
    hR hC hrows (n : Int) (Int.ofNat_nonneg n) hn
  have hentry : ps'.M.getD n 0
      = (corner_count ps.grid.grid_properties
          ((List.range (R * C).toNat).map (sweep_cell R g.current_cell.is_ghost)) n : ℚ)
        * (hx / 2) * (hy / 2) := by
    have h1 : (((List.range (R * C).toNat).map (sweep_cell R g.current_cell.is_ghost)).map
          fun icell => ((index_range 4).map fun inode =>
            if icell.gt ps.grid.grid_properties inode = (n : Int) then
              (hx / 2) * (hy / 2)
            else 0).sum).sum
        = (hx / 2) * (hy / 2)
          * (((List.range (R * C).toNat).map (sweep_cell R g.current_cell.is_ghost)).map
              fun icell => ((index_range 4).map fun inode =>
                if icell.gt ps.grid.grid_properties inode = (n : Int) then (1 : ℚ)
                else 0).sum).sum := by
      rw [← sum_map_mul_left_cell]
      refine congrArg List.sum (List.map_congr_left ?_)
      intro icell _
      rw [← sum_map_mul_left]
      refine congrArg List.sum (List.map_congr_left ?_)
      intro inode _
      split_ifs <;> simp
    rw [hval n, hgx, hgy, h1, hcount]
    ring
  have hpos : 0 < ps'.M.getD n 0 := by
    rw [hentry]
    have hd : 0 < (hx / 2) * (hy / 2) := mul_pos (by linarith) (by linarith)
    have hkpos : (0 : ℚ) < (corner_count ps.grid.grid_properties
        ((List.range (R * C).toNat).map (sweep_cell R g.current_cell.is_ghost)) n : ℚ) := by
      rcases hk with h | h | h <;> rw [h] <;> norm_num
    rw [mul_assoc]
    exact mul_pos hkpos hd
  exact ⟨hentry, hk, hpos, ne_of_gt hpos⟩

/-! ## A constant field gathered to a particle -/

/-- C21: on a grid with `R, C ≥ 1`, for a constant `k`, a grid field `src` equal
to `k` at every node, a zeroed particle attribute `dst`, and a particle `p`
that the index lists once, in the bucket of the valid cell `(r, c)` (as
`init_particle_mesh ()` lists every particle): `g2p` with `apply_mass = false`
returns and leaves `dst[p] = k`. -/
theorem g2p_constant_field (ps : particles_t) (g : quadgrid_t) (R C : Int) (hx hy : ℚ)
    (r c p : Int) (k : ℚ) (src dst : String) (vars : map_t String (List ℚ))
    (hgrid : ps.grid = g.set_sizes R C hx hy)
    (hxy : ps.y.length = ps.x.length)
    (hbuckets : ∀ key : Int, 0 ≤ key → key < R * C → ∀ idx ∈ ps.grd_to_ptcl.subscript key,
      0 ≤ idx ∧ idx.toNat < ps.x.length)
    (hfield : vars src = some (List.replicate ((R + 1) * (C + 1)).toNat k))
    (hattr : ps.dprops dst = some (List.replicate ps.x.length 0))
    (hr0 : 0 ≤ r) (hr : r < R) (hc0 : 0 ≤ c) (hc : c < C)
    (hcount : (ps.grd_to_ptcl.subscript (r + R * c)).count p = 1)
    (hothers : ∀ key : Int, 0 ≤ key → key < R * C → key ≠ r + R * c →
      p ∉ ps.grd_to_ptcl.subscript key) :
    ∃ ps' attr', ps.g2p vars [src] [dst] false = Except.ok ps' ∧
      ps'.dprops dst = some attr' ∧ attr'.length = ps.x.length ∧
      attr'.getD p.toNat 0 = k := by
  have hR : 1 ≤ R := by omega
  have hC : 1 ≤ C := by omega
  have hcells := cell_sweep_set_sizes g R C hx hy hR hC
  rw [← hgrid] at hcells
  have hready : ∀ icell ∈ (List.range (R * C).toNat).map
      (sweep_cell R g.current_cell.is_ghost),
      ∀ idx ∈ ps.grd_to_ptcl.subscript icell.get_global_cell_idx,
        g2p_ready ps (shape ps.dprops) vars [src] [dst] false icell idx := by
    intro icell hicell idx hidx
    obtain ⟨hk0, hk, hgt⟩ := swept_cell_facts ps g R C hx hy hR hgrid icell hicell
    obtain ⟨hidx0, hidxx⟩ := hbuckets _ hk0 hk idx hidx
    refine ⟨hidx0, hidxx, by omega, ?_⟩
    intro inode hinode
    obtain ⟨h0, h1⟩ := hgt inode hinode
    refine ⟨fun h => absurd h (by decide), ?_⟩
    intro ivar hivar
    simp only [List.length_singleton, Nat.lt_one_iff] at hivar
    subst hivar
    refine ⟨src, _, dst, ps.x.length, rfl, hfield, h0, ?_, rfl, ?_, hidxx⟩
    · rw [List.length_replicate]
      omega
    · simp [shape, hattr]
  obtain ⟨ps', hok, _, _, _, _, _, _, hshape, hentry⟩ :=
    g2p_accumulate ps _ vars [src] [dst] false hcells hready
  obtain ⟨attr', hattr', hlen'⟩ := shape_some
    (show shape ps'.dprops dst = some ps.x.length by rw [hshape]; simp [shape, hattr])
  have hmem : p ∈ ps.grd_to_ptcl.subscript (r + R * c) := by
    rw [← List.count_pos_iff]
    omega
  have hrc0 : 0 ≤ r + R * c := by nlinarith
  have hrc : r + R * c < R * C := by nlinarith
  obtain ⟨hp0, hpx⟩ := hbuckets (r + R * c) hrc0 hrc p hmem
  refine ⟨ps', attr', hok, hattr', hlen', ?_⟩
  have h := hentry dst p.toNat
  rw [g2p_sum_single ps R C g.current_cell.is_ghost r c p vars [src] [dst] false 0 src dst
    hr0 hr hc0 hc hp0 hcount hothers (by simp) rfl rfl
    (fun i hi => by
      simp only [List.length_singleton, Nat.lt_one_iff] at hi
      subst hi
      exact ⟨dst, rfl⟩)
    (fun i hi _ => by
      simp only [List.length_singleton, Nat.lt_one_iff] at hi
      exact hi)] at h
  have he' : entry ps'.dprops dst p.toNat = attr'.getD p.toNat 0 := by
    simp [entry, map_t.subscript, hattr']
  have he : entry ps.dprops dst p.toNat = 0 :=
    entry_replicate ps.dprops dst _ 0 hattr p.toNat hpx
  obtain ⟨hk0, _, _, _⟩ := sweep_cell_of_sub R C r c g.current_cell.is_ghost hr0 hr hc0 hc
  have hnode : ∀ inode ∈ index_range 4,
      g2p_weight ps false (sweep_cell R g.current_cell.is_ghost (r + R * c).toNat) p inode
        * entry vars src ((sweep_cell R g.current_cell.is_ghost (r + R * c).toNat).gt
            ps.grid.grid_properties inode).toNat
      = k * (sweep_cell R g.current_cell.is_ghost (r + R * c).toNat).shp
          ps.grid.grid_properties (ps.x.getD p.toNat 0) (ps.y.getD p.toNat 0) inode := by
    intro inode hinode
    obtain ⟨_, _, hgt⟩ := swept_cell_facts ps g R C hx hy hR hgrid
      (sweep_cell R g.current_cell.is_ghost (r + R * c).toNat)
      (List.mem_map.mpr ⟨_, List.mem_range.mpr hk0, rfl⟩)
    obtain ⟨h0, h1⟩ := hgt inode hinode
    rw [entry_replicate vars src _ k hfield _ (by omega)]
    unfold g2p_weight
    simp only [Bool.false_eq_true, if_false]
    ring
  rw [he', he, List.map_congr_left hnode, sum_map_mul_left, index_range_four] at h
  rw [h]
  simp only [List.map_cons, List.map_nil, List.sum_cons, List.sum_nil]
  have hone := shp_sum_one ps.grid.grid_properties
    (sweep_cell R g.current_cell.is_ghost (r + R * c).toNat) (ps.x.getD p.toNat 0)
    (ps.y.getD p.toNat 0)
  linear_combination k * hone

theorem g2p_constant_field_witness :
    ∃ ps' attr',
      centre_particles.g2p (fun name => if name = "f" then some (List.replicate 4 7) else none)
        ["f"] ["a"] false = Except.ok ps' ∧
      ps'.dprops "a" = some attr' ∧ attr'.length = centre_particles.x.length ∧
      attr'.getD (0 : Int).toNat 0 = 7 :=
  g2p_constant_field centre_particles (quadgrid_t.construct none 0 0 0 0) 1 1 1 1 0 0 0 7
    "f" "a" (fun name => if name = "f" then some (List.replicate 4 7) else none) rfl rfl
    (by
      intro key _ _ idx hidx
      by_cases hk : key = 0
      · subst hk
        simp only [centre_particles, map_t.subscript, if_true, Option.getD_some,
          List.mem_singleton] at hidx
        subst hidx
        exact ⟨le_refl _, by decide⟩
      · simp [centre_particles, map_t.subscript, hk] at hidx)
    rfl rfl (by decide) (by decide) (by decide) (by decide) (by decide)
    (by
      intro key _ _ hk
      simp [centre_particles, map_t.subscript] at hk ⊢
      simp [hk])

/-! ## Node coordinates and global node ids -/

/-- The row and the column of the node grid that a global node id names. -/
theorem node_row_col (R a b : Int) (ha0 : 0 ≤ a) (ha : a ≤ R) :
    (a + b * (R + 1)) / (R + 1) = b ∧ (a + b * (R + 1)) % (R + 1) = a := by
  have hR1 : 0 < R + 1 := by omega
  constructor
  · rw [Int.add_mul_ediv_right _ _ (ne_of_gt hR1), Int.ediv_eq_zero_of_lt ha0 (by omega)]
    simp
  · rw [Int.add_mul_emod_self]
    exact Int.emod_eq_of_lt ha0 (by omega)

/-- The coordinates that `p` gives to local node `i` of a cell of the grid, in
terms of the global id `gt (i)`. -/
theorem p_of_gt (gp : grid_properties_t) (cell : cell_t) (i : Int)
    (hr0 : 0 ≤ cell.row_idx) (hr : cell.row_idx < gp.numrows) (hi0 : 0 ≤ i) (hi : i ≤ 3) :
    cell.p gp 0 i = ((cell.gt gp i / (gp.numrows + 1) : Int) : ℚ) * gp.hx ∧
    cell.p gp 1 i = ((cell.gt gp i % (gp.numrows + 1) : Int) : ℚ) * gp.hy := by
  have hr0' : 0 ≤ cell.rowidx := hr0
  have hr' : cell.rowidx < gp.numrows := hr
  have hi4 : i = 0 ∨ i = 1 ∨ i = 2 ∨ i = 3 := by omega
  have h0 := node_row_col gp.numrows cell.rowidx cell.colidx hr0' (by omega)
  have h1 := node_row_col gp.numrows (cell.rowidx + 1) cell.colidx (by omega) (by omega)
  have h2 := node_row_col gp.numrows cell.rowidx (cell.colidx + 1) hr0' (by omega)
  have h3 := node_row_col gp.numrows (cell.rowidx + 1) (cell.colidx + 1) (by omega) (by omega)
  have e1 : cell.rowidx + cell.colidx * (gp.numrows + 1) + 1
      = cell.rowidx + 1 + cell.colidx * (gp.numrows + 1) := by ring
  have e2 : cell.rowidx + cell.colidx * (gp.numrows + 1) + (gp.numrows + 1)
      = cell.rowidx + (cell.colidx + 1) * (gp.numrows + 1) := by ring
  have e3 : cell.rowidx + cell.colidx * (gp.numrows + 1) + (gp.numrows + 2)
      = cell.rowidx + 1 + (cell.colidx + 1) * (gp.numrows + 1) := by ring
  rcases hi4 with rfl | rfl | rfl | rfl
  · rw [gt_zero, h0.1, h0.2]
    refine ⟨?_, ?_⟩ <;> simp [cell_t.p, cell_t.row_idx, cell_t.col_idx]
  · rw [gt_one, e1, h1.1, h1.2]
    constructor
    · simp [cell_t.p, cell_t.row_idx, cell_t.col_idx]
    · simp [cell_t.p, cell_t.row_idx, cell_t.col_idx]
      ring
  · rw [gt_two, e2, h2.1, h2.2]
    constructor
    · simp [cell_t.p, cell_t.row_idx, cell_t.col_idx]
      ring
    · simp [cell_t.p, cell_t.row_idx, cell_t.col_idx]
  · rw [gt_three, e3, h3.1, h3.2]
    constructor
    · simp [cell_t.p, cell_t.row_idx, cell_t.col_idx]
      ring
    · simp [cell_t.p, cell_t.row_idx, cell_t.col_idx]
      ring

/-- C22: for every cell `(r, c)` with `0 ≤ r < R` of a grid with `R` rows and
every `i` in `0..3`, with `g = gt (i)`: `p (0, i) = (g div (R+1)) * hx` and
`p (1, i) = (g mod (R+1)) * hy`; hence two such cells that share a global node
id, `gt (i)` of the one being `gt (j)` of the other, report the same
coordinates for it. -/
theorem p_determined_by_gt (gp : grid_properties_t) :
    (∀ (cell : cell_t) (i : Int), 0 ≤ cell.row_idx → cell.row_idx < gp.numrows →
      0 ≤ i → i ≤ 3 →
      cell.p gp 0 i = ((cell.gt gp i / (gp.numrows + 1) : Int) : ℚ) * gp.hx ∧
      cell.p gp 1 i = ((cell.gt gp i % (gp.numrows + 1) : Int) : ℚ) * gp.hy) ∧
    (∀ (cell1 cell2 : cell_t) (i j : Int),
      0 ≤ cell1.row_idx → cell1.row_idx < gp.numrows →
      0 ≤ cell2.row_idx → cell2.row_idx < gp.numrows →
      0 ≤ i → i ≤ 3 → 0 ≤ j → j ≤ 3 → cell1.gt gp i = cell2.gt gp j →
      cell1.p gp 0 i = cell2.p gp 0 j ∧ cell1.p gp 1 i = cell2.p gp 1 j) := by
  constructor
  · intro cell i hr0 hr hi0 hi
    exact p_of_gt gp cell i hr0 hr hi0 hi
  · intro cell1 cell2 i j hr0 hr hs0 hs hi0 hi hj0 hj hg
    obtain ⟨a1, a2⟩ := p_of_gt gp cell1 i hr0 hr hi0 hi
    obtain ⟨b1, b2⟩ := p_of_gt gp cell2 j hs0 hs hj0 hj
    rw [a1, a2, b1, b2, hg]
    exact ⟨rfl, rfl⟩

theorem p_determined_by_gt_witness :
    (sweep_cell 2 false 0).p scenario_grid.grid_properties 0 3
      = (sweep_cell 2 false 3).p scenario_grid.grid_properties 0 0 ∧
    (sweep_cell 2 false 0).p scenario_grid.grid_properties 1 3
      = (sweep_cell 2 false 3).p scenario_grid.grid_properties 1 0 :=
  (p_determined_by_gt scenario_grid.grid_properties).2 (sweep_cell 2 false 0)
    (sweep_cell 2 false 3) 3 0 (by decide) (by decide) (by decide) (by decide) (by decide)
    (by decide) (by decide) (by decide) (by decide)

/-! ## The nodal mass in binary64 arithmetic -/

theorem round_half_even_small (x : ℚ) (h0 : 0 ≤ x) (h : x < 1 / 2) : round_half_even x = 0 := by
  have hf : Int.floor x = 0 := by
    rw [Int.floor_eq_iff]
    constructor
    · simpa using h0
    · norm_num
      linarith
  unfold round_half_even
  rw [hf]
  simp only [Int.cast_zero, sub_zero]
  rw [if_pos h]

theorem round_half_even_int (n : Int) : round_half_even (n : ℚ) = n := by
  unfold round_half_even
  rw [Int.floor_intCast]
  simp

theorem round_double_zero : round_double 0 = 0 := by
  unfold round_double
  rw [if_pos rfl]

/-- A positive product below half the least subnormal value underflows to 0. -/
theorem round_double_underflow (x : ℚ) (h0 : 0 < x) (h : x < (2 : ℚ) ^ (-1075 : Int)) :
    round_double x = 0 := by
  have hlog : Int.log 2 |x| < -1075 := by
    rw [abs_of_pos h0]
    exact (Int.lt_zpow_iff_log_lt (by decide) h0).mp (by exact_mod_cast h)
  have hmax : max (Int.log 2 |x|) (-1022) = -1022 := max_eq_right (by omega)
  unfold round_double
  rw [if_neg (ne_of_gt h0), hmax]
  have hq : (0 : ℚ) < (2 : ℚ) ^ (-1022 - 52 : Int) := zpow_pos (by norm_num) _
  have hsmall : x / (2 : ℚ) ^ (-1022 - 52 : Int) < 1 / 2 := by
    rw [div_lt_iff₀ hq]
    have e : (1 / 2 : ℚ) * (2 : ℚ) ^ (-1022 - 52 : Int) = (2 : ℚ) ^ (-1075 : Int) := by
      rw [show (-1075 : Int) = (-1022 - 52) - 1 by norm_num, zpow_sub_one₀ (by norm_num)]
      ring
    rw [e]
    exact h
  rw [round_half_even_small _ (le_of_lt (div_pos h0 hq)) hsmall]
  simp

/-- A power of two of the normal range is a binary64 value. -/
theorem round_double_zpow (n : Int) (hn : -1022 ≤ n) :
    round_double ((2 : ℚ) ^ n) = (2 : ℚ) ^ n := by
  have hpos : (0 : ℚ) < (2 : ℚ) ^ n := zpow_pos (by norm_num) _
  have hlog : Int.log 2 |(2 : ℚ) ^ n| = n := by
    rw [abs_of_pos hpos]
    exact_mod_cast Int.log_zpow (R := ℚ) (b := 2) (by decide) n
  have hmax : max (Int.log 2 |(2 : ℚ) ^ n|) (-1022) = n := by
    rw [hlog]
    exact max_eq_left hn
  unfold round_double
  rw [if_neg (ne_of_gt hpos), hmax]
  have hquot : (2 : ℚ) ^ n / (2 : ℚ) ^ (n - 52) = (((2 : Int) ^ 52 : Int) : ℚ) := by
    rw [← zpow_sub₀ (by norm_num)]
    have : n - (n - 52) = ((52 : Nat) : Int) := by omega
    rw [this, zpow_natCast]
    norm_num
  rw [hquot, round_half_even_int, ← hquot]
  have hq : (2 : ℚ) ^ (n - 52) ≠ 0 := ne_of_gt (zpow_pos (by norm_num) _)
  field_simp

theorem replicate_set_same (L k : Nat) (v : ℚ) : (List.replicate L v).set k v = List.replicate L v := by
  apply List.ext_getElem
  · simp
  · intro n h1 h2
    simp [List.getElem_set]

theorem getD_replicate_zero (L n : Nat) : (List.replicate L (0 : ℚ)).getD n 0 = 0 := by
  rw [List.getD_eq_getElem?_getD, List.getElem?_replicate]
  split_ifs <;> rfl

/-- The amount that `build_mass` adds per cell corner, `(hx/2)*(hy/2)`, is 0 in
binary64 arithmetic for `hx = hy = 2^(-540)`: the exact product `2^(-1082)` is
below half the least subnormal value. -/
theorem tiny_cell_underflow :
    round_double (round_double (tiny_cell_particles.grid.hx / 2)
      * round_double (tiny_cell_particles.grid.hy / 2)) = 0 := by
  have hhx : tiny_cell_particles.grid.hx = (2 : ℚ) ^ (-540 : Int) := rfl
  have hhy : tiny_cell_particles.grid.hy = (2 : ℚ) ^ (-540 : Int) := rfl
  have hhalf : (2 : ℚ) ^ (-540 : Int) / 2 = (2 : ℚ) ^ (-541 : Int) := by
    rw [show (-541 : Int) = -540 - 1 by norm_num, zpow_sub_one₀ (by norm_num)]
    ring
  rw [hhx, hhy, hhalf, round_double_zpow (-541) (by norm_num)]
  apply round_double_underflow
  · exact mul_pos (zpow_pos (by norm_num) _) (zpow_pos (by norm_num) _)
  · rw [← zpow_add₀ (by norm_num)]
    exact zpow_lt_zpow_right₀ (by norm_num) (by norm_num)

/-- C17, counterexample: on the 1x1 grid with the positive binary64 cell sizes
`hx = hy = 2^(-540)`, `build_mass ()` in binary64 arithmetic returns and leaves
`M[n] = 0` at each of the 4 nodes: the product `(hx/2)*(hy/2)` underflows to 0,
so no entry is positive and `p2g` with `apply_mass = true` divides by it. -/
theorem build_mass_underflow :
    0 < tiny_cell_particles.grid.hx ∧ 0 < tiny_cell_particles.grid.hy ∧
    tiny_cell_particles.grid.num_rows = 1 ∧ tiny_cell_particles.grid.num_cols = 1 ∧
    ∃ ps', tiny_cell_particles.build_mass_double = Except.ok ps' ∧
      ps'.M = [0, 0, 0, 0] ∧ ∀ n : Nat, n < 4 → ¬ 0 < ps'.M.getD n 0 := by
  have hpos : (0 : ℚ) < (2 : ℚ) ^ (-540 : Int) := zpow_pos (by norm_num) _
  refine ⟨hpos, hpos, rfl, rfl, ?_⟩
  have hcells : tiny_cell_particles.grid.cell_sweep = _ :=
    cell_sweep_set_sizes (quadgrid_t.construct none 0 0 0 0) 1 1 ((2 : ℚ) ^ (-540 : Int))
      ((2 : ℚ) ^ (-540 : Int)) (by decide) (by decide)
  have hnodes : cell_t.nodes_per_cell.toNat = 4 := rfl
  have hlen : tiny_cell_particles.M.length = 4 := rfl
  have hfold : List.foldlM
      (fun (M : List ℚ) (icell : cell_t) =>
        (index_range cell_t.nodes_per_cell.toNat).foldlM
          (tiny_cell_particles.build_mass_node_double icell) M)
      (List.replicate tiny_cell_particles.M.length 0)
      ((List.range (1 * 1 : Int).toNat).map
        (sweep_cell 1 (quadgrid_t.construct none 0 0 0 0).current_cell.is_ghost))
      = Except.ok (List.replicate 4 0) := by
    rw [hlen]
    apply foldlM_fixed
    intro icell hicell
    rw [hnodes]
    apply foldlM_fixed
    intro inode hinode
    obtain ⟨_, _, hgt⟩ := swept_cell_facts tiny_cell_particles
      (quadgrid_t.construct none 0 0 0 0) 1 1 ((2 : ℚ) ^ (-540 : Int))
      ((2 : ℚ) ^ (-540 : Int)) (by decide) rfl icell hicell
    obtain ⟨h0, h1⟩ := hgt inode hinode
    have h1' : (icell.gt tiny_cell_particles.grid.grid_properties inode).toNat
        < (List.replicate 4 (0 : ℚ)).length := by
      rw [List.length_replicate]
      omega
    unfold particles_t.build_mass_node_double
    rw [vec_at_getD _ _ h0 h1', tiny_cell_underflow]
    simp only [except_bind_ok]
    rw [vec_assign_ok _ _ _ h0 h1']
    rw [getD_replicate_zero, add_zero, round_double_zero, replicate_set_same]
  refine ⟨{ tiny_cell_particles with M := List.replicate 4 0 }, ?_, rfl, ?_⟩
  · unfold particles_t.build_mass_double particles_t.sweep
    rw [hcells]
    simp only [except_bind_ok]
    rw [hfold]
    rfl
  · intro n hn
    show ¬ 0 < (List.replicate 4 (0 : ℚ)).getD n 0
    rw [getD_replicate_zero]
    exact lt_irrefl 0

/-- With no listed particle, `p2g` with `apply_mass = true` and a destination
name `nofield` that is not a key of the grid fields still subscripts
`vars[nofield]` in its division loop: it reads entry 0 of an empty vector. -/
theorem p2g_divide_absent_destination :
    scenario_particles.p2g scenario_fields ["mass"] ["nofield"] true
      = Except.error error_t.undefined_behaviour := by
  have hcells : scenario_particles.grid.cell_sweep = _ :=
    cell_sweep_set_sizes (quadgrid_t.construct none 0 0 0 0) 2 2 (1 / 2) (1 / 2)
      (by decide) (by decide)
  unfold particles_t.p2g particles_t.sweep
  rw [hcells]
  simp only [except_bind_ok]
  rw [foldlM_fixed _ _ _ (fun icell _ => rfl)]
  simp only [except_bind_ok, if_true]
  have hM : index_range scenario_particles.M.length = 0 :: (index_range 8).map (· + 1) := by
    decide
  have hstep : scenario_particles.p2g_divide ["nofield"] 0 scenario_fields 0
      = Except.error error_t.undefined_behaviour := by
    simp [particles_t.p2g_divide, particles_t.getkey, vec_at, scenario_particles,
      scenario_fields, map_t.subscript, bind, Except.bind, pure, Except.pure]
  have hone : index_range ["nofield"].length = [0] := by decide
  rw [hone, List.foldlM_cons, hM, List.foldlM_cons, hstep]
  rfl

theorem g2p_absent_source :
    centre_particles.g2p unit_fields ["zz"] ["a"] false
      = Except.error error_t.out_of_range := by
  have hcells1 : centre_particles.grid.cell_sweep = _ :=
    cell_sweep_set_sizes (quadgrid_t.construct none 0 0 0 0) 1 1 1 1 (by decide) (by decide)
  unfold particles_t.g2p particles_t.sweep
  rw [hcells1]
  simp only [except_bind_ok]
  have hr : (List.range (1 * 1 : Int).toNat) = [0] := by decide
  have hcell : centre_particles.g2p_cell unit_fields ["zz"] ["a"] false centre_particles.dprops
      (sweep_cell 1 (quadgrid_t.construct none 0 0 0 0).current_cell.is_ghost 0)
      = Except.error error_t.out_of_range := by
    simp [particles_t.g2p_cell, map_t.count, map_t.at, centre_particles, sweep_cell,
      cell_t.get_global_cell_idx, particles_t.g2p_particle, vec_at, index_range,
      List.range_succ, particles_t.g2p_node, particles_t.g2p_N, particles_t.g2p_var,
      particles_t.getkey, unit_fields, except_bind_ok, except_bind_error, bind, Except.bind,
      pure, Except.pure]
  rw [hr]
  simp only [List.map_cons, List.map_nil, List.foldlM_cons]
  rw [hcell]
  rfl

/-- C12, failing input: `p2g` with a listed particle and a destination name `zz`
that is not a key of `vars` does not fail with the missing-key error
`out_of_range`: `vars[zz]` refers to an empty vector, which the accumulation
subscripts; the division loop of `apply_mass = true` does the same with no
particle listed; `g2p` with the same absent name as its source fails with
`out_of_range`.  Where a lookup through `at ()` is reached, on a grid with
`R, C ≥ 1` with sized vectors and a listed particle, the call fails with
`out_of_range`: `g2p` for a source name that is not a key of `vars` or a
destination name that is not a key of `dprops`, `p2g` into fields that `vars`
holds for a source name that is not a key of `dprops`. -/
theorem missing_key_lookup :
    (∀ (ps : particles_t) (g : quadgrid_t) (R C : Int) (hx hy : ℚ)
      (vars : map_t String (List ℚ)) (gvarnames pvarnames : List String) (apply_mass : Bool),
      1 ≤ R → 1 ≤ C → ps.grid = g.set_sizes R C hx hy →
      transfer_sized ps R C vars gvarnames pvarnames →
      (∃ k : Int, 0 ≤ k ∧ k < R * C ∧ ps.grd_to_ptcl.subscript k ≠ []) →
      ((∃ (ivar : Nat) (gname pname : String), gvarnames[ivar]? = some gname ∧
          pvarnames[ivar]? = some pname ∧ (vars gname = none ∨ ps.dprops pname = none)) →
        ps.g2p vars gvarnames pvarnames apply_mass = Except.error error_t.out_of_range) ∧
      ((∀ gname ∈ gvarnames, vars gname ≠ none) →
        (∃ (ivar : Nat) (pname : String), ivar < gvarnames.length ∧
          pvarnames[ivar]? = some pname ∧ ps.dprops pname = none) →
        ps.p2g vars pvarnames gvarnames apply_mass = Except.error error_t.out_of_range)) ∧
    (unit_fields "zz" = none ∧
      centre_particles.p2g unit_fields ["a"] ["zz"] false
        = Except.error error_t.undefined_behaviour ∧
      centre_particles.g2p unit_fields ["zz"] ["a"] false
        = Except.error error_t.out_of_range ∧
      scenario_fields "nofield" = none ∧
      scenario_particles.p2g scenario_fields ["mass"] ["nofield"] true
        = Except.error error_t.undefined_behaviour) := by
  constructor
  · intro ps g R C hx hy vars gvarnames pvarnames apply_mass hR hC hgrid hsized hvisit
    obtain ⟨h1, h2, _⟩ := lookup_missing_key ps g R C hx hy vars gvarnames pvarnames apply_mass
      hR hC hgrid hsized hvisit
    exact ⟨h1, h2⟩
  · exact ⟨by decide, absent_name_evaluations.2.2.2.2.2, g2p_absent_source, by decide,
      p2g_divide_absent_destination⟩

theorem missing_key_lookup_witness :
    centre_particles.g2p unit_fields ["f"] ["c"] false = Except.error error_t.out_of_range ∧
    centre_particles.p2g unit_fields ["c"] ["f"] false = Except.error error_t.out_of_range :=
  ⟨(missing_key_lookup.1 centre_particles (quadgrid_t.construct none 0 0 0 0) 1 1 1 1
      unit_fields ["f"] ["c"] false (by decide) (by decide) rfl centre_particles_sized
      ⟨0, by decide, by decide, by decide⟩).1
      ⟨0, "f", "c", rfl, rfl, Or.inr (by decide)⟩,
   (missing_key_lookup.1 centre_particles (quadgrid_t.construct none 0 0 0 0) 1 1 1 1
      unit_fields ["f"] ["c"] false (by decide) (by decide) rfl centre_particles_sized
      ⟨0, by decide, by decide, by decide⟩).2
      (by decide) ⟨0, "c", by decide, rfl, by decide⟩⟩

/-- C13, counterexample: `set_sizes (-2, 3, 1, 1)` is accepted, and on the cell
`(0, 0)` that `begin_cell_sweep ()` then points to, with `r, c ≥ 0`, the node
index 2, which is in `0..3`, has `gt (2) = -1` and `t (2) = -1`. -/
theorem gt_sentinel_negative_rows :
    0 ≤ (((quadgrid_t.construct none 0 0 0 0).set_sizes (-2) 3 1 1).begin_cell_sweep
      ).1.current_cell.row_idx ∧
    0 ≤ (((quadgrid_t.construct none 0 0 0 0).set_sizes (-2) 3 1 1).begin_cell_sweep
      ).1.current_cell.col_idx ∧
    (((quadgrid_t.construct none 0 0 0 0).set_sizes (-2) 3 1 1).begin_cell_sweep
      ).1.current_cell.gt
        ((quadgrid_t.construct none 0 0 0 0).set_sizes (-2) 3 1 1).grid_properties 2 = -1 ∧
    (((quadgrid_t.construct none 0 0 0 0).set_sizes (-2) 3 1 1).begin_cell_sweep
      ).1.current_cell.t
        ((quadgrid_t.construct none 0 0 0 0).set_sizes (-2) 3 1 1).grid_properties 2 = -1 := by
  refine ⟨by decide, by decide, by decide, by decide⟩

/-! ## The index in binary64 arithmetic -/

theorem init_particle_mesh_double_fold (ps : particles_t) :
    ∀ (l : List Int),
      (∀ i ∈ l, 0 ≤ i ∧ i.toNat < ps.x.length ∧ i.toNat < ps.y.length) →
      ∀ m : map_t Int (List Int),
        ∃ m', List.foldlM
            (fun (m : map_t Int (List Int)) (ii : Int) => do
              let xi ← vec_at ps.x ii
              let yi ← vec_at ps.y ii
              let c : Int := Int.floor (round_double (xi / ps.grid.hx))
              let r : Int := Int.floor (round_double (yi / ps.grid.hy))
              pure (m.store (ps.grid.sub2gind r c)
                (m.subscript (ps.grid.sub2gind r c) ++ [ii])))
            m l = Except.ok m' ∧
          ∀ k, m'.subscript k
              = m.subscript k ++ l.filter (fun i => decide (ps.cell_key_double i = k)) ∧
            ((m' k).isSome ↔ ((m k).isSome ∨ ∃ i ∈ l, ps.cell_key_double i = k)) := by
  intro l
  induction l with
  | nil =>
    intro _ m
    exact ⟨m, rfl, fun k => ⟨by simp, by simp⟩⟩
  | cons a l ih =>
    intro hl m
    obtain ⟨ha0, hax, hay⟩ := hl a (List.mem_cons_self a l)
    obtain ⟨m', hok, hm'⟩ := ih (fun i hi => hl i (List.mem_cons_of_mem a hi))
      (m.store (ps.cell_key_double a) (m.subscript (ps.cell_key_double a) ++ [a]))
    refine ⟨m', ?_, ?_⟩
    · rw [List.foldlM_cons, vec_at_getD ps.x a ha0 hax, vec_at_getD ps.y a ha0 hay]
      exact hok
    · intro k
      obtain ⟨hsub, hsome⟩ := hm' k
      by_cases hk : ps.cell_key_double a = k
      · subst hk
        constructor
        · rw [hsub]
          simp [map_t.subscript, map_t.store, List.filter_cons]
        · rw [hsome]
          simp [map_t.store]
      · have hk' : ¬ k = ps.cell_key_double a := fun e => hk e.symm
        constructor
        · rw [hsub]
          simp [map_t.subscript, map_t.store, List.filter_cons, hk, hk']
        · rw [hsome]
          simp [map_t.store, hk, hk']

/-- The index that `init_particle_mesh` builds in binary64 arithmetic: it
returns when `y` is as long as `x`, changes nothing else, and the bucket of
every key `k` lists, in increasing order, the particles whose key is `k`; a key
is present when it was present before or is the key of a particle. -/
theorem init_particle_mesh_double_spec (ps : particles_t)
    (hxy : ps.x.length ≤ ps.y.length) :
    ∃ ps', ps.init_particle_mesh_double = Except.ok ps' ∧
      ps'.x = ps.x ∧ ps'.y = ps.y ∧ ps'.iprops = ps.iprops ∧ ps'.dprops = ps.dprops ∧
      ps'.M = ps.M ∧ ps'.grid = ps.grid ∧
      ∀ k, ps'.grd_to_ptcl.subscript k
          = (index_range ps.x.length).filter (fun i => decide (ps.cell_key_double i = k)) ∧
        ((ps'.grd_to_ptcl k).isSome ↔
          ((ps.grd_to_ptcl k).isSome ∨
            ∃ i ∈ index_range ps.x.length, ps.cell_key_double i = k)) := by
  obtain ⟨m', hok, hm'⟩ := init_particle_mesh_double_fold ps (index_range ps.x.length)
    (fun i hi => ⟨(mem_index_range hi).1, (mem_index_range hi).2,
      lt_of_lt_of_le (mem_index_range hi).2 hxy⟩)
    (fun k => (ps.grd_to_ptcl k).map (fun _ => []))
  refine ⟨{ ps with grd_to_ptcl := m' }, ?_, rfl, rfl, rfl, rfl, rfl, rfl, ?_⟩
  · unfold particles_t.init_particle_mesh_double
    simp only []
    rw [hok]
    rfl
  · intro k
    obtain ⟨hsub, hsome⟩ := hm' k
    constructor
    · rw [hsub]
      cases h : ps.grd_to_ptcl k <;> simp [map_t.subscript, h]
    · rw [hsome]
      cases h : ps.grd_to_ptcl k <;> simp [h]

theorem round_half_even_floor_le (y : ℚ) : Int.floor y ≤ round_half_even y := by
  unfold round_half_even
  split_ifs <;> omega

theorem round_half_even_ge (y : ℚ) (n : Int) (h : (n : ℚ) ≤ y) : n ≤ round_half_even y :=
  le_trans (Int.le_floor.mpr h) (round_half_even_floor_le y)

/-- Rounding to binary64 does not make a nonnegative value negative. -/
theorem round_double_nonneg (y : ℚ) (h : 0 ≤ y) : 0 ≤ round_double y := by
  unfold round_double
  split_ifs with h0
  · exact le_refl 0
  · have hq : (0 : ℚ) < (2 : ℚ) ^ (max (Int.log 2 |y|) (-1022) - 52) :=
      zpow_pos (by norm_num) _
    have hm : (0 : Int) ≤ round_half_even (y / (2 : ℚ) ^ (max (Int.log 2 |y|) (-1022) - 52)) :=
      round_half_even_ge _ 0 (by simpa using div_nonneg h (le_of_lt hq))
    exact mul_nonneg (by exact_mod_cast hm) (le_of_lt hq)

/-- Rounding to binary64 does not take a value below an integer `n` with
`1 ≤ n ≤ 2^53` that it is not below: such an `n` is a binary64 value. -/
theorem round_double_ge_int (y : ℚ) (n : Int) (hn1 : 1 ≤ n) (hn : n ≤ 2 ^ 53)
    (h : (n : ℚ) ≤ y) : (n : ℚ) ≤ round_double y := by
  have hn1' : (1 : ℚ) ≤ (n : ℚ) := by exact_mod_cast hn1
  have hy1 : (1 : ℚ) ≤ y := le_trans hn1' h
  have hy0 : (0 : ℚ) < y := by linarith
  have habs : |y| = y := abs_of_pos hy0
  have he0 : 0 ≤ Int.log 2 y :=
    (Int.zpow_le_iff_le_log (by decide) hy0).mp (by simpa using hy1)
  have hmax : max (Int.log 2 |y|) (-1022) = Int.log 2 y := by
    rw [habs]
    exact max_eq_left (by omega)
  unfold round_double
  rw [if_neg (ne_of_gt hy0), hmax]
  have hq : (0 : ℚ) < (2 : ℚ) ^ (Int.log 2 y - 52) := zpow_pos (by norm_num) _
  by_cases he : Int.log 2 y ≤ 52
  · obtain ⟨d, hd⟩ : ∃ d : Nat, (d : Int) = 52 - Int.log 2 y := ⟨(52 - Int.log 2 y).toNat, by omega⟩
    have hqd : (2 : ℚ) ^ (Int.log 2 y - 52) = 1 / (2 : ℚ) ^ d := by
      rw [show Int.log 2 y - 52 = -(d : Int) by omega, zpow_neg, zpow_natCast]
      simp
    have hdpos : (0 : ℚ) < (2 : ℚ) ^ d := pow_pos (by norm_num) _
    have hge : n * 2 ^ d ≤ round_half_even (y / (2 : ℚ) ^ (Int.log 2 y - 52)) := by
      apply round_half_even_ge
      rw [hqd]
      push_cast
      rw [div_div_eq_mul_div, div_one]
      exact mul_le_mul_of_nonneg_right h (le_of_lt hdpos)
    have hge' : ((n * 2 ^ d : Int) : ℚ)
        ≤ (round_half_even (y / (2 : ℚ) ^ (Int.log 2 y - 52)) : ℚ) := by exact_mod_cast hge
    calc (n : ℚ) = ((n * 2 ^ d : Int) : ℚ) * (1 / (2 : ℚ) ^ d) := by
          push_cast
          field_simp
      _ ≤ (round_half_even (y / (2 : ℚ) ^ (Int.log 2 y - 52)) : ℚ) * (1 / (2 : ℚ) ^ d) :=
          mul_le_mul_of_nonneg_right hge' (by positivity)
      _ = _ := by rw [hqd]
  · have he' : 53 ≤ Int.log 2 y := by omega
    have hpow : (2 : ℚ) ^ (Int.log 2 y) ≤ y := by
      exact_mod_cast Int.zpow_log_le_self (R := ℚ) (b := 2) (by decide) hy0
    have hc52 : (((2 : Int) ^ 52 : Int) : ℚ) = (2 : ℚ) ^ (52 : Int) := by norm_num
    have hc53 : (((2 : Int) ^ 53 : Int) : ℚ) = (2 : ℚ) ^ (53 : Int) := by norm_num
    have hsplit : (2 : ℚ) ^ (52 : Int) * (2 : ℚ) ^ (Int.log 2 y - 52)
        = (2 : ℚ) ^ (Int.log 2 y) := by
      rw [← zpow_add₀ (by norm_num)]
      congr 1
      omega
    have hge : (2 : Int) ^ 52 ≤ round_half_even (y / (2 : ℚ) ^ (Int.log 2 y - 52)) := by
      apply round_half_even_ge
      rw [le_div_iff₀ hq, hc52, hsplit]
      exact hpow
    have hge' : (2 : ℚ) ^ (52 : Int)
        ≤ (round_half_even (y / (2 : ℚ) ^ (Int.log 2 y - 52)) : ℚ) := by
      rw [← hc52]
      exact_mod_cast hge
    have h53 : (n : ℚ) ≤ (2 : ℚ) ^ (53 : Int) := by
      rw [← hc53]
      exact_mod_cast hn
    have hmono : (2 : ℚ) ^ (53 : Int) ≤ (2 : ℚ) ^ (Int.log 2 y) :=
      zpow_le_zpow_right₀ (by norm_num) he'
    calc (n : ℚ) ≤ (2 : ℚ) ^ (Int.log 2 y) := le_trans h53 hmono
      _ = (2 : ℚ) ^ (52 : Int) * (2 : ℚ) ^ (Int.log 2 y - 52) := hsplit.symm
      _ ≤ _ := mul_le_mul_of_nonneg_right hge' (le_of_lt hq)

/-! ## Buckets as a partition of the particle indices -/

/-- Buckets that list, for every key, the particle indices with that key are
pairwise disjoint, their union is the set of all particle indices, and every
particle is in the bucket of its key. -/
theorem buckets_partition (n : Nat) (key : Int → Int) (bucket : Int → List Int)
    (h : ∀ k, bucket k = (index_range n).filter (fun i => decide (key i = k))) :
    (∀ (k1 k2 i : Int), i ∈ bucket k1 → i ∈ bucket k2 → k1 = k2) ∧
    (∀ i : Int, (∃ k, i ∈ bucket k) ↔ (0 ≤ i ∧ i < n)) ∧
    (∀ i : Int, 0 ≤ i → i < n → i ∈ bucket (key i)) := by
  have hmem : ∀ (k i : Int), i ∈ bucket k ↔ (i ∈ index_range n ∧ key i = k) := by
    intro k i
    rw [h k, List.mem_filter]
    simp
  have hrange : ∀ i : Int, i ∈ index_range n ↔ (0 ≤ i ∧ i < n) := by
    intro i
    constructor
    · intro hi
      obtain ⟨h0, h1⟩ := mem_index_range hi
      exact ⟨h0, by omega⟩
    · rintro ⟨h0, h1⟩
      have := mem_index_range_of_lt n i.toNat (by omega)
      rwa [Int.toNat_of_nonneg h0] at this
  refine ⟨?_, ?_, ?_⟩
  · intro k1 k2 i h1 h2
    rw [hmem] at h1 h2
    rw [← h1.2, ← h2.2]
  · intro i
    constructor
    · rintro ⟨k, hk⟩
      rw [hmem] at hk
      exact (hrange i).mp hk.1
    · intro hi
      exact ⟨key i, (hmem _ i).mpr ⟨(hrange i).mpr hi, rfl⟩⟩
  · intro i h0 h1
    exact (hmem _ i).mpr ⟨(hrange i).mpr ⟨h0, h1⟩, rfl⟩

/-- C10, amended: on a grid with `R, C ≥ 1` and `hx, hy > 0`, for every list of
particle positions and every previous index, `init_particle_mesh ()` returns,
the buckets are pairwise disjoint, and the
union of all buckets is the set of all particle indices, within the grid
extent or not: particle `i` is in the bucket of the key
`sub2gind (floor (y_i/hy), floor (x_i/hx))`.  This holds in exact arithmetic,
where the quotients are exact, and in binary64 arithmetic, where they are the
rounded quotients that the code computes. -/
theorem init_particle_mesh_partition (ps : particles_t) (g : quadgrid_t) (R C : Int)
    (hx hy : ℚ) (_hR : 1 ≤ R) (_hC : 1 ≤ C) (_hhx : 0 < hx) (_hhy : 0 < hy)
    (_hgrid : ps.grid = g.set_sizes R C hx hy) (hxy : ps.x.length = ps.y.length) :
    (∃ ps', ps.init_particle_mesh = Except.ok ps' ∧
      (∀ (k1 k2 i : Int), i ∈ ps'.grd_to_ptcl.subscript k1 →
        i ∈ ps'.grd_to_ptcl.subscript k2 → k1 = k2) ∧
      (∀ i : Int, (∃ k, i ∈ ps'.grd_to_ptcl.subscript k) ↔ (0 ≤ i ∧ i < ps.x.length)) ∧
      (∀ i : Int, 0 ≤ i → i < ps.x.length →
        i ∈ ps'.grd_to_ptcl.subscript
          (ps.grid.sub2gind (Int.floor (ps.y.getD i.toNat 0 / ps.grid.hy))
            (Int.floor (ps.x.getD i.toNat 0 / ps.grid.hx))))) ∧
    (∃ ps', ps.init_particle_mesh_double = Except.ok ps' ∧
      (∀ (k1 k2 i : Int), i ∈ ps'.grd_to_ptcl.subscript k1 →
        i ∈ ps'.grd_to_ptcl.subscript k2 → k1 = k2) ∧
      (∀ i : Int, (∃ k, i ∈ ps'.grd_to_ptcl.subscript k) ↔ (0 ≤ i ∧ i < ps.x.length)) ∧
      (∀ i : Int, 0 ≤ i → i < ps.x.length →
        i ∈ ps'.grd_to_ptcl.subscript
          (ps.grid.sub2gind (Int.floor (round_double (ps.y.getD i.toNat 0 / ps.grid.hy)))
            (Int.floor (round_double (ps.x.getD i.toNat 0 / ps.grid.hx)))))) := by
  constructor
  · obtain ⟨ps', hok, _, _, _, _, _, _, hidx⟩ := init_particle_mesh_spec ps (le_of_eq hxy)
    exact ⟨ps', hok, buckets_partition ps.x.length ps.cell_key
      (fun k => ps'.grd_to_ptcl.subscript k) (fun k => (hidx k).1)⟩
  · obtain ⟨ps', hok, _, _, _, _, _, _, hidx⟩ :=
      init_particle_mesh_double_spec ps (le_of_eq hxy)
    exact ⟨ps', hok, buckets_partition ps.x.length ps.cell_key_double
      (fun k => ps'.grd_to_ptcl.subscript k) (fun k => (hidx k).1)⟩

theorem init_particle_mesh_partition_witness :
    (∃ ps', stray_particles.init_particle_mesh = Except.ok ps' ∧
      (∀ (k1 k2 i : Int), i ∈ ps'.grd_to_ptcl.subscript k1 →
        i ∈ ps'.grd_to_ptcl.subscript k2 → k1 = k2) ∧
      (∀ i : Int, (∃ k, i ∈ ps'.grd_to_ptcl.subscript k)
        ↔ (0 ≤ i ∧ i < stray_particles.x.length)) ∧
      (∀ i : Int, 0 ≤ i → i < stray_particles.x.length →
        i ∈ ps'.grd_to_ptcl.subscript
          (stray_particles.grid.sub2gind
            (Int.floor (stray_particles.y.getD i.toNat 0 / stray_particles.grid.hy))
            (Int.floor (stray_particles.x.getD i.toNat 0 / stray_particles.grid.hx))))) ∧
    (∃ ps', stray_particles.init_particle_mesh_double = Except.ok ps' ∧
      (∀ (k1 k2 i : Int), i ∈ ps'.grd_to_ptcl.subscript k1 →
        i ∈ ps'.grd_to_ptcl.subscript k2 → k1 = k2) ∧
      (∀ i : Int, (∃ k, i ∈ ps'.grd_to_ptcl.subscript k)
        ↔ (0 ≤ i ∧ i < stray_particles.x.length)) ∧
      (∀ i : Int, 0 ≤ i → i < stray_particles.x.length →
        i ∈ ps'.grd_to_ptcl.subscript
          (stray_particles.grid.sub2gind
            (Int.floor (round_double
              (stray_particles.y.getD i.toNat 0 / stray_particles.grid.hy)))
            (Int.floor (round_double
              (stray_particles.x.getD i.toNat 0 / stray_particles.grid.hx)))))) :=
  init_particle_mesh_partition stray_particles (quadgrid_t.construct none 0 0 0 0) 2 2 1 1
    (by decide) (by decide) (by norm_num) (by norm_num) rfl rfl

/-- C10, counterexample: on the 2x2 grid with `hx = hy = 1` the particle 0 at
`(1/2, 5/2)` lies outside the extent `[0, 2) × [0, 2)`, and
`init_particle_mesh ()` lists it in the bucket of key 2, the id of the valid
cell `(0, 1)`: the union of the buckets is not the set of the particles within
the extent.  In binary64 arithmetic too the particle is in a bucket. -/
theorem init_particle_mesh_keeps_stray :
    (∃ ps', stray_particles.init_particle_mesh = Except.ok ps' ∧
      (0 : Int) ∈ ps'.grd_to_ptcl.subscript 2 ∧
      ¬ stray_particles.in_extent 2 2 0 ∧
      ¬ (∀ i : Int, (∃ k, i ∈ ps'.grd_to_ptcl.subscript k)
          ↔ (0 ≤ i ∧ i < stray_particles.x.length ∧ stray_particles.in_extent 2 2 i))) ∧
    (∃ ps', stray_particles.init_particle_mesh_double = Except.ok ps' ∧
      (∃ k, (0 : Int) ∈ ps'.grd_to_ptcl.subscript k) ∧
      ¬ (∀ i : Int, (∃ k, i ∈ ps'.grd_to_ptcl.subscript k)
          ↔ (0 ≤ i ∧ i < stray_particles.x.length ∧ stray_particles.in_extent 2 2 i))) := by
  have hout : ¬ stray_particles.in_extent 2 2 0 := by
    rintro ⟨_, _, _, h⟩
    have hy : stray_particles.y.getD (0 : Int).toNat 0 = 5 / 2 := rfl
    have hh : stray_particles.grid.hy = 1 := rfl
    rw [hy, hh] at h
    norm_num at h
  constructor
  · obtain ⟨ps', hok, _, _, _, _, _, _, hidx⟩ :=
      init_particle_mesh_spec stray_particles (le_refl _)
    have hkey : stray_particles.cell_key 0 = 2 := by
      have hx : Int.floor ((1 / 2 : ℚ) / 1) = 0 := by norm_num
      have hy : Int.floor ((5 / 2 : ℚ) / 1) = 2 := by
        rw [Int.floor_eq_iff]
        norm_num
      show (quadgrid_t.sub2gind stray_particles.grid (Int.floor ((5 / 2 : ℚ) / 1))
        (Int.floor ((1 / 2 : ℚ) / 1))) = 2
      rw [hx, hy]
      rfl
    have hmem : (0 : Int) ∈ ps'.grd_to_ptcl.subscript 2 := by
      rw [(hidx 2).1, List.mem_filter]
      exact ⟨by decide, by simp [hkey]⟩
    refine ⟨ps', hok, hmem, hout, ?_⟩
    intro h
    exact hout ((h 0).mp ⟨2, hmem⟩).2.2
  · obtain ⟨ps', hok, _, _, _, _, _, _, hidx⟩ :=
      init_particle_mesh_double_spec stray_particles (le_refl _)
    obtain ⟨_, hunion, _⟩ := buckets_partition stray_particles.x.length
      stray_particles.cell_key_double (fun k => ps'.grd_to_ptcl.subscript k)
      (fun k => (hidx k).1)
    have hmem : ∃ k, (0 : Int) ∈ ps'.grd_to_ptcl.subscript k :=
      (hunion 0).mpr ⟨le_refl _, by decide⟩
    refine ⟨ps', hok, hmem, ?_⟩
    intro h
    exact hout ((h 0).mp hmem).2.2

/-! ## Bucket keys beside the grid extent in binary64 arithmetic -/

/-- The value `5/2` is a binary64 value. -/
theorem round_double_five_halves : round_double (5 / 2) = 5 / 2 := by
  have hpos : (0 : ℚ) < 5 / 2 := by norm_num
  have hlog : Int.log 2 |(5 / 2 : ℚ)| = 1 := by
    rw [abs_of_pos hpos]
    have h1 : (1 : Int) ≤ Int.log 2 (5 / 2 : ℚ) :=
      (Int.zpow_le_iff_le_log (by decide) hpos).mp (by norm_num)
    have h2 : Int.log 2 (5 / 2 : ℚ) < 2 :=
      (Int.lt_zpow_iff_log_lt (by decide) hpos).mp (by norm_num)
    omega
  unfold round_double
  rw [if_neg (ne_of_gt hpos), hlog]
  have hmax : max (1 : Int) (-1022) - 52 = -51 := by decide
  rw [hmax]
  have hquot : (5 / 2 : ℚ) / (2 : ℚ) ^ (-51 : Int) = (((5 * 2 ^ 50 : Int)) : ℚ) := by
    rw [zpow_neg]
    norm_num
  rw [hquot, round_half_even_int, zpow_neg]
  norm_num

/-- The quotient of the negative binary64 value nearest to 0 by 2 rounds to
zero. -/
theorem round_double_negative_underflow :
    round_double (-(2 : ℚ) ^ (-1074 : Int) / 2) = 0 := by
  have hval : -(2 : ℚ) ^ (-1074 : Int) / 2 = -(2 : ℚ) ^ (-1075 : Int) := by
    rw [show (-1075 : Int) = -1074 - 1 by norm_num, zpow_sub_one₀ (by norm_num)]
    ring
  have hpos : (0 : ℚ) < (2 : ℚ) ^ (-1075 : Int) := zpow_pos (by norm_num) _
  have hlog : Int.log 2 |-(2 : ℚ) ^ (-1075 : Int)| = -1075 := by
    rw [abs_neg, abs_of_pos hpos]
    exact_mod_cast Int.log_zpow (R := ℚ) (b := 2) (by decide) (-1075)
  rw [hval]
  unfold round_double
  rw [if_neg (ne_of_lt (neg_neg_of_pos hpos)), hlog]
  have hmax : max (-1075 : Int) (-1022) - 52 = -1074 := by decide
  rw [hmax]
  have hquot : -(2 : ℚ) ^ (-1075 : Int) / (2 : ℚ) ^ (-1074 : Int) = -1 / 2 := by
    rw [show (-1075 : Int) = -1074 - 1 by norm_num, zpow_sub_one₀ (by norm_num)]
    have hq : (2 : ℚ) ^ (-1074 : Int) ≠ 0 := ne_of_gt (zpow_pos (by norm_num) _)
    field_simp
  have hf : Int.floor (-1 / 2 : ℚ) = -1 := by
    rw [Int.floor_eq_iff]
    norm_num
  have hr : round_half_even (-1 / 2) = 0 := by
    unfold round_half_even
    rw [hf]
    norm_num
  rw [hquot, hr]
  simp

/-- In binary64 arithmetic, on a grid with `1 ≤ R`, `1 ≤ C ≤ 2^53` and
`hx, hy > 0`, a particle `i` with `x ≥ C*hx` and `y ≥ 0` is filed by
`init_particle_mesh ()` under a key that is at least `R*C`, and is in the
bucket of no cell that the cell sweep visits. -/
theorem outside_key_double (ps : particles_t) (g : quadgrid_t) (R C : Int) (hx hy : ℚ)
    (hR : 1 ≤ R) (hC : 1 ≤ C) (hhx : 0 < hx) (hhy : 0 < hy)
    (hgrid : ps.grid = g.set_sizes R C hx hy) (hxy : ps.x.length = ps.y.length)
    (i : Int) (hi0 : 0 ≤ i) (hi : i < ps.x.length)
    (hC53 : C ≤ 2 ^ 53)
    (hxC : (C : ℚ) * hx ≤ ps.x.getD i.toNat 0) (hy0 : 0 ≤ ps.y.getD i.toNat 0) :
    ps.cell_key_double i = Int.floor (round_double (ps.y.getD i.toNat 0 / hy))
      + R * Int.floor (round_double (ps.x.getD i.toNat 0 / hx)) ∧
    R * C ≤ ps.cell_key_double i ∧
    ∃ ps' cells, ps.init_particle_mesh_double = Except.ok ps' ∧
      ps'.sweep = Except.ok cells ∧
      i ∈ ps'.grd_to_ptcl.subscript (ps.cell_key_double i) ∧
      ∀ icell ∈ cells, i ∉ ps'.grd_to_ptcl.subscript icell.get_global_cell_idx := by
  have hgx : ps.grid.hx = hx := by rw [hgrid]; rfl
  have hgy : ps.grid.hy = hy := by rw [hgrid]; rfl
  have hrows : ps.grid.grid_properties.numrows = R := by rw [hgrid]; rfl
  have hkey : ps.cell_key_double i = Int.floor (round_double (ps.y.getD i.toNat 0 / hy))
      + R * Int.floor (round_double (ps.x.getD i.toNat 0 / hx)) := by
    simp only [particles_t.cell_key_double, quadgrid_t.sub2gind, hgx, hgy, hrows]
  have hrange : R * C ≤ ps.cell_key_double i := by
    rw [hkey]
    have hc : C ≤ Int.floor (round_double (ps.x.getD i.toNat 0 / hx)) := by
      rw [Int.le_floor]
      apply round_double_ge_int _ C hC hC53
      rw [le_div_iff₀ hhx]
      exact hxC
    have hr : 0 ≤ Int.floor (round_double (ps.y.getD i.toNat 0 / hy)) :=
      Int.floor_nonneg.mpr (round_double_nonneg _ (div_nonneg hy0 (le_of_lt hhy)))
    nlinarith
  refine ⟨hkey, hrange, ?_⟩
  obtain ⟨ps', hok, _, _, _, _, _, hg', hidx⟩ :=
    init_particle_mesh_double_spec ps (le_of_eq hxy)
  have hgrid' : ps'.grid = g.set_sizes R C hx hy := by rw [hg', hgrid]
  refine ⟨ps', _, hok, sweep_set_sizes ps' g R C hx hy hR hC hgrid', ?_, ?_⟩
  · rw [(hidx _).1, List.mem_filter]
    refine ⟨?_, by simp⟩
    obtain ⟨n, rfl⟩ := Int.eq_ofNat_of_zero_le hi0
    exact mem_index_range_of_lt _ _ (by exact_mod_cast hi)
  · intro icell hicell hmem
    obtain ⟨hk0, hk, _⟩ := swept_cell_facts ps' g R C hx hy hR hgrid' icell hicell
    rw [(hidx _).1, List.mem_filter] at hmem
    have hkk : ps.cell_key_double i = icell.get_global_cell_idx := by simpa using hmem.2
    omega

/-- C11, amended: on a grid with `R, C ≥ 1` and `hx, hy > 0`, with the quotients
taken exactly, a particle `i` whose position lies beside the grid extent,
`x ≥ C*hx` with `y ≥ 0` or `x < 0` with `y < R*hy` (every position with `y` in
`[0, R*hy)` and `x` outside `[0, C*hx)` is one), is filed by
`init_particle_mesh ()` under the key `floor (y/hy) + R*floor (x/hx)`, which
lies outside `[0, R*C)`, and is in the bucket of no cell that the cell sweep
visits.  With the quotients rounded to binary64, as the code computes them,
the same holds of a particle with `x ≥ C*hx` and `y ≥ 0` (the bound
`C ≤ 2^53` holds of every `int`). -/
theorem stray_key_outside (ps : particles_t) (g : quadgrid_t) (R C : Int) (hx hy : ℚ)
    (hR : 1 ≤ R) (hC : 1 ≤ C) (hhx : 0 < hx) (hhy : 0 < hy)
    (hgrid : ps.grid = g.set_sizes R C hx hy) (hxy : ps.x.length = ps.y.length)
    (i : Int) (hi0 : 0 ≤ i) (hi : i < ps.x.length) :
    ((((C : ℚ) * hx ≤ ps.x.getD i.toNat 0 ∧ 0 ≤ ps.y.getD i.toNat 0) ∨
        (ps.x.getD i.toNat 0 < 0 ∧ ps.y.getD i.toNat 0 < (R : ℚ) * hy)) →
      ps.cell_key i = Int.floor (ps.y.getD i.toNat 0 / hy)
        + R * Int.floor (ps.x.getD i.toNat 0 / hx) ∧
      (ps.cell_key i < 0 ∨ R * C ≤ ps.cell_key i) ∧
      ∃ ps' cells, ps.init_particle_mesh = Except.ok ps' ∧ ps'.sweep = Except.ok cells ∧
        i ∈ ps'.grd_to_ptcl.subscript (ps.cell_key i) ∧
        ∀ icell ∈ cells, i ∉ ps'.grd_to_ptcl.subscript icell.get_global_cell_idx) ∧
    (C ≤ 2 ^ 53 → (C : ℚ) * hx ≤ ps.x.getD i.toNat 0 → 0 ≤ ps.y.getD i.toNat 0 →
      ps.cell_key_double i = Int.floor (round_double (ps.y.getD i.toNat 0 / hy))
        + R * Int.floor (round_double (ps.x.getD i.toNat 0 / hx)) ∧
      R * C ≤ ps.cell_key_double i ∧
      ∃ ps' cells, ps.init_particle_mesh_double = Except.ok ps' ∧
        ps'.sweep = Except.ok cells ∧
        i ∈ ps'.grd_to_ptcl.subscript (ps.cell_key_double i) ∧
        ∀ icell ∈ cells, i ∉ ps'.grd_to_ptcl.subscript icell.get_global_cell_idx) :=
  ⟨fun hout => outside_key_exact ps g R C hx hy hR hC hhx hhy hgrid hxy i hi0 hi hout,
   fun hC53 hxC hy0 =>
    outside_key_double ps g R C hx hy hR hC hhx hhy hgrid hxy i hi0 hi hC53 hxC hy0⟩

theorem stray_key_outside_witness :
    (side_particles.cell_key 0 = Int.floor (side_particles.y.getD (0 : Int).toNat 0 / 1)
        + 2 * Int.floor (side_particles.x.getD (0 : Int).toNat 0 / 1) ∧
      (side_particles.cell_key 0 < 0 ∨ 2 * 2 ≤ side_particles.cell_key 0) ∧
      ∃ ps' cells, side_particles.init_particle_mesh = Except.ok ps' ∧
        ps'.sweep = Except.ok cells ∧
        (0 : Int) ∈ ps'.grd_to_ptcl.subscript (side_particles.cell_key 0) ∧
        ∀ icell ∈ cells, (0 : Int) ∉ ps'.grd_to_ptcl.subscript icell.get_global_cell_idx) ∧
    (side_particles.cell_key_double 0
        = Int.floor (round_double (side_particles.y.getD (0 : Int).toNat 0 / 1))
          + 2 * Int.floor (round_double (side_particles.x.getD (0 : Int).toNat 0 / 1)) ∧
      2 * 2 ≤ side_particles.cell_key_double 0 ∧
      ∃ ps' cells, side_particles.init_particle_mesh_double = Except.ok ps' ∧
        ps'.sweep = Except.ok cells ∧
        (0 : Int) ∈ ps'.grd_to_ptcl.subscript (side_particles.cell_key_double 0) ∧
        ∀ icell ∈ cells,
          (0 : Int) ∉ ps'.grd_to_ptcl.subscript icell.get_global_cell_idx) :=
  ⟨(stray_key_outside side_particles (quadgrid_t.construct none 0 0 0 0) 2 2 1 1
      (by decide) (by decide) (by norm_num) (by norm_num) rfl rfl 0 (by decide) (by decide)).1
      (Or.inl ⟨by norm_num [side_particles], by norm_num [side_particles]⟩),
   (stray_key_outside side_particles (quadgrid_t.construct none 0 0 0 0) 2 2 1 1
      (by decide) (by decide) (by norm_num) (by norm_num) rfl rfl 0 (by decide) (by decide)).2
      (by norm_num) (by norm_num [side_particles]) (by norm_num [side_particles])⟩

/-- C11, counterexample: on the 2x2 grid with `hx = hy = 1` the particle 0 at
`(1/2, 5/2)` lies outside the extent `[0, 2) × [0, 2)`, its bucket key
`floor (y/hy) + R*floor (x/hx)` is 2, inside the valid range `[0, 4)`, and
after `init_particle_mesh ()` the cell sweep visits a cell whose bucket lists
the particle; binary64 arithmetic gives the same key and bucket.  In binary64
arithmetic, on the 1x1 grid with `hx = 2`, `hy = 1`, the particle 0 at
`(-2^(-1074), 1/2)`, left of the extent `[0, 2) × [0, 1)`, has the key 0 and
is listed in the bucket of the swept cell 0. -/
theorem stray_particle_swept :
    (¬ stray_particles.in_extent 2 2 0 ∧
      stray_particles.cell_key 0 = 2 ∧
      ∃ ps' cells, stray_particles.init_particle_mesh = Except.ok ps' ∧
        ps'.sweep = Except.ok cells ∧
        ∃ icell ∈ cells,
          (0 : Int) ∈ ps'.grd_to_ptcl.subscript icell.get_global_cell_idx) ∧
    (stray_particles.cell_key_double 0 = 2 ∧
      ∃ ps' cells, stray_particles.init_particle_mesh_double = Except.ok ps' ∧
        ps'.sweep = Except.ok cells ∧
        ∃ icell ∈ cells,
          (0 : Int) ∈ ps'.grd_to_ptcl.subscript icell.get_global_cell_idx) ∧
    (¬ underflow_particles.in_extent 1 1 0 ∧
      underflow_particles.cell_key_double 0 = 0 ∧
      ∃ ps' cells, underflow_particles.init_particle_mesh_double = Except.ok ps' ∧
        ps'.sweep = Except.ok cells ∧
        ∃ icell ∈ cells,
          (0 : Int) ∈ ps'.grd_to_ptcl.subscript icell.get_global_cell_idx) := by
  refine ⟨?_, ?_, ?_⟩
  · have hkey : stray_particles.cell_key 0 = 2 := by
      have hx : Int.floor ((1 / 2 : ℚ) / 1) = 0 := by norm_num
      have hy : Int.floor ((5 / 2 : ℚ) / 1) = 2 := by
        rw [Int.floor_eq_iff]
        norm_num
      show (quadgrid_t.sub2gind stray_particles.grid (Int.floor ((5 / 2 : ℚ) / 1))
        (Int.floor ((1 / 2 : ℚ) / 1))) = 2
      rw [hx, hy]
      rfl
    have hout : ¬ stray_particles.in_extent 2 2 0 := by
      rintro ⟨_, _, _, h⟩
      have hy : stray_particles.y.getD (0 : Int).toNat 0 = 5 / 2 := rfl
      have hh : stray_particles.grid.hy = 1 := rfl
      rw [hy, hh] at h
      norm_num at h
    obtain ⟨ps', hok, _, _, _, _, _, hg', hidx⟩ :=
      init_particle_mesh_spec stray_particles (le_refl _)
    have hgrid' : ps'.grid = (quadgrid_t.construct none 0 0 0 0).set_sizes 2 2 1 1 := hg'
    refine ⟨hout, hkey, ps', _, hok,
      sweep_set_sizes ps' _ 2 2 1 1 (by decide) (by decide) hgrid', sweep_cell 2 false 2, ?_, ?_⟩
    · decide
    · show (0 : Int) ∈ ps'.grd_to_ptcl.subscript 2
      rw [(hidx 2).1, List.mem_filter]
      exact ⟨by decide, by simp [hkey]⟩
  · have hkey : stray_particles.cell_key_double 0 = 2 := by
      have hx : Int.floor (round_double ((1 / 2 : ℚ) / 1)) = 0 := by
        have h : round_double ((1 / 2 : ℚ) / 1) = 1 / 2 := by
          have := round_double_zpow (-1) (by decide)
          rw [show ((2 : ℚ) ^ (-1 : Int)) = (1 / 2 : ℚ) / 1 by norm_num] at this
          rw [this]
          norm_num
        rw [h]
        norm_num
      have hy : Int.floor (round_double ((5 / 2 : ℚ) / 1)) = 2 := by
        rw [div_one, round_double_five_halves, Int.floor_eq_iff]
        norm_num
      show (quadgrid_t.sub2gind stray_particles.grid
        (Int.floor (round_double ((5 / 2 : ℚ) / 1)))
        (Int.floor (round_double ((1 / 2 : ℚ) / 1)))) = 2
      rw [hx, hy]
      rfl
    obtain ⟨ps', hok, _, _, _, _, _, hg', hidx⟩ :=
      init_particle_mesh_double_spec stray_particles (le_refl _)
    have hgrid' : ps'.grid = (quadgrid_t.construct none 0 0 0 0).set_sizes 2 2 1 1 := hg'
    refine ⟨hkey, ps', _, hok,
      sweep_set_sizes ps' _ 2 2 1 1 (by decide) (by decide) hgrid', sweep_cell 2 false 2, ?_, ?_⟩
    · decide
    · show (0 : Int) ∈ ps'.grd_to_ptcl.subscript 2
      rw [(hidx 2).1, List.mem_filter]
      exact ⟨by decide, by simp [hkey]⟩
  · have hkey : underflow_particles.cell_key_double 0 = 0 := by
      have hx : Int.floor (round_double (-(2 : ℚ) ^ (-1074 : Int) / 2)) = 0 := by
        rw [round_double_negative_underflow]
        norm_num
      have hy : Int.floor (round_double ((1 / 2 : ℚ) / 1)) = 0 := by
        have h : round_double ((1 / 2 : ℚ) / 1) = 1 / 2 := by
          have := round_double_zpow (-1) (by decide)
          rw [show ((2 : ℚ) ^ (-1 : Int)) = (1 / 2 : ℚ) / 1 by norm_num] at this
          rw [this]
          norm_num
        rw [h]
        norm_num
      show (quadgrid_t.sub2gind underflow_particles.grid
        (Int.floor (round_double ((1 / 2 : ℚ) / 1)))
        (Int.floor (round_double (-(2 : ℚ) ^ (-1074 : Int) / 2)))) = 0
      rw [hx, hy]
      rfl
    have hout : ¬ underflow_particles.in_extent 1 1 0 := by
      rintro ⟨h, _⟩
      have hx : underflow_particles.x.getD (0 : Int).toNat 0 = -(2 : ℚ) ^ (-1074 : Int) := rfl
      rw [hx] at h
      have hpos : (0 : ℚ) < (2 : ℚ) ^ (-1074 : Int) := zpow_pos (by norm_num) _
      linarith
    obtain ⟨ps', hok, _, _, _, _, _, hg', hidx⟩ :=
      init_particle_mesh_double_spec underflow_particles (le_refl _)
    have hgrid' : ps'.grid = (quadgrid_t.construct none 0 0 0 0).set_sizes 1 1 2 1 := hg'
    refine ⟨hout, hkey, ps', _, hok,
      sweep_set_sizes ps' _ 1 1 2 1 (by decide) (by decide) hgrid', sweep_cell 1 false 0, ?_, ?_⟩
    · decide
    · show (0 : Int) ∈ ps'.grd_to_ptcl.subscript 0
      rw [(hidx 0).1, List.mem_filter]
      exact ⟨by decide, by simp [hkey]⟩

/-! ## The mass vector in binary64 arithmetic -/

/-- Rounding to binary64 does not take a value that is at least the least
positive binary64 value `2^(-1074)` below it. -/
theorem round_double_ge_min (y : ℚ) (h : (2 : ℚ) ^ (-1074 : Int) ≤ y) :
    (2 : ℚ) ^ (-1074 : Int) ≤ round_double y := by
  have hmin : (0 : ℚ) < (2 : ℚ) ^ (-1074 : Int) := zpow_pos (by norm_num) _
  have hy0 : (0 : ℚ) < y := lt_of_lt_of_le hmin h
  have habs : |y| = y := abs_of_pos hy0
  have hq : (0 : ℚ) < (2 : ℚ) ^ (max (Int.log 2 |y|) (-1022) - 52) := zpow_pos (by norm_num) _
  have hqmin : (2 : ℚ) ^ (-1074 : Int) ≤ (2 : ℚ) ^ (max (Int.log 2 |y|) (-1022) - 52) := by
    apply zpow_le_zpow_right₀ (by norm_num)
    have := le_max_right (Int.log 2 |y|) (-1022)
    omega
  have hqy : (2 : ℚ) ^ (max (Int.log 2 |y|) (-1022) - 52) ≤ y := by
    rcases le_total (Int.log 2 |y|) (-1022) with hle | hge
    · rw [max_eq_right hle]
      exact h
    · rw [max_eq_left hge, habs]
      have hpow : (2 : ℚ) ^ (Int.log 2 y) ≤ y := by
        exact_mod_cast Int.zpow_log_le_self (R := ℚ) (b := 2) (by decide) hy0
      refine le_trans (zpow_le_zpow_right₀ (by norm_num) ?_) hpow
      omega
  have hone : (1 : Int) ≤ round_half_even (y / (2 : ℚ) ^ (max (Int.log 2 |y|) (-1022) - 52)) := by
    apply round_half_even_ge
    rw [le_div_iff₀ hq]
    simpa using hqy
  have hone' : (1 : ℚ)
      ≤ (round_half_even (y / (2 : ℚ) ^ (max (Int.log 2 |y|) (-1022) - 52)) : ℚ) := by
    exact_mod_cast hone
  unfold round_double
  rw [if_neg (ne_of_gt hy0)]
  calc (2 : ℚ) ^ (-1074 : Int) ≤ (2 : ℚ) ^ (max (Int.log 2 |y|) (-1022) - 52) := hqmin
    _ = 1 * (2 : ℚ) ^ (max (Int.log 2 |y|) (-1022) - 52) := (one_mul _).symm
    _ ≤ _ := mul_le_mul_of_nonneg_right hone' (le_of_lt hq)

/-- A positive binary64 value is at least the least positive binary64 value
`2^(-1074)`. -/
theorem round_double_pos_ge_min (x : ℚ) (h : 0 < round_double x) :
    (2 : ℚ) ^ (-1074 : Int) ≤ round_double x := by
  unfold round_double at h ⊢
  split_ifs at h ⊢ with h0
  · exact absurd h (lt_irrefl 0)
  · have hq : (0 : ℚ) < (2 : ℚ) ^ (max (Int.log 2 |x|) (-1022) - 52) := zpow_pos (by norm_num) _
    have hqmin : (2 : ℚ) ^ (-1074 : Int) ≤ (2 : ℚ) ^ (max (Int.log 2 |x|) (-1022) - 52) := by
      apply zpow_le_zpow_right₀ (by norm_num)
      have := le_max_right (Int.log 2 |x|) (-1022)
      omega
    have hk : (0 : ℚ)
        < (round_half_even (x / (2 : ℚ) ^ (max (Int.log 2 |x|) (-1022) - 52)) : ℚ) :=
      (mul_pos_iff_of_pos_right hq).mp h
    have hk' : (1 : Int) ≤ round_half_even (x / (2 : ℚ) ^ (max (Int.log 2 |x|) (-1022) - 52)) := by
      have : (0 : Int) < round_half_even (x / (2 : ℚ) ^ (max (Int.log 2 |x|) (-1022) - 52)) := by
        exact_mod_cast hk
      omega
    have hk'' : (1 : ℚ)
        ≤ (round_half_even (x / (2 : ℚ) ^ (max (Int.log 2 |x|) (-1022) - 52)) : ℚ) := by
      exact_mod_cast hk'
    calc (2 : ℚ) ^ (-1074 : Int) ≤ (2 : ℚ) ^ (max (Int.log 2 |x|) (-1022) - 52) := hqmin
      _ = 1 * (2 : ℚ) ^ (max (Int.log 2 |x|) (-1022) - 52) := (one_mul _).symm
      _ ≤ _ := mul_le_mul_of_nonneg_right hk'' (le_of_lt hq)

/-- A loop whose every step returns, keeps the invariant `inv`, keeps what is
`good` and makes `good` what it hits, returns, keeps `inv`, and leaves `good`
what was so before or is hit by a step. -/
theorem foldlM_progress {ε σ α κ : Type} (inv : σ → Prop) (good : σ → κ → Prop)
    (step : σ → α → Except ε σ) (hit : α → κ → Prop) :
    ∀ (l : List α),
      (∀ a ∈ l, ∀ s, inv s →
        ∃ s', step s a = Except.ok s' ∧ inv s' ∧ ∀ k, (good s k ∨ hit a k) → good s' k) →
      ∀ s, inv s →
        ∃ s', List.foldlM step s l = Except.ok s' ∧ inv s' ∧
          ∀ k, (good s k ∨ ∃ a ∈ l, hit a k) → good s' k := by
  intro l
  induction l with
  | nil =>
    intro _ s hs
    refine ⟨s, rfl, hs, ?_⟩
    rintro k (h | ⟨a, ha, _⟩)
    · exact h
    · exact absurd ha (List.not_mem_nil a)
  | cons a l ih =>
    intro hstep s hs
    obtain ⟨s1, h1, hinv1, hgood1⟩ := hstep a (List.mem_cons_self a l) s hs
    obtain ⟨s2, h2, hinv2, hgood2⟩ :=
      ih (fun b hb => hstep b (List.mem_cons_of_mem a hb)) s1 hinv1
    refine ⟨s2, ?_, hinv2, ?_⟩
    · rw [foldlM_cons_ok step s s1 a l h1, h2]
    · rintro k (h | ⟨b, hb, hhit⟩)
      · exact hgood2 k (Or.inl (hgood1 k (Or.inl h)))
      · rcases List.mem_cons.mp hb with rfl | hb'
        · exact hgood2 k (Or.inl (hgood1 k (Or.inr hhit)))
        · exact hgood2 k (Or.inr ⟨b, hb', hhit⟩)

theorem build_mass_node_double_spec (ps : particles_t) (icell : cell_t) (M : List ℚ)
    (inode : Int) (hgt0 : 0 ≤ icell.gt ps.grid.grid_properties inode)
    (hgt : (icell.gt ps.grid.grid_properties inode).toNat < M.length) :
    ps.build_mass_node_double icell M inode
      = Except.ok (M.set (icell.gt ps.grid.grid_properties inode).toNat
          (round_double (M.getD (icell.gt ps.grid.grid_properties inode).toNat 0
            + round_double (round_double (ps.grid.hx / 2)
                * round_double (ps.grid.hy / 2))))) := by
  unfold particles_t.build_mass_node_double
  rw [vec_at_getD M _ hgt0 hgt]
  simp only [except_bind_ok]
  rw [vec_assign_ok M _ _ hgt0 hgt]

theorem getD_set (M : List ℚ) (k n : Nat) (v : ℚ) (hk : k < M.length) :
    (M.set k v).getD n 0 = if k = n then v else M.getD n 0 := by
  simp only [List.getD_eq_getElem?_getD, List.getElem?_set]
  by_cases h : k = n
  · subst h
    simp [hk]
  · simp [h]

/-- In binary64 arithmetic `build_mass ()` returns when the node ids of the
swept cells are indices of `M`, and when the product `(hx/2)*(hy/2)` as
computed is positive, every entry at a node of a swept cell is at least the
least positive binary64 value. -/
theorem build_mass_double_pointwise (ps : particles_t) (cells : List cell_t)
    (hcells : ps.grid.cell_sweep = some cells)
    (hgt : ∀ icell ∈ cells, ∀ inode ∈ index_range 4,
      0 ≤ icell.gt ps.grid.grid_properties inode ∧
      (icell.gt ps.grid.grid_properties inode).toNat < ps.M.length)
    (hm : 0 < round_double (round_double (ps.grid.hx / 2) * round_double (ps.grid.hy / 2))) :
    ∃ ps', ps.build_mass_double = Except.ok ps' ∧ ps'.M.length = ps.M.length ∧
      ∀ n : Nat, (∃ icell ∈ cells, ∃ inode ∈ index_range 4,
          icell.gt ps.grid.grid_properties inode = (n : Int)) →
        (2 : ℚ) ^ (-1074 : Int) ≤ ps'.M.getD n 0 := by
  have hnodes : cell_t.nodes_per_cell.toNat = 4 := rfl
  have hmin : (0 : ℚ) < (2 : ℚ) ^ (-1074 : Int) := zpow_pos (by norm_num) _
  have hm' := round_double_pos_ge_min _ hm
  obtain ⟨M', hok, ⟨hlen, _⟩, hval⟩ :=
    foldlM_progress
      (fun (M : List ℚ) => M.length = ps.M.length ∧ ∀ n : Nat, 0 ≤ M.getD n 0)
      (fun (M : List ℚ) (n : Nat) => (2 : ℚ) ^ (-1074 : Int) ≤ M.getD n 0)
      (fun (M : List ℚ) (icell : cell_t) =>
        (index_range cell_t.nodes_per_cell.toNat).foldlM (ps.build_mass_node_double icell) M)
      (fun (icell : cell_t) (n : Nat) =>
        ∃ inode ∈ index_range 4, icell.gt ps.grid.grid_properties inode = (n : Int))
      cells
      (by
        intro icell hicell M hM
        rw [hnodes]
        apply foldlM_progress
          (fun (M : List ℚ) => M.length = ps.M.length ∧ ∀ n : Nat, 0 ≤ M.getD n 0)
          (fun (M : List ℚ) (n : Nat) => (2 : ℚ) ^ (-1074 : Int) ≤ M.getD n 0)
          _ (fun (inode : Int) (n : Nat) => icell.gt ps.grid.grid_properties inode = (n : Int))
        · intro inode hinode M1 hM1
          obtain ⟨hgt0, hgt1⟩ := hgt icell hicell inode hinode
          have hgt' : (icell.gt ps.grid.grid_properties inode).toNat < M1.length := by
            rw [hM1.1]
            exact hgt1
          have hnew : (2 : ℚ) ^ (-1074 : Int)
              ≤ round_double (M1.getD (icell.gt ps.grid.grid_properties inode).toNat 0
                + round_double (round_double (ps.grid.hx / 2)
                    * round_double (ps.grid.hy / 2))) := by
            apply round_double_ge_min
            have := hM1.2 (icell.gt ps.grid.grid_properties inode).toNat
            linarith
          refine ⟨_, build_mass_node_double_spec ps _ M1 inode hgt0 hgt', ⟨?_, ?_⟩, ?_⟩
          · rw [List.length_set, hM1.1]
          · intro n
            rw [getD_set M1 _ n _ hgt']
            split_ifs
            · exact le_trans (le_of_lt hmin) hnew
            · exact hM1.2 n
          · intro n hn
            rw [getD_set M1 _ n _ hgt']
            split_ifs with hkn
            · exact hnew
            · rcases hn with hn | hn
              · exact hn
              · exact absurd (by omega) hkn
        · exact hM)
      (List.replicate ps.M.length 0)
      ⟨by simp, fun n => by rw [getD_replicate_zero]⟩
  refine ⟨{ ps with M := M' }, ?_, hlen, ?_⟩
  · unfold particles_t.build_mass_double particles_t.sweep
    rw [hcells]
    simp only [except_bind_ok]
    rw [hok]
    rfl
  · intro n hn
    exact hval n (Or.inr hn)

/-- In binary64 arithmetic, on a grid with `R, C ≥ 1`, when the product
`(hx/2)*(hy/2)` as computed is positive, `build_mass ()` on a vector `M` with
one entry per node returns and leaves every entry positive. -/
theorem build_mass_double_positive (ps : particles_t) (g : quadgrid_t) (R C : Int)
    (hx hy : ℚ) (hR : 1 ≤ R) (hC : 1 ≤ C)
    (hgrid : ps.grid = g.set_sizes R C hx hy)
    (hM : (ps.M.length : Int) = (R + 1) * (C + 1))
    (hm : 0 < round_double (round_double (hx / 2) * round_double (hy / 2))) :
    ∃ ps', ps.build_mass_double = Except.ok ps' ∧
      (ps'.M.length : Int) = (R + 1) * (C + 1) ∧
      ∀ n : Nat, (n : Int) < (R + 1) * (C + 1) →
        0 < ps'.M.getD n 0 ∧ ps'.M.getD n 0 ≠ 0 := by
  have hcells := cell_sweep_set_sizes g R C hx hy hR hC
  rw [← hgrid] at hcells
  have hrows : ps.grid.grid_properties.numrows = R := by rw [hgrid]; rfl
  have hgx : ps.grid.hx = hx := by rw [hgrid]; rfl
  have hgy : ps.grid.hy = hy := by rw [hgrid]; rfl
  have hmin : (0 : ℚ) < (2 : ℚ) ^ (-1074 : Int) := zpow_pos (by norm_num) _
  obtain ⟨ps', hok, hlen, hval⟩ := build_mass_double_pointwise ps _ hcells (by
    intro icell hicell inode hinode
    obtain ⟨_, _, hgt⟩ := swept_cell_facts ps g R C hx hy hR hgrid icell hicell
    obtain ⟨h0, h1⟩ := hgt inode hinode
    exact ⟨h0, by omega⟩) (by rw [hgx, hgy]; exact hm)
  refine ⟨ps', hok, by rw [hlen]; exact hM, ?_⟩
  intro n hn
  obtain ⟨_, hk⟩ := corner_count_spec ps.grid.grid_properties R C g.current_cell.is_ghost
    hR hC hrows (n : Int) (Int.ofNat_nonneg n) hn
  have hpos : 0 < corner_count ps.grid.grid_properties
      ((List.range (R * C).toNat).map (sweep_cell R g.current_cell.is_ghost)) n := by
    rcases hk with h | h | h <;> rw [h] <;> decide
  unfold corner_count at hpos
  obtain ⟨icell, hmem⟩ := List.exists_mem_of_length_pos hpos
  rw [List.mem_filter, List.any_eq_true] at hmem
  obtain ⟨hicell, inode, hinode, hgt⟩ := hmem
  have hge := hval n ⟨icell, hicell, inode, hinode, by simpa using hgt⟩
  have h0 : 0 < ps'.M.getD n 0 := lt_of_lt_of_le hmin hge
  exact ⟨h0, ne_of_gt h0⟩

/-- C17, amended: on a grid with `R, C ≥ 1` and `hx, hy > 0`, `build_mass ()` on
a vector `M` with one entry per node returns.  In exact arithmetic every entry
`M[n]`, `n` in `[0, (R+1)*(C+1))`, is `k*(hx/2)*(hy/2)` with `k` the number of
swept cells that have `n` as a corner; `k` is 1, 2 or 4, so `M[n] > 0` and the
divisor `M[n]` of `p2g` is not zero.  In binary64 arithmetic every entry is
positive, and so not zero, when the product `(hx/2)*(hy/2)` as computed is
positive. -/
theorem build_mass_entries (ps : particles_t) (g : quadgrid_t) (R C : Int) (hx hy : ℚ)
    (hR : 1 ≤ R) (hC : 1 ≤ C) (hhx : 0 < hx) (hhy : 0 < hy)
    (hgrid : ps.grid = g.set_sizes R C hx hy)
    (hM : (ps.M.length : Int) = (R + 1) * (C + 1)) :
    (∃ ps' cells, ps.build_mass = Except.ok ps' ∧ ps.grid.cell_sweep = some cells ∧
      (ps'.M.length : Int) = (R + 1) * (C + 1) ∧
      ∀ n : Nat, (n : Int) < (R + 1) * (C + 1) →
        ps'.M.getD n 0
          = (corner_count ps.grid.grid_properties cells n : ℚ) * (hx / 2) * (hy / 2) ∧
        (corner_count ps.grid.grid_properties cells n = 1 ∨
          corner_count ps.grid.grid_properties cells n = 2 ∨
          corner_count ps.grid.grid_properties cells n = 4) ∧
        0 < ps'.M.getD n 0 ∧ ps'.M.getD n 0 ≠ 0) ∧
    (0 < round_double (round_double (hx / 2) * round_double (hy / 2)) →
      ∃ ps', ps.build_mass_double = Except.ok ps' ∧
        (ps'.M.length : Int) = (R + 1) * (C + 1) ∧
        ∀ n : Nat, (n : Int) < (R + 1) * (C + 1) →
          0 < ps'.M.getD n 0 ∧ ps'.M.getD n 0 ≠ 0) :=
  ⟨mass_entries_exact ps g R C hx hy hR hC hhx hhy hgrid hM,
   fun hm => build_mass_double_positive ps g R C hx hy hR hC hgrid hM hm⟩

/-- The product `(1/2)*(1/2)` is computed as `1/4` in binary64 arithmetic. -/
theorem round_double_quarter :
    round_double (round_double ((1 : ℚ) / 2) * round_double ((1 : ℚ) / 2)) = 1 / 4 := by
  have h1 : round_double ((1 : ℚ) / 2) = 1 / 2 := by
    have := round_double_zpow (-1) (by decide)
    rw [show ((2 : ℚ) ^ (-1 : Int)) = (1 : ℚ) / 2 by norm_num] at this
    exact this
  have h2 : round_double ((1 : ℚ) / 4) = 1 / 4 := by
    have := round_double_zpow (-2) (by decide)
    rw [show ((2 : ℚ) ^ (-2 : Int)) = (1 : ℚ) / 4 by norm_num] at this
    exact this
  rw [h1, show ((1 : ℚ) / 2) * (1 / 2) = 1 / 4 by norm_num, h2]

theorem build_mass_entries_witness :
    (∃ ps' cells, twin_particles.build_mass = Except.ok ps' ∧
      twin_particles.grid.cell_sweep = some cells ∧
      (ps'.M.length : Int) = (1 + 1) * (1 + 1) ∧
      ∀ n : Nat, (n : Int) < (1 + 1) * (1 + 1) →
        ps'.M.getD n 0
          = (corner_count twin_particles.grid.grid_properties cells n : ℚ) * (1 / 2) * (1 / 2) ∧
        (corner_count twin_particles.grid.grid_properties cells n = 1 ∨
          corner_count twin_particles.grid.grid_properties cells n = 2 ∨
          corner_count twin_particles.grid.grid_properties cells n = 4) ∧
        0 < ps'.M.getD n 0 ∧ ps'.M.getD n 0 ≠ 0) ∧
    ∃ ps', twin_particles.build_mass_double = Except.ok ps' ∧
      (ps'.M.length : Int) = (1 + 1) * (1 + 1) ∧
      ∀ n : Nat, (n : Int) < (1 + 1) * (1 + 1) →
        0 < ps'.M.getD n 0 ∧ ps'.M.getD n 0 ≠ 0 :=
  ⟨(build_mass_entries twin_particles (quadgrid_t.construct none 0 0 0 0) 1 1 1 1
      (by decide) (by decide) (by norm_num) (by norm_num) rfl (by decide)).1,
   (build_mass_entries twin_particles (quadgrid_t.construct none 0 0 0 0) 1 1 1 1
      (by decide) (by decide) (by norm_num) (by norm_num) rfl (by decide)).2
      (by rw [round_double_quarter]; norm_num)⟩
